import Mathlib

/-!
# JWM configuration loader (`src/parse.c`): a shallow embedding

The C code walks a token tree (`TokenNode`, linked through `subnodeHead` and
`next`) and calls setters of other modules.  Here

* a `TokenNode *` is a value of the inductive type `TokenNode` (`null` is the
  NULL pointer), so a `for(tp = ...; tp; tp = tp->next)` loop is a recursion
  along `next`;
* every call that leaves `parse.c` (a setter, `InsertBinding`, `WarningVA`, ...)
  is appended to `State.log` as an `Effect`, in call order;
* what `parse.c` takes from other modules and from the operating system
  (`MAX_INCLUDE_DEPTH`, `fopen`, `Tokenize`, `ExpandPath`, `atoi`, ...) is a
  field of `Env`;
* a NULL pointer handed to `strcmp`, `strncmp` or `fopen` is `Err.fault`;
* recursion through included files is driven by a fuel counter; `Err.fuel`
  means that the counter ran out.
-/

namespace Jwm

/-! ## Token trees (`lex.h`) -/

/-- Modelled from the spec: the tag identities of `lex.h`, which is not part of
the sources at hand; one constructor for every `TOK_` name that `parse.c`
mentions, and `TOK_INVALID` for a tag the lexer did not recognise. -/
inductive TokenType where
  | TOK_INVALID
  | TOK_ACTIVEBACKGROUND
  | TOK_ACTIVEFOREGROUND
  | TOK_BACKGROUND
  | TOK_BORDERSTYLE
  | TOK_CLASS
  | TOK_CLOCK
  | TOK_CLOCKSTYLE
  | TOK_CLOSE
  | TOK_DESKTOPS
  | TOK_DOCK
  | TOK_DOUBLECLICKSPEED
  | TOK_DOUBLECLICKDELTA
  | TOK_EXIT
  | TOK_FOCUSMODEL
  | TOK_FONT
  | TOK_FOREGROUND
  | TOK_GROUP
  | TOK_HEIGHT
  | TOK_ICONPATH
  | TOK_INCLUDE
  | TOK_JWM
  | TOK_KEY
  | TOK_KILL
  | TOK_MAXIMIZE
  | TOK_MENU
  | TOK_MENUSTYLE
  | TOK_MINIMIZE
  | TOK_MOUSE
  | TOK_MOVE
  | TOK_MOVEMODE
  | TOK_NAME
  | TOK_OPTION
  | TOK_OUTLINE
  | TOK_PAGER
  | TOK_PAGERSTYLE
  | TOK_POPUPSTYLE
  | TOK_PROGRAM
  | TOK_RESIZE
  | TOK_RESIZEMODE
  | TOK_RESTART
  | TOK_RESTARTCOMMAND
  | TOK_ROOTMENU
  | TOK_SEPARATOR
  | TOK_SHADE
  | TOK_SHUTDOWNCOMMAND
  | TOK_SNAPMODE
  | TOK_STARTUPCOMMAND
  | TOK_STICK
  | TOK_SWALLOW
  | TOK_TASKLIST
  | TOK_TASKLISTSTYLE
  | TOK_THEME
  | TOK_THEMEPATH
  | TOK_TRAY
  | TOK_TRAYBUTTON
  | TOK_TRAYBUTTONSTYLE
  | TOK_TRAYSTYLE
  | TOK_WIDTH
  deriving DecidableEq, Repr

/-- One `AttributeNode`: `name` and `value` (`value` may be NULL). The `next`
link is the tail of the list the node sits in. -/
structure AttributeNode where
  name : String
  value : Option String
  deriving DecidableEq, Repr

/-- The fields of a `TokenNode` other than its links. -/
structure TokenData where
  type : TokenType
  invalidName : Option String
  value : Option String
  attributes : List AttributeNode
  fileName : String
  line : Int
  deriving DecidableEq, Repr

/-- A `TokenNode *`: NULL, or a node with its first child (`subnodeHead`) and
its next sibling (`next`). -/
inductive TokenNode where
  | null : TokenNode
  | node (d : TokenData) (subnodeHead : TokenNode) (next : TokenNode) : TokenNode
  deriving DecidableEq, Repr

/-! ## Menus (`menu.h`) -/

/-- Modelled from the spec: the `MenuItemType` of `menu.h`, from the three names
used in `parse.c`. -/
inductive MenuItemType where
  | MENU_ITEM_NORMAL
  | MENU_ITEM_SUBMENU
  | MENU_ITEM_SEPARATOR
  deriving DecidableEq, Repr

/-- Modelled from the spec: the `MenuActionType` of `menu.h`, from the names used
in `parse.c`. -/
inductive MenuActionType where
  | MA_NONE
  | MA_EXECUTE
  | MA_DESKTOP
  | MA_STICK
  | MA_MAXIMIZE
  | MA_MINIMIZE
  | MA_SHADE
  | MA_MOVE
  | MA_RESIZE
  | MA_KILL
  | MA_CLOSE
  | MA_EXIT
  | MA_RESTART
  deriving DecidableEq, Repr

/-- The `action` member of a menu item: `action.type` and `action.data.str`. -/
structure MenuAction where
  type : MenuActionType
  str : Option String
  deriving DecidableEq, Repr

/-- A `MenuItem` cell. `next` is a `MenuItem *` into the cell store of the menu
that owns the item (an index into `Menu.cells`); `submenu` is the menu the
item owns. -/
structure MenuItemOf (M : Type) where
  name : Option String
  type : MenuItemType
  iconName : Option String
  action : MenuAction
  submenu : Option M
  next : Option Nat

/-- A `Menu`: `label`, `itemHeight`, the head pointer `items`, and the store of
the item cells allocated for this menu, in allocation order (address = index).
The member `offsets`, which `ParseMenuItem` resets to NULL and nothing in
`parse.c` reads, is left out. -/
inductive Menu where
  | mk (label : Option String) (itemHeight : Int) (items : Option Nat)
      (cells : List (MenuItemOf Menu)) : Menu

abbrev MenuItem := MenuItemOf Menu

def Menu.label : Menu → Option String
  | .mk l _ _ _ => l

def Menu.itemHeight : Menu → Int
  | .mk _ h _ _ => h

def Menu.items : Menu → Option Nat
  | .mk _ _ i _ => i

def Menu.cells : Menu → List MenuItem
  | .mk _ _ _ c => c

/-- The assignment `menu->items = p`. -/
def Menu.setItems (m : Menu) (p : Option Nat) : Menu :=
  .mk m.label m.itemHeight p m.cells

/-- The store of `m` replaced by `c`. -/
def Menu.setCells (m : Menu) (c : List MenuItem) : Menu :=
  .mk m.label m.itemHeight m.items c

/-- An assignment through an item pointer: `*p = f(*p)`. -/
def Menu.modify (m : Menu) (p : Nat) (f : MenuItem → MenuItem) : Menu :=
  m.setCells (m.cells.modify f p)

/-- The walk `for(ip = menu->items; ip; ip = ip->next)`, from the pointer `p`,
for at most `fuel` cells: the addresses visited. -/
def walk (cells : List MenuItem) : Nat → Option Nat → List Nat
  | 0, _ => []
  | _ + 1, none => []
  | fuel + 1, some p =>
    match cells[p]? with
    | none => []
    | some c => p :: walk cells fuel c.next

/-- The addresses of the items of a menu in list order, head first. -/
def Menu.chain (m : Menu) : List Nat :=
  walk m.cells m.cells.length m.items

/-- The items of a menu in list order, head first. -/
def Menu.itemList (m : Menu) : List MenuItem :=
  m.chain.filterMap (fun p => m.cells[p]?)

/-! ## Keys (`key.h`) -/

/-- Modelled from the spec: the `KeyType` of `key.h`, from the names used in
`parse.c`. -/
inductive KeyType where
  | KEY_NONE
  | KEY_UP
  | KEY_DOWN
  | KEY_RIGHT
  | KEY_LEFT
  | KEY_ESC
  | KEY_ENTER
  | KEY_NEXT
  | KEY_NEXT_STACKED
  | KEY_CLOSE
  | KEY_MIN
  | KEY_MAX
  | KEY_SHADE
  | KEY_MOVE
  | KEY_RESIZE
  | KEY_WIN
  | KEY_RESTART
  | KEY_EXIT
  | KEY_DESKTOP
  | KEY_EXEC
  | KEY_ROOT
  deriving DecidableEq, Repr

/-- The table `KEY_MAP`, without its `{ NULL, KEY_NONE }` terminator. -/
def KEY_MAP : List (String × KeyType) :=
  [ ("up",          .KEY_UP),
    ("down",        .KEY_DOWN),
    ("right",       .KEY_RIGHT),
    ("left",        .KEY_LEFT),
    ("escape",      .KEY_ESC),
    ("select",      .KEY_ENTER),
    ("next",        .KEY_NEXT),
    ("nextstacked", .KEY_NEXT_STACKED),
    ("close",       .KEY_CLOSE),
    ("minimize",    .KEY_MIN),
    ("maximize",    .KEY_MAX),
    ("shade",       .KEY_SHADE),
    ("move",        .KEY_MOVE),
    ("resize",      .KEY_RESIZE),
    ("window",      .KEY_WIN),
    ("restart",     .KEY_RESTART),
    ("exit",        .KEY_EXIT),
    ("desktop",     .KEY_DESKTOP),
    ("desktop#",    .KEY_DESKTOP) ]

def DEFAULT_TITLE : String := "JWM"
def LABEL_ATTRIBUTE : String := "label"
def ICON_ATTRIBUTE : String := "icon"
def CONFIRM_ATTRIBUTE : String := "confirm"
def LABELED_ATTRIBUTE : String := "labeled"
def ONROOT_ATTRIBUTE : String := "onroot"
def LAYER_ATTRIBUTE : String := "layer"
def LAYOUT_ATTRIBUTE : String := "layout"
def AUTOHIDE_ATTRIBUTE : String := "autohide"
def X_ATTRIBUTE : String := "x"
def Y_ATTRIBUTE : String := "y"
def WIDTH_ATTRIBUTE : String := "width"
def HEIGHT_ATTRIBUTE : String := "height"
def NAME_ATTRIBUTE : String := "name"
def BORDER_ATTRIBUTE : String := "border"
def COUNT_ATTRIBUTE : String := "count"
def DISTANCE_ATTRIBUTE : String := "distance"
def INSERT_ATTRIBUTE : String := "insert"
def MAX_WIDTH_ATTRIBUTE : String := "maxwidth"
def FORMAT_ATTRIBUTE : String := "format"
def VALIGN_ATTRIBUTE : String := "valign"
def HALIGN_ATTRIBUTE : String := "halign"
def POPUP_ATTRIBUTE : String := "popup"
def DELAY_ATTRIBUTE : String := "delay"
def ENABLED_ATTRIBUTE : String := "enabled"
def COORDINATES_ATTRIBUTE : String := "coordinates"

def FALSE_VALUE : String := "false"
def TRUE_VALUE : String := "true"


/-! ## What `parse.c` takes from outside -/

/-- The failures of a run that are not results of the C code: reading through
a NULL pointer, and the fuel of the model running out. -/
inductive Err where
  | fault
  | fuel
  deriving DecidableEq, Repr

/-- The constants and functions `parse.c` takes from other modules, from the C
library and from the operating system. `fopen` and `popen` give the whole
content that `ReadFile` reads from the opened stream, or `none` when the
stream cannot be opened. `Tokenize` returns the root of the token tree, whose
`next` link is `null`. The `Create...` fields tell whether the constructor of
that name returns a component (`true`) or NULL. -/
structure Env where
  MAX_INCLUDE_DEPTH : Int
  SYSTEM_CONFIG : String
  DEFAULT_DESKTOP_COUNT : Nat
  fopen : String → Option String
  popen : String → Option String
  Tokenize : String → String → TokenNode
  ExpandPath : String → String
  atoi : String → Int
  GetTokenName : TokenData → String
  GetTokenTypeName : TokenType → String
  SetDesktopCount : String → Nat → Nat
  CreateSwallow : Option String → Option String → Int → Int → Bool
  CreateTrayButton : Option String → Option String → Option String →
    Option String → Int → Int → Bool
  CreateClock : Option String → Option String → Int → Int → Bool
  CreateDock : Bool

/-- Modelled from the spec: the font roles of `font.h` named in `parse.c`. -/
inductive FontType where
  | FONT_BORDER
  | FONT_TASK
  | FONT_TRAY
  | FONT_POPUP
  | FONT_MENU
  | FONT_CLOCK
  | FONT_TRAYBUTTON
  deriving DecidableEq, Repr

/-- Modelled from the spec: the colour roles of `color.h` named in `parse.c`. -/
inductive ColorType where
  | COLOR_BORDER_FG
  | COLOR_BORDER_BG
  | COLOR_BORDER_ACTIVE_FG
  | COLOR_BORDER_ACTIVE_BG
  | COLOR_TASK_FG
  | COLOR_TASK_BG
  | COLOR_TASK_ACTIVE_FG
  | COLOR_TASK_ACTIVE_BG
  | COLOR_TRAY_BG
  | COLOR_TRAY_FG
  | COLOR_PAGER_OUTLINE
  | COLOR_PAGER_FG
  | COLOR_PAGER_BG
  | COLOR_PAGER_ACTIVE_FG
  | COLOR_PAGER_ACTIVE_BG
  | COLOR_POPUP_OUTLINE
  | COLOR_POPUP_FG
  | COLOR_POPUP_BG
  | COLOR_MENU_FG
  | COLOR_MENU_BG
  | COLOR_MENU_ACTIVE_FG
  | COLOR_MENU_ACTIVE_BG
  | COLOR_CLOCK_FG
  | COLOR_CLOCK_BG
  | COLOR_TRAYBUTTON_FG
  | COLOR_TRAYBUTTON_BG
  deriving DecidableEq, Repr

/-- Modelled from the spec: the group options of `group.h` named in `parse.c`. -/
inductive OptionType where
  | OPTION_STICKY
  | OPTION_NOLIST
  | OPTION_BORDER
  | OPTION_NOBORDER
  | OPTION_TITLE
  | OPTION_NOTITLE
  | OPTION_PIGNORE
  | OPTION_MAXIMIZED
  | OPTION_MINIMIZED
  | OPTION_SHADED
  | OPTION_LAYER
  | OPTION_DESKTOP
  | OPTION_ICON
  deriving DecidableEq, Repr

/-- Modelled from the spec: the snap modes of `move.h` named in `parse.c`. -/
inductive SnapModeType where
  | SNAP_NONE
  | SNAP_SCREEN
  | SNAP_BORDER
  deriving DecidableEq, Repr

/-- Modelled from the spec: the move modes of `move.h` named in `parse.c`. -/
inductive MoveModeType where
  | MOVE_OUTLINE
  | MOVE_OPAQUE
  deriving DecidableEq, Repr

/-- Modelled from the spec: the resize modes of `resize.h` named in `parse.c`. -/
inductive ResizeModeType where
  | RESIZE_OUTLINE
  | RESIZE_OPAQUE
  deriving DecidableEq, Repr

/-- Modelled from the spec: the focus models of `main.h` named in `parse.c`. -/
inductive FocusModelType where
  | FOCUS_SLOPPY
  | FOCUS_CLICK
  deriving DecidableEq, Repr

/-- One argument of a `printf`-style argument list: a `char *` (possibly NULL)
or an `int`. -/
inductive Arg where
  | str (s : Option String)
  | int (n : Int)
  deriving DecidableEq, Repr

/-- A call from `parse.c` into another module, with its arguments. A tray, a
tray component and a group are named by the number of trays, components and
groups created before them. -/
inductive Effect where
  | WarningVA (msg : String) (str : String) (args : List Arg)
  | ValidateTrayButtons
  | ValidateKeys
  | SetDoubleClickSpeed (value : Option String)
  | SetDoubleClickDelta (value : Option String)
  | AddIconPath (value : Option String)
  | AddRestartCommand (value : Option String)
  | AddShutdownCommand (value : Option String)
  | AddStartupCommand (value : Option String)
  | AddThemePath (value : Option String)
  | SetTheme (value : Option String)
  | SetSnapDistance (value : String)
  | SetDefaultSnapDistance
  | SetSnapMode (mode : SnapModeType)
  | SetMoveStatusType (str : Option String)
  | SetMoveMode (mode : MoveModeType)
  | SetResizeStatusType (str : Option String)
  | SetResizeMode (mode : ResizeModeType)
  | SetRootMenu (value : String) (menu : Menu)
  | SetShowExitConfirmation (v : Int)
  | InsertBinding (key : KeyType) (modifiers stroke code command : Option String)
  | SetFont (role : FontType) (value : Option String)
  | SetColor (role : ColorType) (value : Option String)
  | SetBorderWidth (value : Option String)
  | SetTitleHeight (value : Option String)
  | SetDesktopCount (value : String)
  | SetDesktopName (x : Nat) (value : Option String)
  | SetTaskBarInsertMode (value : String)
  | CreateTray
  | SetAutoHideTray (tray : Nat) (v : Int)
  | SetTrayX (tray : Nat) (value : String)
  | SetTrayY (tray : Nat) (value : String)
  | SetTrayWidth (tray : Nat) (value : String)
  | SetTrayHeight (tray : Nat) (value : String)
  | SetTrayVerticalAlignment (tray : Nat) (value : Option String)
  | SetTrayHorizontalAlignment (tray : Nat) (value : Option String)
  | SetTrayLayout (tray : Nat) (value : Option String)
  | SetTrayLayer (tray : Nat) (value : String)
  | SetTrayBorder (tray : Nat) (value : String)
  | AddTrayComponent (tray : Nat) (cp : Nat)
  | CreatePager
  | CreateTaskBar
  | SetMaxTaskBarItemWidth (cp : Nat) (value : String)
  | CreateSwallow (name command : Option String) (width height : Int)
  | CreateTrayButton (icon label action popup : Option String) (width height : Int)
  | CreateClock (format command : Option String) (width height : Int)
  | CreateDock
  | SetPopupEnabled (v : Int)
  | SetPopupDelay (value : String)
  | CreateGroup
  | AddGroupClass (group : Nat) (value : Option String)
  | AddGroupName (group : Nat) (value : Option String)
  | AddGroupOption (group : Nat) (option : OptionType)
  | AddGroupOptionValue (group : Nat) (option : OptionType) (value : String)

/-- The state a load runs in: the calls made so far (`log`, oldest first), the
global variables `focusModel` and `desktopCount` that `parse.c` reads or
writes itself, and the numbers of trays, tray components and groups created.
`parseDepths` is a ghost field: the `depth` argument of every invocation of
`Parse` so far; no definition reads it. -/
structure State where
  log : List Effect
  focusModel : FocusModelType
  desktopCount : Nat
  trays : Nat
  components : Nat
  groups : Nat
  parseDepths : List Int

/-- A call into another module. -/
def State.emit (st : State) (e : Effect) : State :=
  { st with log := st.log ++ [e] }

/-! ## `parse.c` -/

/-- The test `!strcmp(a, b)`. -/
def strcmpEq (a b : String) : Bool :=
  a == b

/-- The test `!strncmp(s, t, n)`: `s` and `t` agree on their first `n`
characters (or are equal, when one of them is shorter). -/
def strncmpEq (s t : String) (n : Nat) : Bool :=
  s.data.take n == t.data.take n

/-- The pointer `s + n`, for `n` at most the length of `s`. -/
def strOffset (s : String) (n : Nat) : String :=
  ⟨s.data.drop n⟩

/-- `CopyString`, which maps NULL to NULL. -/
def CopyString (s : Option String) : Option String :=
  s

def FindAttribute : List AttributeNode → String → Option String
  | [], _ => none
  | ap :: rest, name =>
    if strcmpEq name ap.name then ap.value else FindAttribute rest name

/-- The string `ParseError` formats with `sprintf(msg, "%s[%d]", ...)`, or its
copy of `"configuration error"` when there is no node. This is the text
alone: the buffer `msg` it is written to has `ParseErrorAllocated` bytes,
which the text of a node outgrows when its line takes more than four
characters; `ParseErrorSized` is `ParseError` with that bound. -/
def ParseErrorMsg : Option TokenData → String
  | some tp => tp.fileName ++ "[" ++ toString tp.line ++ "]"
  | none => "configuration error"

def ParseError (tp : Option TokenData) (str : String) (args : List Arg)
    (st : State) : State :=
  st.emit (.WarningVA (ParseErrorMsg tp) str args)

def InvalidTag (env : Env) (tp : TokenData) (parent : TokenType) (st : State) : State :=
  ParseError (some tp) "invalid tag in %s: %s"
    [.str (some (env.GetTokenTypeName parent)), .str (some (env.GetTokenName tp))] st

/-- The loop of `ParseKey` over `KEY_MAP`: the key of the first entry whose
name is the action, `KEY_NONE` when there is none. -/
def lookupKey : List (String × KeyType) → String → KeyType
  | [], _ => .KEY_NONE
  | (name, key) :: rest, action =>
    if strcmpEq action name then key else lookupKey rest action

def ParseKey (tp : TokenData) (st : State) : State :=
  let mask := FindAttribute tp.attributes "mask"
  let key := FindAttribute tp.attributes "key"
  let code := FindAttribute tp.attributes "keycode"
  match tp.value with
  | none => ParseError (some tp) "no action specified for Key" [] st
  | some action =>
    let kc : KeyType × Option String :=
      if strncmpEq action "exec:" 5 then (.KEY_EXEC, some (strOffset action 5))
      else if strncmpEq action "root:" 5 then (.KEY_ROOT, some (strOffset action 5))
      else (lookupKey KEY_MAP action, none)
    if kc.1 = .KEY_NONE then
      ParseError (some tp) "invalid Key action: \"%s\"" [.str (some action)] st
    else
      st.emit (.InsertBinding kc.1 mask key code kc.2)

def ParseMouse (_tp : TokenData) (st : State) : State :=
  st

def ParseFocusModel (tp : TokenData) (st : State) : State :=
  match tp.value with
  | some value =>
    if strcmpEq value "sloppy" then { st with focusModel := .FOCUS_SLOPPY }
    else if strcmpEq value "click" then { st with focusModel := .FOCUS_CLICK }
    else ParseError (some tp) "invalid focus model: \"%s\"" [.str (some value)] st
  | none => ParseError (some tp) "focus model not specified" [] st

def ParseSnapMode (tp : TokenData) (st : State) : State :=
  let st :=
    match FindAttribute tp.attributes DISTANCE_ATTRIBUTE with
    | some distance => st.emit (.SetSnapDistance distance)
    | none => st.emit .SetDefaultSnapDistance
  match tp.value with
  | some value =>
    if strcmpEq value "none" then st.emit (.SetSnapMode .SNAP_NONE)
    else if strcmpEq value "screen" then st.emit (.SetSnapMode .SNAP_SCREEN)
    else if strcmpEq value "border" then st.emit (.SetSnapMode .SNAP_BORDER)
    else ParseError (some tp) "invalid snap mode: %s" [.str (some value)] st
  | none => ParseError (some tp) "snap mode not specified" [] st

def ParseMoveMode (tp : TokenData) (st : State) : State :=
  let str := FindAttribute tp.attributes COORDINATES_ATTRIBUTE
  let st := st.emit (.SetMoveStatusType str)
  match tp.value with
  | some value =>
    if strcmpEq value "outline" then st.emit (.SetMoveMode .MOVE_OUTLINE)
    else if strcmpEq value "opaque" then st.emit (.SetMoveMode .MOVE_OPAQUE)
    else ParseError (some tp) "invalid move mode: %s" [.str (some value)] st
  | none => ParseError (some tp) "move mode not specified" [] st

def ParseResizeMode (tp : TokenData) (st : State) : State :=
  let str := FindAttribute tp.attributes COORDINATES_ATTRIBUTE
  let st := st.emit (.SetResizeStatusType str)
  match tp.value with
  | some value =>
    if strcmpEq value "outline" then st.emit (.SetResizeMode .RESIZE_OUTLINE)
    else if strcmpEq value "opaque" then st.emit (.SetResizeMode .RESIZE_OPAQUE)
    else ParseError (some tp) "invalid resize mode: %s" [.str (some value)] st
  | none => ParseError (some tp) "resize mode not specified" [] st

/-- The loop of `ParseBorderStyle` over the children, from the child `np`. -/
def ParseBorderStyleLoop (env : Env) : TokenNode → State → State
  | .null, st => st
  | .node np _ next, st =>
    ParseBorderStyleLoop env next
      (match np.type with
       | .TOK_FONT => st.emit (.SetFont .FONT_BORDER np.value)
       | .TOK_WIDTH => st.emit (.SetBorderWidth np.value)
       | .TOK_HEIGHT => st.emit (.SetTitleHeight np.value)
       | .TOK_FOREGROUND => st.emit (.SetColor .COLOR_BORDER_FG np.value)
       | .TOK_BACKGROUND => st.emit (.SetColor .COLOR_BORDER_BG np.value)
       | .TOK_ACTIVEFOREGROUND => st.emit (.SetColor .COLOR_BORDER_ACTIVE_FG np.value)
       | .TOK_ACTIVEBACKGROUND => st.emit (.SetColor .COLOR_BORDER_ACTIVE_BG np.value)
       | _ => InvalidTag env np .TOK_BORDERSTYLE st)

def ParseBorderStyle (env : Env) (_tp : TokenData) (subnodeHead : TokenNode)
    (st : State) : State :=
  ParseBorderStyleLoop env subnodeHead st

/-- The loop of `ParseDesktops`: `np` is the current child and `x` its
position. -/
def ParseDesktopsLoop (env : Env) : TokenNode → Nat → State → State
  | .null, _, st => st
  | .node np _ next, x, st =>
    if x ≥ st.desktopCount then st
    else
      ParseDesktopsLoop env next (x + 1)
        (match np.type with
         | .TOK_NAME => st.emit (.SetDesktopName x np.value)
         | _ => InvalidTag env np .TOK_DESKTOPS st)

def ParseDesktops (env : Env) (tp : TokenData) (subnodeHead : TokenNode)
    (st : State) : State :=
  let st :=
    match FindAttribute tp.attributes COUNT_ATTRIBUTE with
    | some attr =>
      { st.emit (.SetDesktopCount attr) with
        desktopCount := env.SetDesktopCount attr st.desktopCount }
    | none => { st with desktopCount := env.DEFAULT_DESKTOP_COUNT }
  ParseDesktopsLoop env subnodeHead 0 st

/-- The loop of `ParseTaskListStyle` over the children. -/
def ParseTaskListStyleLoop (env : Env) : TokenNode → State → State
  | .null, st => st
  | .node np _ next, st =>
    ParseTaskListStyleLoop env next
      (match np.type with
       | .TOK_FONT => st.emit (.SetFont .FONT_TASK np.value)
       | .TOK_FOREGROUND => st.emit (.SetColor .COLOR_TASK_FG np.value)
       | .TOK_BACKGROUND => st.emit (.SetColor .COLOR_TASK_BG np.value)
       | .TOK_ACTIVEFOREGROUND => st.emit (.SetColor .COLOR_TASK_ACTIVE_FG np.value)
       | .TOK_ACTIVEBACKGROUND => st.emit (.SetColor .COLOR_TASK_ACTIVE_BG np.value)
       | _ => InvalidTag env np .TOK_TASKLISTSTYLE st)

def ParseTaskListStyle (env : Env) (tp : TokenData) (subnodeHead : TokenNode)
    (st : State) : State :=
  let st :=
    match FindAttribute tp.attributes INSERT_ATTRIBUTE with
    | some temp => st.emit (.SetTaskBarInsertMode temp)
    | none => st
  ParseTaskListStyleLoop env subnodeHead st

/-- The loop of `ParseTrayStyle` over the children. -/
def ParseTrayStyleLoop (env : Env) : TokenNode → State → State
  | .null, st => st
  | .node np _ next, st =>
    ParseTrayStyleLoop env next
      (match np.type with
       | .TOK_FONT => st.emit (.SetFont .FONT_TRAY np.value)
       | .TOK_BACKGROUND => st.emit (.SetColor .COLOR_TRAY_BG np.value)
       | .TOK_FOREGROUND => st.emit (.SetColor .COLOR_TRAY_FG np.value)
       | _ => InvalidTag env np .TOK_TRAYSTYLE st)

def ParseTrayStyle (env : Env) (_tp : TokenData) (subnodeHead : TokenNode)
    (st : State) : State :=
  ParseTrayStyleLoop env subnodeHead st

/-- The loop of `ParsePagerStyle` over the children. -/
def ParsePagerStyleLoop (env : Env) : TokenNode → State → State
  | .null, st => st
  | .node np _ next, st =>
    ParsePagerStyleLoop env next
      (match np.type with
       | .TOK_OUTLINE => st.emit (.SetColor .COLOR_PAGER_OUTLINE np.value)
       | .TOK_FOREGROUND => st.emit (.SetColor .COLOR_PAGER_FG np.value)
       | .TOK_BACKGROUND => st.emit (.SetColor .COLOR_PAGER_BG np.value)
       | .TOK_ACTIVEFOREGROUND => st.emit (.SetColor .COLOR_PAGER_ACTIVE_FG np.value)
       | .TOK_ACTIVEBACKGROUND => st.emit (.SetColor .COLOR_PAGER_ACTIVE_BG np.value)
       | _ => InvalidTag env np .TOK_PAGERSTYLE st)

def ParsePagerStyle (env : Env) (_tp : TokenData) (subnodeHead : TokenNode)
    (st : State) : State :=
  ParsePagerStyleLoop env subnodeHead st

/-- The loop of `ParsePopupStyle` over the children. -/
def ParsePopupStyleLoop (env : Env) : TokenNode → State → State
  | .null, st => st
  | .node np _ next, st =>
    ParsePopupStyleLoop env next
      (match np.type with
       | .TOK_FONT => st.emit (.SetFont .FONT_POPUP np.value)
       | .TOK_OUTLINE => st.emit (.SetColor .COLOR_POPUP_OUTLINE np.value)
       | .TOK_FOREGROUND => st.emit (.SetColor .COLOR_POPUP_FG np.value)
       | .TOK_BACKGROUND => st.emit (.SetColor .COLOR_POPUP_BG np.value)
       | _ => InvalidTag env np .TOK_POPUPSTYLE st)

def ParsePopupStyle (env : Env) (tp : TokenData) (subnodeHead : TokenNode)
    (st : State) : State :=
  let st :=
    match FindAttribute tp.attributes ENABLED_ATTRIBUTE with
    | some str =>
      if strcmpEq str TRUE_VALUE then st.emit (.SetPopupEnabled 1)
      else if strcmpEq str FALSE_VALUE then st.emit (.SetPopupEnabled 0)
      else ParseError (some tp) "invalid enabled value: \"%s\"" [.str (some str)] st
    | none => st
  let st :=
    match FindAttribute tp.attributes DELAY_ATTRIBUTE with
    | some str => st.emit (.SetPopupDelay str)
    | none => st
  ParsePopupStyleLoop env subnodeHead st

/-- The loop of `ParseMenuStyle` over the children. -/
def ParseMenuStyleLoop (env : Env) : TokenNode → State → State
  | .null, st => st
  | .node np _ next, st =>
    ParseMenuStyleLoop env next
      (match np.type with
       | .TOK_FONT => st.emit (.SetFont .FONT_MENU np.value)
       | .TOK_FOREGROUND => st.emit (.SetColor .COLOR_MENU_FG np.value)
       | .TOK_BACKGROUND => st.emit (.SetColor .COLOR_MENU_BG np.value)
       | .TOK_ACTIVEFOREGROUND => st.emit (.SetColor .COLOR_MENU_ACTIVE_FG np.value)
       | .TOK_ACTIVEBACKGROUND => st.emit (.SetColor .COLOR_MENU_ACTIVE_BG np.value)
       | _ => InvalidTag env np .TOK_MENUSTYLE st)

def ParseMenuStyle (env : Env) (_tp : TokenData) (subnodeHead : TokenNode)
    (st : State) : State :=
  ParseMenuStyleLoop env subnodeHead st

/-- The loop of `ParseClockStyle` over the children. -/
def ParseClockStyleLoop (env : Env) : TokenNode → State → State
  | .null, st => st
  | .node np _ next, st =>
    ParseClockStyleLoop env next
      (match np.type with
       | .TOK_FONT => st.emit (.SetFont .FONT_CLOCK np.value)
       | .TOK_FOREGROUND => st.emit (.SetColor .COLOR_CLOCK_FG np.value)
       | .TOK_BACKGROUND => st.emit (.SetColor .COLOR_CLOCK_BG np.value)
       | _ => InvalidTag env np .TOK_CLOCKSTYLE st)

def ParseClockStyle (env : Env) (_tp : TokenData) (subnodeHead : TokenNode)
    (st : State) : State :=
  ParseClockStyleLoop env subnodeHead st

/-- The loop of `ParseTrayButtonStyle` over the children. -/
def ParseTrayButtonStyleLoop (env : Env) : TokenNode → State → State
  | .null, st => st
  | .node np _ next, st =>
    ParseTrayButtonStyleLoop env next
      (match np.type with
       | .TOK_FONT => st.emit (.SetFont .FONT_TRAYBUTTON np.value)
       | .TOK_FOREGROUND => st.emit (.SetColor .COLOR_TRAYBUTTON_FG np.value)
       | .TOK_BACKGROUND => st.emit (.SetColor .COLOR_TRAYBUTTON_BG np.value)
       | _ => InvalidTag env np .TOK_TRAYBUTTONSTYLE st)

def ParseTrayButtonStyle (env : Env) (_tp : TokenData) (subnodeHead : TokenNode)
    (st : State) : State :=
  ParseTrayButtonStyleLoop env subnodeHead st

/-- The value `AddTrayComponent(tray, cp)` is called with for a component just
created: the component gets the next free number. -/
def addComponent (tray : Nat) (st : State) : State :=
  { st.emit (.AddTrayComponent tray st.components) with
    components := st.components + 1 }

/-- An `int` read from an attribute: `atoi(temp)` when the attribute is there,
0 otherwise. -/
def atoiOr0 (env : Env) (temp : Option String) : Int :=
  match temp with
  | some t => env.atoi t
  | none => 0

def ParsePager (_tp : TokenData) (tray : Nat) (st : State) : State :=
  addComponent tray (st.emit .CreatePager)

def ParseTaskList (tp : TokenData) (tray : Nat) (st : State) : State :=
  let cp := st.components
  let st := addComponent tray (st.emit .CreateTaskBar)
  match FindAttribute tp.attributes MAX_WIDTH_ATTRIBUTE with
  | some temp => st.emit (.SetMaxTaskBarItemWidth cp temp)
  | none => st

def ParseSwallow (env : Env) (tp : TokenData) (tray : Nat) (st : State) : State :=
  let name :=
    match FindAttribute tp.attributes NAME_ATTRIBUTE with
    | some n => some n
    | none => tp.value
  let width := atoiOr0 env (FindAttribute tp.attributes WIDTH_ATTRIBUTE)
  let height := atoiOr0 env (FindAttribute tp.attributes HEIGHT_ATTRIBUTE)
  let st := st.emit (.CreateSwallow name tp.value width height)
  if env.CreateSwallow name tp.value width height then addComponent tray st else st

def ParseTrayButton (env : Env) (tp : TokenData) (tray : Nat) (st : State) : State :=
  let icon := FindAttribute tp.attributes ICON_ATTRIBUTE
  let label := FindAttribute tp.attributes LABEL_ATTRIBUTE
  let popup := FindAttribute tp.attributes POPUP_ATTRIBUTE
  let width := atoiOr0 env (FindAttribute tp.attributes WIDTH_ATTRIBUTE)
  let height := atoiOr0 env (FindAttribute tp.attributes HEIGHT_ATTRIBUTE)
  let st := st.emit (.CreateTrayButton icon label tp.value popup width height)
  if env.CreateTrayButton icon label tp.value popup width height then
    addComponent tray st
  else st

def ParseClock (env : Env) (tp : TokenData) (tray : Nat) (st : State) : State :=
  let format := FindAttribute tp.attributes FORMAT_ATTRIBUTE
  let command :=
    match tp.value with
    | some v => if v.length > 0 then some v else none
    | none => none
  let width := atoiOr0 env (FindAttribute tp.attributes WIDTH_ATTRIBUTE)
  let height := atoiOr0 env (FindAttribute tp.attributes HEIGHT_ATTRIBUTE)
  let st := st.emit (.CreateClock format command width height)
  if env.CreateClock format command width height then addComponent tray st else st

def ParseDock (env : Env) (_tp : TokenData) (tray : Nat) (st : State) : State :=
  let st := st.emit .CreateDock
  if env.CreateDock then addComponent tray st else st

/-- The loop of `ParseTray` over the children. -/
def ParseTrayLoop (env : Env) (tray : Nat) : TokenNode → State → State
  | .null, st => st
  | .node np _ next, st =>
    ParseTrayLoop env tray next
      (match np.type with
       | .TOK_PAGER => ParsePager np tray st
       | .TOK_TASKLIST => ParseTaskList np tray st
       | .TOK_SWALLOW => ParseSwallow env np tray st
       | .TOK_TRAYBUTTON => ParseTrayButton env np tray st
       | .TOK_CLOCK => ParseClock env np tray st
       | .TOK_DOCK => ParseDock env np tray st
       | _ => InvalidTag env np .TOK_TRAY st)

/-- A setter that `ParseTray` calls only when the attribute is there. -/
def whenSome (attr : Option String) (f : String → Effect) (st : State) : State :=
  match attr with
  | some a => st.emit (f a)
  | none => st

def ParseTray (env : Env) (tp : TokenData) (subnodeHead : TokenNode)
    (st : State) : State :=
  let tray := st.trays
  let st := { st.emit .CreateTray with trays := st.trays + 1 }
  let attr := FindAttribute tp.attributes AUTOHIDE_ATTRIBUTE
  let st :=
    match attr with
    | some a =>
      if strcmpEq a TRUE_VALUE then st.emit (.SetAutoHideTray tray 1)
      else st.emit (.SetAutoHideTray tray 0)
    | none => st.emit (.SetAutoHideTray tray 0)
  let st := whenSome (FindAttribute tp.attributes X_ATTRIBUTE) (.SetTrayX tray) st
  let st := whenSome (FindAttribute tp.attributes Y_ATTRIBUTE) (.SetTrayY tray) st
  let st := whenSome (FindAttribute tp.attributes WIDTH_ATTRIBUTE) (.SetTrayWidth tray) st
  let st := whenSome (FindAttribute tp.attributes HEIGHT_ATTRIBUTE) (.SetTrayHeight tray) st
  let st := st.emit
    (.SetTrayVerticalAlignment tray (FindAttribute tp.attributes VALIGN_ATTRIBUTE))
  let st := st.emit
    (.SetTrayHorizontalAlignment tray (FindAttribute tp.attributes HALIGN_ATTRIBUTE))
  let st := st.emit (.SetTrayLayout tray (FindAttribute tp.attributes LAYOUT_ATTRIBUTE))
  let st := whenSome (FindAttribute tp.attributes LAYER_ATTRIBUTE) (.SetTrayLayer tray) st
  let st := whenSome (FindAttribute tp.attributes BORDER_ATTRIBUTE) (.SetTrayBorder tray) st
  ParseTrayLoop env tray subnodeHead st

/-- The body of `ParseGroupOption`, for an `option` that is not NULL. -/
def ParseGroupOptionBody (tp : TokenData) (group : Nat) (option : String)
    (st : State) : State :=
  if strcmpEq option "sticky" then st.emit (.AddGroupOption group .OPTION_STICKY)
  else if strcmpEq option "nolist" then st.emit (.AddGroupOption group .OPTION_NOLIST)
  else if strcmpEq option "border" then st.emit (.AddGroupOption group .OPTION_BORDER)
  else if strcmpEq option "noborder" then st.emit (.AddGroupOption group .OPTION_NOBORDER)
  else if strcmpEq option "title" then st.emit (.AddGroupOption group .OPTION_TITLE)
  else if strcmpEq option "notitle" then st.emit (.AddGroupOption group .OPTION_NOTITLE)
  else if strcmpEq option "pignore" then st.emit (.AddGroupOption group .OPTION_PIGNORE)
  else if strcmpEq option "maximized" then
    st.emit (.AddGroupOption group .OPTION_MAXIMIZED)
  else if strcmpEq option "minimized" then
    st.emit (.AddGroupOption group .OPTION_MINIMIZED)
  else if strcmpEq option "shaded" then st.emit (.AddGroupOption group .OPTION_SHADED)
  else if strncmpEq option "layer:" 6 then
    st.emit (.AddGroupOptionValue group .OPTION_LAYER (strOffset option 6))
  else if strncmpEq option "desktop:" 8 then
    st.emit (.AddGroupOptionValue group .OPTION_DESKTOP (strOffset option 8))
  else if strncmpEq option "icon:" 5 then
    st.emit (.AddGroupOptionValue group .OPTION_ICON (strOffset option 5))
  else ParseError (some tp) "invalid Group Option: %s" [.str (some option)] st

/-- The function `ParseGroupOption`: `option` is `np->value`; a NULL `option`
reaches `strcmp`. -/
def ParseGroupOption (tp : TokenData) (group : Nat) (option : Option String)
    (st : State) : Except Err State :=
  match option with
  | none => .error .fault
  | some option => .ok (ParseGroupOptionBody tp group option st)

/-- The loop of `ParseGroup` over the children. -/
def ParseGroupLoop (env : Env) (group : Nat) : TokenNode → State → Except Err State
  | .null, st => .ok st
  | .node np _ next, st =>
    match
      (match np.type with
       | .TOK_CLASS => Except.ok (st.emit (.AddGroupClass group np.value))
       | .TOK_NAME => Except.ok (st.emit (.AddGroupName group np.value))
       | .TOK_OPTION => ParseGroupOption np group np.value st
       | _ => Except.ok (InvalidTag env np .TOK_GROUP st)) with
    | .error e => .error e
    | .ok st => ParseGroupLoop env group next st

def ParseGroup (env : Env) (_tp : TokenData) (subnodeHead : TokenNode)
    (st : State) : Except Err State :=
  let group := st.groups
  let st := { st.emit .CreateGroup with groups := st.groups + 1 }
  ParseGroupLoop env group subnodeHead st

/-! ### Menus -/

/-- What a menu-building call returns: the cursor (the value of the C
function), the menu it was given, as the call leaves it, and the state. -/
abbrev MenuResult := Except Err (Option Nat × Menu × State)

/-- The cell `InsertMenuItem` allocates and initialises. -/
def newMenuItem : MenuItem :=
  { name := none, type := .MENU_ITEM_NORMAL, iconName := none,
    action := { type := .MA_NONE, str := none }, submenu := none, next := none }

/-- The function `InsertMenuItem`, on the cell store of `menu`, the menu the
cursor `last` points into: the new cell gets the next free address. -/
def InsertMenuItem (last : Option Nat) (menu : Menu) : Nat × Menu :=
  let item := menu.cells.length
  let menu := menu.setCells (menu.cells ++ [newMenuItem])
  match last with
  | some l => (item, menu.modify l (fun c => { c with next := some item }))
  | none => (item, menu)

/-- The opening of every item case of `ParseMenuItem`:
`last = InsertMenuItem(last); if(!menu->items) menu->items = last;` and the
assignments `fill` to the members of the new item. -/
def addItem (fill : MenuItem → MenuItem) (last : Option Nat) (menu : Menu) :
    Nat × Menu :=
  let r := InsertMenuItem last menu
  let menu :=
    match r.2.items with
    | none => r.2.setItems (some r.1)
    | some _ => r.2
  (r.1, menu.modify r.1 fill)

/-- The inner `switch` of the window-action case of `ParseMenuItem`. -/
def windowAction : TokenType → MenuActionType
  | .TOK_DESKTOPS => .MA_DESKTOP
  | .TOK_STICK => .MA_STICK
  | .TOK_MAXIMIZE => .MA_MAXIMIZE
  | .TOK_MINIMIZE => .MA_MINIMIZE
  | .TOK_SHADE => .MA_SHADE
  | .TOK_MOVE => .MA_MOVE
  | .TOK_RESIZE => .MA_RESIZE
  | .TOK_KILL => .MA_KILL
  | .TOK_CLOSE => .MA_CLOSE
  | _ => .MA_NONE

/-- The label of an item whose name defaults to the tag name: the `label`
attribute, or `GetTokenName(start)`. -/
def labelOrTokenName (env : Env) (start : TokenData) : Option String :=
  match FindAttribute start.attributes LABEL_ATTRIBUTE with
  | some value => CopyString (some value)
  | none => CopyString (some (env.GetTokenName start))

/-- The menu allocated for a `menu` child, before its items are parsed: `name`
is the name of the submenu item and `parent` the `itemHeight` of the
enclosing menu. -/
def newSubmenu (env : Env) (start : TokenData) (name : Option String) (parent : Int) :
    Menu :=
  let itemHeight :=
    match FindAttribute start.attributes HEIGHT_ATTRIBUTE with
    | some value => env.atoi value
    | none => parent
  let label :=
    match FindAttribute start.attributes LABELED_ATTRIBUTE with
    | some value =>
      if strcmpEq value TRUE_VALUE then
        (match name with
         | some n => CopyString (some n)
         | none => CopyString (some DEFAULT_TITLE))
      else none
    | none => none
  .mk label itemHeight none []

/-- The function `ParseMenuItem`. `inc` is `ParseMenuInclude`. The menu of a
`menu` child is built first and stored in `last->submenu` afterwards; the C
code stores the pointer first, which is the same, since building the child
menu touches the child menu only. -/
def ParseMenuItem (env : Env)
    (inc : TokenData → Menu → Option Nat → State → MenuResult) :
    TokenNode → Menu → Option Nat → State → MenuResult
  | .null, menu, last, st => .ok (last, menu, st)
  | .node start subnodeHead next, menu, last, st =>
    match start.type with
    | .TOK_INCLUDE =>
      match inc start menu last st with
      | .error e => .error e
      | .ok r => ParseMenuItem env inc next r.2.1 r.1 r.2.2
    | .TOK_MENU =>
      let name := CopyString (FindAttribute start.attributes LABEL_ATTRIBUTE)
      let r := addItem (fun c => { c with
        type := .MENU_ITEM_SUBMENU,
        name := name,
        iconName := CopyString (FindAttribute start.attributes ICON_ATTRIBUTE) })
        last menu
      match ParseMenuItem env inc subnodeHead
          (newSubmenu env start name menu.itemHeight) none st with
      | .error e => .error e
      | .ok c =>
        ParseMenuItem env inc next
          (r.2.modify r.1 (fun i => { i with submenu := some c.2.1 })) (some r.1) c.2.2
    | .TOK_PROGRAM =>
      let r := addItem (fun c => { c with
        name :=
          (match FindAttribute start.attributes LABEL_ATTRIBUTE with
           | some value => CopyString (some value)
           | none =>
             match start.value with
             | some v => CopyString (some v)
             | none => c.name),
        iconName := CopyString (FindAttribute start.attributes ICON_ATTRIBUTE),
        action := { type := .MA_EXECUTE, str := CopyString start.value } })
        last menu
      ParseMenuItem env inc next r.2 (some r.1) st
    | .TOK_SEPARATOR =>
      let r := addItem (fun c => { c with type := .MENU_ITEM_SEPARATOR }) last menu
      ParseMenuItem env inc next r.2 (some r.1) st
    | .TOK_DESKTOPS | .TOK_STICK | .TOK_MAXIMIZE | .TOK_MINIMIZE | .TOK_SHADE
    | .TOK_MOVE | .TOK_RESIZE | .TOK_KILL | .TOK_CLOSE =>
      let r := addItem (fun c => { c with
        name := labelOrTokenName env start,
        iconName := CopyString (FindAttribute start.attributes ICON_ATTRIBUTE),
        action := { c.action with type := windowAction start.type } })
        last menu
      ParseMenuItem env inc next r.2 (some r.1) st
    | .TOK_EXIT =>
      let r := addItem (fun c => { c with
        name := labelOrTokenName env start,
        iconName := CopyString (FindAttribute start.attributes ICON_ATTRIBUTE),
        action := { type := .MA_EXIT, str := CopyString start.value } })
        last menu
      let st :=
        match FindAttribute start.attributes CONFIRM_ATTRIBUTE with
        | some value =>
          if strcmpEq value FALSE_VALUE then st.emit (.SetShowExitConfirmation 0)
          else st.emit (.SetShowExitConfirmation 1)
        | none => st.emit (.SetShowExitConfirmation 1)
      ParseMenuItem env inc next r.2 (some r.1) st
    | .TOK_RESTART =>
      let r := addItem (fun c => { c with
        name := labelOrTokenName env start,
        iconName := CopyString (FindAttribute start.attributes ICON_ATTRIBUTE),
        action := { c.action with type := .MA_RESTART } })
        last menu
      ParseMenuItem env inc next r.2 (some r.1) st
    | _ =>
      ParseMenuItem env inc next menu last (InvalidTag env start .TOK_MENU st)

/-- The function `ParseMenuInclude`. `rec` is `ParseMenuItem`, called on the
root `mp` of the included tree. A NULL `tp->value` reaches `strncmp`. -/
def ParseMenuInclude (env : Env)
    (rec : TokenNode → Menu → Option Nat → State → MenuResult)
    (tp : TokenData) (menu : Menu) (last : Option Nat) (st : State) : MenuResult :=
  match tp.value with
  | none => .error .fault
  | some value =>
    let path :=
      if strncmpEq value "exec:" 5 then env.ExpandPath (strOffset value 5)
      else env.ExpandPath value
    let buffer :=
      if strncmpEq value "exec:" 5 then env.popen path else env.fopen path
    match buffer with
    | none =>
      .ok (last, menu,
        if strncmpEq value "exec:" 5 then
          ParseError (some tp) "could not execute included program: %s"
            [.str (some path)] st
        else ParseError (some tp) "could not open include: %s" [.str (some path)] st)
    | some buffer =>
      match env.Tokenize buffer path with
      | .null =>
        .ok (last, menu,
          ParseError (some tp) "invalid included menu: %s" [.str (some value)] st)
      | .node d subnodeHead next =>
        if d.type ≠ .TOK_MENU then
          .ok (last, menu,
            ParseError (some tp) "invalid included menu: %s" [.str (some value)] st)
        else rec (.node d subnodeHead next) menu last st

/-- The menu builder with its includes resolved: `ParseMenuItem` and
`ParseMenuInclude` calling each other, through at most `fuel` activations of
`ParseMenuItem` nested by includes. -/
def ParseMenuItemFuel (env : Env) :
    Nat → TokenNode → Menu → Option Nat → State → MenuResult
  | 0 => fun _ _ _ _ => .error .fuel
  | fuel + 1 => ParseMenuItem env (ParseMenuInclude env (ParseMenuItemFuel env fuel))

/-- The function `ParseRootMenu`; `mb` is `ParseMenuItem`. -/
def ParseRootMenu (env : Env)
    (mb : TokenNode → Menu → Option Nat → State → MenuResult)
    (start : TokenData) (subnodeHead : TokenNode) (st : State) : Except Err State :=
  let itemHeight :=
    match FindAttribute start.attributes HEIGHT_ATTRIBUTE with
    | some value => env.atoi value
    | none => 0
  let label :=
    match FindAttribute start.attributes LABELED_ATTRIBUTE with
    | some value =>
      if strcmpEq value TRUE_VALUE then
        (match FindAttribute start.attributes LABEL_ATTRIBUTE with
         | some l => CopyString (some l)
         | none => CopyString (some DEFAULT_TITLE))
      else none
    | none => none
  match mb subnodeHead (.mk label itemHeight none []) none st with
  | .error e => .error e
  | .ok r =>
    let value :=
      match FindAttribute start.attributes ONROOT_ATTRIBUTE with
      | some v => v
      | none => "123"
    .ok (r.2.2.emit (.SetRootMenu value r.2.1))

/-! ### Files and the top level -/

/-- The function `ParseInclude`; `pf` is `ParseFile`. `ExpandPath` leaves a
NULL path as it is. -/
def ParseInclude (env : Env)
    (pf : Option String → Int → State → Except Err (Bool × State))
    (tp : TokenData) (depth : Int) (st : State) : Except Err State :=
  let temp := (CopyString tp.value).map env.ExpandPath
  match pf temp depth st with
  | .error e => .error e
  | .ok r =>
    if r.1 then .ok r.2
    else .ok (ParseError (some tp) "could not open included file %s" [.str temp] r.2)

/-- The loop of `Parse` over the children of the `JWM` node. -/
def ParseLoop (env : Env)
    (mb : TokenNode → Menu → Option Nat → State → MenuResult)
    (pf : Option String → Int → State → Except Err (Bool × State)) :
    TokenNode → Int → State → Except Err State
  | .null, _, st => .ok st
  | .node tp subnodeHead next, depth, st =>
    match
      (match tp.type with
       | .TOK_BORDERSTYLE => Except.ok (ParseBorderStyle env tp subnodeHead st)
       | .TOK_DESKTOPS => Except.ok (ParseDesktops env tp subnodeHead st)
       | .TOK_DOUBLECLICKSPEED => Except.ok (st.emit (.SetDoubleClickSpeed tp.value))
       | .TOK_DOUBLECLICKDELTA => Except.ok (st.emit (.SetDoubleClickDelta tp.value))
       | .TOK_FOCUSMODEL => Except.ok (ParseFocusModel tp st)
       | .TOK_GROUP => ParseGroup env tp subnodeHead st
       | .TOK_ICONPATH => Except.ok (st.emit (.AddIconPath tp.value))
       | .TOK_INCLUDE => ParseInclude env pf tp depth st
       | .TOK_KEY => Except.ok (ParseKey tp st)
       | .TOK_MENUSTYLE => Except.ok (ParseMenuStyle env tp subnodeHead st)
       | .TOK_MOUSE => Except.ok (ParseMouse tp st)
       | .TOK_MOVEMODE => Except.ok (ParseMoveMode tp st)
       | .TOK_PAGERSTYLE => Except.ok (ParsePagerStyle env tp subnodeHead st)
       | .TOK_POPUPSTYLE => Except.ok (ParsePopupStyle env tp subnodeHead st)
       | .TOK_RESIZEMODE => Except.ok (ParseResizeMode tp st)
       | .TOK_RESTARTCOMMAND => Except.ok (st.emit (.AddRestartCommand tp.value))
       | .TOK_ROOTMENU => ParseRootMenu env mb tp subnodeHead st
       | .TOK_SHUTDOWNCOMMAND => Except.ok (st.emit (.AddShutdownCommand tp.value))
       | .TOK_SNAPMODE => Except.ok (ParseSnapMode tp st)
       | .TOK_STARTUPCOMMAND => Except.ok (st.emit (.AddStartupCommand tp.value))
       | .TOK_TASKLISTSTYLE => Except.ok (ParseTaskListStyle env tp subnodeHead st)
       | .TOK_TRAY => Except.ok (ParseTray env tp subnodeHead st)
       | .TOK_TRAYSTYLE => Except.ok (ParseTrayStyle env tp subnodeHead st)
       | .TOK_TRAYBUTTONSTYLE => Except.ok (ParseTrayButtonStyle env tp subnodeHead st)
       | .TOK_CLOCKSTYLE => Except.ok (ParseClockStyle env tp subnodeHead st)
       | .TOK_THEMEPATH => Except.ok (st.emit (.AddThemePath tp.value))
       | .TOK_THEME => Except.ok (st.emit (.SetTheme tp.value))
       | _ => Except.ok (InvalidTag env tp .TOK_JWM st)) with
    | .error e => .error e
    | .ok st => ParseLoop env mb pf next depth st

/-- The function `Parse`. Its first step here, the entry in `parseDepths`, is
the ghost record of the invocation. -/
def Parse (env : Env)
    (mb : TokenNode → Menu → Option Nat → State → MenuResult)
    (pf : Option String → Int → State → Except Err (Bool × State))
    (start : TokenNode) (depth : Int) (st : State) : Except Err State :=
  let st := { st with parseDepths := st.parseDepths ++ [depth] }
  match start with
  | .null => .ok st
  | .node d subnodeHead _ =>
    if d.type = .TOK_JWM then ParseLoop env mb pf subnodeHead depth st
    else
      .ok (ParseError (some d) "invalid start tag: %s"
        [.str (some (env.GetTokenName d))] st)

/-- The function `ParseFile`; `parse` is `Parse`. The result is the returned
`int` (`true` for 1) and the state. A NULL `fileName` reaches `fopen`. -/
def ParseFile (env : Env)
    (parse : TokenNode → Int → State → Except Err State)
    (fileName : Option String) (depth : Int) (st : State) :
    Except Err (Bool × State) :=
  let depth := depth + 1
  if depth > env.MAX_INCLUDE_DEPTH then
    .ok (false,
      ParseError none "include depth (%d) exceeded" [.int env.MAX_INCLUDE_DEPTH] st)
  else
    match fileName with
    | none => .error .fault
    | some fileName =>
      match env.fopen fileName with
      | none => .ok (false, st)
      | some buffer =>
        match parse (env.Tokenize buffer fileName) depth st with
        | .error e => .error e
        | .ok st => .ok (true, st)

/-- The functions `ParseFile`, `Parse` and `ParseInclude` calling one another,
through at most `fuel` nested activations of `ParseFile`; menus are built with
`mfuel` for their own includes. -/
def ParseFileFuel (env : Env) (mfuel : Nat) :
    Nat → Option String → Int → State → Except Err (Bool × State)
  | 0 => fun _ _ _ => .error .fuel
  | fuel + 1 =>
    ParseFile env (Parse env (ParseMenuItemFuel env mfuel) (ParseFileFuel env mfuel fuel))

/-- The function `ParseConfig`, the entry point of the loader. -/
def ParseConfig (env : Env) (mfuel fuel : Nat) (fileName : String) (st : State) :
    Except Err State :=
  match ParseFileFuel env mfuel fuel (some fileName) 0 st with
  | .error e => .error e
  | .ok r =>
    match
      (if r.1 then Except.ok r.2
       else
         match ParseFileFuel env mfuel fuel (some env.SYSTEM_CONFIG) 0 r.2 with
         | .error e => .error e
         | .ok q =>
           if q.1 then .ok q.2
           else
             .ok (ParseError none "could not open %s or %s"
               [.str (some fileName), .str (some env.SYSTEM_CONFIG)] q.2)) with
    | .error e => .error e
    | .ok st => .ok ((st.emit .ValidateTrayButtons).emit .ValidateKeys)

/-! ## Predicates used in the statements and proofs -/

/-- What C10 asks of a call: an `InsertBinding` has an action other than
`KEY_NONE` and carries a command exactly when its action is `KEY_EXEC` or
`KEY_ROOT`; other calls are not constrained. -/
def bindingOk : Effect → Prop
  | .InsertBinding k _ _ _ cmd =>
    k ≠ .KEY_NONE ∧ (cmd.isSome = true ↔ (k = .KEY_EXEC ∨ k = .KEY_ROOT))
  | _ => True

/-- Every call of a log satisfies `bindingOk`. -/
def OkLog (l : List Effect) : Prop :=
  ∀ e ∈ l, bindingOk e

/-! ## Concrete environments and trees for the examples -/

/-- A state in which no call has been made yet. -/
def initState : State :=
  { log := [], focusModel := .FOCUS_SLOPPY, desktopCount := 4, trays := 0,
    components := 0, groups := 0, parseDepths := [] }

/-- An environment without any file or command; the concrete environments
below replace `fopen`, `Tokenize` and `MAX_INCLUDE_DEPTH`. -/
def emptyEnv : Env :=
  { MAX_INCLUDE_DEPTH := 10
    SYSTEM_CONFIG := "/etc/system.jwmrc"
    DEFAULT_DESKTOP_COUNT := 4
    fopen := fun _ => none
    popen := fun _ => none
    Tokenize := fun _ _ => .null
    ExpandPath := fun p => p
    atoi := fun _ => 0
    GetTokenName := fun d => d.invalidName.getD "tag"
    GetTokenTypeName := fun _ => "tag"
    SetDesktopCount := fun _ n => n
    CreateSwallow := fun _ _ _ _ => true
    CreateTrayButton := fun _ _ _ _ _ _ => true
    CreateClock := fun _ _ _ _ => true
    CreateDock := true }

/-- A node without attributes, in the file `file`. -/
def tag (type : TokenType) (value : Option String) (file : String) (line : Int) :
    TokenData :=
  { type := type, invalidName := none, value := value, attributes := [],
    fileName := file, line := line }

/-- The tree of a configuration file with three `Key` tags: `exec:xterm`,
`bogus` and `close`. -/
def keyTree : TokenNode :=
  .node (tag .TOK_JWM none "jwmrc" 1)
    (.node (tag .TOK_KEY (some "exec:xterm") "jwmrc" 2) .null
      (.node (tag .TOK_KEY (some "bogus") "jwmrc" 3) .null
        (.node (tag .TOK_KEY (some "close") "jwmrc" 4) .null .null)))
    .null

/-- An environment whose only file is `jwmrc`, with the tree `keyTree`. -/
def keyEnv : Env :=
  { emptyEnv with
    fopen := fun p => if p = "jwmrc" then some "" else none
    Tokenize := fun _ _ => keyTree }

/-- No `include` tag where the menu builder looks: along the chain of menu
children from `start`, and below every nested `menu` tag. -/
def menuIncludeFree : TokenNode → Bool
  | .null => true
  | .node d subnodeHead next =>
    (d.type != .TOK_INCLUDE) &&
    ((d.type != .TOK_MENU) || menuIncludeFree subnodeHead) &&
    menuIncludeFree next

/-- No menu-level include below any `RootMenu` tag of the chain of top-level
children from `tp`. -/
def rootMenusIncludeFree : TokenNode → Bool
  | .null => true
  | .node d subnodeHead next =>
    ((d.type != .TOK_ROOTMENU) || menuIncludeFree subnodeHead) &&
    rootMenusIncludeFree next

/-- No menu-level include in the tree of a configuration file with root
`start`. -/
def fileMenuIncludeFree : TokenNode → Bool
  | .null => true
  | .node _ subnodeHead _ => rootMenusIncludeFree subnodeHead

/-- A run that does not run out of fuel: it returns a result with the property
`P`, or it stops at a read through NULL. -/
def Terminates {α : Type} (P : α → Prop) : Except Err α → Prop
  | .ok a => P a
  | .error .fault => True
  | .error .fuel => False

/-- Every recorded invocation of `Parse` had a depth between 1 and
`MAX_INCLUDE_DEPTH`. -/
def DepthsOk (env : Env) (st : State) : Prop :=
  ∀ d ∈ st.parseDepths, 1 ≤ d ∧ d ≤ env.MAX_INCLUDE_DEPTH

/-- An environment with two files and `MAX_INCLUDE_DEPTH` 1: `jwmrc` includes
`more` and then sets the theme `blue`; `more` sets the theme `red`. -/
def depthEnv : Env :=
  { emptyEnv with
    MAX_INCLUDE_DEPTH := 1
    fopen := fun p => if p = "jwmrc" ∨ p = "more" then some p else none
    Tokenize := fun _ fileName =>
      if fileName = "jwmrc" then
        .node (tag .TOK_JWM none "jwmrc" 1)
          (.node (tag .TOK_INCLUDE (some "more") "jwmrc" 2) .null
            (.node (tag .TOK_THEME (some "blue") "jwmrc" 3) .null .null))
          .null
      else
        .node (tag .TOK_JWM none "more" 1)
          (.node (tag .TOK_THEME (some "red") "more" 2) .null .null)
          .null }

/-- An environment with `MAX_INCLUDE_DEPTH` 3 whose file `jwmrc` sets the theme
`x` and then includes itself. -/
def cycleEnv : Env :=
  { emptyEnv with
    MAX_INCLUDE_DEPTH := 3
    fopen := fun p => if p = "jwmrc" then some p else none
    Tokenize := fun _ _ =>
      .node (tag .TOK_JWM none "jwmrc" 1)
        (.node (tag .TOK_THEME (some "x") "jwmrc" 2) .null
          (.node (tag .TOK_INCLUDE (some "jwmrc") "jwmrc" 3) .null .null))
        .null }

/-- The name of the `k`-th file of a chain of nested includes: `k` letters
`a`. -/
def chainName (k : Nat) : String :=
  ⟨List.replicate k 'a'⟩

/-- The tree of the file `name` in a chain of `len` files: it sets the theme
`name` and then, unless it is the last file of the chain, includes the file
whose name is one letter longer. -/
def chainTree (len : Nat) (name : String) : TokenNode :=
  .node (tag .TOK_JWM none name 1)
    (.node (tag .TOK_THEME (some name) name 2) .null
      (if name.length < len then
        .node (tag .TOK_INCLUDE (some (name ++ "a")) name 3) .null .null
      else .null))
    .null

/-- An environment with `MAX_INCLUDE_DEPTH` `max` that holds a chain of `len`
nested files: the configuration file `a` is the first, and the file of `k`
letters includes the file of `k + 1` letters, up to `len` letters. -/
def chainEnv (max : Nat) (len : Nat) : Env :=
  { emptyEnv with
    MAX_INCLUDE_DEPTH := max
    fopen := fun p => some p
    Tokenize := fun _ fileName => chainTree len fileName }

/-- The calls the first `n` files of a chain make, from the file of `k`
letters on: each sets its own theme. -/
def chainThemes (k n : Nat) : List Effect :=
  (List.range n).map (fun i => Effect.SetTheme (some (chainName (k + i))))

/-- The depths `Parse` runs at for `n` nested files, the first at depth
`k`. -/
def chainDepths (k n : Nat) : List Int :=
  (List.range n).map (fun i => ((k + i : Nat) : Int))

/-- The tree a menu-level `include` node is replaced by: the root `mp` of the
included tree, when the file or command of `ParseMenuInclude` can be read and
`mp` is a `menu` tag; `none` when the include contributes nothing. -/
def includedMenu (env : Env) (tp : TokenData) : Option TokenNode :=
  match tp.value with
  | none => none
  | some value =>
    let path :=
      if strncmpEq value "exec:" 5 then env.ExpandPath (strOffset value 5)
      else env.ExpandPath value
    let buffer :=
      if strncmpEq value "exec:" 5 then env.popen path else env.fopen path
    match buffer with
    | none => none
    | some buffer =>
      match env.Tokenize buffer path with
      | .null => none
      | .node d subnodeHead next =>
        if d.type ≠ .TOK_MENU then none else some (.node d subnodeHead next)

/-- The menu-level includes met from the chain `start` on are all allowed by
`below`: `below` is asked about the root of every included menu. -/
def includesWithinAux (env : Env) (below : TokenNode → Bool) : TokenNode → Bool
  | .null => true
  | .node d subnodeHead next =>
    (match d.type with
     | .TOK_INCLUDE =>
       (match includedMenu env d with
        | some mp => below mp
        | none => true)
     | .TOK_MENU => includesWithinAux env below subnodeHead
     | _ => true) &&
    includesWithinAux env below next

/-- The menu-level includes met from the chain `start` on nest at most `k`
deep: an included menu may hold includes nested at most `k - 1` deep. -/
def includesWithin (env : Env) : Nat → TokenNode → Bool
  | 0 => includesWithinAux env (fun _ => false)
  | k + 1 => includesWithinAux env (includesWithin env k)

/-- A menu-level `include` of the file `menu.xml`. -/
def selfInclude : TokenNode :=
  .node (tag .TOK_INCLUDE (some "menu.xml") "menu.xml" 2) .null .null

/-- An environment whose file `menu.xml` is a menu that includes
`menu.xml`. -/
def selfEnv : Env :=
  { emptyEnv with
    fopen := fun p => if p = "menu.xml" then some p else none
    Tokenize := fun _ _ => .node (tag .TOK_MENU none "menu.xml" 1) selfInclude .null }

/-- An environment whose file `menu.xml` is a menu with one separator. -/
def sepEnv : Env :=
  { emptyEnv with
    MAX_INCLUDE_DEPTH := 0
    fopen := fun p => if p = "menu.xml" then some p else none
    Tokenize := fun _ _ =>
      .node (tag .TOK_MENU none "menu.xml" 1)
        (.node (tag .TOK_SEPARATOR none "menu.xml" 2) .null .null) .null }

/-- An empty menu without a label. -/
def emptyMenu : Menu :=
  .mk none 0 none []

/-- The members of an item without its link `next`. -/
def content (c : MenuItem) : MenuItem :=
  { c with next := none }

/-- The menu `M` is a well-formed list with cursor `last`: the head is the first
cell allocated, every cell is linked to the cell allocated after it, the cell
allocated last has no successor, and `last` points to it (all three are NULL
for a menu without cells). -/
def Linear (M : Menu) (last : Option Nat) : Prop :=
  M.items = (if M.cells.length = 0 then none else some 0) ∧
  last = (if M.cells.length = 0 then none else some (M.cells.length - 1)) ∧
  ∀ i c, M.cells[i]? = some c →
    c.next = if i + 1 < M.cells.length then some (i + 1) else none

/-- Two runs of the menu builder on the menus `M` and `N` behave alike: both
fail in the same way, or both return, with the same state, well-formed lists
and unchanged item heights, having appended items of the same contents. -/
def MenuSim (M N : Menu) (r1 r2 : MenuResult) : Prop :=
  match r1, r2 with
  | .ok a, .ok b =>
    a.2.2 = b.2.2 ∧ Linear a.2.1 a.1 ∧ Linear b.2.1 b.1 ∧
    a.2.1.itemHeight = M.itemHeight ∧ b.2.1.itemHeight = N.itemHeight ∧
    ∃ added : List MenuItem,
      a.2.1.cells.map content = M.cells.map content ++ added ∧
      b.2.1.cells.map content = N.cells.map content ++ added
  | .error e1, .error e2 => e1 = e2
  | _, _ => False

/-- The store `cells` after the assignment `last->next = item` of
`InsertMenuItem`, which is made when `last` is not NULL. -/
def linkLast (cells : List MenuItem) (last : Option Nat) (item : Nat) : List MenuItem :=
  match last with
  | some l => cells.modify (fun c => { c with next := some item }) l
  | none => cells

/-- The head pointer after `if(!menu->items) menu->items = item`. -/
def headOr (items : Option Nat) (item : Nat) : Option Nat :=
  match items with
  | none => some item
  | some h => some h

/-- The chain of siblings `a` followed by the chain `b`: the last node of `a`
gets the first node of `b` as its `next`. -/
def TokenNode.append : TokenNode → TokenNode → TokenNode
  | .null, b => b
  | .node d subnodeHead next, b => .node d subnodeHead (TokenNode.append next b)

/-- The tags `ParseMenuItem` has a case for; every other tag goes to
`InvalidTag`. -/
def isMenuTag : TokenType → Bool
  | .TOK_INCLUDE | .TOK_MENU | .TOK_PROGRAM | .TOK_SEPARATOR | .TOK_DESKTOPS
  | .TOK_STICK | .TOK_MAXIMIZE | .TOK_MINIMIZE | .TOK_SHADE | .TOK_MOVE
  | .TOK_RESIZE | .TOK_KILL | .TOK_CLOSE | .TOK_EXIT | .TOK_RESTART => true
  | _ => false

/-- The children of a menu with five children: a program, an include of
`menu.xml`, a tag that is not valid in a menu, a nested menu with one
program, and a separator. -/
def mixedMenu : TokenNode :=
  .node (tag .TOK_PROGRAM (some "xterm") "jwmrc" 2) .null
    (.node (tag .TOK_INCLUDE (some "menu.xml") "jwmrc" 3) .null
      (.node (tag .TOK_FONT none "jwmrc" 4) .null
        (.node (tag .TOK_MENU none "jwmrc" 5)
          (.node (tag .TOK_PROGRAM (some "xclock") "jwmrc" 6) .null .null)
          (.node (tag .TOK_SEPARATOR none "jwmrc" 8) .null .null))))

/-- The assignments of the `menu` case of `ParseMenuItem` to the new item,
before its submenu is built: the type, the name and the icon. -/
def submenuFill (start : TokenData) (c : MenuItem) : MenuItem :=
  { c with
    type := .MENU_ITEM_SUBMENU,
    name := CopyString (FindAttribute start.attributes LABEL_ATTRIBUTE),
    iconName := CopyString (FindAttribute start.attributes ICON_ATTRIBUTE) }

/-- The nine window-action tags: the case labels `ParseMenuItem` handles with
one shared case. -/
def isWindowActionTag : TokenType → Bool
  | .TOK_DESKTOPS | .TOK_STICK | .TOK_MAXIMIZE | .TOK_MINIMIZE | .TOK_SHADE
  | .TOK_MOVE | .TOK_RESIZE | .TOK_KILL | .TOK_CLOSE => true
  | _ => false

/-- A `program` node with the text `xterm` and the attribute
`label="Terminal"`. -/
def labelledProgram : TokenData :=
  { tag .TOK_PROGRAM (some "xterm") "jwmrc" 2 with
    attributes := [{ name := "label", value := some "Terminal" }] }

/-- The assignments of the `program` case of `ParseMenuItem` to the new item:
the name, the icon and the action. -/
def programFill (start : TokenData) (c : MenuItem) : MenuItem :=
  { c with
    name :=
      (match FindAttribute start.attributes LABEL_ATTRIBUTE with
       | some value => CopyString (some value)
       | none =>
         match start.value with
         | some v => CopyString (some v)
         | none => c.name),
    iconName := CopyString (FindAttribute start.attributes ICON_ATTRIBUTE),
    action := { type := .MA_EXECUTE, str := CopyString start.value } }

/-- The assignments of the window-action case of `ParseMenuItem` to the new
item: the name, the icon and the type of the action. -/
def windowFill (env : Env) (start : TokenData) (c : MenuItem) : MenuItem :=
  { c with
    name := labelOrTokenName env start,
    iconName := CopyString (FindAttribute start.attributes ICON_ATTRIBUTE),
    action := { c.action with type := windowAction start.type } }

/-- A `maximize` node without a label. -/
def maximizeTag : TokenData :=
  tag .TOK_MAXIMIZE none "jwmrc" 3

/-- The menu `ParseRootMenu` allocates for a `rootmenu` node, before its items
are parsed. -/
def rootMenu (env : Env) (start : TokenData) : Menu :=
  .mk
    (match FindAttribute start.attributes LABELED_ATTRIBUTE with
     | some value =>
       if strcmpEq value TRUE_VALUE then
         (match FindAttribute start.attributes LABEL_ATTRIBUTE with
          | some l => CopyString (some l)
          | none => CopyString (some DEFAULT_TITLE))
       else none
     | none => none)
    (match FindAttribute start.attributes HEIGHT_ATTRIBUTE with
     | some value => env.atoi value
     | none => 0)
    none []

/-- The chain `start`, and the children of its `menu` nodes at any depth, hold
`separator`, `program` and `menu` nodes only. -/
def simpleMenu : TokenNode → Bool
  | .null => true
  | .node d subnodeHead next =>
    (match d.type with
     | .TOK_SEPARATOR | .TOK_PROGRAM => true
     | .TOK_MENU => simpleMenu subnodeHead
     | _ => false) &&
    simpleMenu next

/-- The number of nodes of a chain of siblings. -/
def childCount : TokenNode → Nat
  | .null => 0
  | .node _ _ next => childCount next + 1

/-- The correspondence of claim C14 between a chain of children and a list of
items: as many items as children and, in order, a Separator item for a
`separator`, a Normal item with an Execute action for a `program`, a Submenu
item for a `menu`, whose submenu has a list that corresponds to the children
of the `menu` node in the same way. -/
def matchesItems : TokenNode → List MenuItem → Bool
  | .null, [] => true
  | .null, _ :: _ => false
  | .node _ _ _, [] => false
  | .node d subnodeHead next, i :: rest =>
    (match d.type with
     | .TOK_SEPARATOR => decide (i.type = .MENU_ITEM_SEPARATOR)
     | .TOK_PROGRAM =>
       decide (i.type = .MENU_ITEM_NORMAL) && decide (i.action.type = .MA_EXECUTE)
     | .TOK_MENU =>
       decide (i.type = .MENU_ITEM_SUBMENU) &&
       (match i.submenu with
        | some m => matchesItems subnodeHead m.itemList
        | none => false)
     | _ => false) &&
    matchesItems next rest

/-- The children of the round-trip menu of claim C14: a separator, a program
with a label, and a menu that holds one program. -/
def roundTripMenu : TokenNode :=
  .node (tag .TOK_SEPARATOR none "jwmrc" 3) .null
    (.node labelledProgram .null
      (.node (tag .TOK_MENU none "jwmrc" 5)
        (.node (tag .TOK_PROGRAM (some "xclock") "jwmrc" 6) .null .null) .null))

/-- The argument an `exit` node passes to `SetShowExitConfirmation`: 0 when
the lookup of `confirm` finds `"false"`, and 1 otherwise. -/
def exitConfirm (d : TokenData) : Int :=
  match FindAttribute d.attributes CONFIRM_ATTRIBUTE with
  | some value => if strcmpEq value FALSE_VALUE then 0 else 1
  | none => 1

/-- The `exit` nodes of the chain `start` in document order, depth first: those
of the children of a `menu` node stand in the place of that node, and those
of an included menu, which `below` lists, in the place of the include. -/
def exitTagsAux (env : Env) (below : TokenNode → List TokenData) :
    TokenNode → List TokenData
  | .null => []
  | .node d subnodeHead next =>
    (match d.type with
     | .TOK_INCLUDE =>
       (match includedMenu env d with
        | some mp => below mp
        | none => [])
     | .TOK_MENU => exitTagsAux env below subnodeHead
     | .TOK_EXIT => [d]
     | _ => []) ++
    exitTagsAux env below next

/-- The `exit` nodes the builder meets from the chain `start` on, in document
order, with `fuel` as in `ParseMenuItemFuel`. -/
def exitTags (env : Env) : Nat → TokenNode → List TokenData
  | 0 => fun _ => []
  | fuel + 1 => exitTagsAux env (exitTags env fuel)

/-- The argument of a call of `SetShowExitConfirmation`. -/
def exitCall : Effect → Option Int
  | .SetShowExitConfirmation v => some v
  | _ => none

/-- Modelled from the spec: the exit-confirmation flag of the module that owns
`SetShowExitConfirmation`, after the calls of `log`; a call of the setter
stores its argument, and `initial` is the flag before the first call. -/
def showExitConfirmation (initial : Int) (log : List Effect) : Int :=
  ((log.filterMap exitCall).getLast?).getD initial

/-- A menu with an `exit` that asks, a submenu with an `exit` that has
`confirm="false"`, and a program. -/
def exitMenu : TokenNode :=
  .node (tag .TOK_EXIT none "jwmrc" 2) .null
    (.node (tag .TOK_MENU none "jwmrc" 3)
      (.node { tag .TOK_EXIT none "jwmrc" 4 with
               attributes := [{ name := "confirm", value := some "false" }] } .null .null)
      (.node (tag .TOK_PROGRAM (some "xterm") "jwmrc" 6) .null .null))

/-- The state `st` with the calls `pre` before the calls of its log. -/
def State.prepend (pre : List Effect) (st : State) : State :=
  { st with log := pre ++ st.log }

/-- The result `r` of a menu-building call with the calls `pre` before the
calls of its log. -/
def prependMenu (pre : List Effect) (r : Option Nat × Menu × State) :
    Option Nat × Menu × State :=
  (r.1, r.2.1, r.2.2.prepend pre)

/-- The result `r` of `ParseFile` with the calls `pre` before the calls of its
log. -/
def prependFile (pre : List Effect) (r : Bool × State) : Bool × State :=
  (r.1, r.2.prepend pre)

/-- The tags `Parse` has a case for; a child of the `JWM` node with any other
tag goes to `InvalidTag`. -/
def isTopLevelTag : TokenType → Bool
  | .TOK_BORDERSTYLE | .TOK_DESKTOPS | .TOK_DOUBLECLICKSPEED | .TOK_DOUBLECLICKDELTA
  | .TOK_FOCUSMODEL | .TOK_GROUP | .TOK_ICONPATH | .TOK_INCLUDE | .TOK_KEY
  | .TOK_MENUSTYLE | .TOK_MOUSE | .TOK_MOVEMODE | .TOK_PAGERSTYLE | .TOK_POPUPSTYLE
  | .TOK_RESIZEMODE | .TOK_RESTARTCOMMAND | .TOK_ROOTMENU | .TOK_SHUTDOWNCOMMAND
  | .TOK_SNAPMODE | .TOK_STARTUPCOMMAND | .TOK_TASKLISTSTYLE | .TOK_TRAY | .TOK_TRAYSTYLE
  | .TOK_TRAYBUTTONSTYLE | .TOK_CLOCKSTYLE | .TOK_THEMEPATH | .TOK_THEME => true
  | _ => false

/-- A `JWM` root node. -/
def jwmRoot : TokenData :=
  tag .TOK_JWM none "jwmrc" 1

/-- A child of the root with a tag that is not valid at the top level. -/
def strayFont : TokenData :=
  tag .TOK_FONT none "jwmrc" 3

/-- An item is well formed: it owns a submenu exactly when its type is Submenu,
and its action is `MA_NONE` exactly when its type is Submenu or Separator. -/
def itemWellFormed (c : MenuItem) : Prop :=
  (c.submenu.isSome = true ↔ c.type = .MENU_ITEM_SUBMENU) ∧
  (c.action.type = .MA_NONE ↔
    (c.type = .MENU_ITEM_SUBMENU ∨ c.type = .MENU_ITEM_SEPARATOR))

/-- Every item of the menu, and of its submenus at any depth, is well
formed. -/
inductive WellFormedAll : Menu → Prop
  | mk (M : Menu) (items : ∀ c ∈ M.cells, itemWellFormed c)
      (below : ∀ c ∈ M.cells, ∀ m, c.submenu = some m → WellFormedAll m) : WellFormedAll M

/-- A menu with an include of `menu.xml` (see `sepEnv`), an `exit` and a
nested menu that holds a `restart`. -/
def variedMenu : TokenNode :=
  .node (tag .TOK_INCLUDE (some "menu.xml") "jwmrc" 2) .null
    (.node (tag .TOK_EXIT none "jwmrc" 3) .null
      (.node (tag .TOK_MENU none "jwmrc" 4)
        (.node (tag .TOK_RESTART none "jwmrc" 5) .null .null) .null))

/-- The nodes of a chain of siblings, in order. -/
def siblings : TokenNode → List TokenData
  | .null => []
  | .node d _ next => d :: siblings next

/-- The call claim C22 expects for the child `np` at position `x` of a
`desktops` node: the name setter for a `name` child, the diagnostic of
`InvalidTag` for any other. -/
def desktopCall (env : Env) (x : Nat) (np : TokenData) : Effect :=
  if np.type = .TOK_NAME then .SetDesktopName x np.value
  else .WarningVA (ParseErrorMsg (some np)) "invalid tag in %s: %s"
    [.str (some (env.GetTokenTypeName .TOK_DESKTOPS)), .str (some (env.GetTokenName np))]

/-- The calls claim C22 expects for the children of a `desktops` node with the
desktop count `c`: one for each of the first `c` children, positions counted
from `x`. -/
def desktopCalls (env : Env) (c x : Nat) (np : TokenNode) : List Effect :=
  (((siblings np).take (c - x)).enumFrom x).map (fun p => desktopCall env p.1 p.2)

/-- Three children of a `desktops` node: a name, a stray `font` and a name. -/
def desktopNames : TokenNode :=
  .node (tag .TOK_NAME (some "one") "jwmrc" 3) .null
    (.node (tag .TOK_FONT none "jwmrc" 4) .null
      (.node (tag .TOK_NAME (some "three") "jwmrc" 5) .null .null))

/-- The ten flag literals of claim C23 with the group options they stand
for. -/
def groupFlags : List (String × OptionType) :=
  [("sticky", .OPTION_STICKY), ("nolist", .OPTION_NOLIST), ("border", .OPTION_BORDER),
   ("noborder", .OPTION_NOBORDER), ("title", .OPTION_TITLE), ("notitle", .OPTION_NOTITLE),
   ("pignore", .OPTION_PIGNORE), ("maximized", .OPTION_MAXIMIZED),
   ("minimized", .OPTION_MINIMIZED), ("shaded", .OPTION_SHADED)]

/-- The three prefixes of claim C23 with the group options they stand for. -/
def groupPrefixes : List (String × OptionType) :=
  [("layer:", .OPTION_LAYER), ("desktop:", .OPTION_DESKTOP), ("icon:", .OPTION_ICON)]

/-- The valid child tags of each style section of claim C24, each with the
setter it stands for, a function of the text of the child. -/
def styleSetters : TokenType → List (TokenType × (Option String → Effect))
  | .TOK_BORDERSTYLE =>
    [(.TOK_FONT, .SetFont .FONT_BORDER), (.TOK_WIDTH, .SetBorderWidth),
     (.TOK_HEIGHT, .SetTitleHeight), (.TOK_FOREGROUND, .SetColor .COLOR_BORDER_FG),
     (.TOK_BACKGROUND, .SetColor .COLOR_BORDER_BG),
     (.TOK_ACTIVEFOREGROUND, .SetColor .COLOR_BORDER_ACTIVE_FG),
     (.TOK_ACTIVEBACKGROUND, .SetColor .COLOR_BORDER_ACTIVE_BG)]
  | .TOK_TASKLISTSTYLE =>
    [(.TOK_FONT, .SetFont .FONT_TASK), (.TOK_FOREGROUND, .SetColor .COLOR_TASK_FG),
     (.TOK_BACKGROUND, .SetColor .COLOR_TASK_BG),
     (.TOK_ACTIVEFOREGROUND, .SetColor .COLOR_TASK_ACTIVE_FG),
     (.TOK_ACTIVEBACKGROUND, .SetColor .COLOR_TASK_ACTIVE_BG)]
  | .TOK_TRAYSTYLE =>
    [(.TOK_FONT, .SetFont .FONT_TRAY), (.TOK_BACKGROUND, .SetColor .COLOR_TRAY_BG),
     (.TOK_FOREGROUND, .SetColor .COLOR_TRAY_FG)]
  | .TOK_PAGERSTYLE =>
    [(.TOK_OUTLINE, .SetColor .COLOR_PAGER_OUTLINE),
     (.TOK_FOREGROUND, .SetColor .COLOR_PAGER_FG),
     (.TOK_BACKGROUND, .SetColor .COLOR_PAGER_BG),
     (.TOK_ACTIVEFOREGROUND, .SetColor .COLOR_PAGER_ACTIVE_FG),
     (.TOK_ACTIVEBACKGROUND, .SetColor .COLOR_PAGER_ACTIVE_BG)]
  | .TOK_POPUPSTYLE =>
    [(.TOK_FONT, .SetFont .FONT_POPUP), (.TOK_OUTLINE, .SetColor .COLOR_POPUP_OUTLINE),
     (.TOK_FOREGROUND, .SetColor .COLOR_POPUP_FG),
     (.TOK_BACKGROUND, .SetColor .COLOR_POPUP_BG)]
  | .TOK_MENUSTYLE =>
    [(.TOK_FONT, .SetFont .FONT_MENU), (.TOK_FOREGROUND, .SetColor .COLOR_MENU_FG),
     (.TOK_BACKGROUND, .SetColor .COLOR_MENU_BG),
     (.TOK_ACTIVEFOREGROUND, .SetColor .COLOR_MENU_ACTIVE_FG),
     (.TOK_ACTIVEBACKGROUND, .SetColor .COLOR_MENU_ACTIVE_BG)]
  | .TOK_CLOCKSTYLE =>
    [(.TOK_FONT, .SetFont .FONT_CLOCK), (.TOK_FOREGROUND, .SetColor .COLOR_CLOCK_FG),
     (.TOK_BACKGROUND, .SetColor .COLOR_CLOCK_BG)]
  | .TOK_TRAYBUTTONSTYLE =>
    [(.TOK_FONT, .SetFont .FONT_TRAYBUTTON),
     (.TOK_FOREGROUND, .SetColor .COLOR_TRAYBUTTON_FG),
     (.TOK_BACKGROUND, .SetColor .COLOR_TRAYBUTTON_BG)]
  | _ => []

/-- The one call claim C24 expects for the child `np` of the style section
`parent`: the setter of its tag with the text of the child, or the
diagnostic of `InvalidTag` for that section when the tag is not valid
there. -/
def styleCall (env : Env) (parent : TokenType) (np : TokenData) : Effect :=
  match (styleSetters parent).lookup np.type with
  | some setter => setter np.value
  | none =>
    .WarningVA (ParseErrorMsg (some np)) "invalid tag in %s: %s"
      [.str (some (env.GetTokenTypeName parent)), .str (some (env.GetTokenName np))]

/-- Three children of a style section: a font, a stray `name` and a
background. -/
def styleChildren : TokenNode :=
  .node (tag .TOK_FONT (some "fixed") "jwmrc" 3) .null
    (.node (tag .TOK_NAME (some "x") "jwmrc" 4) .null
      (.node (tag .TOK_BACKGROUND (some "gray") "jwmrc" 5) .null .null))

/-- The tree of a configuration file with a group whose `option` child has no
text, followed by a theme. -/
def emptyOptionTree : TokenNode :=
  .node (tag .TOK_JWM none "jwmrc" 1)
    (.node (tag .TOK_GROUP none "jwmrc" 2)
      (.node (tag .TOK_OPTION none "jwmrc" 3) .null .null)
      (.node (tag .TOK_THEME (some "a") "jwmrc" 5) .null .null))
    .null

/-- An environment whose only file is `jwmrc`, with the tree
`emptyOptionTree`. -/
def emptyOptionEnv : Env :=
  { emptyEnv with
    fopen := fun p => if p = "jwmrc" then some "" else none
    Tokenize := fun _ _ => emptyOptionTree }

/-! ## The task bar (`taskbar.c`)

The list of task-bar nodes is a doubly linked list of `Node`s in a store whose
addresses are indices; `taskBarNodes` and `taskBarNodesTail` are the head and
the tail. A C loop `for(tp = taskBarNodes; tp; tp = tp->next)` is a recursion
on the pointer with fuel, run with one more than the size of the store, which
is enough for every list without a cycle. The `int` and `unsigned int`
computations are made in `Int` and `Nat`; the conversions between the two are
`toUnsigned` and `toInt`. -/

/-- Modelled from the spec: the `LayoutType` of `tray.h`, from the names used in
`taskbar.c`. -/
inductive LayoutType where
  | LAYOUT_HORIZONTAL
  | LAYOUT_VERTICAL
  deriving DecidableEq, Repr

/-- Modelled from the spec: the button types of `button.h` that `taskbar.c`
uses. -/
inductive ButtonType where
  | BUTTON_TASK
  | BUTTON_TASK_ACTIVE
  deriving DecidableEq, Repr

/-- Modelled from the spec: the members of a `ClientNode` (`client.h`) that
`taskbar.c` reads: the name, the icon, and the bits `STAT_ACTIVE`,
`STAT_FLASH` and `STAT_MINIMIZED` of `state.status`. -/
structure ClientNode where
  name : Option String
  icon : Nat
  active : Bool
  flash : Bool
  minimized : Bool
  deriving DecidableEq, Repr

/-- The `Node` of `taskbar.c`; `client` is the address of a `ClientNode`. -/
structure Node where
  client : Nat
  y : Int
  next : Option Nat
  prev : Option Nat
  deriving DecidableEq, Repr

/-- The members of a `TaskBarType` that the functions below read; `width` and
`requestedHeight` are `cp->width` and `cp->requestedHeight` of its tray
component. -/
structure TaskBarType where
  width : Int
  itemHeight : Int
  layout : LayoutType
  maxItemWidth : Nat
  requestedHeight : Int := 0
  deriving DecidableEq, Repr

/-- Modelled from the spec: the members of a `ButtonNode` (`button.h`) that
`Render` assigns before it calls `DrawButton`. -/
structure ButtonNode where
  font : FontType
  type : ButtonType
  width : Int
  height : Int
  x : Int
  y : Int
  icon : Nat
  text : Option String
  deriving DecidableEq, Repr

/-- What `taskbar.c` takes from other modules: the clients behind their
addresses, `ShouldFocus` of `client.c`, the flag `shouldExit`, `atoi`, and
`GetStringHeight` of `font.c`. -/
structure TaskEnv where
  client : Nat → ClientNode
  ShouldFocus : Nat → Bool
  shouldExit : Bool
  atoi : String → Int
  GetStringHeight : FontType → Int

/-- A call `taskbar.c` makes into another module; `SetRequestedHeight` is the
assignment to `cp->requestedHeight` of the tray component. -/
inductive TaskEffect where
  | ClearTrayDrawable
  | UpdateSpecificTray
  | ResetButton
  | DrawButton (button : ButtonNode)
  | JXSetForeground (color : ColorType)
  | JXDrawLine (x1 y1 x2 y2 : Int)
  | Warning (str : String) (value : String)
  | SetRequestedHeight (height : Int)
  | ResizeTray
  | UpdateNetClientList
  | RestoreClient (np : Nat) (raise : Int)
  | FocusClient (np : Nat)
  deriving DecidableEq, Repr

/-- The file-level variables `taskBarNodes` and `taskBarNodesTail`, and the
store of the nodes. -/
structure TaskState where
  store : List Node
  taskBarNodes : Option Nat
  taskBarNodesTail : Option Nat
  deriving DecidableEq, Repr

/-- The conversion of an `int` to `unsigned int`. -/
def toUnsigned (i : Int) : Nat :=
  (i % 4294967296).toNat

/-- The conversion of an `unsigned int` to `int` (two's complement). -/
def toInt (u : Nat) : Int :=
  if u % 4294967296 < 2147483648 then ((u % 4294967296 : Nat) : Int)
  else ((u % 4294967296 : Nat) : Int) - 4294967296

/-- The loop of `GetItemCount`, from the node `tp`. -/
def GetItemCountLoop (env : TaskEnv) (store : List Node) : Nat → Option Nat → Nat
  | 0, _ => 0
  | _ + 1, none => 0
  | fuel + 1, some p =>
    match store[p]? with
    | none => 0
    | some tp =>
      if env.ShouldFocus tp.client then GetItemCountLoop env store fuel tp.next + 1
      else GetItemCountLoop env store fuel tp.next

def GetItemCount (env : TaskEnv) (s : TaskState) : Nat :=
  GetItemCountLoop env s.store (s.store.length + 1) s.taskBarNodes

def GetItemWidth (bp : TaskBarType) (itemCount : Nat) : Nat :=
  let itemWidth := toUnsigned bp.width
  if itemCount = 0 then itemWidth
  else
    let itemWidth := itemWidth / itemCount
    let itemWidth := if itemWidth = 0 then 1 else itemWidth
    if bp.maxItemWidth > 0 ∧ itemWidth > bp.maxItemWidth then bp.maxItemWidth
    else itemWidth

/-- The function `SetMaxTaskBarItemWidth`, on the task bar `cp->object`: the
task bar it leaves and the calls it makes. -/
def SetMaxTaskBarItemWidth (env : TaskEnv) (bp : TaskBarType) (value : String) :
    TaskBarType × List TaskEffect :=
  let temp := env.atoi value
  if temp < 0 then (bp, [.Warning "invalid maxwidth for TaskList: %s" value])
  else ({ bp with maxItemWidth := toUnsigned temp }, [])

/-- The loop of the horizontal branch of `GetNode`, from the node `tp`, with
the current `index` and `remainder`. -/
def GetNodeLoopH (env : TaskEnv) (store : List Node) (itemWidth x : Int) :
    Nat → Option Nat → Int → Int → Option Nat
  | 0, _, _, _ => none
  | _ + 1, none, _, _ => none
  | fuel + 1, some p, index, remainder =>
    match store[p]? with
    | none => none
    | some tp =>
      if env.ShouldFocus tp.client then
        let stop := if remainder ≠ 0 then index + itemWidth + 1 else index + itemWidth
        let remainder := if remainder ≠ 0 then remainder - 1 else remainder
        if x ≥ index ∧ x < stop then some p
        else GetNodeLoopH env store itemWidth x fuel tp.next stop remainder
      else GetNodeLoopH env store itemWidth x fuel tp.next index remainder

/-- The loop of the vertical branch of `GetNode`. -/
def GetNodeLoopV (env : TaskEnv) (store : List Node) (itemHeight x : Int) :
    Nat → Option Nat → Int → Option Nat
  | 0, _, _ => none
  | _ + 1, none, _ => none
  | fuel + 1, some p, index =>
    match store[p]? with
    | none => none
    | some tp =>
      if env.ShouldFocus tp.client then
        let stop := index + itemHeight
        if x ≥ index ∧ x < stop then some p
        else GetNodeLoopV env store itemHeight x fuel tp.next stop
      else GetNodeLoopV env store itemHeight x fuel tp.next index

/-- The function `GetNode`: the address of the node it returns. In the
horizontal branch `itemCount` is `unsigned`, so the product and the difference
of `remainder` are taken in `unsigned int` and converted to `int`. -/
def GetNode (env : TaskEnv) (s : TaskState) (bar : TaskBarType) (x : Int) : Option Nat :=
  let index : Int := 0
  if bar.layout = .LAYOUT_HORIZONTAL then
    let width := bar.width - index
    let itemCount := GetItemCount env s
    let itemWidth := toInt (GetItemWidth bar itemCount)
    let remainder := toInt (toUnsigned (width - itemWidth * (itemCount : Int)))
    GetNodeLoopH env s.store itemWidth x (s.store.length + 1) s.taskBarNodes index remainder
  else
    GetNodeLoopV env s.store bar.itemHeight x (s.store.length + 1) s.taskBarNodes index

/-- The text `Render` gives the button of a client: the name, in brackets for
a minimized client. -/
def buttonText (c : ClientNode) : Option String :=
  if c.minimized then
    (match c.name with
     | some name => some ("[" ++ name ++ "]")
     | none => some "[]")
  else c.name

/-- The mark `Render` draws on the button of a minimized client: the lines
`i = 0 .. isize`. -/
def minimizedMark (bp : TaskBarType) (x : Int) : List TaskEffect :=
  let isize := (bp.itemHeight + 7).tdiv 8
  .JXSetForeground .COLOR_TASK_FG ::
    (List.range (isize + 1).toNat).map (fun i =>
      .JXDrawLine (x + i + 3) (bp.itemHeight - 3 - isize + i) (x + i + 3)
        (bp.itemHeight - 3))

/-- The loop of `Render`, from the node `tp`, with the current `x`, `y` and
`remainder`: the store it leaves (the assignments `tp->y = y` made) and the
calls it makes. -/
def RenderLoop (env : TaskEnv) (bp : TaskBarType) (itemWidth : Int) :
    Nat → Option Nat → Int → Int → Int → List Node → List Node × List TaskEffect
  | 0, _, _, _, _, store => (store, [])
  | _ + 1, none, _, _, _, store => (store, [])
  | fuel + 1, some p, x, y, remainder, store =>
    match store[p]? with
    | none => (store, [])
    | some tp =>
      if env.ShouldFocus tp.client then
        let store := store.modify (fun n => { n with y := y }) p
        let c := env.client tp.client
        let button : ButtonNode :=
          { font := .FONT_TASK,
            type := if c.active || c.flash then .BUTTON_TASK_ACTIVE else .BUTTON_TASK,
            width := if remainder ≠ 0 then itemWidth else itemWidth - 1,
            height := bp.itemHeight,
            x := x,
            y := y,
            icon := c.icon,
            text := buttonText c }
        let mark := if c.minimized then minimizedMark bp x else []
        let r :=
          if bp.layout = .LAYOUT_HORIZONTAL then
            RenderLoop env bp itemWidth fuel tp.next
              (if remainder ≠ 0 then x + itemWidth + 1 else x + itemWidth) y
              (if remainder ≠ 0 then remainder - 1 else remainder) store
          else
            RenderLoop env bp itemWidth fuel tp.next x
              (if remainder ≠ 0 then y + bp.itemHeight + 1 else y + bp.itemHeight)
              (if remainder ≠ 0 then remainder - 1 else remainder) store
        (r.1, .DrawButton button :: (mark ++ r.2))
      else RenderLoop env bp itemWidth fuel tp.next x y remainder store

/-- The function `Render`: the state it leaves and the calls it makes. Its
`itemCount` and `itemWidth` are `int`s. -/
def Render (env : TaskEnv) (s : TaskState) (bp : TaskBarType) :
    TaskState × List TaskEffect :=
  if env.shouldExit then (s, [])
  else
    let x : Int := 0
    let width := bp.width - x
    let y : Int := 0
    let itemCount := toInt (GetItemCount env s)
    if itemCount = 0 then (s, [.ClearTrayDrawable, .UpdateSpecificTray])
    else
      let itemWidth :=
        if bp.layout = .LAYOUT_HORIZONTAL then toInt (GetItemWidth bp (toUnsigned itemCount))
        else width
      let remainder :=
        if bp.layout = .LAYOUT_HORIZONTAL then width - itemWidth * itemCount else 0
      let r := RenderLoop env bp itemWidth (s.store.length + 1) s.taskBarNodes x y remainder
        s.store
      ({ s with store := r.1 },
        [.ClearTrayDrawable, .ResetButton] ++ r.2 ++ [.UpdateSpecificTray])

/-- The addresses of the nodes with a focusable client that the walk from `tp`
visits, in list order. -/
def focusNodes (env : TaskEnv) (store : List Node) : Nat → Option Nat → List Nat
  | 0, _ => []
  | _ + 1, none => []
  | fuel + 1, some p =>
    match store[p]? with
    | none => []
    | some tp =>
      if env.ShouldFocus tp.client then p :: focusNodes env store fuel tp.next
      else focusNodes env store fuel tp.next

/-- The buttons drawn by the calls of a log, in order. -/
def drawnButtons (log : List TaskEffect) : List ButtonNode :=
  log.filterMap (fun e => match e with
    | .DrawButton b => some b
    | _ => none)

/-- The coordinate along the task bar at which the button `b` is drawn: its
`x` in the horizontal layout, its `y` in the vertical layout. -/
def hitLo (layout : LayoutType) (b : ButtonNode) : Int :=
  if layout = .LAYOUT_HORIZONTAL then b.x else b.y

/-- The coordinate along the task bar just after the button `b` and, in the
horizontal layout, the one pixel that follows it. -/
def hitHi (layout : LayoutType) (b : ButtonNode) : Int :=
  if layout = .LAYOUT_HORIZONTAL then b.x + b.width + 1 else b.y + b.height

/-- The coordinate `c` lies from `hitLo` up to, not including, `hitHi` of the
button `b`. -/
def hitIn (layout : LayoutType) (c : Int) (b : ButtonNode) : Bool :=
  decide (hitLo layout b ≤ c ∧ c < hitHi layout b)

/-- The addresses of the nodes with a focusable client, in list order. -/
def focusList (env : TaskEnv) (s : TaskState) : List Nat :=
  focusNodes env s.store (s.store.length + 1) s.taskBarNodes

/-- The buttons drawn by `Render`, in order. -/
def renderButtons (env : TaskEnv) (s : TaskState) (bp : TaskBarType) : List ButtonNode :=
  drawnButtons (Render env s bp).2

/-- A task bar environment: client `2` is not shown on the task bar, client `0`
is active, client `1` is minimized. -/
def barEnv : TaskEnv :=
  { client := fun i =>
      { name := some "term", icon := 0, active := i == 0, flash := false, minimized := i == 1 },
    ShouldFocus := fun i => i != 2,
    shouldExit := false,
    atoi := fun _ => 0,
    GetStringHeight := fun _ => 12 }

/-- A task bar list of four nodes for the clients `0`, `1`, `2`, `3`. -/
def barState : TaskState :=
  { store :=
      [{ client := 0, y := 0, next := some 1, prev := none },
       { client := 1, y := 0, next := some 2, prev := some 0 },
       { client := 2, y := 0, next := some 3, prev := some 1 },
       { client := 3, y := 0, next := none, prev := some 2 }],
    taskBarNodes := some 0,
    taskBarNodesTail := some 3 }

/-- A horizontal task bar of `100` pixels, without a maximum item width. -/
def barH : TaskBarType :=
  { width := 100, itemHeight := 20, layout := .LAYOUT_HORIZONTAL, maxItemWidth := 0 }

/-- The C function `strlen`: the number of bytes of the string before its
terminator. -/
def strlen (s : String) : Nat :=
  s.utf8ByteSize

/-- The number of bytes `ParseError` allocates for the prefix of a node:
`strlen(FILE_MESSAGE) + strlen(tp->fileName) + 1`. -/
def ParseErrorAllocated (tp : TokenData) : Nat :=
  strlen "%s[%d]" + strlen tp.fileName + 1

/-- The number of bytes `sprintf(msg, FILE_MESSAGE, tp->fileName, tp->line)`
writes to `msg`: the formatted text and the terminator. -/
def ParseErrorWritten (tp : TokenData) : Nat :=
  strlen (ParseErrorMsg (some tp)) + 1

/-- An environment whose primary file `jwmrc` opens and has a `Font` tag as its
root, and whose every other file, the system configuration included, opens
and sets a theme. -/
def strayEnv : Env :=
  { emptyEnv with
    fopen := fun _ => some "",
    Tokenize := fun _ fileName =>
      if fileName = "jwmrc" then .node strayFont .null .null
      else .node jwmRoot (.node (tag .TOK_THEME (some "a") fileName 2) .null .null) .null }

/-- The start of the `k`-th hit interval as the claim describes the partition
of a bar of width `w` among `n` items: the first `w mod n` intervals have the
width `w / n + 1` and the others `w / n`. -/
def specHitStart (w n k : Nat) : Nat :=
  k * (w / n) + min k (w % n)

/-- Modelled from the spec: the insert modes of `settings.h`. `taskbar.c` names
`INSERT_RIGHT` only and treats every other mode alike. -/
inductive InsertModeType where
  | INSERT_LEFT
  | INSERT_RIGHT
  deriving DecidableEq, Repr

/-- The function `InitializeTaskBar`: no node is allocated and both list
pointers are NULL. -/
def InitializeTaskBar : TaskState :=
  { store := [], taskBarNodes := none, taskBarNodesTail := none }

/-- The loop of `UpdateTaskBar` over the task bars `bars`. For a vertical bar
the new `cp->requestedHeight` is computed (the product with the `unsigned`
item count taken in `unsigned int`) and `ResizeTray` is called when it
differs from the former one; what `ResizeTray` then changes in the tray
component is outside this model, and `Render` is given the bar as it was. -/
def UpdateTaskBarLoop (env : TaskEnv) :
    List TaskBarType → TaskState → TaskState × List TaskEffect
  | [], s => (s, [])
  | bp :: rest, s =>
    let resize : List TaskEffect :=
      if bp.layout = .LAYOUT_VERTICAL then
        let lastHeight := bp.requestedHeight
        let requestedHeight := env.GetStringHeight .FONT_TASK + 12
        let requestedHeight := toInt (toUnsigned requestedHeight * GetItemCount env s)
        let requestedHeight := requestedHeight + 2
        if lastHeight ≠ requestedHeight then [.SetRequestedHeight requestedHeight, .ResizeTray]
        else [.SetRequestedHeight requestedHeight]
      else []
    let r := Render env s bp
    let q := UpdateTaskBarLoop env rest r.1
    (q.1, resize ++ r.2 ++ q.2)

/-- The function `UpdateTaskBar`, for the task bars `bars`. -/
def UpdateTaskBar (env : TaskEnv) (bars : List TaskBarType) (s : TaskState) :
    TaskState × List TaskEffect :=
  if env.shouldExit then (s, [])
  else UpdateTaskBarLoop env bars s

/-- The list manipulation of `AddClientToTaskBar`. `Allocate` returns the
address after the store; `junk` is what the node's `y`, which is not
assigned, holds. -/
def addNode (taskInsertMode : InsertModeType) (junk : Int) (np : Nat) (s : TaskState) :
    TaskState :=
  let tp := s.store.length
  if taskInsertMode = .INSERT_RIGHT then
    let store := s.store ++ [{ client := np, y := junk, next := none,
                               prev := s.taskBarNodesTail }]
    match s.taskBarNodesTail with
    | some tail =>
      { store := store.modify (fun n => { n with next := some tp }) tail,
        taskBarNodes := s.taskBarNodes,
        taskBarNodesTail := some tp }
    | none =>
      { store := store, taskBarNodes := some tp, taskBarNodesTail := some tp }
  else
    let store := s.store ++ [{ client := np, y := junk, next := s.taskBarNodes,
                               prev := none }]
    match s.taskBarNodes with
    | some head =>
      { store := store.modify (fun n => { n with prev := some tp }) head,
        taskBarNodes := some tp,
        taskBarNodesTail :=
          match s.taskBarNodesTail with
          | some tail => some tail
          | none => some tp }
    | none =>
      { store := store,
        taskBarNodes := some tp,
        taskBarNodesTail :=
          match s.taskBarNodesTail with
          | some tail => some tail
          | none => some tp }

/-- The function `AddClientToTaskBar`, with `settings.taskInsertMode` and the
task bars as arguments. -/
def AddClientToTaskBar (env : TaskEnv) (taskInsertMode : InsertModeType) (junk : Int)
    (bars : List TaskBarType) (np : Nat) (s : TaskState) : TaskState × List TaskEffect :=
  let r := UpdateTaskBar env bars (addNode taskInsertMode junk np s)
  (r.1, r.2 ++ [.UpdateNetClientList])

/-- The search loop of `RemoveClientFromTaskBar`: the first node from `tp` on
whose client is `np`. -/
def findClient (store : List Node) (np : Nat) : Nat → Option Nat → Option Nat
  | 0, _ => none
  | _ + 1, none => none
  | fuel + 1, some p =>
    match store[p]? with
    | none => none
    | some tp => if tp.client = np then some p else findClient store np fuel tp.next

/-- The first `if` of the loop body of `RemoveClientFromTaskBar` for the node
`tp` found: the node before `tp`, or the head pointer, is linked to the node
after it. -/
def unlinkPrev (s : TaskState) (tp : Node) : TaskState :=
  match tp.prev with
  | some prev =>
    { s with store := s.store.modify (fun n => { n with next := tp.next }) prev }
  | none => { s with taskBarNodes := tp.next }

/-- The second `if` of the loop body: the node after `tp`, or the tail
pointer, is linked to the node before it. -/
def unlinkNext (s : TaskState) (tp : Node) : TaskState :=
  match tp.next with
  | some next =>
    { s with store := s.store.modify (fun n => { n with prev := tp.prev }) next }
  | none => { s with taskBarNodesTail := tp.prev }

/-- The body of the loop of `RemoveClientFromTaskBar` for the node `tp` found:
the node is unlinked. The released node stays in the store, out of use. -/
def unlinkNode (s : TaskState) (tp : Node) : TaskState :=
  unlinkNext (unlinkPrev s tp) tp

/-- The list manipulation of `RemoveClientFromTaskBar`. -/
def removeNode (np : Nat) (s : TaskState) : TaskState :=
  match findClient s.store np (s.store.length + 1) s.taskBarNodes with
  | none => s
  | some p =>
    match s.store[p]? with
    | none => s
    | some tp => unlinkNode s tp

/-- The function `RemoveClientFromTaskBar`. -/
def RemoveClientFromTaskBar (env : TaskEnv) (bars : List TaskBarType) (np : Nat)
    (s : TaskState) : TaskState × List TaskEffect :=
  let r := UpdateTaskBar env bars (removeNode np s)
  (r.1, r.2 ++ [.UpdateNetClientList])

/-- The addresses of the nodes that the walk along `next` from `tp` visits. -/
def nodeListFrom (store : List Node) : Nat → Option Nat → List Nat
  | 0, _ => []
  | _ + 1, none => []
  | fuel + 1, some p =>
    match store[p]? with
    | none => []
    | some tp => p :: nodeListFrom store fuel tp.next

/-- The addresses of the nodes that the walk along `prev` from `tp` visits. -/
def backListFrom (store : List Node) : Nat → Option Nat → List Nat
  | 0, _ => []
  | _ + 1, none => []
  | fuel + 1, some p =>
    match store[p]? with
    | none => []
    | some tp => p :: backListFrom store fuel tp.prev

/-- The nodes of the task bar list from the head along `next`. -/
def nodeList (s : TaskState) : List Nat :=
  nodeListFrom s.store (s.store.length + 1) s.taskBarNodes

/-- The nodes of the task bar list from the tail along `prev`. -/
def backList (s : TaskState) : List Nat :=
  backListFrom s.store (s.store.length + 1) s.taskBarNodesTail

/-- The client of the node at the address `p`. -/
def clientAt (s : TaskState) (p : Nat) : Option Nat :=
  (s.store[p]?).map Node.client

/-- The clients of the task bar list, from the head along `next`. -/
def clientList (s : TaskState) : List Nat :=
  (nodeList s).filterMap (clientAt s)

/-- The nodes at the addresses `l`, in this order, are a segment of a doubly
linked list: `first` points to the first of them (or is `after` when there is
none), `last` to the last of them (or is `before`), the `prev` of the first
node is `before`, the `next` of the last node is `after`, and between them
each node has the next one as `next` and the one before as `prev`. -/
def listSeg (store : List Node) :
    Option Nat → Option Nat → List Nat → Option Nat → Option Nat → Prop
  | first, before, [], last, after => first = after ∧ last = before
  | first, before, p :: rest, last, after =>
    first = some p ∧
      ∃ node, store[p]? = some node ∧ node.prev = before ∧
        listSeg store node.next (some p) rest last after

/-- The nodes at the addresses `l`, in this order, are the task bar list, well
formed: the addresses are distinct and they are a segment from
`taskBarNodes` to `taskBarNodesTail` with NULL before and after. -/
def IsList (s : TaskState) (l : List Nat) : Prop :=
  l.Nodup ∧ listSeg s.store s.taskBarNodes none l s.taskBarNodesTail none

/-- One change of the task bar list: a client added (with the insert mode in
force, the content of the fresh memory, and the environment and task bars at
that time) or a client removed. -/
inductive TaskOp where
  | add (env : TaskEnv) (taskInsertMode : InsertModeType) (junk : Int)
      (bars : List TaskBarType) (np : Nat)
  | remove (env : TaskEnv) (bars : List TaskBarType) (np : Nat)

/-- The state after one change. -/
def applyOp (s : TaskState) : TaskOp → TaskState
  | .add env taskInsertMode junk bars np =>
    (AddClientToTaskBar env taskInsertMode junk bars np s).1
  | .remove env bars np => (RemoveClientFromTaskBar env bars np s).1

/-- The state after a sequence of changes, from `InitializeTaskBar`. -/
def runOps (ops : List TaskOp) : TaskState :=
  ops.foldl applyOp InitializeTaskBar

/-- The two states have the same list pointers and as many nodes, and their
nodes have the same clients and links; they may differ in the `y` of nodes. -/
def SameLinks (s s' : TaskState) : Prop :=
  s'.taskBarNodes = s.taskBarNodes ∧ s'.taskBarNodesTail = s.taskBarNodesTail ∧
  s'.store.length = s.store.length ∧
  ∀ p : Nat, (s'.store[p]?).map (fun n : Node => (n.client, n.next, n.prev))
    = (s.store[p]?).map (fun n : Node => (n.client, n.next, n.prev))

/-- The first loop of `FocusNext`: the value of `tp` after it, which is the
`next` of the first node whose client is focusable and active, or NULL. -/
def FocusNextLoop (env : TaskEnv) (store : List Node) : Nat → Option Nat → Option Nat
  | 0, _ => none
  | _ + 1, none => none
  | fuel + 1, some p =>
    match store[p]? with
    | none => none
    | some tp =>
      if env.ShouldFocus tp.client then
        if (env.client tp.client).active then tp.next
        else FocusNextLoop env store fuel tp.next
      else FocusNextLoop env store fuel tp.next

/-- The loop `while(tp && !ShouldFocus(tp->client)) tp = tp->next` of
`FocusNext`: the value of `tp` after it. -/
def skipLoop (env : TaskEnv) (store : List Node) : Nat → Option Nat → Option Nat
  | 0, _ => none
  | _ + 1, none => none
  | fuel + 1, some p =>
    match store[p]? with
    | none => none
    | some tp =>
      if env.ShouldFocus tp.client then some p
      else skipLoop env store fuel tp.next

/-- The calls `RestoreClient(c, 1)` and `FocusClient(c)` for a client, none
for NULL. -/
def focusCalls : Option Nat → List TaskEffect
  | some c => [.RestoreClient c 1, .FocusClient c]
  | none => []

/-- The node `tp` that `FocusNext` ends with, after its loops. -/
def FocusNextNode (env : TaskEnv) (s : TaskState) : Option Nat :=
  let tp := FocusNextLoop env s.store (s.store.length + 1) s.taskBarNodes
  let tp := tp.or s.taskBarNodes
  let tp := skipLoop env s.store (s.store.length + 1) tp
  match tp with
  | none => skipLoop env s.store (s.store.length + 1) s.taskBarNodes
  | some p => some p

/-- The function `FocusNext`: the calls it makes for the client of the node it
ends with. -/
def FocusNext (env : TaskEnv) (s : TaskState) : List TaskEffect :=
  focusCalls ((FocusNextNode env s).bind (clientAt s))

/-- The client the claim says `FocusNext` focuses, for the clients `cs` of the
list in order: the first focusable client after the first client that is
focusable and active, wrapping around to the head of the list, or the first
focusable client when no client is focusable and active. -/
def specFocusNext (env : TaskEnv) (cs : List Nat) : Option Nat :=
  match cs.span (fun c => !(env.ShouldFocus c && (env.client c).active)) with
  | (pre, a :: post) => (post ++ pre ++ [a]).find? env.ShouldFocus
  | (_, []) => cs.find? env.ShouldFocus

/-- The function `ParseError` with the size of the buffer it allocates for the
prefix of a node: `sprintf` writes `ParseErrorWritten` bytes into the
`ParseErrorAllocated` bytes of `msg`, and writing past their end is a fault.
Within the allocation the result is that of `ParseError`; the copy of
`"configuration error"` that `CopyString` makes always fits. -/
def ParseErrorSized (tp : Option TokenData) (str : String) (args : List Arg)
    (st : State) : Except Err State :=
  match tp with
  | some d =>
    if ParseErrorWritten d ≤ ParseErrorAllocated d then
      .ok (st.emit (.WarningVA (ParseErrorMsg (some d)) str args))
    else .error .fault
  | none => .ok (st.emit (.WarningVA (ParseErrorMsg none) str args))

/-! ## Theorems -/

/-! ### Strings and logs -/

theorem strncmpEq_append (p s : String) : strncmpEq (p ++ s) p p.length = true := by
  unfold strncmpEq
  rw [String.data_append]
  show (List.take p.data.length (p.data ++ s.data) == List.take p.data.length p.data) = true
  rw [List.take_left', List.take_length]
  · simp
  · rfl

theorem strOffset_append (p s : String) : strOffset (p ++ s) p.length = s := by
  unfold strOffset
  rw [String.data_append]
  show String.mk (List.drop p.data.length (p.data ++ s.data)) = s
  rw [List.drop_left']
  rfl

theorem strncmpEq_split (a p : String) (h : strncmpEq a p p.length = true) :
    a = p ++ strOffset a p.length := by
  unfold strncmpEq at h
  have h1 : List.take p.length a.data = p.data := by
    have := eq_of_beq h
    rw [this]
    exact List.take_length (l := p.data)
  apply String.ext
  rw [String.data_append]
  show a.data = p.data ++ List.drop p.length a.data
  rw [← h1, List.take_append_drop]

theorem emit_inj (st : State) (e1 e2 : Effect) (h : st.emit e1 = st.emit e2) : e1 = e2 := by
  have := congrArg State.log h
  simpa [State.emit] using this

theorem FindAttribute_eq_find (l : List AttributeNode) (name : String) :
    FindAttribute l name = (l.find? (fun ap => name == ap.name)).bind AttributeNode.value := by
  induction l with
  | nil => rfl
  | cons ap rest ih =>
    by_cases h : (name == ap.name) = true
    · simp [FindAttribute, strcmpEq, List.find?, h]
    · simp [FindAttribute, strcmpEq, List.find?, h, ih]

/-! ### The key binding compiler -/

theorem lookupKey_mem (l : List (String × KeyType)) (a : String)
    (h : lookupKey l a ≠ .KEY_NONE) : (a, lookupKey l a) ∈ l := by
  induction l with
  | nil => simp [lookupKey] at h
  | cons e rest ih =>
    obtain ⟨name, key⟩ := e
    by_cases hc : (a == name) = true
    · have : a = name := eq_of_beq hc
      subst this
      simp [lookupKey, strcmpEq]
    · simp only [lookupKey, strcmpEq, hc] at h ⊢
      exact List.mem_cons_of_mem _ (ih h)

theorem KEY_MAP_entry (a : String) (k : KeyType) (h : (a, k) ∈ KEY_MAP) :
    lookupKey KEY_MAP a = k ∧ k ≠ .KEY_NONE ∧ k ≠ .KEY_EXEC ∧ k ≠ .KEY_ROOT ∧
      strncmpEq a "exec:" 5 = false ∧ strncmpEq a "root:" 5 = false := by
  have key : ∀ e ∈ KEY_MAP, lookupKey KEY_MAP e.1 = e.2 ∧ e.2 ≠ .KEY_NONE ∧
      e.2 ≠ .KEY_EXEC ∧ e.2 ≠ .KEY_ROOT ∧
      strncmpEq e.1 "exec:" 5 = false ∧ strncmpEq e.1 "root:" 5 = false := by
    decide
  exact key (a, k) h

theorem ParseKey_exec (tp : TokenData) (st : State) (s : String)
    (h : tp.value = some ("exec:" ++ s)) :
    ParseKey tp st = st.emit (.InsertBinding .KEY_EXEC
      (FindAttribute tp.attributes "mask") (FindAttribute tp.attributes "key")
      (FindAttribute tp.attributes "keycode") (some s)) := by
  have h1 : strncmpEq ("exec:" ++ s) "exec:" 5 = true := strncmpEq_append "exec:" s
  have h2 : strOffset ("exec:" ++ s) 5 = s := strOffset_append "exec:" s
  simp [ParseKey, h, h1, h2]

theorem ParseKey_root (tp : TokenData) (st : State) (s : String)
    (h : tp.value = some ("root:" ++ s)) :
    ParseKey tp st = st.emit (.InsertBinding .KEY_ROOT
      (FindAttribute tp.attributes "mask") (FindAttribute tp.attributes "key")
      (FindAttribute tp.attributes "keycode") (some s)) := by
  have h0 : strncmpEq ("root:" ++ s) "exec:" 5 = false := by
    unfold strncmpEq
    rw [String.data_append]
    simp
  have h1 : strncmpEq ("root:" ++ s) "root:" 5 = true := strncmpEq_append "root:" s
  have h2 : strOffset ("root:" ++ s) 5 = s := strOffset_append "root:" s
  simp [ParseKey, h, h0, h1, h2]

theorem ParseKey_table (tp : TokenData) (st : State) (a : String) (k : KeyType)
    (h : tp.value = some a) (hk : (a, k) ∈ KEY_MAP) :
    ParseKey tp st = st.emit (.InsertBinding k
      (FindAttribute tp.attributes "mask") (FindAttribute tp.attributes "key")
      (FindAttribute tp.attributes "keycode") none) := by
  obtain ⟨h1, h2, _, _, h5, h6⟩ := KEY_MAP_entry a k hk
  simp [ParseKey, h, h1, h2, h5, h6]

/-- The outcome of `ParseKey` in every case: what it appends to the log. -/
theorem ParseKey_cases (tp : TokenData) (st : State) :
    (tp.value = none ∧
      ParseKey tp st = ParseError (some tp) "no action specified for Key" [] st) ∨
    (∃ a, tp.value = some a ∧
      ((∃ s, a = "exec:" ++ s ∧ ParseKey tp st = st.emit (.InsertBinding .KEY_EXEC
          (FindAttribute tp.attributes "mask") (FindAttribute tp.attributes "key")
          (FindAttribute tp.attributes "keycode") (some s))) ∨
       (∃ s, a = "root:" ++ s ∧ ParseKey tp st = st.emit (.InsertBinding .KEY_ROOT
          (FindAttribute tp.attributes "mask") (FindAttribute tp.attributes "key")
          (FindAttribute tp.attributes "keycode") (some s))) ∨
       (∃ k, (a, k) ∈ KEY_MAP ∧ ParseKey tp st = st.emit (.InsertBinding k
          (FindAttribute tp.attributes "mask") (FindAttribute tp.attributes "key")
          (FindAttribute tp.attributes "keycode") none)) ∨
       ((¬ ∃ s, a = "exec:" ++ s) ∧ (¬ ∃ s, a = "root:" ++ s) ∧ (¬ ∃ k, (a, k) ∈ KEY_MAP) ∧
          ParseKey tp st =
            ParseError (some tp) "invalid Key action: \"%s\"" [.str (some a)] st))) := by
  cases hv : tp.value with
  | none => left; simp [ParseKey, hv]
  | some a =>
    right
    refine ⟨a, rfl, ?_⟩
    by_cases he : strncmpEq a "exec:" 5 = true
    · left
      have := strncmpEq_split a "exec:" he
      exact ⟨_, this, ParseKey_exec tp st _ (hv.trans (congrArg some this))⟩
    · by_cases hr : strncmpEq a "root:" 5 = true
      · right; left
        have := strncmpEq_split a "root:" hr
        exact ⟨_, this, ParseKey_root tp st _ (hv.trans (congrArg some this))⟩
      · right; right
        by_cases hk : lookupKey KEY_MAP a = .KEY_NONE
        · right
          refine ⟨?_, ?_, ?_, ?_⟩
          · rintro ⟨s, rfl⟩
            exact he (strncmpEq_append "exec:" s)
          · rintro ⟨s, rfl⟩
            exact hr (strncmpEq_append "root:" s)
          · rintro ⟨k, hm⟩
            obtain ⟨h1, h2, _⟩ := KEY_MAP_entry a k hm
            exact h2 (h1 ▸ hk)
          · simp [ParseKey, hv, he, hr, hk]
        · left
          exact ⟨_, lookupKey_mem _ _ hk, ParseKey_table tp st a _ hv (lookupKey_mem _ _ hk)⟩

/-! ### Bindings handed to the binding table -/

@[simp] theorem emit_log (st : State) (e : Effect) : (st.emit e).log = st.log ++ [e] := rfl

@[simp] theorem ParseError_log (tp : Option TokenData) (str : String) (args : List Arg)
    (st : State) :
    (ParseError tp str args st).log = st.log ++ [.WarningVA (ParseErrorMsg tp) str args] := rfl

@[simp] theorem InvalidTag_log (env : Env) (tp : TokenData) (parent : TokenType) (st : State) :
    (InvalidTag env tp parent st).log = st.log ++ [.WarningVA (ParseErrorMsg (some tp))
      "invalid tag in %s: %s"
      [.str (some (env.GetTokenTypeName parent)), .str (some (env.GetTokenName tp))]] := rfl

@[simp] theorem OkLog_append (l es : List Effect) :
    OkLog (l ++ es) ↔ OkLog l ∧ OkLog es := by
  simp [OkLog, or_imp, forall_and]

@[simp] theorem OkLog_cons (e : Effect) (es : List Effect) :
    OkLog (e :: es) ↔ bindingOk e ∧ OkLog es := by
  simp [OkLog]

@[simp] theorem OkLog_nil : OkLog [] := by
  simp [OkLog]

theorem ParseKey_ok (tp : TokenData) (st : State) (h : OkLog st.log) :
    OkLog (ParseKey tp st).log := by
  rcases ParseKey_cases tp st with ⟨_, e⟩ | ⟨a, _, ⟨s, _, e⟩ | ⟨s, _, e⟩ | ⟨k, hk, e⟩ | ⟨_, _, _, e⟩⟩
  all_goals rw [e]
  · simpa [bindingOk] using h
  · simpa [bindingOk] using h
  · simpa [bindingOk] using h
  · obtain ⟨_, h2, h3, h4, _⟩ := KEY_MAP_entry a k hk
    simpa [bindingOk, h2, h3, h4] using h
  · simpa [bindingOk] using h

theorem ParseFocusModel_ok (tp : TokenData) (st : State) (h : OkLog st.log) :
    OkLog (ParseFocusModel tp st).log := by
  unfold ParseFocusModel
  repeat' split
  all_goals simpa [bindingOk] using h

theorem ParseSnapMode_ok (tp : TokenData) (st : State) (h : OkLog st.log) :
    OkLog (ParseSnapMode tp st).log := by
  unfold ParseSnapMode
  repeat' split
  all_goals simpa [bindingOk] using h

theorem ParseMoveMode_ok (tp : TokenData) (st : State) (h : OkLog st.log) :
    OkLog (ParseMoveMode tp st).log := by
  unfold ParseMoveMode
  repeat' split
  all_goals simpa [bindingOk] using h

theorem ParseResizeMode_ok (tp : TokenData) (st : State) (h : OkLog st.log) :
    OkLog (ParseResizeMode tp st).log := by
  unfold ParseResizeMode
  repeat' split
  all_goals simpa [bindingOk] using h

theorem ParseBorderStyleLoop_ok (env : Env) (np : TokenNode) (st : State)
    (h : OkLog st.log) : OkLog (ParseBorderStyleLoop env np st).log := by
  induction np generalizing st with
  | null => exact h
  | node d sub next _ ih =>
    unfold ParseBorderStyleLoop
    apply ih
    split <;> simpa [bindingOk] using h

theorem ParseDesktopsLoop_ok (env : Env) (np : TokenNode) (x : Nat) (st : State)
    (h : OkLog st.log) : OkLog (ParseDesktopsLoop env np x st).log := by
  induction np generalizing st x with
  | null => exact h
  | node d sub next _ ih =>
    unfold ParseDesktopsLoop
    split
    · exact h
    · apply ih
      split <;> simpa [bindingOk] using h

theorem ParseDesktops_ok (env : Env) (tp : TokenData) (sub : TokenNode) (st : State)
    (h : OkLog st.log) : OkLog (ParseDesktops env tp sub st).log := by
  unfold ParseDesktops
  apply ParseDesktopsLoop_ok
  split <;> simpa [bindingOk] using h

theorem ParseTaskListStyleLoop_ok (env : Env) (np : TokenNode) (st : State)
    (h : OkLog st.log) : OkLog (ParseTaskListStyleLoop env np st).log := by
  induction np generalizing st with
  | null => exact h
  | node d sub next _ ih =>
    unfold ParseTaskListStyleLoop
    apply ih
    split <;> simpa [bindingOk] using h

theorem ParseTaskListStyle_ok (env : Env) (tp : TokenData) (sub : TokenNode) (st : State)
    (h : OkLog st.log) : OkLog (ParseTaskListStyle env tp sub st).log := by
  unfold ParseTaskListStyle
  apply ParseTaskListStyleLoop_ok
  split <;> simpa [bindingOk] using h

theorem ParseTrayStyleLoop_ok (env : Env) (np : TokenNode) (st : State)
    (h : OkLog st.log) : OkLog (ParseTrayStyleLoop env np st).log := by
  induction np generalizing st with
  | null => exact h
  | node d sub next _ ih =>
    unfold ParseTrayStyleLoop
    apply ih
    split <;> simpa [bindingOk] using h

theorem ParsePagerStyleLoop_ok (env : Env) (np : TokenNode) (st : State)
    (h : OkLog st.log) : OkLog (ParsePagerStyleLoop env np st).log := by
  induction np generalizing st with
  | null => exact h
  | node d sub next _ ih =>
    unfold ParsePagerStyleLoop
    apply ih
    split <;> simpa [bindingOk] using h

theorem ParsePopupStyleLoop_ok (env : Env) (np : TokenNode) (st : State)
    (h : OkLog st.log) : OkLog (ParsePopupStyleLoop env np st).log := by
  induction np generalizing st with
  | null => exact h
  | node d sub next _ ih =>
    unfold ParsePopupStyleLoop
    apply ih
    split <;> simpa [bindingOk] using h

theorem ParsePopupStyle_ok (env : Env) (tp : TokenData) (sub : TokenNode) (st : State)
    (h : OkLog st.log) : OkLog (ParsePopupStyle env tp sub st).log := by
  unfold ParsePopupStyle
  apply ParsePopupStyleLoop_ok
  repeat' split
  all_goals simpa [bindingOk] using h

theorem ParseMenuStyleLoop_ok (env : Env) (np : TokenNode) (st : State)
    (h : OkLog st.log) : OkLog (ParseMenuStyleLoop env np st).log := by
  induction np generalizing st with
  | null => exact h
  | node d sub next _ ih =>
    unfold ParseMenuStyleLoop
    apply ih
    split <;> simpa [bindingOk] using h

theorem ParseClockStyleLoop_ok (env : Env) (np : TokenNode) (st : State)
    (h : OkLog st.log) : OkLog (ParseClockStyleLoop env np st).log := by
  induction np generalizing st with
  | null => exact h
  | node d sub next _ ih =>
    unfold ParseClockStyleLoop
    apply ih
    split <;> simpa [bindingOk] using h

theorem ParseTrayButtonStyleLoop_ok (env : Env) (np : TokenNode) (st : State)
    (h : OkLog st.log) : OkLog (ParseTrayButtonStyleLoop env np st).log := by
  induction np generalizing st with
  | null => exact h
  | node d sub next _ ih =>
    unfold ParseTrayButtonStyleLoop
    apply ih
    split <;> simpa [bindingOk] using h

@[simp] theorem addComponent_log (tray : Nat) (st : State) :
    (addComponent tray st).log = st.log ++ [.AddTrayComponent tray st.components] := rfl

theorem whenSome_ok (attr : Option String) (f : String → Effect) (st : State)
    (hf : ∀ a, bindingOk (f a)) (h : OkLog st.log) : OkLog (whenSome attr f st).log := by
  unfold whenSome
  split
  · simpa [hf] using h
  · exact h

theorem ParseTrayLoop_ok (env : Env) (tray : Nat) (np : TokenNode) (st : State)
    (h : OkLog st.log) : OkLog (ParseTrayLoop env tray np st).log := by
  induction np generalizing st with
  | null => exact h
  | node d sub next _ ih =>
    unfold ParseTrayLoop
    apply ih
    split
    · simpa [ParsePager, bindingOk] using h
    · simp only [ParseTaskList]
      repeat' split
      all_goals simpa [bindingOk] using h
    · simp only [ParseSwallow]
      repeat' split
      all_goals simpa [bindingOk] using h
    · simp only [ParseTrayButton]
      repeat' split
      all_goals simpa [bindingOk] using h
    · simp only [ParseClock]
      repeat' split
      all_goals simpa [bindingOk] using h
    · simp only [ParseDock]
      repeat' split
      all_goals simpa [bindingOk] using h
    · simpa [bindingOk] using h

theorem ParseTray_ok (env : Env) (tp : TokenData) (sub : TokenNode) (st : State)
    (h : OkLog st.log) : OkLog (ParseTray env tp sub st).log := by
  unfold ParseTray
  apply ParseTrayLoop_ok
  apply whenSome_ok _ _ _ (by intro a; simp [bindingOk])
  apply whenSome_ok _ _ _ (by intro a; simp [bindingOk])
  simp only [emit_log, OkLog_append, OkLog_cons, OkLog_nil, bindingOk, and_true]
  apply whenSome_ok _ _ _ (by intro a; simp [bindingOk])
  apply whenSome_ok _ _ _ (by intro a; simp [bindingOk])
  apply whenSome_ok _ _ _ (by intro a; simp [bindingOk])
  apply whenSome_ok _ _ _ (by intro a; simp [bindingOk])
  repeat' split
  all_goals simpa [bindingOk] using h

theorem OkLog_ite (c : Prop) [Decidable c] (a b : State) (ha : OkLog a.log)
    (hb : OkLog b.log) : OkLog (if c then a else b).log := by
  split <;> assumption

theorem ParseGroupOptionBody_ok (tp : TokenData) (group : Nat) (o : String)
    (st : State) (h : OkLog st.log) : OkLog (ParseGroupOptionBody tp group o st).log := by
  unfold ParseGroupOptionBody
  repeat' apply OkLog_ite
  all_goals simp only [emit_log, ParseError_log, OkLog_append, OkLog_cons, OkLog_nil,
    bindingOk, and_true]
  all_goals exact h

theorem ParseGroupOption_ok (tp : TokenData) (group : Nat) (option : Option String)
    (st st1 : State) (h : OkLog st.log) (hr : ParseGroupOption tp group option st = .ok st1) :
    OkLog st1.log := by
  cases option with
  | none => exact absurd hr (by simp [ParseGroupOption])
  | some o =>
    simp only [ParseGroupOption] at hr
    injection hr with hr
    exact hr ▸ ParseGroupOptionBody_ok tp group o st h

theorem ParseGroupLoop_ok (env : Env) (group : Nat) (np : TokenNode) (st st1 : State)
    (h : OkLog st.log) (hr : ParseGroupLoop env group np st = .ok st1) :
    OkLog st1.log := by
  induction np generalizing st with
  | null =>
    simp only [ParseGroupLoop] at hr
    injection hr with hr
    exact hr ▸ h
  | node d sub next _ ih =>
    simp only [ParseGroupLoop] at hr
    split at hr
    · simp at hr
    · rename_i st2 heq
      refine ih st2 ?_ hr
      split at heq
      · injection heq with heq
        subst heq
        simpa [bindingOk] using h
      · injection heq with heq
        subst heq
        simpa [bindingOk] using h
      · exact ParseGroupOption_ok _ _ _ _ _ h heq
      · injection heq with heq
        subst heq
        simpa [bindingOk] using h

theorem ParseGroup_ok (env : Env) (tp : TokenData) (sub : TokenNode) (st st1 : State)
    (h : OkLog st.log) (hr : ParseGroup env tp sub st = .ok st1) : OkLog st1.log := by
  unfold ParseGroup at hr
  refine ParseGroupLoop_ok _ _ _ _ _ ?_ hr
  simpa [bindingOk] using h

theorem ParseMenuItem_ok (env : Env)
    (inc : TokenData → Menu → Option Nat → State → MenuResult)
    (hinc : ∀ tp M l st r, OkLog st.log → inc tp M l st = .ok r → OkLog r.2.2.log)
    (start : TokenNode) (M : Menu) (l : Option Nat) (st : State)
    (r : Option Nat × Menu × State) (h : OkLog st.log)
    (hr : ParseMenuItem env inc start M l st = .ok r) : OkLog r.2.2.log := by
  induction start generalizing M l st r with
  | null =>
    simp only [ParseMenuItem] at hr
    injection hr with hr
    exact hr ▸ h
  | node d sub next ihs ihn =>
    simp only [ParseMenuItem] at hr
    split at hr
    · split at hr
      · exact absurd hr (by simp)
      · rename_i r1 heq
        exact ihn _ _ _ _ (hinc _ _ _ _ _ h heq) hr
    · split at hr
      · exact absurd hr (by simp)
      · rename_i c heq
        exact ihn _ _ _ _ (ihs _ _ _ _ h heq) hr
    all_goals first
      | exact ihn _ _ _ _ h hr
      | (refine ihn _ _ _ _ ?_ hr
         repeat' split
         all_goals simpa [bindingOk] using h)

theorem ParseMenuInclude_ok (env : Env)
    (rec : TokenNode → Menu → Option Nat → State → MenuResult)
    (hrec : ∀ t M l st r, OkLog st.log → rec t M l st = .ok r → OkLog r.2.2.log)
    (tp : TokenData) (M : Menu) (l : Option Nat) (st : State)
    (r : Option Nat × Menu × State) (h : OkLog st.log)
    (hr : ParseMenuInclude env rec tp M l st = .ok r) : OkLog r.2.2.log := by
  unfold ParseMenuInclude at hr
  split at hr
  · exact absurd hr (by simp)
  · simp only at hr
    split at hr
    · injection hr with hr
      subst hr
      split <;> simpa [bindingOk] using h
    · split at hr
      · injection hr with hr
        subst hr
        simpa [bindingOk] using h
      · split at hr
        · injection hr with hr
          subst hr
          simpa [bindingOk] using h
        · exact hrec _ _ _ _ _ h hr

theorem ParseMenuItemFuel_ok (env : Env) (fuel : Nat) (start : TokenNode) (M : Menu)
    (l : Option Nat) (st : State) (r : Option Nat × Menu × State) (h : OkLog st.log)
    (hr : ParseMenuItemFuel env fuel start M l st = .ok r) : OkLog r.2.2.log := by
  induction fuel generalizing start M l st r with
  | zero => exact absurd hr (by simp [ParseMenuItemFuel])
  | succ n ih =>
    simp only [ParseMenuItemFuel] at hr
    refine ParseMenuItem_ok env _ ?_ start M l st r h hr
    intro tp M1 l1 st1 r1 h1 hr1
    exact ParseMenuInclude_ok env _ (fun t M2 l2 st2 r2 h2 hr2 => ih t M2 l2 st2 r2 h2 hr2)
      tp M1 l1 st1 r1 h1 hr1

theorem ParseRootMenu_ok (env : Env)
    (mb : TokenNode → Menu → Option Nat → State → MenuResult)
    (hmb : ∀ t M l st r, OkLog st.log → mb t M l st = .ok r → OkLog r.2.2.log)
    (start : TokenData) (sub : TokenNode) (st st1 : State) (h : OkLog st.log)
    (hr : ParseRootMenu env mb start sub st = .ok st1) : OkLog st1.log := by
  simp only [ParseRootMenu] at hr
  split at hr
  · exact absurd hr (by simp)
  · rename_i r heq
    injection hr with hr
    subst hr
    have := hmb _ _ _ _ _ h heq
    simpa [bindingOk] using this

theorem ParseInclude_ok (env : Env)
    (pf : Option String → Int → State → Except Err (Bool × State))
    (hpf : ∀ f d st r, OkLog st.log → pf f d st = .ok r → OkLog r.2.log)
    (tp : TokenData) (depth : Int) (st st1 : State) (h : OkLog st.log)
    (hr : ParseInclude env pf tp depth st = .ok st1) : OkLog st1.log := by
  simp only [ParseInclude] at hr
  split at hr
  · exact absurd hr (by simp)
  · rename_i r heq
    have := hpf _ _ _ _ h heq
    split at hr
    · injection hr with hr
      exact hr ▸ this
    · injection hr with hr
      subst hr
      simpa [bindingOk] using this

theorem ParseLoop_ok (env : Env)
    (mb : TokenNode → Menu → Option Nat → State → MenuResult)
    (pf : Option String → Int → State → Except Err (Bool × State))
    (hmb : ∀ t M l st r, OkLog st.log → mb t M l st = .ok r → OkLog r.2.2.log)
    (hpf : ∀ f d st r, OkLog st.log → pf f d st = .ok r → OkLog r.2.log)
    (tp : TokenNode) (depth : Int) (st st1 : State) (h : OkLog st.log)
    (hr : ParseLoop env mb pf tp depth st = .ok st1) : OkLog st1.log := by
  induction tp generalizing st with
  | null =>
    simp only [ParseLoop] at hr
    injection hr with hr
    exact hr ▸ h
  | node d sub next _ ih =>
    simp only [ParseLoop] at hr
    split at hr
    · exact absurd hr (by simp)
    · rename_i st2 heq
      refine ih st2 ?_ hr
      split at heq
      all_goals first
        | exact ParseGroup_ok _ _ _ _ _ h heq
        | exact ParseInclude_ok _ _ hpf _ _ _ _ h heq
        | exact ParseRootMenu_ok _ _ hmb _ _ _ _ h heq
        | (injection heq with heq
           subst heq
           first
             | exact ParseBorderStyleLoop_ok _ _ _ h
             | exact ParseDesktops_ok _ _ _ _ h
             | exact ParseFocusModel_ok _ _ h
             | exact ParseKey_ok _ _ h
             | exact ParseMenuStyleLoop_ok _ _ _ h
             | exact h
             | exact ParseMoveMode_ok _ _ h
             | exact ParsePagerStyleLoop_ok _ _ _ h
             | exact ParsePopupStyle_ok _ _ _ _ h
             | exact ParseResizeMode_ok _ _ h
             | exact ParseSnapMode_ok _ _ h
             | exact ParseTaskListStyle_ok _ _ _ _ h
             | exact ParseTray_ok _ _ _ _ h
             | exact ParseTrayStyleLoop_ok _ _ _ h
             | exact ParseTrayButtonStyleLoop_ok _ _ _ h
             | exact ParseClockStyleLoop_ok _ _ _ h
             | simpa [bindingOk] using h)

theorem Parse_ok (env : Env)
    (mb : TokenNode → Menu → Option Nat → State → MenuResult)
    (pf : Option String → Int → State → Except Err (Bool × State))
    (hmb : ∀ t M l st r, OkLog st.log → mb t M l st = .ok r → OkLog r.2.2.log)
    (hpf : ∀ f d st r, OkLog st.log → pf f d st = .ok r → OkLog r.2.log)
    (start : TokenNode) (depth : Int) (st st1 : State) (h : OkLog st.log)
    (hr : Parse env mb pf start depth st = .ok st1) : OkLog st1.log := by
  simp only [Parse] at hr
  split at hr
  · injection hr with hr
    exact hr ▸ h
  · split at hr
    · exact ParseLoop_ok env mb pf hmb hpf _ _ _ _ (by exact h) hr
    · injection hr with hr
      subst hr
      simpa [bindingOk] using h

theorem ParseFile_ok (env : Env)
    (parse : TokenNode → Int → State → Except Err State)
    (hp : ∀ t d st st1, OkLog st.log → parse t d st = .ok st1 → OkLog st1.log)
    (fileName : Option String) (depth : Int) (st : State) (r : Bool × State)
    (h : OkLog st.log) (hr : ParseFile env parse fileName depth st = .ok r) :
    OkLog r.2.log := by
  simp only [ParseFile] at hr
  split at hr
  · injection hr with hr
    subst hr
    simpa [bindingOk] using h
  · split at hr
    · exact absurd hr (by simp)
    · split at hr
      · injection hr with hr
        exact hr ▸ h
      · split at hr
        · exact absurd hr (by simp)
        · rename_i st2 heq
          injection hr with hr
          exact hr ▸ hp _ _ _ _ h heq

theorem ParseFileFuel_ok (env : Env) (mfuel fuel : Nat) (fileName : Option String)
    (depth : Int) (st : State) (r : Bool × State) (h : OkLog st.log)
    (hr : ParseFileFuel env mfuel fuel fileName depth st = .ok r) : OkLog r.2.log := by
  induction fuel generalizing fileName depth st r with
  | zero => exact absurd hr (by simp [ParseFileFuel])
  | succ n ih =>
    simp only [ParseFileFuel] at hr
    refine ParseFile_ok env _ ?_ fileName depth st r h hr
    intro t d st2 st3 h2 hr2
    exact Parse_ok env _ _ (fun t M l s r1 hs hr1 => ParseMenuItemFuel_ok env mfuel t M l s r1 hs hr1)
      (fun f d s r1 hs hr1 => ih f d s r1 hs hr1) t d st2 st3 h2 hr2

theorem ParseConfig_ok (env : Env) (mfuel fuel : Nat) (fileName : String)
    (st st1 : State) (h : OkLog st.log)
    (hr : ParseConfig env mfuel fuel fileName st = .ok st1) : OkLog st1.log := by
  simp only [ParseConfig] at hr
  split at hr
  · exact absurd hr (by simp)
  · rename_i r heq
    have h1 := ParseFileFuel_ok env mfuel fuel _ _ _ _ h heq
    split at hr
    · exact absurd hr (by simp)
    · rename_i st2 heq2
      injection hr with hr
      subst hr
      have h2 : OkLog st2.log := by
        split at heq2
        · injection heq2 with heq2
          exact heq2 ▸ h1
        · split at heq2
          · exact absurd heq2 (by simp)
          · rename_i q heq3
            have h3 := ParseFileFuel_ok env mfuel fuel _ _ _ _ h1 heq3
            split at heq2
            · injection heq2 with heq2
              exact heq2 ▸ h3
            · injection heq2 with heq2
              subst heq2
              simpa [bindingOk] using h3
      simpa [bindingOk] using h2

/-- C7: for every string `s` and every key node, the node with text `"exec:" ++ s`
makes `ParseKey` append exactly one call, `InsertBinding` with action `KEY_EXEC`
and command `s`, and the node with text `"root:" ++ s` exactly one
`InsertBinding` with action `KEY_ROOT` and command `s`; nothing else is
appended (no diagnostic), and the mask, key and keycode passed are the values
of the first attributes named `mask`, `key` and `keycode`. For the text
`"exec:firefox"` the command is `"firefox"`. -/
theorem C7_exec_root_binding (tp : TokenData) (st : State) (s : String) :
    ParseKey { tp with value := some ("exec:" ++ s) } st =
      st.emit (.InsertBinding .KEY_EXEC
        ((tp.attributes.find? (fun ap => "mask" == ap.name)).bind AttributeNode.value)
        ((tp.attributes.find? (fun ap => "key" == ap.name)).bind AttributeNode.value)
        ((tp.attributes.find? (fun ap => "keycode" == ap.name)).bind AttributeNode.value)
        (some s)) ∧
    ParseKey { tp with value := some ("root:" ++ s) } st =
      st.emit (.InsertBinding .KEY_ROOT
        ((tp.attributes.find? (fun ap => "mask" == ap.name)).bind AttributeNode.value)
        ((tp.attributes.find? (fun ap => "key" == ap.name)).bind AttributeNode.value)
        ((tp.attributes.find? (fun ap => "keycode" == ap.name)).bind AttributeNode.value)
        (some s)) ∧
    (ParseKey { tp with value := some "exec:firefox" } st).log =
      st.log ++ [.InsertBinding .KEY_EXEC
        (FindAttribute tp.attributes "mask") (FindAttribute tp.attributes "key")
        (FindAttribute tp.attributes "keycode") (some "firefox")] := by
  refine ⟨?_, ?_, ?_⟩
  · rw [ParseKey_exec _ st s rfl]
    simp only [FindAttribute_eq_find]
  · rw [ParseKey_root _ st s rfl]
    simp only [FindAttribute_eq_find]
  · rw [ParseKey_exec _ st "firefox" rfl]
    rfl

/-- C8: `ParseKey` appends an `InsertBinding` call if and only if the action text
is present and begins with `"exec:"`, begins with `"root:"`, or is exactly a
name of `KEY_MAP`; for a name of `KEY_MAP` the binding carries the key the
table gives that name; in every other case (no text, or a text such as
`"bogus"`) it appends exactly one `WarningVA` call and no binding. -/
theorem C8_binding_iff_resolvable (tp : TokenData) (st : State) :
    ((∃ k m ky c cmd, ParseKey tp st = st.emit (.InsertBinding k m ky c cmd)) ↔
      ∃ a, tp.value = some a ∧
        ((∃ s, a = "exec:" ++ s) ∨ (∃ s, a = "root:" ++ s) ∨ ∃ k, (a, k) ∈ KEY_MAP)) ∧
    (∀ a k, tp.value = some a → (a, k) ∈ KEY_MAP →
      ParseKey tp st = st.emit (.InsertBinding k
        (FindAttribute tp.attributes "mask") (FindAttribute tp.attributes "key")
        (FindAttribute tp.attributes "keycode") none)) ∧
    ((¬ ∃ a, tp.value = some a ∧
        ((∃ s, a = "exec:" ++ s) ∨ (∃ s, a = "root:" ++ s) ∨ ∃ k, (a, k) ∈ KEY_MAP)) →
      ∃ str args, ParseKey tp st = st.emit (.WarningVA (ParseErrorMsg (some tp)) str args)) ∧
    ParseKey { tp with value := some "bogus" } st =
      st.emit (.WarningVA (ParseErrorMsg (some { tp with value := some "bogus" }))
        "invalid Key action: \"%s\"" [.str (some "bogus")]) := by
  refine ⟨⟨?_, ?_⟩, ?_, ?_, ?_⟩
  · rintro ⟨k, m, ky, c, cmd, hb⟩
    rcases ParseKey_cases tp st with ⟨_, h⟩ | ⟨a, ha, h⟩
    · rw [h] at hb
      exact absurd (emit_inj _ _ _ hb) (by simp)
    · refine ⟨a, ha, ?_⟩
      rcases h with ⟨s, hs, _⟩ | ⟨s, hs, _⟩ | ⟨k2, hk, _⟩ | ⟨_, _, _, h⟩
      · exact Or.inl ⟨s, hs⟩
      · exact Or.inr (Or.inl ⟨s, hs⟩)
      · exact Or.inr (Or.inr ⟨k2, hk⟩)
      · rw [h] at hb
        exact absurd (emit_inj _ _ _ hb) (by simp)
  · rintro ⟨a, ha, ⟨s, rfl⟩ | ⟨s, rfl⟩ | ⟨k, hk⟩⟩
    · exact ⟨_, _, _, _, _, ParseKey_exec tp st s ha⟩
    · exact ⟨_, _, _, _, _, ParseKey_root tp st s ha⟩
    · exact ⟨_, _, _, _, _, ParseKey_table tp st a k ha hk⟩
  · intro a k ha hk
    exact ParseKey_table tp st a k ha hk
  · intro hn
    rcases ParseKey_cases tp st with ⟨_, h⟩ | ⟨a, ha, h⟩
    · exact ⟨_, _, h⟩
    · rcases h with ⟨s, hs, _⟩ | ⟨s, hs, _⟩ | ⟨k2, hk, _⟩ | ⟨_, _, _, h⟩
      · exact absurd ⟨a, ha, Or.inl ⟨s, hs⟩⟩ hn
      · exact absurd ⟨a, ha, Or.inr (Or.inl ⟨s, hs⟩)⟩ hn
      · exact absurd ⟨a, ha, Or.inr (Or.inr ⟨k2, hk⟩)⟩ hn
      · exact ⟨_, _, h⟩
  · rfl

/-- C8, at a concrete node: the text `"maximize"` is a name of `KEY_MAP`, so the
binding `KEY_MAX` is recorded. -/
theorem C8_binding_iff_resolvable_witness :
    ParseKey ⟨.TOK_KEY, none, some "maximize", [⟨"key", some "m"⟩], "jwmrc", 7⟩
        ⟨[], .FOCUS_SLOPPY, 4, 0, 0, 0, []⟩ =
      (⟨[], .FOCUS_SLOPPY, 4, 0, 0, 0, []⟩ : State).emit
        (.InsertBinding .KEY_MAX none (some "m") none none) :=
  (C8_binding_iff_resolvable ⟨.TOK_KEY, none, some "maximize", [⟨"key", some "m"⟩], "jwmrc", 7⟩
    ⟨[], .FOCUS_SLOPPY, 4, 0, 0, 0, []⟩).2.1 "maximize" .KEY_MAX rfl (by decide)

/-- C9 fails as stated: for the text `"desktop#2"` `ParseKey` records no binding;
the only call it makes is the invalid-action diagnostic. -/
theorem C9_desktop_suffix_counterexample :
    (ParseKey ⟨.TOK_KEY, none, some "desktop#2", [⟨"mask", some "A"⟩, ⟨"key", some "#"⟩],
        "jwmrc", 12⟩ ⟨[], .FOCUS_SLOPPY, 4, 0, 0, 0, []⟩).log =
      [.WarningVA "jwmrc[12]" "invalid Key action: \"%s\"" [.str (some "desktop#2")]] := by
  rfl

/-- C9, amended: a key node whose text is exactly `"desktop#"` (or exactly
`"desktop"`) makes `ParseKey` record one binding with action `KEY_DESKTOP` and
no command; a text `"desktop#"` followed by a non-empty suffix records no
binding and gives the invalid-action diagnostic. -/
theorem C9_desktop_exact (tp : TokenData) (st : State) :
    ParseKey { tp with value := some "desktop#" } st =
      st.emit (.InsertBinding .KEY_DESKTOP
        (FindAttribute tp.attributes "mask") (FindAttribute tp.attributes "key")
        (FindAttribute tp.attributes "keycode") none) ∧
    ParseKey { tp with value := some "desktop" } st =
      st.emit (.InsertBinding .KEY_DESKTOP
        (FindAttribute tp.attributes "mask") (FindAttribute tp.attributes "key")
        (FindAttribute tp.attributes "keycode") none) ∧
    ∀ s : String, s ≠ "" →
      ParseKey { tp with value := some ("desktop#" ++ s) } st =
        ParseError (some { tp with value := some ("desktop#" ++ s) })
          "invalid Key action: \"%s\"" [.str (some ("desktop#" ++ s))] st := by
  refine ⟨?_, ?_, ?_⟩
  · exact ParseKey_table _ st "desktop#" .KEY_DESKTOP rfl (by decide)
  · exact ParseKey_table _ st "desktop" .KEY_DESKTOP rfl (by decide)
  · intro s hs
    have hs' : s.data ≠ [] := fun h => hs (String.ext h)
    have h0 : strncmpEq ("desktop#" ++ s) "exec:" 5 = false := by
      unfold strncmpEq
      rw [String.data_append]
      simp
    have h1 : strncmpEq ("desktop#" ++ s) "root:" 5 = false := by
      unfold strncmpEq
      rw [String.data_append]
      simp
    have h2 : lookupKey KEY_MAP ("desktop#" ++ s) = .KEY_NONE := by
      simp [lookupKey, KEY_MAP, strcmpEq, String.ext_iff, String.data_append, hs']
    simp [ParseKey, h0, h1, h2]

/-- C9, amended, at concrete nodes: `"desktop#"` is bound, `"desktop#2"` is not. -/
theorem C9_desktop_exact_witness :
    ParseKey ⟨.TOK_KEY, none, some "desktop#", [⟨"key", some "#"⟩], "jwmrc", 12⟩
        ⟨[], .FOCUS_SLOPPY, 4, 0, 0, 0, []⟩ =
      (⟨[], .FOCUS_SLOPPY, 4, 0, 0, 0, []⟩ : State).emit
        (.InsertBinding .KEY_DESKTOP none (some "#") none none) ∧
    ParseKey ⟨.TOK_KEY, none, some ("desktop#" ++ "2"), [⟨"key", some "#"⟩], "jwmrc", 12⟩
        ⟨[], .FOCUS_SLOPPY, 4, 0, 0, 0, []⟩ =
      ParseError (some ⟨.TOK_KEY, none, some ("desktop#" ++ "2"), [⟨"key", some "#"⟩],
          "jwmrc", 12⟩)
        "invalid Key action: \"%s\"" [.str (some ("desktop#" ++ "2"))]
        ⟨[], .FOCUS_SLOPPY, 4, 0, 0, 0, []⟩ :=
  ⟨(C9_desktop_exact ⟨.TOK_KEY, none, none, [⟨"key", some "#"⟩], "jwmrc", 12⟩
      ⟨[], .FOCUS_SLOPPY, 4, 0, 0, 0, []⟩).1,
   (C9_desktop_exact ⟨.TOK_KEY, none, none, [⟨"key", some "#"⟩], "jwmrc", 12⟩
      ⟨[], .FOCUS_SLOPPY, 4, 0, 0, 0, []⟩).2.2 "2" (by decide)⟩

/-- C10: in every run of the loader that returns, on any environment (any
files, any token trees) and from any state whose log satisfies it, every
`InsertBinding` call in the log has an action other than `KEY_NONE` and
carries a command if and only if its action is `KEY_EXEC` or `KEY_ROOT`. -/
theorem C10_bindings_wellformed (env : Env) (mfuel fuel : Nat) (fileName : String)
    (st st1 : State)
    (h0 : ∀ k m ky c cmd, Effect.InsertBinding k m ky c cmd ∈ st.log →
      k ≠ .KEY_NONE ∧ (cmd.isSome = true ↔ (k = .KEY_EXEC ∨ k = .KEY_ROOT)))
    (hr : ParseConfig env mfuel fuel fileName st = .ok st1) :
    ∀ k m ky c cmd, Effect.InsertBinding k m ky c cmd ∈ st1.log →
      k ≠ .KEY_NONE ∧ (cmd.isSome = true ↔ (k = .KEY_EXEC ∨ k = .KEY_ROOT)) := by
  have h : OkLog st.log := by
    intro e he
    cases e
    case InsertBinding k m ky c cmd => exact h0 k m ky c cmd he
    all_goals trivial
  intro k m ky c cmd hm
  exact ParseConfig_ok env mfuel fuel fileName st st1 h hr _ hm

/-- C10 on the file `jwmrc` of `keyEnv`: the run returns, its log holds the two
bindings of `exec:xterm` and `close` (and the diagnostic for `bogus`), and
both bindings are as C10 says. -/
theorem C10_bindings_wellformed_witness :
    ParseConfig keyEnv 1 2 "jwmrc" initState =
      .ok { initState with
        log := [.InsertBinding .KEY_EXEC none none none (some "xterm"),
          .WarningVA "jwmrc[3]" "invalid Key action: \"%s\"" [.str (some "bogus")],
          .InsertBinding .KEY_CLOSE none none none none,
          .ValidateTrayButtons, .ValidateKeys],
        parseDepths := [1] } ∧
    ∀ k m ky c cmd, Effect.InsertBinding k m ky c cmd ∈
        [Effect.InsertBinding .KEY_EXEC none none none (some "xterm"),
          .WarningVA "jwmrc[3]" "invalid Key action: \"%s\"" [.str (some "bogus")],
          .InsertBinding .KEY_CLOSE none none none none,
          .ValidateTrayButtons, .ValidateKeys] →
      k ≠ .KEY_NONE ∧ (cmd.isSome = true ↔ (k = .KEY_EXEC ∨ k = .KEY_ROOT)) :=
  ⟨rfl, C10_bindings_wellformed keyEnv 1 2 "jwmrc" initState _
    (by intro k m ky c cmd h; simp [initState] at h) rfl⟩

/-! ### File includes and the depth limit -/

theorem ParseFileFuel_succ (env : Env) (mfuel fuel : Nat) :
    ParseFileFuel env mfuel (fuel + 1) =
      ParseFile env (Parse env (ParseMenuItemFuel env mfuel) (ParseFileFuel env mfuel fuel)) :=
  rfl

theorem ParseFile_exceeded (env : Env) (parse : TokenNode → Int → State → Except Err State)
    (fileName : Option String) (depth : Int) (st : State)
    (h : env.MAX_INCLUDE_DEPTH ≤ depth) :
    ParseFile env parse fileName depth st =
      .ok (false, ParseError none "include depth (%d) exceeded"
        [.int env.MAX_INCLUDE_DEPTH] st) := by
  have : depth + 1 > env.MAX_INCLUDE_DEPTH := by omega
  simp [ParseFile, this]

/-- C4 fails as stated: in `depthEnv` the include of `more` exceeds the depth
limit 1, and the sibling after the include is still processed: `SetTheme` is
called after the depth-exceeded diagnostic, and the load runs to its end. -/
theorem C4_load_not_aborted_counterexample :
    ParseConfig depthEnv 1 3 "jwmrc" initState =
      .ok { initState with
        log := [.WarningVA "configuration error" "include depth (%d) exceeded" [.int 1],
          .WarningVA "jwmrc[2]" "could not open included file %s" [.str (some "more")],
          .SetTheme (some "blue"),
          .ValidateTrayButtons, .ValidateKeys],
        parseDepths := [1] } := by
  rfl

/-- C4, amended: when a top-level `include` is met at a depth that has reached
`MAX_INCLUDE_DEPTH`, only that include is abandoned: the file is not opened,
the depth-exceeded diagnostic and then the could-not-open diagnostic are
emitted, and `Parse` goes on with the siblings that follow the include. -/
theorem C4_depth_exceeded_skips_include_only (env : Env)
    (mb : TokenNode → Menu → Option Nat → State → MenuResult) (mfuel fuel : Nat)
    (tp : TokenData) (sub next : TokenNode) (depth : Int) (st : State)
    (htype : tp.type = .TOK_INCLUDE) (hd : env.MAX_INCLUDE_DEPTH ≤ depth) :
    ParseLoop env mb (ParseFileFuel env mfuel (fuel + 1)) (.node tp sub next) depth st =
      ParseLoop env mb (ParseFileFuel env mfuel (fuel + 1)) next depth
        (ParseError (some tp) "could not open included file %s"
          [.str (tp.value.map env.ExpandPath)]
          (ParseError none "include depth (%d) exceeded" [.int env.MAX_INCLUDE_DEPTH] st)) := by
  rw [ParseLoop]
  simp only [htype, ParseInclude, ParseFileFuel_succ, ParseFile_exceeded _ _ _ _ _ hd,
    CopyString]
  rfl

/-- C4, amended, in `depthEnv`: the include of `more` at depth 1 is skipped with
its two diagnostics and the walk goes on with the `Theme` tag after it. -/
theorem C4_depth_exceeded_skips_include_only_witness :
    depthEnv.MAX_INCLUDE_DEPTH ≤ 1 ∧
    ParseLoop depthEnv (ParseMenuItemFuel depthEnv 1) (ParseFileFuel depthEnv 1 (0 + 1))
        (.node (tag .TOK_INCLUDE (some "more") "jwmrc" 2) .null
          (.node (tag .TOK_THEME (some "blue") "jwmrc" 3) .null .null)) 1 initState =
      ParseLoop depthEnv (ParseMenuItemFuel depthEnv 1) (ParseFileFuel depthEnv 1 (0 + 1))
        (.node (tag .TOK_THEME (some "blue") "jwmrc" 3) .null .null) 1
        (ParseError (some (tag .TOK_INCLUDE (some "more") "jwmrc" 2))
          "could not open included file %s"
          [.str ((tag .TOK_INCLUDE (some "more") "jwmrc" 2).value.map depthEnv.ExpandPath)]
          (ParseError none "include depth (%d) exceeded" [.int depthEnv.MAX_INCLUDE_DEPTH]
            initState)) :=
  ⟨by decide, C4_depth_exceeded_skips_include_only depthEnv _ 1 0 _ _ _ 1 initState rfl
    (by decide)⟩

/-! ### Termination of the file includes and the depths of `Parse` -/

theorem ParseKey_depths (tp : TokenData) (st : State) :
    (ParseKey tp st).parseDepths = st.parseDepths := by
  simp only [ParseKey]
  repeat' split
  all_goals rfl

theorem ParseFocusModel_depths (tp : TokenData) (st : State) :
    (ParseFocusModel tp st).parseDepths = st.parseDepths := by
  simp only [ParseFocusModel]
  repeat' split
  all_goals rfl

theorem ParseSnapMode_depths (tp : TokenData) (st : State) :
    (ParseSnapMode tp st).parseDepths = st.parseDepths := by
  simp only [ParseSnapMode]
  repeat' split
  all_goals rfl

theorem ParseMoveMode_depths (tp : TokenData) (st : State) :
    (ParseMoveMode tp st).parseDepths = st.parseDepths := by
  simp only [ParseMoveMode]
  repeat' split
  all_goals rfl

theorem ParseResizeMode_depths (tp : TokenData) (st : State) :
    (ParseResizeMode tp st).parseDepths = st.parseDepths := by
  simp only [ParseResizeMode]
  repeat' split
  all_goals rfl

theorem ParseBorderStyleLoop_depths (env : Env) (np : TokenNode) (st : State) :
    (ParseBorderStyleLoop env np st).parseDepths = st.parseDepths := by
  induction np generalizing st with
  | null => rfl
  | node d sub next _ ih =>
    unfold ParseBorderStyleLoop
    rw [ih]
    split <;> rfl

theorem ParseTaskListStyleLoop_depths (env : Env) (np : TokenNode) (st : State) :
    (ParseTaskListStyleLoop env np st).parseDepths = st.parseDepths := by
  induction np generalizing st with
  | null => rfl
  | node d sub next _ ih =>
    unfold ParseTaskListStyleLoop
    rw [ih]
    split <;> rfl

theorem ParseTrayStyleLoop_depths (env : Env) (np : TokenNode) (st : State) :
    (ParseTrayStyleLoop env np st).parseDepths = st.parseDepths := by
  induction np generalizing st with
  | null => rfl
  | node d sub next _ ih =>
    unfold ParseTrayStyleLoop
    rw [ih]
    split <;> rfl

theorem ParsePagerStyleLoop_depths (env : Env) (np : TokenNode) (st : State) :
    (ParsePagerStyleLoop env np st).parseDepths = st.parseDepths := by
  induction np generalizing st with
  | null => rfl
  | node d sub next _ ih =>
    unfold ParsePagerStyleLoop
    rw [ih]
    split <;> rfl

theorem ParsePopupStyleLoop_depths (env : Env) (np : TokenNode) (st : State) :
    (ParsePopupStyleLoop env np st).parseDepths = st.parseDepths := by
  induction np generalizing st with
  | null => rfl
  | node d sub next _ ih =>
    unfold ParsePopupStyleLoop
    rw [ih]
    split <;> rfl

theorem ParseMenuStyleLoop_depths (env : Env) (np : TokenNode) (st : State) :
    (ParseMenuStyleLoop env np st).parseDepths = st.parseDepths := by
  induction np generalizing st with
  | null => rfl
  | node d sub next _ ih =>
    unfold ParseMenuStyleLoop
    rw [ih]
    split <;> rfl

theorem ParseClockStyleLoop_depths (env : Env) (np : TokenNode) (st : State) :
    (ParseClockStyleLoop env np st).parseDepths = st.parseDepths := by
  induction np generalizing st with
  | null => rfl
  | node d sub next _ ih =>
    unfold ParseClockStyleLoop
    rw [ih]
    split <;> rfl

theorem ParseTrayButtonStyleLoop_depths (env : Env) (np : TokenNode) (st : State) :
    (ParseTrayButtonStyleLoop env np st).parseDepths = st.parseDepths := by
  induction np generalizing st with
  | null => rfl
  | node d sub next _ ih =>
    unfold ParseTrayButtonStyleLoop
    rw [ih]
    split <;> rfl

theorem ParseDesktopsLoop_depths (env : Env) (np : TokenNode) (x : Nat) (st : State) :
    (ParseDesktopsLoop env np x st).parseDepths = st.parseDepths := by
  induction np generalizing st x with
  | null => rfl
  | node d sub next _ ih =>
    unfold ParseDesktopsLoop
    split
    · rfl
    · rw [ih]
      split <;> rfl

theorem ParseDesktops_depths (env : Env) (tp : TokenData) (sub : TokenNode) (st : State) :
    (ParseDesktops env tp sub st).parseDepths = st.parseDepths := by
  unfold ParseDesktops
  rw [ParseDesktopsLoop_depths]
  split <;> rfl

theorem ParseTaskListStyle_depths (env : Env) (tp : TokenData) (sub : TokenNode) (st : State) :
    (ParseTaskListStyle env tp sub st).parseDepths = st.parseDepths := by
  unfold ParseTaskListStyle
  rw [ParseTaskListStyleLoop_depths]
  split <;> rfl

theorem ParsePopupStyle_depths (env : Env) (tp : TokenData) (sub : TokenNode) (st : State) :
    (ParsePopupStyle env tp sub st).parseDepths = st.parseDepths := by
  unfold ParsePopupStyle
  rw [ParsePopupStyleLoop_depths]
  repeat' split
  all_goals rfl

theorem emit_parseDepths (st : State) (e : Effect) :
    (st.emit e).parseDepths = st.parseDepths := rfl

theorem whenSome_depths (attr : Option String) (f : String → Effect) (st : State) :
    (whenSome attr f st).parseDepths = st.parseDepths := by
  unfold whenSome
  split <;> rfl

theorem ParseTrayLoop_depths (env : Env) (tray : Nat) (np : TokenNode) (st : State) :
    (ParseTrayLoop env tray np st).parseDepths = st.parseDepths := by
  induction np generalizing st with
  | null => rfl
  | node d sub next _ ih =>
    unfold ParseTrayLoop
    rw [ih]
    split
    · rfl
    · simp only [ParseTaskList]
      repeat' split
      all_goals rfl
    · simp only [ParseSwallow]
      repeat' split
      all_goals rfl
    · simp only [ParseTrayButton]
      repeat' split
      all_goals rfl
    · simp only [ParseClock]
      repeat' split
      all_goals rfl
    · simp only [ParseDock]
      repeat' split
      all_goals rfl
    · rfl

theorem ParseTray_depths (env : Env) (tp : TokenData) (sub : TokenNode) (st : State) :
    (ParseTray env tp sub st).parseDepths = st.parseDepths := by
  unfold ParseTray
  simp only [ParseTrayLoop_depths, whenSome_depths, emit_parseDepths]
  repeat' split
  all_goals rfl

theorem ParseGroupOptionBody_depths (tp : TokenData) (group : Nat) (o : String)
    (st : State) : (ParseGroupOptionBody tp group o st).parseDepths = st.parseDepths := by
  unfold ParseGroupOptionBody
  simp only [apply_ite State.parseDepths, emit_parseDepths, ParseError, ite_self]

theorem Terminates_mono {α : Type} (P Q : α → Prop) (r : Except Err α)
    (h : ∀ a, P a → Q a) (hr : Terminates P r) : Terminates Q r := by
  cases r with
  | ok a => exact h a hr
  | error e => cases e <;> exact hr

theorem ParseGroupLoop_term (env : Env) (group : Nat) (np : TokenNode) (st : State) :
    Terminates (fun s => s.parseDepths = st.parseDepths) (ParseGroupLoop env group np st) := by
  induction np generalizing st with
  | null => simp [ParseGroupLoop, Terminates]
  | node d sub next _ ih =>
    simp only [ParseGroupLoop]
    split
    · rename_i e heq
      split at heq
      · simp at heq
      · simp at heq
      · cases hv : d.value with
        | none =>
          simp only [hv, ParseGroupOption] at heq
          injection heq with heq
          subst heq
          trivial
        | some o => simp [hv, ParseGroupOption] at heq
      · simp at heq
    · rename_i st2 heq
      have h2 : st2.parseDepths = st.parseDepths := by
        split at heq
        · injection heq with heq
          subst heq
          rfl
        · injection heq with heq
          subst heq
          rfl
        · cases hv : d.value with
          | none => simp [hv, ParseGroupOption] at heq
          | some o =>
            simp only [hv, ParseGroupOption] at heq
            injection heq with heq
            subst heq
            exact ParseGroupOptionBody_depths _ _ _ _
        · injection heq with heq
          subst heq
          rfl
      exact Terminates_mono _ _ _ (fun a ha => ha.trans h2) (ih st2)

theorem ParseGroup_term (env : Env) (tp : TokenData) (sub : TokenNode) (st : State) :
    Terminates (fun s => s.parseDepths = st.parseDepths) (ParseGroup env tp sub st) := by
  unfold ParseGroup
  exact ParseGroupLoop_term env _ sub _

theorem ParseMenuItem_includeFree (env : Env)
    (inc : TokenData → Menu → Option Nat → State → MenuResult)
    (start : TokenNode) (M : Menu) (l : Option Nat) (st : State)
    (h : menuIncludeFree start = true) :
    ∃ r, ParseMenuItem env inc start M l st = .ok r ∧
      r.2.2.parseDepths = st.parseDepths := by
  induction start generalizing M l st with
  | null => exact ⟨_, rfl, rfl⟩
  | node d sub next ihs ihn =>
    simp only [menuIncludeFree, Bool.and_eq_true, Bool.or_eq_true, bne_iff_ne, ne_eq] at h
    obtain ⟨⟨h1, h2⟩, h3⟩ := h
    simp only [ParseMenuItem]
    split
    · rename_i heq
      exact absurd heq h1
    · rename_i heq
      have hs : menuIncludeFree sub = true := by
        rcases h2 with h2 | h2
        · exact absurd heq h2
        · exact h2
      obtain ⟨c, hc, hcd⟩ := ihs (newSubmenu env d
        (CopyString (FindAttribute d.attributes LABEL_ATTRIBUTE)) M.itemHeight) none st hs
      rw [hc]
      obtain ⟨r, hr, hrd⟩ := ihn _ _ c.2.2 h3
      exact ⟨r, hr, hrd.trans hcd⟩
    all_goals first
      | exact ihn _ _ _ h3
      | (obtain ⟨r, hr, hrd⟩ := ihn _ _ _ h3
         refine ⟨r, hr, hrd.trans ?_⟩
         repeat' split
         all_goals rfl)

theorem ParseMenuItemFuel_includeFree (env : Env) (mfuel : Nat) (start : TokenNode)
    (M : Menu) (l : Option Nat) (st : State) (h : menuIncludeFree start = true) :
    ∃ r, ParseMenuItemFuel env (mfuel + 1) start M l st = .ok r ∧
      r.2.2.parseDepths = st.parseDepths :=
  ParseMenuItem_includeFree env _ start M l st h

theorem ParseLoop_term (env : Env) (mfuel : Nat)
    (pf : Option String → Int → State → Except Err (Bool × State)) (depth : Int)
    (hpf : ∀ f st, DepthsOk env st → Terminates (fun r => DepthsOk env r.2) (pf f depth st))
    (tp : TokenNode) (st : State) (hfree : rootMenusIncludeFree tp = true)
    (h : DepthsOk env st) :
    Terminates (DepthsOk env)
      (ParseLoop env (ParseMenuItemFuel env (mfuel + 1)) pf tp depth st) := by
  induction tp generalizing st with
  | null => exact h
  | node d sub next _ ih =>
    simp only [rootMenusIncludeFree, Bool.and_eq_true, Bool.or_eq_true, bne_iff_ne,
      ne_eq] at hfree
    obtain ⟨h1, h2⟩ := hfree
    have key : Terminates (DepthsOk env)
        (match d.type with
         | .TOK_BORDERSTYLE => Except.ok (ParseBorderStyle env d sub st)
         | .TOK_DESKTOPS => Except.ok (ParseDesktops env d sub st)
         | .TOK_DOUBLECLICKSPEED => Except.ok (st.emit (.SetDoubleClickSpeed d.value))
         | .TOK_DOUBLECLICKDELTA => Except.ok (st.emit (.SetDoubleClickDelta d.value))
         | .TOK_FOCUSMODEL => Except.ok (ParseFocusModel d st)
         | .TOK_GROUP => ParseGroup env d sub st
         | .TOK_ICONPATH => Except.ok (st.emit (.AddIconPath d.value))
         | .TOK_INCLUDE => ParseInclude env pf d depth st
         | .TOK_KEY => Except.ok (ParseKey d st)
         | .TOK_MENUSTYLE => Except.ok (ParseMenuStyle env d sub st)
         | .TOK_MOUSE => Except.ok (ParseMouse d st)
         | .TOK_MOVEMODE => Except.ok (ParseMoveMode d st)
         | .TOK_PAGERSTYLE => Except.ok (ParsePagerStyle env d sub st)
         | .TOK_POPUPSTYLE => Except.ok (ParsePopupStyle env d sub st)
         | .TOK_RESIZEMODE => Except.ok (ParseResizeMode d st)
         | .TOK_RESTARTCOMMAND => Except.ok (st.emit (.AddRestartCommand d.value))
         | .TOK_ROOTMENU => ParseRootMenu env (ParseMenuItemFuel env (mfuel + 1)) d sub st
         | .TOK_SHUTDOWNCOMMAND => Except.ok (st.emit (.AddShutdownCommand d.value))
         | .TOK_SNAPMODE => Except.ok (ParseSnapMode d st)
         | .TOK_STARTUPCOMMAND => Except.ok (st.emit (.AddStartupCommand d.value))
         | .TOK_TASKLISTSTYLE => Except.ok (ParseTaskListStyle env d sub st)
         | .TOK_TRAY => Except.ok (ParseTray env d sub st)
         | .TOK_TRAYSTYLE => Except.ok (ParseTrayStyle env d sub st)
         | .TOK_TRAYBUTTONSTYLE => Except.ok (ParseTrayButtonStyle env d sub st)
         | .TOK_CLOCKSTYLE => Except.ok (ParseClockStyle env d sub st)
         | .TOK_THEMEPATH => Except.ok (st.emit (.AddThemePath d.value))
         | .TOK_THEME => Except.ok (st.emit (.SetTheme d.value))
         | _ => Except.ok (InvalidTag env d .TOK_JWM st)) := by
      have hd : ∀ s : State, s.parseDepths = st.parseDepths → DepthsOk env s := by
        intro s hs
        unfold DepthsOk
        rw [hs]
        exact h
      split
      case h_6 => exact Terminates_mono _ _ _ hd (ParseGroup_term env d sub st)
      case h_8 =>
        simp only [ParseInclude]
        have := hpf ((CopyString d.value).map env.ExpandPath) st h
        split
        · rename_i e heq
          rw [heq] at this
          cases e <;> exact this
        · rename_i r heq
          rw [heq] at this
          split
          · exact this
          · exact this
      case h_17 =>
        rename_i heq
        have hs : menuIncludeFree sub = true := by
          rcases h1 with h1 | h1
          · exact absurd heq h1
          · exact h1
        simp only [ParseRootMenu]
        obtain ⟨r, hr, hrd⟩ := ParseMenuItemFuel_includeFree env mfuel sub _ none st hs
        rw [hr]
        exact hd _ hrd
      all_goals apply hd
      all_goals first
        | rfl
        | exact ParseBorderStyleLoop_depths _ _ _
        | exact ParseDesktops_depths _ _ _ _
        | exact ParseFocusModel_depths _ _
        | exact ParseKey_depths _ _
        | exact ParseMenuStyleLoop_depths _ _ _
        | exact ParseMoveMode_depths _ _
        | exact ParsePagerStyleLoop_depths _ _ _
        | exact ParsePopupStyle_depths _ _ _ _
        | exact ParseResizeMode_depths _ _
        | exact ParseSnapMode_depths _ _
        | exact ParseTaskListStyle_depths _ _ _ _
        | exact ParseTray_depths _ _ _ _
        | exact ParseTrayStyleLoop_depths _ _ _
        | exact ParseTrayButtonStyleLoop_depths _ _ _
        | exact ParseClockStyleLoop_depths _ _ _
    simp only [ParseLoop]
    split
    · rename_i e heq
      rw [heq] at key
      cases e <;> exact key
    · rename_i st2 heq
      rw [heq] at key
      exact ih st2 h2 key

theorem Parse_term (env : Env) (mfuel : Nat)
    (pf : Option String → Int → State → Except Err (Bool × State)) (depth : Int)
    (hpf : ∀ f st, DepthsOk env st → Terminates (fun r => DepthsOk env r.2) (pf f depth st))
    (start : TokenNode) (st : State) (hfree : fileMenuIncludeFree start = true)
    (hd : 1 ≤ depth ∧ depth ≤ env.MAX_INCLUDE_DEPTH) (h : DepthsOk env st) :
    Terminates (DepthsOk env)
      (Parse env (ParseMenuItemFuel env (mfuel + 1)) pf start depth st) := by
  have h1 : DepthsOk env { st with parseDepths := st.parseDepths ++ [depth] } := by
    intro d hm
    simp only [List.mem_append, List.mem_singleton] at hm
    rcases hm with hm | hm
    · exact h d hm
    · exact hm ▸ hd
  simp only [Parse]
  split
  · exact h1
  · split
    · exact ParseLoop_term env mfuel pf depth hpf _ _ hfree h1
    · exact h1

theorem ParseFileFuel_term (env : Env) (mfuel fuel : Nat)
    (hfree : ∀ buffer path, fileMenuIncludeFree (env.Tokenize buffer path) = true)
    (f : Option String) (depth : Int) (st : State) (h0 : 0 ≤ depth)
    (hfuel : env.MAX_INCLUDE_DEPTH + 1 ≤ fuel + depth) (h1 : 1 ≤ fuel)
    (h : DepthsOk env st) :
    Terminates (fun r => DepthsOk env r.2)
      (ParseFileFuel env (mfuel + 1) fuel f depth st) := by
  induction fuel generalizing f depth st with
  | zero => omega
  | succ n ih =>
    rw [ParseFileFuel_succ]
    simp only [ParseFile]
    split
    · exact h
    · rename_i hle
      split
      · trivial
      · split
        · exact h
        · rename_i fname _ buffer _
          have hn : 1 ≤ n := by
            push_cast at hfuel
            omega
          have key : ∀ t, fileMenuIncludeFree t = true → Terminates (DepthsOk env)
              (Parse env (ParseMenuItemFuel env (mfuel + 1))
                (ParseFileFuel env (mfuel + 1) n) t (depth + 1) st) := fun t ht =>
            Parse_term env mfuel (ParseFileFuel env (mfuel + 1) n) (depth + 1)
              (fun f2 st2 h2 => ih f2 (depth + 1) st2 (by omega)
                (by push_cast at hfuel; omega) hn h2)
              t st ht ⟨by omega, by omega⟩ h
          have := key _ (hfree buffer fname)
          split
          · rename_i e heq
            rw [heq] at this
            cases e <;> exact this
          · rename_i st2 heq
            rw [heq] at this
            exact this

/-- C5: for every environment in which no tree a file tokenizes to has a
menu-level include (files may include themselves or one another through
top-level `include` tags in any way), `ParseConfig` terminates: with fuel for
`MAX_INCLUDE_DEPTH + 1` nested calls of `ParseFile` the run never runs out of
fuel, it returns (or stops at a read through NULL); and when it returns, every
invocation of `Parse` it made had a depth `d` with
`1 ≤ d ≤ MAX_INCLUDE_DEPTH`. -/
theorem C5_file_includes_terminate (env : Env) (mfuel fuel : Nat) (fileName : String)
    (st : State)
    (hfree : ∀ buffer path, fileMenuIncludeFree (env.Tokenize buffer path) = true)
    (hfuel : env.MAX_INCLUDE_DEPTH + 1 ≤ fuel) (h1 : 1 ≤ fuel)
    (h : ∀ d ∈ st.parseDepths, 1 ≤ d ∧ d ≤ env.MAX_INCLUDE_DEPTH) :
    ParseConfig env (mfuel + 1) fuel fileName st ≠ .error .fuel ∧
    ∀ st1, ParseConfig env (mfuel + 1) fuel fileName st = .ok st1 →
      ∀ d ∈ st1.parseDepths, 1 ≤ d ∧ d ≤ env.MAX_INCLUDE_DEPTH := by
  have key : Terminates (DepthsOk env) (ParseConfig env (mfuel + 1) fuel fileName st) := by
    have t1 := ParseFileFuel_term env mfuel fuel hfree (some fileName) 0 st (le_refl 0)
      (by omega) h1 h
    simp only [ParseConfig]
    split
    · rename_i e heq
      rw [heq] at t1
      cases e <;> exact t1
    · rename_i r heq
      rw [heq] at t1
      have t1 : DepthsOk env r.2 := t1
      split
      · rename_i e heq2
        split at heq2
        · simp at heq2
        · have t2 := ParseFileFuel_term env mfuel fuel hfree (some env.SYSTEM_CONFIG) 0 r.2
            (le_refl 0) (by omega) h1 t1
          split at heq2
          · rename_i e2 heq3
            rw [heq3] at t2
            injection heq2 with heq2
            subst heq2
            cases e2 <;> exact t2
          · split at heq2 <;> simp at heq2
      · rename_i st2 heq2
        have t3 : DepthsOk env st2 := by
          split at heq2
          · injection heq2 with heq2
            exact heq2 ▸ t1
          · have t2 := ParseFileFuel_term env mfuel fuel hfree (some env.SYSTEM_CONFIG) 0 r.2
              (le_refl 0) (by omega) h1 t1
            split at heq2
            · simp at heq2
            · rename_i q heq3
              rw [heq3] at t2
              split at heq2
              · injection heq2 with heq2
                exact heq2 ▸ t2
              · injection heq2 with heq2
                subst heq2
                exact t2
        exact t3
  constructor
  · intro hc
    rw [hc] at key
    exact key
  · intro st1 hs
    rw [hs] at key
    exact key

/-- C5 in `cycleEnv`, whose file `jwmrc` includes itself: the load returns,
`Parse` ran at the depths 1, 2 and 3, and the fourth nested include was
refused. -/
theorem C5_file_includes_terminate_witness :
    ParseConfig cycleEnv (0 + 1) 4 "jwmrc" initState =
      .ok { initState with
        log := [.SetTheme (some "x"), .SetTheme (some "x"), .SetTheme (some "x"),
          .WarningVA "configuration error" "include depth (%d) exceeded" [.int 3],
          .WarningVA "jwmrc[3]" "could not open included file %s" [.str (some "jwmrc")],
          .ValidateTrayButtons, .ValidateKeys],
        parseDepths := [1, 2, 3] } ∧
    (ParseConfig cycleEnv (0 + 1) 4 "jwmrc" initState ≠ .error .fuel ∧
      ∀ st1, ParseConfig cycleEnv (0 + 1) 4 "jwmrc" initState = .ok st1 →
        ∀ d ∈ st1.parseDepths, 1 ≤ d ∧ d ≤ cycleEnv.MAX_INCLUDE_DEPTH) :=
  ⟨rfl, C5_file_includes_terminate cycleEnv 0 4 "jwmrc" initState
    (fun _ _ => rfl) (by decide) (by decide) (by intro d hd; simp [initState] at hd)⟩

/-! ### A chain of nested includes -/

theorem chainName_length (k : Nat) : (chainName k).length = k := by
  simp [chainName, String.length]

theorem chainName_succ (k : Nat) : chainName k ++ "a" = chainName (k + 1) := by
  apply String.ext
  rw [String.data_append]
  show List.replicate k 'a' ++ ['a'] = List.replicate (k + 1) 'a'
  rw [List.replicate_succ']

theorem chainThemes_succ (k n : Nat) :
    chainThemes k (n + 1) = .SetTheme (some (chainName k)) :: chainThemes (k + 1) n := by
  simp only [chainThemes, List.range_succ_eq_map, List.map_cons, List.map_map, Nat.add_zero]
  congr 1
  apply List.map_congr_left
  intro i _
  simp only [Function.comp]
  rw [Nat.add_right_comm, Nat.add_assoc]

theorem chainDepths_succ (k n : Nat) :
    chainDepths k (n + 1) = (k : Int) :: chainDepths (k + 1) n := by
  simp only [chainDepths, List.range_succ_eq_map, List.map_cons, List.map_map, Nat.add_zero]
  congr 1
  apply List.map_congr_left
  intro i _
  simp only [Function.comp]
  congr 1
  omega

theorem chainEnv_MAX (M len : Nat) : (chainEnv M len).MAX_INCLUDE_DEPTH = M := rfl

theorem chainEnv_fopen (M len : Nat) (p : String) : (chainEnv M len).fopen p = some p := rfl

theorem chainEnv_ExpandPath (M len : Nat) (p : String) :
    (chainEnv M len).ExpandPath p = p := rfl

theorem chainEnv_Tokenize (M len : Nat) (b : String) (k : Nat) :
    (chainEnv M len).Tokenize b (chainName k) =
      .node (tag .TOK_JWM none (chainName k) 1)
        (.node (tag .TOK_THEME (some (chainName k)) (chainName k) 2) .null
          (if k < len then
            .node (tag .TOK_INCLUDE (some (chainName (k + 1))) (chainName k) 3) .null .null
          else .null))
        .null := by
  show chainTree len (chainName k) = _
  simp only [chainTree, chainName_length, chainName_succ]

/-- The file of `k` letters of a chain of `len` files, parsed at depth `k`
under the limit `M`, with `j` more files up to the limit: these `j + 1` files
are parsed, each sets its theme, and when the chain goes on beyond the limit
the include of the file `M + 1` adds the two diagnostics. -/
theorem chain_run (M len mfuel : Nat) (hlen : len = M ∨ len = M + 1) (j : Nat) :
    ∀ (k fuel : Nat) (st : State), k + j = M → 1 ≤ k → j + 2 ≤ fuel →
      ParseFileFuel (chainEnv M len) mfuel fuel (some (chainName k)) ((k : Int) - 1) st =
        .ok (true, { st with
          log := st.log ++ (chainThemes k (j + 1) ++
            (if len = M then []
             else [.WarningVA "configuration error" "include depth (%d) exceeded" [.int M],
               .WarningVA
                 (ParseErrorMsg (some (tag .TOK_INCLUDE (some (chainName (M + 1)))
                   (chainName M) 3)))
                 "could not open included file %s" [.str (some (chainName (M + 1)))]])),
          parseDepths := st.parseDepths ++ chainDepths k (j + 1) }) := by
  induction j with
  | zero =>
    intro k fuel st hk h1 hf
    obtain ⟨n, rfl⟩ : ∃ n, fuel = n + 2 := ⟨fuel - 2, by omega⟩
    simp only [Nat.add_zero] at hk
    subst hk
    rw [ParseFileFuel_succ]
    have hd : ¬ ((k : Int) - 1 + 1 > (k : Int)) := by omega
    have e : ((k : Int) - 1 + 1) = (k : Int) := by omega
    simp only [ParseFile, chainEnv_MAX, e, gt_iff_lt, lt_self_iff_false, if_false,
      chainEnv_fopen, chainEnv_Tokenize, Parse, tag, if_true, ParseLoop]
    rcases hlen with hl | hl
    · subst hl
      simp only [Nat.lt_irrefl, if_false, ParseLoop, if_true]
      rfl
    · subst hl
      have hd2 : ((k : Int) < (k : Int) + 1) := by omega
      simp only [Nat.lt_succ_self, if_true, ParseLoop, ParseInclude, CopyString, Option.map,
        ParseFileFuel_succ, chainEnv_ExpandPath, ParseFile, chainEnv_MAX, hd2, gt_iff_lt,
        Bool.false_eq_true, if_false, Nat.succ_ne_self]
      simp [ParseError, State.emit, chainThemes, chainDepths, List.range_succ]
      rfl
  | succ j ih =>
    intro k fuel st hk h1 hf
    obtain ⟨n, rfl⟩ : ∃ n, fuel = n + 1 := ⟨fuel - 1, by omega⟩
    rw [ParseFileFuel_succ]
    have hd : ¬ ((k : Int) - 1 + 1 > (M : Int)) := by omega
    have hk2 : k < len := by omega
    have e : ((k : Int) - 1 + 1) = ((k + 1 : Nat) : Int) - 1 := by omega
    simp only [ParseFile, chainEnv_MAX, hd, if_false, chainEnv_fopen, chainEnv_Tokenize, Parse,
      tag, if_true, ParseLoop, hk2, ParseInclude, CopyString, Option.map, chainEnv_ExpandPath]
    rw [e, ih (k + 1) n _ (by omega) (by omega) (by omega)]
    simp only [if_true, ParseLoop]
    rw [chainThemes_succ k (j + 1), chainDepths_succ k (j + 1)]
    have e2 : ((k + 1 : Nat) : Int) - 1 = (k : Int) := by omega
    simp [State.emit, e2, tag]

/-- C3, amended: under a depth limit `M ≥ 1`, starting from `ParseConfig`
(depth 0), the configuration file is itself at depth 1. A chain of `M` files,
that is of `M - 1` nested includes, succeeds: every file of the chain is
parsed (each sets its theme, and `Parse` runs at the depths 1 to `M`) and no
diagnostic is emitted. In a chain of `M + 1` files, that is of `M` nested
includes, the first `M` files are parsed in the same way, the last include is
refused with the depth-exceeded diagnostic, and the file `M + 1` is not parsed
(its theme is never set and `Parse` never runs at depth `M + 1`). -/
theorem C3_include_chain_depth (M mfuel fuel : Nat) (hM : 1 ≤ M) (hfuel : M + 1 ≤ fuel)
    (st : State) :
    ParseConfig (chainEnv M M) mfuel fuel (chainName 1) st =
      .ok { st with
        log := st.log ++ (chainThemes 1 M ++ [.ValidateTrayButtons, .ValidateKeys]),
        parseDepths := st.parseDepths ++ chainDepths 1 M } ∧
    ParseConfig (chainEnv M (M + 1)) mfuel fuel (chainName 1) st =
      .ok { st with
        log := st.log ++ (chainThemes 1 M ++
          [.WarningVA "configuration error" "include depth (%d) exceeded" [.int M],
            .WarningVA
              (ParseErrorMsg (some (tag .TOK_INCLUDE (some (chainName (M + 1))) (chainName M) 3)))
              "could not open included file %s" [.str (some (chainName (M + 1)))],
            .ValidateTrayButtons, .ValidateKeys]),
        parseDepths := st.parseDepths ++ chainDepths 1 M } ∧
    Effect.SetTheme (some (chainName (M + 1))) ∉ chainThemes 1 M ∧
    ((M : Int) + 1) ∉ chainDepths 1 M := by
  obtain ⟨j, rfl⟩ : ∃ j, M = 1 + j := ⟨M - 1, by omega⟩
  have r1 := chain_run (1 + j) (1 + j) mfuel (Or.inl rfl) j 1 fuel st rfl (le_refl 1) (by omega)
  have r2 := chain_run (1 + j) (1 + j + 1) mfuel (Or.inr rfl) j 1 fuel st rfl (le_refl 1)
    (by omega)
  have e : ((1 : Nat) : Int) - 1 = 0 := by omega
  rw [e] at r1 r2
  have e3 : j + 1 = 1 + j := by omega
  refine ⟨?_, ?_, ?_, ?_⟩
  · simp only [ParseConfig, r1, if_true]
    simp [State.emit, e3]
  · simp only [ParseConfig, r2, if_true]
    simp [State.emit, e3]
  · simp only [chainThemes, List.mem_map, List.mem_range, not_exists, not_and]
    intro i hi h
    injection h with h
    injection h with h
    have := congrArg String.length h
    rw [chainName_length, chainName_length] at this
    omega
  · simp only [chainDepths, List.mem_map, List.mem_range, not_exists, not_and]
    intro i hi h
    omega

/-- C3 under the limit 2: the chain `a`, `aa` is parsed whole without a
diagnostic; in the chain `a`, `aa`, `aaa` the third file is refused. -/
theorem C3_include_chain_depth_witness :
    ParseConfig (chainEnv 2 2) 1 3 "a" initState =
      .ok { initState with
        log := [.SetTheme (some "a"), .SetTheme (some "aa"),
          .ValidateTrayButtons, .ValidateKeys],
        parseDepths := [1, 2] } ∧
    ParseConfig (chainEnv 2 3) 1 3 "a" initState =
      .ok { initState with
        log := [.SetTheme (some "a"), .SetTheme (some "aa"),
          .WarningVA "configuration error" "include depth (%d) exceeded" [.int 2],
          .WarningVA "aa[3]" "could not open included file %s" [.str (some "aaa")],
          .ValidateTrayButtons, .ValidateKeys],
        parseDepths := [1, 2] } :=
  ⟨(C3_include_chain_depth 2 1 3 (by decide) (by decide) initState).1,
   (C3_include_chain_depth 2 1 3 (by decide) (by decide) initState).2.1⟩

/-- The counterexample to C3: under the limit 2 the configuration file `a`
starts a chain of two nested includes (`a` includes `aa`, `aa` includes `aaa`,
which includes nothing). The second include is refused: the load emits the
depth-exceeded diagnostic, `aaa` is not parsed, and its theme is not set. -/
theorem C3_max_includes_refused_counterexample :
    (chainEnv 2 3).MAX_INCLUDE_DEPTH = 2 ∧
    (chainEnv 2 3).Tokenize "a" "a" =
      .node (tag .TOK_JWM none "a" 1)
        (.node (tag .TOK_THEME (some "a") "a" 2) .null
          (.node (tag .TOK_INCLUDE (some "aa") "a" 3) .null .null)) .null ∧
    (chainEnv 2 3).Tokenize "aa" "aa" =
      .node (tag .TOK_JWM none "aa" 1)
        (.node (tag .TOK_THEME (some "aa") "aa" 2) .null
          (.node (tag .TOK_INCLUDE (some "aaa") "aa" 3) .null .null)) .null ∧
    (chainEnv 2 3).Tokenize "aaa" "aaa" =
      .node (tag .TOK_JWM none "aaa" 1)
        (.node (tag .TOK_THEME (some "aaa") "aaa" 2) .null .null) .null ∧
    ParseConfig (chainEnv 2 3) 1 3 "a" initState =
      .ok { initState with
        log := [.SetTheme (some "a"), .SetTheme (some "aa"),
          .WarningVA "configuration error" "include depth (%d) exceeded" [.int 2],
          .WarningVA "aa[3]" "could not open included file %s" [.str (some "aaa")],
          .ValidateTrayButtons, .ValidateKeys],
        parseDepths := [1, 2] } :=
  ⟨rfl, by decide, by decide, by decide, rfl⟩

/-! ### Menu-level includes -/

theorem ParseMenuItemFuel_succ (env : Env) (fuel : Nat) :
    ParseMenuItemFuel env (fuel + 1) =
      ParseMenuItem env (ParseMenuInclude env (ParseMenuItemFuel env fuel)) := rfl

/-- `ParseMenuInclude` on an include that resolves to a menu is `ParseMenuItem`
on the root of the included tree. -/
theorem ParseMenuInclude_resolved (env : Env)
    (rec : TokenNode → Menu → Option Nat → State → MenuResult)
    (tp : TokenData) (mp : TokenNode) (M : Menu) (l : Option Nat) (st : State)
    (h : includedMenu env tp = some mp) :
    ParseMenuInclude env rec tp M l st = rec mp M l st := by
  unfold includedMenu at h
  unfold ParseMenuInclude
  cases hv : tp.value with
  | none =>
    rw [hv] at h
    simp at h
  | some value =>
    rw [hv] at h
    simp only at h ⊢
    generalize (if strncmpEq value "exec:" 5 = true then env.ExpandPath (strOffset value 5)
      else env.ExpandPath value) = path at h ⊢
    generalize (if strncmpEq value "exec:" 5 = true then env.popen path
      else env.fopen path) = buffer at h ⊢
    cases buffer with
    | none => simp at h
    | some b =>
      simp only at h ⊢
      cases ht : env.Tokenize b path with
      | null =>
        rw [ht] at h
        simp at h
      | node d s n =>
        rw [ht] at h
        simp only at h ⊢
        by_cases hty : d.type ≠ .TOK_MENU
        · rw [if_pos hty] at h
          simp at h
        · rw [if_neg hty] at h ⊢
          injection h with h
          rw [h]

/-- `ParseMenuInclude` on an include that does not resolve to a menu does not
call `ParseMenuItem`: it stops at a NULL text or returns. -/
theorem ParseMenuInclude_unresolved (env : Env)
    (rec : TokenNode → Menu → Option Nat → State → MenuResult)
    (tp : TokenData) (M : Menu) (l : Option Nat) (st : State)
    (h : includedMenu env tp = none) :
    ParseMenuInclude env rec tp M l st = .error .fault ∨
      ∃ st1, ParseMenuInclude env rec tp M l st = .ok (l, M, st1) := by
  unfold includedMenu at h
  unfold ParseMenuInclude
  cases hv : tp.value with
  | none => exact Or.inl rfl
  | some value =>
    rw [hv] at h
    simp only at h ⊢
    generalize (if strncmpEq value "exec:" 5 = true then env.ExpandPath (strOffset value 5)
      else env.ExpandPath value) = path at h ⊢
    generalize (if strncmpEq value "exec:" 5 = true then env.popen path
      else env.fopen path) = buffer at h ⊢
    cases buffer with
    | none => exact Or.inr ⟨_, rfl⟩
    | some b =>
      simp only at h ⊢
      cases ht : env.Tokenize b path with
      | null => exact Or.inr ⟨_, rfl⟩
      | node d s n =>
        rw [ht] at h
        simp only at h ⊢
        by_cases hty : d.type ≠ .TOK_MENU
        · rw [if_pos hty]
          exact Or.inr ⟨_, rfl⟩
        · rw [if_neg hty] at h
          simp at h

theorem selfEnv_included : includedMenu selfEnv (tag .TOK_INCLUDE (some "menu.xml") "menu.xml" 2) =
    some (.node (tag .TOK_MENU none "menu.xml" 1) selfInclude .null) := by
  rfl

theorem selfEnv_diverges (fuel : Nat) :
    (∀ M l st, ParseMenuItemFuel selfEnv fuel selfInclude M l st = .error .fuel) ∧
    (∀ M l st, ParseMenuItemFuel selfEnv fuel
      (.node (tag .TOK_MENU none "menu.xml" 1) selfInclude .null) M l st = .error .fuel) := by
  induction fuel with
  | zero => exact ⟨fun _ _ _ => rfl, fun _ _ _ => rfl⟩
  | succ n ih =>
    have h1 : ∀ M l st, ParseMenuItemFuel selfEnv (n + 1) selfInclude M l st = .error .fuel := by
      intro M l st
      rw [ParseMenuItemFuel_succ]
      simp only [selfInclude, ParseMenuItem, tag]
      have := ParseMenuInclude_resolved selfEnv (ParseMenuItemFuel selfEnv n) _ _ M l st
        selfEnv_included
      simp only [tag] at this
      rw [this]
      have := ih.2 M l st
      simp only [tag] at this
      rw [this]
    refine ⟨h1, ?_⟩
    intro M l st
    have h1' : ∀ M l st, ParseMenuItem selfEnv
        (ParseMenuInclude selfEnv (ParseMenuItemFuel selfEnv n)) selfInclude M l st =
          .error .fuel := h1
    rw [ParseMenuItemFuel_succ, ParseMenuItem]
    simp only [tag, h1']

/-- C6 fails as stated: in `selfEnv`, whose menu file includes itself through a
menu-level `include`, building the menu of that include never finishes: no
amount of fuel makes the builder return (and it emits no diagnostic that
would stop it). -/
theorem C6_self_include_counterexample :
    ¬ ∃ fuel r, ParseMenuItemFuel selfEnv fuel selfInclude emptyMenu none initState = .ok r := by
  rintro ⟨fuel, r, h⟩
  rw [(selfEnv_diverges fuel).1] at h
  exact absurd h (by simp)

/-- Claim C6, as the code is: a menu-level include has no depth guard. In
`selfEnv`, whose menu file `menu.xml` holds a menu-level include of
`menu.xml`, the builder started on the include, or on the menu of the file,
does not return: from every menu, cursor and state, and with every number of
nested activations allowed, the run uses them all up, and no diagnostic
stops it. -/
theorem C6_menu_include_unguarded (fuel : Nat) (M : Menu) (l : Option Nat) (st : State) :
    selfEnv.Tokenize "menu.xml" "menu.xml" =
      .node (tag .TOK_MENU none "menu.xml" 1)
        (.node (tag .TOK_INCLUDE (some "menu.xml") "menu.xml" 2) .null .null) .null ∧
    selfEnv.fopen "menu.xml" = some "menu.xml" ∧
    ParseMenuItemFuel selfEnv fuel selfInclude M l st = .error .fuel ∧
    ParseMenuItemFuel selfEnv fuel
      (.node (tag .TOK_MENU none "menu.xml" 1) selfInclude .null) M l st = .error .fuel ∧
    ParseMenuItemFuel selfEnv (fuel + 1) selfInclude M l st =
      ParseMenuItemFuel selfEnv fuel
        (.node (tag .TOK_MENU none "menu.xml" 1) selfInclude .null) M l st :=
  ⟨rfl, rfl, (selfEnv_diverges fuel).1 M l st, (selfEnv_diverges fuel).2 M l st, by
    rw [(selfEnv_diverges (fuel + 1)).1 M l st, (selfEnv_diverges fuel).2 M l st]⟩

theorem ParseMenuItem_bounded (env : Env) (below : TokenNode → Bool)
    (rec : TokenNode → Menu → Option Nat → State → MenuResult)
    (hb : ∀ mp M l st, below mp = true → Terminates (fun _ => True) (rec mp M l st))
    (start : TokenNode) (M : Menu) (l : Option Nat) (st : State)
    (h : includesWithinAux env below start = true) :
    Terminates (fun _ => True) (ParseMenuItem env (ParseMenuInclude env rec) start M l st) := by
  induction start generalizing M l st with
  | null => trivial
  | node d sub next ihs ihn =>
    simp only [includesWithinAux, Bool.and_eq_true] at h
    obtain ⟨h1, h2⟩ := h
    simp only [ParseMenuItem]
    split
    · rename_i hty
      rw [hty] at h1
      simp only at h1
      have hinc : Terminates (fun _ => True) (ParseMenuInclude env rec d M l st) := by
        cases hm : includedMenu env d with
        | some mp =>
          rw [hm] at h1
          rw [ParseMenuInclude_resolved env rec d mp M l st hm]
          exact hb mp M l st h1
        | none =>
          rcases ParseMenuInclude_unresolved env rec d M l st hm with e | ⟨st1, e⟩
          · rw [e]
            trivial
          · rw [e]
            trivial
      split
      · rename_i e heq
        rw [heq] at hinc
        cases e <;> exact hinc
      · exact ihn _ _ _ h2
    · rename_i hty
      rw [hty] at h1
      simp only at h1
      have hsub := ihs (newSubmenu env d (CopyString (FindAttribute d.attributes LABEL_ATTRIBUTE))
        M.itemHeight) none st h1
      split
      · rename_i e heq
        rw [heq] at hsub
        cases e <;> exact hsub
      · exact ihn _ _ _ h2
    all_goals exact ihn _ _ _ h2

theorem includesWithinAux_mono (env : Env) (b1 b2 : TokenNode → Bool)
    (hb : ∀ t, b1 t = true → b2 t = true) (start : TokenNode)
    (h : includesWithinAux env b1 start = true) : includesWithinAux env b2 start = true := by
  induction start with
  | null => rfl
  | node d sub next ihs ihn =>
    simp only [includesWithinAux, Bool.and_eq_true] at h ⊢
    refine ⟨?_, ihn h.2⟩
    have h1 := h.1
    split
    · rename_i hty
      rw [hty] at h1
      simp only at h1
      split
      · rename_i mp hm
        rw [hm] at h1
        exact hb _ h1
      · rfl
    · rename_i hty
      rw [hty] at h1
      exact ihs h1
    · rfl

theorem includesWithin_mono (env : Env) (k : Nat) (start : TokenNode)
    (h : includesWithin env k start = true) : includesWithin env (k + 1) start = true := by
  induction k generalizing start with
  | zero => exact includesWithinAux_mono env _ _ (fun _ h0 => absurd h0 (by simp)) start h
  | succ n ih => exact includesWithinAux_mono env _ _ (fun t ht => ih t ht) start h

theorem includesWithin_le (env : Env) (k k2 : Nat) (hk : k ≤ k2) (start : TokenNode)
    (h : includesWithin env k start = true) : includesWithin env k2 start = true := by
  induction hk with
  | refl => exact h
  | step _ ih => exact includesWithin_mono env _ start ih

theorem ParseMenuItemFuel_bounded (env : Env) (k : Nat) (start : TokenNode) (M : Menu)
    (l : Option Nat) (st : State) (h : includesWithin env k start = true) :
    Terminates (fun _ => True) (ParseMenuItemFuel env (k + 1) start M l st) := by
  induction k generalizing start M l st with
  | zero =>
    exact ParseMenuItem_bounded env _ _ (fun _ _ _ _ h0 => absurd h0 (by simp)) start M l st h
  | succ n ih =>
    exact ParseMenuItem_bounded env _ _ (fun mp M1 l1 st1 h0 => ih mp M1 l1 st1 h0) start M l st h

/-- For every environment, whatever its `MAX_INCLUDE_DEPTH`, and every menu
whose menu-level includes nest at most `k` deep, building the menu terminates:
with fuel for more than `k` nested activations the builder never runs out of
fuel (it returns, or stops at an include without text). -/
theorem ParseMenuItemFuel_bounded_returns (env : Env) (k fuel : Nat) (start : TokenNode)
    (M : Menu) (l : Option Nat) (st : State) (hk : k < fuel)
    (h : includesWithin env k start = true) :
    ParseMenuItemFuel env fuel start M l st = .error .fault ∨
      ∃ r, ParseMenuItemFuel env fuel start M l st = .ok r := by
  obtain ⟨n, rfl⟩ : ∃ n, fuel = n + 1 := ⟨fuel - 1, by omega⟩
  have := ParseMenuItemFuel_bounded env n start M l st
    (includesWithin_le env k n (by omega) start h)
  cases hr : ParseMenuItemFuel env (n + 1) start M l st with
  | ok r => exact Or.inr ⟨r, rfl⟩
  | error e =>
    rw [hr] at this
    cases e
    · exact Or.inl rfl
    · exact absurd this (by simp [Terminates])

/-! ### The cells of a menu -/

@[simp] theorem Menu.cells_setCells (M : Menu) (c : List MenuItem) : (M.setCells c).cells = c := rfl

@[simp] theorem Menu.items_setCells (M : Menu) (c : List MenuItem) :
    (M.setCells c).items = M.items := rfl

@[simp] theorem Menu.itemHeight_setCells (M : Menu) (c : List MenuItem) :
    (M.setCells c).itemHeight = M.itemHeight := rfl

@[simp] theorem Menu.label_setCells (M : Menu) (c : List MenuItem) :
    (M.setCells c).label = M.label := rfl

@[simp] theorem Menu.cells_setItems (M : Menu) (p : Option Nat) :
    (M.setItems p).cells = M.cells := rfl

@[simp] theorem Menu.items_setItems (M : Menu) (p : Option Nat) : (M.setItems p).items = p := rfl

@[simp] theorem Menu.itemHeight_setItems (M : Menu) (p : Option Nat) :
    (M.setItems p).itemHeight = M.itemHeight := rfl

@[simp] theorem Menu.label_setItems (M : Menu) (p : Option Nat) :
    (M.setItems p).label = M.label := rfl

@[simp] theorem Menu.cells_modify (M : Menu) (p : Nat) (f : MenuItem → MenuItem) :
    (M.modify p f).cells = M.cells.modify f p := rfl

@[simp] theorem Menu.items_modify (M : Menu) (p : Nat) (f : MenuItem → MenuItem) :
    (M.modify p f).items = M.items := rfl

@[simp] theorem Menu.itemHeight_modify (M : Menu) (p : Nat) (f : MenuItem → MenuItem) :
    (M.modify p f).itemHeight = M.itemHeight := rfl

@[simp] theorem Menu.label_modify (M : Menu) (p : Nat) (f : MenuItem → MenuItem) :
    (M.modify p f).label = M.label := rfl

theorem modify_append_left {α : Type} (f : α → α) (l : List α) (x : α) (i : Nat)
    (h : i < l.length) : (l ++ [x]).modify f i = l.modify f i ++ [x] := by
  induction l generalizing i with
  | nil => simp at h
  | cons a l ih =>
    cases i with
    | zero => simp
    | succ i =>
      simp only [List.cons_append, List.modify_succ_cons]
      rw [ih i (by simpa using h)]

theorem modify_append_length {α : Type} (f : α → α) (l : List α) (x : α) :
    (l ++ [x]).modify f l.length = l ++ [f x] := by
  induction l with
  | nil => simp
  | cons a l ih =>
    simp only [List.cons_append, List.length_cons, List.modify_succ_cons]
    rw [ih]

theorem map_content_modify (l : List MenuItem) (g : MenuItem → MenuItem) (i : Nat)
    (hg : ∀ c, content (g c) = content c) : (l.modify g i).map content = l.map content := by
  induction l generalizing i with
  | nil => simp
  | cons a l ih =>
    cases i with
    | zero => simp [hg]
    | succ i => simp [ih]

@[simp] theorem linkLast_length (cells : List MenuItem) (last : Option Nat) (item : Nat) :
    (linkLast cells last item).length = cells.length := by
  cases last <;> simp [linkLast]

theorem linkLast_content (cells : List MenuItem) (last : Option Nat) (item : Nat) :
    (linkLast cells last item).map content = cells.map content := by
  cases last with
  | none => rfl
  | some l => exact map_content_modify _ _ _ (fun _ => rfl)

/-- The cells after `InsertMenuItem(last)`: the old cells, with the cursor cell
linked to the new cell, and the new cell. -/
theorem InsertMenuItem_spec (last : Option Nat) (M : Menu)
    (hl : ∀ l, last = some l → l < M.cells.length) :
    (InsertMenuItem last M).1 = M.cells.length ∧
    (InsertMenuItem last M).2.cells = linkLast M.cells last M.cells.length ++ [newMenuItem] ∧
    (InsertMenuItem last M).2.items = M.items ∧
    (InsertMenuItem last M).2.itemHeight = M.itemHeight ∧
    (InsertMenuItem last M).2.label = M.label := by
  cases last with
  | none => exact ⟨rfl, rfl, rfl, rfl, rfl⟩
  | some l =>
    refine ⟨rfl, ?_, rfl, rfl, rfl⟩
    show (M.cells ++ [newMenuItem]).modify _ l = _
    rw [modify_append_left _ _ _ _ (hl l rfl)]
    rfl

/-- The menu after `addItem`: the old cells, the cursor cell linked to the new
cell, and the new cell with the assignments `fill`; the head is set if it was
NULL. -/
theorem addItem_spec (fill : MenuItem → MenuItem) (last : Option Nat) (M : Menu)
    (hl : ∀ l, last = some l → l < M.cells.length) :
    (addItem fill last M).1 = M.cells.length ∧
    (addItem fill last M).2.cells =
      linkLast M.cells last M.cells.length ++ [fill newMenuItem] ∧
    (addItem fill last M).2.items = headOr M.items M.cells.length ∧
    (addItem fill last M).2.itemHeight = M.itemHeight ∧
    (addItem fill last M).2.label = M.label := by
  obtain ⟨h1, h2, h3, h4, h5⟩ := InsertMenuItem_spec last M hl
  have hc : ∀ X : Menu, X.cells = (InsertMenuItem last M).2.cells →
      (X.modify (InsertMenuItem last M).1 fill).cells =
        linkLast M.cells last M.cells.length ++ [fill newMenuItem] := by
    intro X hX
    rw [Menu.cells_modify, hX, h2, h1]
    conv => lhs; arg 2; rw [← linkLast_length M.cells last M.cells.length]
    rw [modify_append_length]
  unfold addItem
  simp only
  refine ⟨h1, ?_, ?_, ?_, ?_⟩
  · split
    · exact hc _ rfl
    · exact hc _ rfl
  · rw [Menu.items_modify, h3]
    cases hi : M.items with
    | none => simp [headOr, h1, h3, hi]
    | some h => simp [headOr, h3, hi]
  · rw [Menu.itemHeight_modify]
    split
    · exact h4
    · exact h4
  · rw [Menu.label_modify]
    split
    · exact h5
    · exact h5

theorem Linear_valid (M : Menu) (last : Option Nat) (h : Linear M last) :
    ∀ l, last = some l → l < M.cells.length := by
  intro l hl
  obtain ⟨_, h2, _⟩ := h
  rw [hl] at h2
  split at h2
  · simp at h2
  · injection h2 with h2
    omega

theorem Linear_empty (label : Option String) (itemHeight : Int) :
    Linear (.mk label itemHeight none []) none := by
  refine ⟨rfl, rfl, ?_⟩
  intro i c h
  simp [Menu.cells] at h

/-- Appending one cell `c` behind the cursor keeps the list well formed and
adds the contents of `c` at the end. -/
theorem Linear_snoc (M X : Menu) (last : Option Nat) (c : MenuItem) (h : Linear M last)
    (hc : X.cells = linkLast M.cells last M.cells.length ++ [c]) (hn : c.next = none)
    (hi : X.items = headOr M.items M.cells.length) :
    Linear X (some M.cells.length) ∧
      X.cells.map content = M.cells.map content ++ [content c] := by
  obtain ⟨h1, h2, h3⟩ := h
  have hlen : X.cells.length = M.cells.length + 1 := by
    rw [hc]
    simp
  refine ⟨⟨?_, ?_, ?_⟩, ?_⟩
  · rw [hi, h1, hlen]
    by_cases h0 : M.cells.length = 0
    · simp [h0, headOr]
    · simp [h0, headOr]
  · rw [hlen]
    simp
  · intro i c' hget
    rw [hlen]
    rw [hc, List.getElem?_append] at hget
    simp only [linkLast_length] at hget
    by_cases hi' : i < M.cells.length
    · rw [if_pos hi'] at hget
      have hne : ¬ M.cells.length = 0 := by omega
      rw [if_neg hne] at h2
      rw [h2] at hget
      simp only [linkLast] at hget
      rw [List.getElem?_modify] at hget
      cases hm : M.cells[i]? with
      | none => simp [hm] at hget
      | some c0 =>
        rw [hm] at hget
        simp only [Option.map_eq_map, Option.map_some'] at hget
        injection hget with hget
        by_cases he : M.cells.length - 1 = i
        · rw [if_pos he] at hget
          rw [← hget]
          have : i + 1 < M.cells.length + 1 := by omega
          simp only [this, if_true]
          congr 1
          omega
        · rw [if_neg he] at hget
          have := h3 i c0 hm
          rw [← hget, this]
          have h4 : i + 1 < M.cells.length := by omega
          have h5 : i + 1 < M.cells.length + 1 := by omega
          simp [h4, h5]
    · rw [if_neg hi'] at hget
      have h6 : i - M.cells.length = 0 := by
        by_contra hne
        obtain ⟨m, hm⟩ : ∃ m, i - M.cells.length = m + 1 := ⟨i - M.cells.length - 1, by omega⟩
        rw [hm] at hget
        simp at hget
      rw [h6] at hget
      simp only [List.getElem?_cons_zero] at hget
      injection hget with hget
      rw [← hget, hn]
      have : ¬ (i + 1 < M.cells.length + 1) := by omega
      simp [this]
  · rw [hc, List.map_append, linkLast_content]
    rfl

/-- The step `addItem` on a well-formed list. -/
theorem addItem_linear (fill : MenuItem → MenuItem) (last : Option Nat) (M : Menu)
    (h : Linear M last) (hfill : (fill newMenuItem).next = none) :
    (addItem fill last M).1 = M.cells.length ∧
    Linear (addItem fill last M).2 (some M.cells.length) ∧
    (addItem fill last M).2.cells.map content =
      M.cells.map content ++ [content (fill newMenuItem)] ∧
    (addItem fill last M).2.itemHeight = M.itemHeight := by
  obtain ⟨a1, a2, a3, a4, _⟩ := addItem_spec fill last M (Linear_valid M last h)
  obtain ⟨l1, l2⟩ := Linear_snoc M _ last _ h a2 hfill a3
  exact ⟨a1, l1, l2, a4⟩

/-- The step `addItem` followed by an assignment `g` to the new item. -/
theorem addItem_modify_linear (fill g : MenuItem → MenuItem) (last : Option Nat) (M : Menu)
    (h : Linear M last) (hfill : (g (fill newMenuItem)).next = none) :
    Linear ((addItem fill last M).2.modify (addItem fill last M).1 g)
      (some M.cells.length) ∧
    ((addItem fill last M).2.modify (addItem fill last M).1 g).cells.map content =
      M.cells.map content ++ [content (g (fill newMenuItem))] ∧
    ((addItem fill last M).2.modify (addItem fill last M).1 g).itemHeight = M.itemHeight := by
  obtain ⟨a1, a2, a3, a4, _⟩ := addItem_spec fill last M (Linear_valid M last h)
  have hc : ((addItem fill last M).2.modify (addItem fill last M).1 g).cells =
      linkLast M.cells last M.cells.length ++ [g (fill newMenuItem)] := by
    rw [Menu.cells_modify, a2, a1]
    conv => lhs; arg 2; rw [← linkLast_length M.cells last M.cells.length]
    rw [modify_append_length]
  obtain ⟨l1, l2⟩ := Linear_snoc M _ last _ h hc hfill (by rw [Menu.items_modify, a3])
  exact ⟨l1, l2, by rw [Menu.itemHeight_modify, a4]⟩

/-! ### Two runs of the menu builder on different menus -/

theorem MenuSim_extend (M N M1 N1 : Menu) (r1 r2 : MenuResult) (added : List MenuItem)
    (hm : M1.cells.map content = M.cells.map content ++ added)
    (hn : N1.cells.map content = N.cells.map content ++ added)
    (hmh : M1.itemHeight = M.itemHeight) (hnh : N1.itemHeight = N.itemHeight)
    (h : MenuSim M1 N1 r1 r2) : MenuSim M N r1 r2 := by
  cases r1 with
  | error e1 =>
    cases r2 with
    | error e2 => exact h
    | ok b => exact h
  | ok a =>
    cases r2 with
    | error e2 => exact h
    | ok b =>
      obtain ⟨s, la, lb, ha, hb, more, ca, cb⟩ := h
      refine ⟨s, la, lb, ha.trans hmh, hb.trans hnh, added ++ more, ?_, ?_⟩
      · rw [ca, hm, List.append_assoc]
      · rw [cb, hn, List.append_assoc]

theorem sim_item (fill : MenuItem → MenuItem) (hfill : (fill newMenuItem).next = none)
    (M N : Menu) (l1 l2 : Option Nat) (hM : Linear M l1) (hN : Linear N l2)
    (hh : M.itemHeight = N.itemHeight) (k : Menu → Option Nat → MenuResult)
    (hk : ∀ M1 p1 N1 p2, Linear M1 p1 → Linear N1 p2 → M1.itemHeight = N1.itemHeight →
      MenuSim M1 N1 (k M1 p1) (k N1 p2)) :
    MenuSim M N (k (addItem fill l1 M).2 (some (addItem fill l1 M).1))
      (k (addItem fill l2 N).2 (some (addItem fill l2 N).1)) := by
  obtain ⟨a1, a2, a3, a4⟩ := addItem_linear fill l1 M hM hfill
  obtain ⟨b1, b2, b3, b4⟩ := addItem_linear fill l2 N hN hfill
  rw [a1, b1]
  exact MenuSim_extend M N _ _ _ _ _ a3 b3 a4 b4
    (hk _ _ _ _ a2 b2 (a4.trans (hh.trans b4.symm)))

theorem sim_item_modify (fill g : MenuItem → MenuItem)
    (hfill : (g (fill newMenuItem)).next = none)
    (M N : Menu) (l1 l2 : Option Nat) (hM : Linear M l1) (hN : Linear N l2)
    (hh : M.itemHeight = N.itemHeight) (k : Menu → Option Nat → MenuResult)
    (hk : ∀ M1 p1 N1 p2, Linear M1 p1 → Linear N1 p2 → M1.itemHeight = N1.itemHeight →
      MenuSim M1 N1 (k M1 p1) (k N1 p2)) :
    MenuSim M N
      (k ((addItem fill l1 M).2.modify (addItem fill l1 M).1 g) (some (addItem fill l1 M).1))
      (k ((addItem fill l2 N).2.modify (addItem fill l2 N).1 g)
        (some (addItem fill l2 N).1)) := by
  obtain ⟨a2, a3, a4⟩ := addItem_modify_linear fill g l1 M hM hfill
  obtain ⟨b2, b3, b4⟩ := addItem_modify_linear fill g l2 N hN hfill
  have a1 : some (addItem fill l1 M).1 = some M.cells.length := by
    rw [(addItem_spec fill l1 M (Linear_valid M l1 hM)).1]
  have b1 : some (addItem fill l2 N).1 = some N.cells.length := by
    rw [(addItem_spec fill l2 N (Linear_valid N l2 hN)).1]
  rw [a1, b1]
  exact MenuSim_extend M N _ _ _ _ _ a3 b3 a4 b4
    (hk _ _ _ _ a2 b2 (a4.trans (hh.trans b4.symm)))

/-- The runs of `ParseMenuItem` on two well-formed menus of the same item
height behave alike, when those of `ParseMenuInclude` do. -/
theorem ParseMenuItem_sim (env : Env)
    (inc : TokenData → Menu → Option Nat → State → MenuResult)
    (hinc : ∀ tp M l1 N l2 st, Linear M l1 → Linear N l2 → M.itemHeight = N.itemHeight →
      MenuSim M N (inc tp M l1 st) (inc tp N l2 st))
    (start : TokenNode) (M N : Menu) (l1 l2 : Option Nat) (st : State)
    (hM : Linear M l1) (hN : Linear N l2) (hh : M.itemHeight = N.itemHeight) :
    MenuSim M N (ParseMenuItem env inc start M l1 st) (ParseMenuItem env inc start N l2 st) := by
  induction start generalizing M N l1 l2 st with
  | null =>
    exact ⟨rfl, hM, hN, rfl, rfl, [], by simp, by simp⟩
  | node d sub next ihs ihn =>
    simp only [ParseMenuItem]
    split
    · have := hinc d M l1 N l2 st hM hN hh
      cases ha : inc d M l1 st with
      | error e1 =>
        cases hb : inc d N l2 st with
        | error e2 =>
          rw [ha, hb] at this
          exact this
        | ok b =>
          rw [ha, hb] at this
          exact this.elim
      | ok a =>
        cases hb : inc d N l2 st with
        | error e2 =>
          rw [ha, hb] at this
          exact this.elim
        | ok b =>
          rw [ha, hb] at this
          obtain ⟨s, la, lb, hah, hbh, added, ca, cb⟩ := this
          simp only
          rw [s]
          exact MenuSim_extend M N _ _ _ _ _ ca cb hah hbh
            (ihn _ _ _ _ _ la lb (hah.trans (hh.trans hbh.symm)))
    · rw [hh]
      split
      · exact rfl
      · rename_i c _
        exact sim_item_modify _ _ rfl M N l1 l2 hM hN hh
          (fun M1 p1 => ParseMenuItem env inc next M1 p1 c.2.2)
          (fun M1 p1 N1 p2 h1 h2 h3 => ihn M1 N1 p1 p2 _ h1 h2 h3)
    all_goals first
      | exact sim_item _ rfl M N l1 l2 hM hN hh
          (fun M1 p1 => ParseMenuItem env inc next M1 p1 _)
          (fun M1 p1 N1 p2 h1 h2 h3 => ihn M1 N1 p1 p2 _ h1 h2 h3)
      | exact ihn M N l1 l2 _ hM hN hh

/-- An include that does not resolve to a menu leaves the menu and the cursor
as they are, and what it does besides does not depend on them. -/
theorem ParseMenuInclude_unresolved_uniform (env : Env)
    (rec : TokenNode → Menu → Option Nat → State → MenuResult)
    (tp : TokenData) (st : State) (h : includedMenu env tp = none) :
    (∀ M l, ParseMenuInclude env rec tp M l st = .error .fault) ∨
      ∃ st1, ∀ M l, ParseMenuInclude env rec tp M l st = .ok (l, M, st1) := by
  unfold includedMenu at h
  unfold ParseMenuInclude
  cases hv : tp.value with
  | none => exact Or.inl (fun _ _ => rfl)
  | some value =>
    rw [hv] at h
    simp only at h ⊢
    generalize (if strncmpEq value "exec:" 5 = true then env.ExpandPath (strOffset value 5)
      else env.ExpandPath value) = path at h ⊢
    generalize (if strncmpEq value "exec:" 5 = true then env.popen path
      else env.fopen path) = buffer at h ⊢
    cases buffer with
    | none => exact Or.inr ⟨_, fun _ _ => rfl⟩
    | some b =>
      simp only at h ⊢
      cases ht : env.Tokenize b path with
      | null => exact Or.inr ⟨_, fun _ _ => rfl⟩
      | node d s n =>
        rw [ht] at h
        simp only at h ⊢
        by_cases hty : d.type ≠ .TOK_MENU
        · simp only [if_pos hty]
          exact Or.inr ⟨_, fun _ _ => rfl⟩
        · rw [if_neg hty] at h
          simp at h

theorem ParseMenuInclude_sim (env : Env)
    (rec : TokenNode → Menu → Option Nat → State → MenuResult)
    (hrec : ∀ t M l1 N l2 st, Linear M l1 → Linear N l2 → M.itemHeight = N.itemHeight →
      MenuSim M N (rec t M l1 st) (rec t N l2 st))
    (tp : TokenData) (M : Menu) (l1 : Option Nat) (N : Menu) (l2 : Option Nat) (st : State)
    (hM : Linear M l1) (hN : Linear N l2) (hh : M.itemHeight = N.itemHeight) :
    MenuSim M N (ParseMenuInclude env rec tp M l1 st) (ParseMenuInclude env rec tp N l2 st) := by
  cases hm : includedMenu env tp with
  | some mp =>
    rw [ParseMenuInclude_resolved env rec tp mp M l1 st hm,
      ParseMenuInclude_resolved env rec tp mp N l2 st hm]
    exact hrec mp M l1 N l2 st hM hN hh
  | none =>
    rcases ParseMenuInclude_unresolved_uniform env rec tp st hm with e | ⟨st1, e⟩
    · rw [e, e]
      exact rfl
    · rw [e, e]
      exact ⟨rfl, hM, hN, rfl, rfl, [], by simp, by simp⟩

/-- The runs of the menu builder on two well-formed menus of the same item
height behave alike: the items appended have the same contents. -/
theorem ParseMenuItemFuel_sim (env : Env) (fuel : Nat) (start : TokenNode) (M N : Menu)
    (l1 l2 : Option Nat) (st : State) (hM : Linear M l1) (hN : Linear N l2)
    (hh : M.itemHeight = N.itemHeight) :
    MenuSim M N (ParseMenuItemFuel env fuel start M l1 st)
      (ParseMenuItemFuel env fuel start N l2 st) := by
  induction fuel generalizing start M N l1 l2 st with
  | zero => exact rfl
  | succ n ih =>
    exact ParseMenuItem_sim env _
      (fun tp M1 p1 N1 p2 s h1 h2 h3 =>
        ParseMenuInclude_sim env _ (fun t M2 q1 N2 q2 s2 g1 g2 g3 => ih t M2 N2 q1 q2 s2 g1 g2 g3)
          tp M1 p1 N1 p2 s h1 h2 h3)
      start M N l1 l2 st hM hN hh

/-! ### The list of a well-formed menu -/

theorem walk_linear (cells : List MenuItem)
    (h : ∀ i c, cells[i]? = some c →
      c.next = if i + 1 < cells.length then some (i + 1) else none)
    (n : Nat) : ∀ i, i + n = cells.length → 0 < n →
      walk cells n (some i) = List.range' i n := by
  induction n with
  | zero => intro i _ h0; omega
  | succ n ih =>
    intro i hi _
    have hlt : i < cells.length := by omega
    obtain ⟨c, hc⟩ : ∃ c, cells[i]? = some c := ⟨cells[i], List.getElem?_eq_getElem hlt⟩
    simp only [walk, hc, List.range'_succ]
    congr 1
    rw [h i c hc]
    by_cases hn : n = 0
    · subst hn
      have : ¬ (i + 1 < cells.length) := by omega
      simp [this, walk]
    · have : i + 1 < cells.length := by omega
      simp only [this, if_true]
      exact ih (i + 1) (by omega) (by omega)

theorem filterMap_getElem_range' (l : List MenuItem) :
    ∀ (pre : List MenuItem), (List.range' pre.length l.length).filterMap
      (fun p => (pre ++ l)[p]?) = l := by
  induction l with
  | nil => intro pre; simp
  | cons a l ih =>
    intro pre
    simp only [List.length_cons, List.range'_succ, List.filterMap_cons]
    have h1 : (pre ++ a :: l)[pre.length]? = some a := by
      rw [List.getElem?_append_right (le_refl _)]
      simp
    rw [h1]
    simp only
    have := ih (pre ++ [a])
    simp only [List.length_append, List.length_singleton, List.append_assoc,
      List.singleton_append] at this
    rw [this]

/-- In a well-formed menu the walk from the head visits the cells in the order
of their allocation: the list of the menu is its store. -/
theorem itemList_linear (M : Menu) (last : Option Nat) (h : Linear M last) :
    M.itemList = M.cells := by
  obtain ⟨h1, _, h3⟩ := h
  unfold Menu.itemList Menu.chain
  by_cases h0 : M.cells.length = 0
  · rw [h1, if_pos h0]
    have : M.cells = [] := List.length_eq_zero.mp h0
    rw [this]
    simp [walk]
  · rw [h1, if_neg h0, walk_linear M.cells h3 M.cells.length 0 (by omega) (by omega)]
    have := filterMap_getElem_range' M.cells []
    simpa using this

/-! ### Document order -/

/-- Walking a chain of siblings is walking its first part and then, with the
menu, cursor and state that leaves, the rest. -/
theorem ParseMenuItem_append (env : Env)
    (inc : TokenData → Menu → Option Nat → State → MenuResult)
    (a b : TokenNode) (M : Menu) (l : Option Nat) (st : State) :
    ParseMenuItem env inc (a.append b) M l st =
      match ParseMenuItem env inc a M l st with
      | .error e => .error e
      | .ok r => ParseMenuItem env inc b r.2.1 r.1 r.2.2 := by
  induction a generalizing M l st with
  | null => rfl
  | node d sub next _ ihn =>
    simp only [TokenNode.append, ParseMenuItem]
    split
    · split
      · rfl
      · exact ihn _ _ _
    · split
      · rfl
      · exact ihn _ _ _
    all_goals exact ihn _ _ _

/-- The `menu` case of `ParseMenuItem`, spelled out. -/
theorem ParseMenuItem_menu (env : Env)
    (inc : TokenData → Menu → Option Nat → State → MenuResult)
    (d : TokenData) (sub next : TokenNode) (M : Menu) (l : Option Nat) (st : State)
    (hty : d.type = .TOK_MENU) :
    ParseMenuItem env inc (.node d sub next) M l st =
      match ParseMenuItem env inc sub
          (newSubmenu env d (CopyString (FindAttribute d.attributes LABEL_ATTRIBUTE))
            M.itemHeight) none st with
      | .error e => .error e
      | .ok c =>
        ParseMenuItem env inc next
          ((addItem (submenuFill d) l M).2.modify (addItem (submenuFill d) l M).1
            (fun i => { i with submenu := some c.2.1 }))
          (some (addItem (submenuFill d) l M).1) c.2.2 := by
  simp only [ParseMenuItem, hty]
  rfl

/-- C1: for every chain of child nodes that `ParseMenuItem` (with its includes
resolved) processes on an empty menu without a prior cursor, split at any
point into the children `before` and the children `after`: the list of the
resulting menu holds the items the children `before` contribute, in their
order, followed by the items the children `after` contribute (what a chain
contributes is what the builder makes of it on an empty menu of its own). So
the items of each child, in particular those of a menu-level include, stand
between the items of its preceding and of its following siblings. A nested
`menu` child contributes exactly one item, of type Submenu, and a child whose
tag has no case in `ParseMenuItem` contributes no item. -/
theorem C1_items_in_document_order (env : Env) (fuel : Nat) (label : Option String)
    (itemHeight : Int) (st : State) :
    (∀ before after r,
      ParseMenuItemFuel env fuel (before.append after)
        (.mk label itemHeight none []) none st = .ok r →
      ∃ r1 r2,
        ParseMenuItemFuel env fuel before (.mk label itemHeight none []) none st = .ok r1 ∧
        ParseMenuItemFuel env fuel after (.mk label itemHeight none []) none r1.2.2 = .ok r2 ∧
        r2.2.2 = r.2.2 ∧
        r.2.1.itemList.map content =
          r1.2.1.itemList.map content ++ r2.2.1.itemList.map content) ∧
    (∀ d sub r, d.type = .TOK_MENU →
      ParseMenuItemFuel env fuel (.node d sub .null)
        (.mk label itemHeight none []) none st = .ok r →
      ∃ item, r.2.1.itemList = [item] ∧ item.type = .MENU_ITEM_SUBMENU) ∧
    (∀ d sub r, isMenuTag d.type = false →
      ParseMenuItemFuel env fuel (.node d sub .null)
        (.mk label itemHeight none []) none st = .ok r →
      r.2.1.itemList = []) := by
  cases fuel with
  | zero =>
    refine ⟨?_, ?_, ?_⟩
    · intro _ _ r h
      exact absurd h (by simp [ParseMenuItemFuel])
    · intro _ _ r _ h
      exact absurd h (by simp [ParseMenuItemFuel])
    · intro _ _ r _ h
      exact absurd h (by simp [ParseMenuItemFuel])
  | succ n =>
    have hE := Linear_empty label itemHeight
    refine ⟨?_, ?_, ?_⟩
    · intro before after r hr
      rw [ParseMenuItemFuel_succ, ParseMenuItem_append] at hr
      rw [← ParseMenuItemFuel_succ] at hr
      cases h1 : ParseMenuItemFuel env (n + 1) before (.mk label itemHeight none []) none st with
      | error e =>
        rw [h1] at hr
        exact absurd hr (by simp)
      | ok r1 =>
        rw [h1] at hr
        simp only at hr
        -- the first part leaves a well-formed list
        have s1 := ParseMenuItemFuel_sim env (n + 1) before _ _ none none st hE hE rfl
        rw [h1] at s1
        obtain ⟨_, l1, _, hh1, _, _, _, _⟩ := s1
        -- the rest, on the menu left by the first part and on an empty menu
        have s2 := ParseMenuItemFuel_sim env (n + 1) after r1.2.1 (.mk label itemHeight none [])
          r1.1 none r1.2.2 l1 hE hh1
        rw [hr] at s2
        cases h2 : ParseMenuItemFuel env (n + 1) after (.mk label itemHeight none []) none
            r1.2.2 with
        | error e =>
          rw [h2] at s2
          exact s2.elim
        | ok r2 =>
          rw [h2] at s2
          obtain ⟨hs, la, lb, _, _, added, ca, cb⟩ := s2
          refine ⟨r1, r2, rfl, h2, hs.symm, ?_⟩
          rw [itemList_linear _ _ la, itemList_linear _ _ lb, itemList_linear _ _ l1, ca, cb]
          simp [Menu.cells]
    · intro d sub r hty hr
      rw [ParseMenuItemFuel_succ, ParseMenuItem_menu _ _ _ _ _ _ _ _ hty] at hr
      split at hr
      · exact absurd hr (by simp)
      · rename_i c _
        simp only [ParseMenuItem] at hr
        injection hr with hr
        subst hr
        obtain ⟨a2, a3, _⟩ := addItem_modify_linear (submenuFill d)
          (fun i : MenuItem => { i with submenu := some c.2.1 }) none
          (.mk label itemHeight none []) hE rfl
        simp only
        rw [itemList_linear _ _ a2]
        generalize ((addItem (submenuFill d) none (Menu.mk label itemHeight none [])).2.modify
          (addItem (submenuFill d) none (Menu.mk label itemHeight none [])).1
          (fun i : MenuItem => { i with submenu := some c.2.1 })).cells = cells at a3 ⊢
        simp only [Menu.cells, List.map_nil, List.nil_append] at a3
        rcases cells with _ | ⟨item, _ | ⟨item2, rest⟩⟩
        · simp at a3
        · refine ⟨item, rfl, ?_⟩
          simp only [List.map_cons, List.map_nil] at a3
          injection a3 with a3
          exact congrArg MenuItemOf.type a3
        · simp at a3
    · intro d sub r hty hr
      rw [ParseMenuItemFuel_succ] at hr
      have : ParseMenuItem env (ParseMenuInclude env (ParseMenuItemFuel env n))
          (.node d sub .null) (.mk label itemHeight none []) none st =
          .ok (none, .mk label itemHeight none [], InvalidTag env d .TOK_MENU st) := by
        cases hd : d.type <;> simp [isMenuTag, hd] at hty <;> simp [ParseMenuItem, hd]
      rw [this] at hr
      injection hr with hr
      subst hr
      rfl

/-- C1 on the menu `mixedMenu` in `sepEnv`: the four items appear in the order
of the children that contribute them (the program, the include, the nested
menu, the separator; the `Font` tag contributes none), and the list splits
after the include as C1 says. -/
theorem C1_items_in_document_order_witness :
    (ParseMenuItemFuel sepEnv 2 mixedMenu emptyMenu none initState).toOption.map
        (fun r => r.2.1.itemList.map (fun c => (c.type, c.name, c.action.type))) =
      some [(.MENU_ITEM_NORMAL, some "xterm", .MA_EXECUTE),
        (.MENU_ITEM_SUBMENU, none, .MA_NONE),
        (.MENU_ITEM_SUBMENU, none, .MA_NONE),
        (.MENU_ITEM_SEPARATOR, none, .MA_NONE)] ∧
    ∃ r r1 r2,
      ParseMenuItemFuel sepEnv 2 mixedMenu emptyMenu none initState = .ok r ∧
      ParseMenuItemFuel sepEnv 2
        (.node (tag .TOK_PROGRAM (some "xterm") "jwmrc" 2) .null
          (.node (tag .TOK_INCLUDE (some "menu.xml") "jwmrc" 3) .null .null))
        emptyMenu none initState = .ok r1 ∧
      ParseMenuItemFuel sepEnv 2
        (.node (tag .TOK_FONT none "jwmrc" 4) .null
          (.node (tag .TOK_MENU none "jwmrc" 5)
            (.node (tag .TOK_PROGRAM (some "xclock") "jwmrc" 6) .null .null)
            (.node (tag .TOK_SEPARATOR none "jwmrc" 8) .null .null)))
        emptyMenu none r1.2.2 = .ok r2 ∧
      r.2.1.itemList.map content =
        r1.2.1.itemList.map content ++ r2.2.1.itemList.map content := by
  refine ⟨rfl, ?_⟩
  cases h : ParseMenuItemFuel sepEnv 2 mixedMenu emptyMenu none initState with
  | error e =>
    have hk : (ParseMenuItemFuel sepEnv 2 mixedMenu emptyMenu none initState).toBool = true :=
      rfl
    rw [h] at hk
    exact absurd hk (by simp [Except.toBool])
  | ok r =>
    obtain ⟨r1, r2, h1, h2, _, h4⟩ :=
      (C1_items_in_document_order sepEnv 2 none 0 initState).1
        (.node (tag .TOK_PROGRAM (some "xterm") "jwmrc" 2) .null
          (.node (tag .TOK_INCLUDE (some "menu.xml") "jwmrc" 3) .null .null))
        (.node (tag .TOK_FONT none "jwmrc" 4) .null
          (.node (tag .TOK_MENU none "jwmrc" 5)
            (.node (tag .TOK_PROGRAM (some "xclock") "jwmrc" 6) .null .null)
            (.node (tag .TOK_SEPARATOR none "jwmrc" 8) .null .null)))
        r h
    exact ⟨r, r1, r2, rfl, h1, h2, h4⟩

/-! ### What a menu-level include appends -/

theorem includedMenu_type (env : Env) (tp d : TokenData) (s n : TokenNode)
    (h : includedMenu env tp = some (.node d s n)) : d.type = .TOK_MENU := by
  unfold includedMenu at h
  cases hv : tp.value with
  | none =>
    rw [hv] at h
    simp at h
  | some value =>
    rw [hv] at h
    simp only at h
    generalize (if strncmpEq value "exec:" 5 = true then env.ExpandPath (strOffset value 5)
      else env.ExpandPath value) = path at h
    generalize (if strncmpEq value "exec:" 5 = true then env.popen path
      else env.fopen path) = buffer at h
    cases buffer with
    | none => simp at h
    | some b =>
      simp only at h
      cases ht : env.Tokenize b path with
      | null =>
        rw [ht] at h
        simp at h
      | node d2 s2 n2 =>
        rw [ht] at h
        simp only at h
        by_cases hty : d2.type ≠ .TOK_MENU
        · rw [if_pos hty] at h
          simp at h
        · rw [if_neg hty] at h
          injection h with h
          injection h with h1 _ _
          rw [← h1]
          exact not_not.mp hty

/-- C2 fails as stated: in `sepEnv` the file `menu.xml` is a menu with one
separator; the builder makes one Separator item of the children of its root,
but the include of `menu.xml` appends one Submenu item to the enclosing
menu. -/
theorem C2_include_wrapped_counterexample :
    (ParseMenuItemFuel sepEnv 2 (.node (tag .TOK_SEPARATOR none "menu.xml" 2) .null .null)
        emptyMenu none initState).toOption.map
        (fun r => r.2.1.itemList.map (fun c => c.type)) =
      some [.MENU_ITEM_SEPARATOR] ∧
    (ParseMenuItemFuel sepEnv 2 selfInclude emptyMenu none initState).toOption.map
        (fun r => r.2.1.itemList.map (fun c => c.type)) =
      some [.MENU_ITEM_SUBMENU] := by
  exact ⟨rfl, rfl⟩

/-- C2, amended: when a menu-level include resolves to a tag tree whose root is
a `menu` tag, the include appends exactly one item to the enclosing menu, a
Submenu item named by the `label` attribute of that root, and the items the
builder produces for the children of the root are the items of the submenu
this item owns (they are wrapped, not spliced); the returned cursor is that
Submenu item, the last item of the enclosing menu. -/
theorem C2_include_appends_one_submenu (env : Env) (fuel : Nat) (tp d : TokenData)
    (s0 sub : TokenNode) (M : Menu) (last : Option Nat) (st : State)
    (c : Option Nat × Menu × State)
    (hty : tp.type = .TOK_INCLUDE)
    (hinc : includedMenu env tp = some (.node d sub .null))
    (hl : ∀ l, last = some l → l < M.cells.length)
    (hsub : ParseMenuItemFuel env (fuel + 1) sub
      (newSubmenu env d (CopyString (FindAttribute d.attributes LABEL_ATTRIBUTE)) M.itemHeight)
      none st = .ok c) :
    ∃ M1, ParseMenuItemFuel env (fuel + 2) (.node tp s0 .null) M last st =
        .ok (some M.cells.length, M1, c.2.2) ∧
      M1.cells = linkLast M.cells last M.cells.length ++
        [{ name := FindAttribute d.attributes LABEL_ATTRIBUTE,
           type := .MENU_ITEM_SUBMENU,
           iconName := FindAttribute d.attributes ICON_ATTRIBUTE,
           action := { type := .MA_NONE, str := none },
           submenu := some c.2.1,
           next := none }] ∧
      M1.items = headOr M.items M.cells.length ∧
      M1.itemHeight = M.itemHeight ∧ M1.label = M.label ∧
      (Linear M last →
        M1.itemList.map content = M.itemList.map content ++
          [{ name := FindAttribute d.attributes LABEL_ATTRIBUTE,
             type := .MENU_ITEM_SUBMENU,
             iconName := FindAttribute d.attributes ICON_ATTRIBUTE,
             action := { type := .MA_NONE, str := none },
             submenu := some c.2.1,
             next := none }]) := by
  have hd := includedMenu_type env tp d sub .null hinc
  obtain ⟨a1, a2, a3, a4, a5⟩ := addItem_spec (submenuFill d) last M hl
  have hc : ((addItem (submenuFill d) last M).2.modify (addItem (submenuFill d) last M).1
      (fun i : MenuItem => { i with submenu := some c.2.1 })).cells =
      linkLast M.cells last M.cells.length ++
        [{ name := FindAttribute d.attributes LABEL_ATTRIBUTE,
           type := .MENU_ITEM_SUBMENU,
           iconName := FindAttribute d.attributes ICON_ATTRIBUTE,
           action := { type := .MA_NONE, str := none },
           submenu := some c.2.1,
           next := none }] := by
    rw [Menu.cells_modify, a2, a1]
    conv => lhs; arg 2; rw [← linkLast_length M.cells last M.cells.length]
    rw [modify_append_length]
    rfl
  refine ⟨_, ?_, hc, ?_, ?_, ?_, ?_⟩
  · rw [ParseMenuItemFuel_succ]
    simp only [ParseMenuItem, hty]
    rw [ParseMenuInclude_resolved env _ tp _ M last st hinc, ParseMenuItemFuel_succ,
      ParseMenuItem_menu _ _ _ _ _ _ _ _ hd, ← ParseMenuItemFuel_succ, hsub]
    simp only [ParseMenuItemFuel_succ, ParseMenuItem, a1]
  · rw [Menu.items_modify, a3]
  · rw [Menu.itemHeight_modify, a4]
  · rw [Menu.label_modify, a5]
  · intro hlin
    obtain ⟨l1, l2⟩ := Linear_snoc M _ last _ hlin hc rfl (by rw [Menu.items_modify, a3])
    rw [itemList_linear _ _ l1, itemList_linear _ _ hlin, l2]
    rfl

/-- C2, amended, in `sepEnv`: the include of `menu.xml` into an empty menu
returns the cursor 0 and leaves one cell, a Submenu item. -/
theorem C2_include_appends_one_submenu_witness :
    ∃ c M1,
      ParseMenuItemFuel sepEnv (0 + 1)
        (.node (tag .TOK_SEPARATOR none "menu.xml" 2) .null .null)
        (newSubmenu sepEnv (tag .TOK_MENU none "menu.xml" 1)
          (CopyString (FindAttribute (tag .TOK_MENU none "menu.xml" 1).attributes
            LABEL_ATTRIBUTE)) emptyMenu.itemHeight)
        none initState = .ok c ∧
      ParseMenuItemFuel sepEnv (0 + 2) selfInclude emptyMenu none initState =
        .ok (some 0, M1, c.2.2) ∧
      M1.cells =
        [{ name := none,
           type := .MENU_ITEM_SUBMENU,
           iconName := none,
           action := { type := .MA_NONE, str := none },
           submenu := some c.2.1,
           next := none }] := by
  cases h : ParseMenuItemFuel sepEnv (0 + 1)
      (.node (tag .TOK_SEPARATOR none "menu.xml" 2) .null .null)
      (newSubmenu sepEnv (tag .TOK_MENU none "menu.xml" 1)
        (CopyString (FindAttribute (tag .TOK_MENU none "menu.xml" 1).attributes
          LABEL_ATTRIBUTE)) emptyMenu.itemHeight)
      none initState with
  | error e =>
    have hk : (ParseMenuItemFuel sepEnv (0 + 1)
      (.node (tag .TOK_SEPARATOR none "menu.xml" 2) .null .null)
      (newSubmenu sepEnv (tag .TOK_MENU none "menu.xml" 1)
        (CopyString (FindAttribute (tag .TOK_MENU none "menu.xml" 1).attributes
          LABEL_ATTRIBUTE)) emptyMenu.itemHeight)
      none initState).toBool = true := rfl
    rw [h] at hk
    exact absurd hk (by simp [Except.toBool])
  | ok c =>
    obtain ⟨M1, h1, h2, _⟩ := C2_include_appends_one_submenu sepEnv 0
      (tag .TOK_INCLUDE (some "menu.xml") "menu.xml" 2) (tag .TOK_MENU none "menu.xml" 1)
      .null (.node (tag .TOK_SEPARATOR none "menu.xml" 2) .null .null) emptyMenu none
      initState c rfl rfl (by intro l hl; cases hl) h
    exact ⟨c, M1, rfl, h1, h2⟩

/-- The first attribute of `l` named `name` is `ap`: the attributes before it
have other names. -/
theorem FindAttribute_first (pre post : List AttributeNode) (ap : AttributeNode)
    (name : String) (hpre : ∀ a ∈ pre, a.name ≠ name) (hap : ap.name = name) :
    FindAttribute (pre ++ ap :: post) name = ap.value := by
  induction pre with
  | nil => simp [FindAttribute, strcmpEq, hap]
  | cons a pre ih =>
    have ha : a.name ≠ name := hpre a (List.mem_cons_self _ _)
    have ih2 := ih (fun b hb => hpre b (List.mem_cons_of_mem _ hb))
    simp only [List.cons_append, FindAttribute, strcmpEq]
    rw [if_neg (by simpa using fun h => ha h.symm)]
    exact ih2

/-- A list either has no attribute named `name` or splits at the first one. -/
theorem attribute_split (l : List AttributeNode) (name : String) :
    (∀ a ∈ l, a.name ≠ name) ∨
    ∃ pre ap post, l = pre ++ ap :: post ∧ (∀ a ∈ pre, a.name ≠ name) ∧ ap.name = name := by
  induction l with
  | nil => left; simp
  | cons a l ih =>
    by_cases ha : a.name = name
    · right; exact ⟨[], a, l, rfl, by simp, ha⟩
    · rcases ih with h | ⟨pre, ap, post, hl, hpre, hap⟩
      · left
        intro b hb
        rcases List.mem_cons.1 hb with rfl | hb
        · exact ha
        · exact h b hb
      · right
        refine ⟨a :: pre, ap, post, by simp [hl], ?_, hap⟩
        intro b hb
        rcases List.mem_cons.1 hb with rfl | hb
        · exact ha
        · exact hpre b hb

theorem FindAttribute_absent (l : List AttributeNode) (name : String)
    (h : ∀ a ∈ l, a.name ≠ name) : FindAttribute l name = none := by
  induction l with
  | nil => rfl
  | cons a l ih =>
    have ha : a.name ≠ name := h a (List.mem_cons_self _ _)
    simp only [FindAttribute, strcmpEq]
    rw [if_neg (by simpa using fun h => ha h.symm)]
    exact ih (fun b hb => h b (List.mem_cons_of_mem _ hb))

/-- Claim C13, as stated, fails: an attribute `x` without a value is in the
list, and `FindAttribute` returns no value for `x`, so "no value" does not
tell that no attribute has the name. -/
theorem C13_no_value_counterexample :
    ¬ (FindAttribute [{ name := "x", value := none }] "x" = none ↔
        ∀ a ∈ [({ name := "x", value := none } : AttributeNode)], a.name ≠ "x") := by
  intro h
  exact (h.1 rfl) _ (List.mem_singleton.2 rfl) rfl

/-- Claim C13, amended: `FindAttribute` returns the value member of the first
attribute, in list order, whose name equals the requested name, whatever
attributes of that name follow it; it returns no value exactly when no
attribute has the name or the first attribute of that name has no value. Of
`x="1" x="2"` the name `x` finds `"1"`. -/
theorem C13_first_match (l : List AttributeNode) (name : String) :
    (∀ pre ap post, l = pre ++ ap :: post → (∀ a ∈ pre, a.name ≠ name) →
      ap.name = name → FindAttribute l name = ap.value) ∧
    (FindAttribute l name = none ↔
      (∀ a ∈ l, a.name ≠ name) ∨
      ∃ pre ap post, l = pre ++ ap :: post ∧ (∀ a ∈ pre, a.name ≠ name) ∧
        ap.name = name ∧ ap.value = none) ∧
    FindAttribute [{ name := "x", value := some "1" }, { name := "x", value := some "2" }]
      "x" = some "1" := by
  refine ⟨?_, ?_, by decide⟩
  · intro pre ap post hl hpre hap
    rw [hl]
    exact FindAttribute_first pre post ap name hpre hap
  · constructor
    · intro h
      rcases attribute_split l name with hno | ⟨pre, ap, post, hl, hpre, hap⟩
      · exact Or.inl hno
      · right
        refine ⟨pre, ap, post, hl, hpre, hap, ?_⟩
        rw [hl, FindAttribute_first pre post ap name hpre hap] at h
        exact h
    · rintro (hno | ⟨pre, ap, post, hl, hpre, hap, hv⟩)
      · exact FindAttribute_absent l name hno
      · rw [hl, FindAttribute_first pre post ap name hpre hap, hv]
/-- An item case of `ParseMenuItem` on a well-formed list: the list gets the
new item at its end. -/
theorem addItem_itemList (fill : MenuItem → MenuItem) (last : Option Nat) (M : Menu)
    (h : Linear M last) (hfill : (fill newMenuItem).next = none) :
    Linear (addItem fill last M).2 (some M.cells.length) ∧
    (addItem fill last M).2.itemList.map content =
      M.itemList.map content ++ [content (fill newMenuItem)] := by
  obtain ⟨_, a2, a3, _⟩ := addItem_linear fill last M h hfill
  exact ⟨a2, by rw [itemList_linear _ _ a2, itemList_linear _ _ h, a3]⟩

/-- The `program` case of `ParseMenuItem`, spelled out. -/
theorem ParseMenuItem_program (env : Env)
    (inc : TokenData → Menu → Option Nat → State → MenuResult)
    (d : TokenData) (sub next : TokenNode) (M : Menu) (l : Option Nat) (st : State)
    (hty : d.type = .TOK_PROGRAM) :
    ParseMenuItem env inc (.node d sub next) M l st =
      ParseMenuItem env inc next (addItem (programFill d) l M).2
        (some (addItem (programFill d) l M).1) st := by
  simp only [ParseMenuItem, hty]
  rfl

/-- What the builder leaves after one item case, on a well-formed list: the
result of the whole run from there on is a well-formed list whose items are
those of the menu before the case, the new item, and what the following
siblings add. -/
theorem ParseMenuItemFuel_after_item (env : Env) (fuel : Nat) (next : TokenNode)
    (fill : MenuItem → MenuItem) (M : Menu) (last : Option Nat) (st : State)
    (r : Option Nat × Menu × State) (hM : Linear M last)
    (hfill : (fill newMenuItem).next = none)
    (hr : ParseMenuItemFuel env fuel next (addItem fill last M).2 (some M.cells.length) st
      = .ok r) :
    Linear r.2.1 r.1 ∧
    ∃ added, r.2.1.itemList.map content =
      M.itemList.map content ++ [content (fill newMenuItem)] ++ added := by
  obtain ⟨l1, l2⟩ := addItem_itemList fill last M hM hfill
  have hs := ParseMenuItemFuel_sim env fuel next (addItem fill last M).2 (addItem fill last M).2
    (some M.cells.length) (some M.cells.length) st l1 l1 rfl
  rw [hr] at hs
  simp only [MenuSim] at hs
  obtain ⟨_, h2, _, _, _, added, h6, _⟩ := hs
  refine ⟨h2, added, ?_⟩
  rw [itemList_linear _ _ h2, h6, ← itemList_linear _ _ l1, l2]

/-- C19: a `program` child makes the builder append exactly one item. The run
on the child alone returns the menu with that one item more and the new item
as cursor, and with following siblings the builder goes on from there, so
that every result of the builder on a well-formed list holds the items of the
list, then the new item, then what the siblings add. The item is a Normal
item; its action is Execute with the text of the node, as it is, for command;
its name is the value of the `label` attribute when the lookup finds one, and
the text of the node otherwise (no name when the node has no text either). -/
theorem C19_program_item (env : Env)
    (inc : TokenData → Menu → Option Nat → State → MenuResult)
    (d : TokenData) (sub next : TokenNode) (M : Menu) (last : Option Nat) (st : State)
    (hty : d.type = .TOK_PROGRAM)
    (hl : ∀ l, last = some l → l < M.cells.length) :
    ParseMenuItem env inc (.node d sub .null) M last st =
      .ok (some M.cells.length, (addItem (programFill d) last M).2, st) ∧
    ParseMenuItem env inc (.node d sub next) M last st =
      ParseMenuItem env inc next (addItem (programFill d) last M).2 (some M.cells.length) st ∧
    programFill d newMenuItem =
      { name :=
          (match FindAttribute d.attributes LABEL_ATTRIBUTE with
           | some value => some value
           | none => d.value),
        type := .MENU_ITEM_NORMAL,
        iconName := FindAttribute d.attributes ICON_ATTRIBUTE,
        action := { type := .MA_EXECUTE, str := d.value },
        submenu := none,
        next := none } ∧
    (addItem (programFill d) last M).2.cells =
      linkLast M.cells last M.cells.length ++ [programFill d newMenuItem] ∧
    (addItem (programFill d) last M).2.items = headOr M.items M.cells.length ∧
    (addItem (programFill d) last M).2.itemHeight = M.itemHeight ∧
    (addItem (programFill d) last M).2.label = M.label ∧
    (Linear M last →
      Linear (addItem (programFill d) last M).2 (some M.cells.length) ∧
      (addItem (programFill d) last M).2.itemList.map content =
        M.itemList.map content ++ [programFill d newMenuItem]) ∧
    (∀ (fuel : Nat) (r : Option Nat × Menu × State), Linear M last →
      ParseMenuItemFuel env fuel (.node d sub next) M last st = .ok r →
      Linear r.2.1 r.1 ∧
      ∃ added, r.2.1.itemList.map content =
        M.itemList.map content ++ [programFill d newMenuItem] ++ added) := by
  obtain ⟨a1, a2, a3, a4, a5⟩ := addItem_spec (programFill d) last M hl
  have hitem : programFill d newMenuItem =
      { name :=
          (match FindAttribute d.attributes LABEL_ATTRIBUTE with
           | some value => some value
           | none => d.value),
        type := .MENU_ITEM_NORMAL,
        iconName := FindAttribute d.attributes ICON_ATTRIBUTE,
        action := { type := .MA_EXECUTE, str := d.value },
        submenu := none,
        next := none } := by
    unfold programFill
    cases FindAttribute d.attributes LABEL_ATTRIBUTE with
    | some v => rfl
    | none =>
      cases d.value with
      | some v => rfl
      | none => rfl
  have hnext : (programFill d newMenuItem).next = none := rfl
  have hcontent : content (programFill d newMenuItem) = programFill d newMenuItem := rfl
  refine ⟨?_, ?_, hitem, a2, a3, a4, a5, ?_, ?_⟩
  · rw [ParseMenuItem_program env inc d sub .null M last st hty, a1]
    rfl
  · rw [ParseMenuItem_program env inc d sub next M last st hty, a1]
  · intro hlin
    obtain ⟨l1, l2⟩ := addItem_itemList (programFill d) last M hlin hnext
    exact ⟨l1, by rw [l2, hcontent]⟩
  · intro fuel r hlin hr
    cases fuel with
    | zero => cases hr
    | succ n =>
      rw [ParseMenuItemFuel_succ, ParseMenuItem_program env _ d sub next M last st hty, a1,
        ← ParseMenuItemFuel_succ] at hr
      have := ParseMenuItemFuel_after_item env (n + 1) next (programFill d) M last st r hlin
        hnext hr
      rw [hcontent] at this
      exact this

/-- C19 on an empty menu: the builder run on the node `labelledProgram` alone
returns the menu with one item, named `Terminal`, that runs `xterm`, and that
item as cursor. -/
theorem C19_program_item_witness :
    labelledProgram.type = .TOK_PROGRAM ∧
    ParseMenuItemFuel emptyEnv 1 (.node labelledProgram .null .null) emptyMenu none initState =
      .ok (some 0,
        .mk none 0 (some 0)
          [{ name := some "Terminal",
             type := .MENU_ITEM_NORMAL,
             iconName := none,
             action := { type := .MA_EXECUTE, str := some "xterm" },
             submenu := none,
             next := none }],
        initState) :=
  ⟨rfl, (C19_program_item emptyEnv (ParseMenuInclude emptyEnv (ParseMenuItemFuel emptyEnv 0))
    labelledProgram .null .null emptyMenu none initState rfl (by intro l hl; cases hl)).1⟩

/-- The window-action case of `ParseMenuItem`, spelled out. -/
theorem ParseMenuItem_window (env : Env)
    (inc : TokenData → Menu → Option Nat → State → MenuResult)
    (d : TokenData) (sub next : TokenNode) (M : Menu) (l : Option Nat) (st : State)
    (hty : isWindowActionTag d.type = true) :
    ParseMenuItem env inc (.node d sub next) M l st =
      ParseMenuItem env inc next (addItem (windowFill env d) l M).2
        (some (addItem (windowFill env d) l M).1) st := by
  cases hd : d.type <;> rw [hd] at hty <;> first
    | exact absurd hty (by decide)
    | (simp only [ParseMenuItem, hd]; rw [← hd]; rfl)

/-- C20: a child with one of the nine window-action tags makes the builder
append exactly one item. The run on the child alone returns the menu with that
one item more and the new item as cursor, and with following siblings the
builder goes on from there, so that every result of the builder on a
well-formed list holds the items of the list, then the new item, then what
the siblings add. The item is a Normal item; its name is the value of the
`label` attribute when the lookup finds one, and the name of the tag
(`GetTokenName`) otherwise; the type of its action is the one the tag is
mapped to. The mapping sends desktops, stick, maximize, minimize, shade,
move, resize, kill and close to Desktop, Stick, Maximize, Minimize, Shade,
Move, Resize, Kill and Close, and is one-to-one on the nine tags. -/
theorem C20_window_action_item (env : Env)
    (inc : TokenData → Menu → Option Nat → State → MenuResult)
    (d : TokenData) (sub next : TokenNode) (M : Menu) (last : Option Nat) (st : State)
    (hty : isWindowActionTag d.type = true)
    (hl : ∀ l, last = some l → l < M.cells.length) :
    ParseMenuItem env inc (.node d sub .null) M last st =
      .ok (some M.cells.length, (addItem (windowFill env d) last M).2, st) ∧
    ParseMenuItem env inc (.node d sub next) M last st =
      ParseMenuItem env inc next (addItem (windowFill env d) last M).2
        (some M.cells.length) st ∧
    windowFill env d newMenuItem =
      { name :=
          (match FindAttribute d.attributes LABEL_ATTRIBUTE with
           | some value => some value
           | none => some (env.GetTokenName d)),
        type := .MENU_ITEM_NORMAL,
        iconName := FindAttribute d.attributes ICON_ATTRIBUTE,
        action := { type := windowAction d.type, str := none },
        submenu := none,
        next := none } ∧
    (addItem (windowFill env d) last M).2.cells =
      linkLast M.cells last M.cells.length ++ [windowFill env d newMenuItem] ∧
    (addItem (windowFill env d) last M).2.items = headOr M.items M.cells.length ∧
    (addItem (windowFill env d) last M).2.itemHeight = M.itemHeight ∧
    (addItem (windowFill env d) last M).2.label = M.label ∧
    (Linear M last →
      Linear (addItem (windowFill env d) last M).2 (some M.cells.length) ∧
      (addItem (windowFill env d) last M).2.itemList.map content =
        M.itemList.map content ++ [windowFill env d newMenuItem]) ∧
    (∀ (fuel : Nat) (r : Option Nat × Menu × State), Linear M last →
      ParseMenuItemFuel env fuel (.node d sub next) M last st = .ok r →
      Linear r.2.1 r.1 ∧
      ∃ added, r.2.1.itemList.map content =
        M.itemList.map content ++ [windowFill env d newMenuItem] ++ added) ∧
    (isWindowActionTag = fun t => decide (t ∈ [TokenType.TOK_DESKTOPS, .TOK_STICK,
      .TOK_MAXIMIZE, .TOK_MINIMIZE, .TOK_SHADE, .TOK_MOVE, .TOK_RESIZE, .TOK_KILL,
      .TOK_CLOSE])) ∧
    [TokenType.TOK_DESKTOPS, .TOK_STICK, .TOK_MAXIMIZE, .TOK_MINIMIZE, .TOK_SHADE,
      .TOK_MOVE, .TOK_RESIZE, .TOK_KILL, .TOK_CLOSE].map windowAction =
      [.MA_DESKTOP, .MA_STICK, .MA_MAXIMIZE, .MA_MINIMIZE, .MA_SHADE, .MA_MOVE,
        .MA_RESIZE, .MA_KILL, .MA_CLOSE] ∧
    (∀ t1 t2, isWindowActionTag t1 = true → isWindowActionTag t2 = true →
      windowAction t1 = windowAction t2 → t1 = t2) := by
  obtain ⟨a1, a2, a3, a4, a5⟩ := addItem_spec (windowFill env d) last M hl
  have hitem : windowFill env d newMenuItem =
      { name :=
          (match FindAttribute d.attributes LABEL_ATTRIBUTE with
           | some value => some value
           | none => some (env.GetTokenName d)),
        type := .MENU_ITEM_NORMAL,
        iconName := FindAttribute d.attributes ICON_ATTRIBUTE,
        action := { type := windowAction d.type, str := none },
        submenu := none,
        next := none } := by
    unfold windowFill labelOrTokenName
    cases FindAttribute d.attributes LABEL_ATTRIBUTE with
    | some v => rfl
    | none => rfl
  have hnext : (windowFill env d newMenuItem).next = none := rfl
  have hcontent : content (windowFill env d newMenuItem) = windowFill env d newMenuItem := rfl
  refine ⟨?_, ?_, hitem, a2, a3, a4, a5, ?_, ?_, ?_, rfl, ?_⟩
  · rw [ParseMenuItem_window env inc d sub .null M last st hty, a1]
    rfl
  · rw [ParseMenuItem_window env inc d sub next M last st hty, a1]
  · intro hlin
    obtain ⟨l1, l2⟩ := addItem_itemList (windowFill env d) last M hlin hnext
    exact ⟨l1, by rw [l2, hcontent]⟩
  · intro fuel r hlin hr
    cases fuel with
    | zero => cases hr
    | succ n =>
      rw [ParseMenuItemFuel_succ, ParseMenuItem_window env _ d sub next M last st hty, a1,
        ← ParseMenuItemFuel_succ] at hr
      have := ParseMenuItemFuel_after_item env (n + 1) next (windowFill env d) M last st r hlin
        hnext hr
      rw [hcontent] at this
      exact this
  · funext t
    cases t <;> rfl
  · intro t1 t2 h1 h2 h
    cases t1 <;> first
      | exact absurd h1 (by decide)
      | (cases t2 <;> first
          | exact absurd h2 (by decide)
          | rfl
          | exact absurd h (by decide))

/-- C20 on an empty menu: the builder run on the node `maximizeTag` alone, which
has no label, returns the menu with one item, named by `GetTokenName`, with
the action Maximize, and that item as cursor. -/
theorem C20_window_action_item_witness :
    isWindowActionTag maximizeTag.type = true ∧
    ParseMenuItemFuel emptyEnv 1 (.node maximizeTag .null .null) emptyMenu none initState =
      .ok (some 0,
        .mk none 0 (some 0)
          [{ name := some "tag",
             type := .MENU_ITEM_NORMAL,
             iconName := none,
             action := { type := .MA_MAXIMIZE, str := none },
             submenu := none,
             next := none }],
        initState) :=
  ⟨rfl, (C20_window_action_item emptyEnv
    (ParseMenuInclude emptyEnv (ParseMenuItemFuel emptyEnv 0))
    maximizeTag .null .null emptyMenu none initState rfl (by intro l hl; cases hl)).1⟩

/-- C16: a menu-level include with a text whose file or command cannot be
opened, or whose tree has no root or a root that is not a `menu` tag,
contributes nothing. `ParseMenuInclude` returns the cursor it was given and
leaves the menu as it is; its only effect is one diagnostic, for the include
node, which says that the program could not be executed, that the file could
not be opened, or that the included menu is invalid. `ParseMenuItem` then goes
on with the siblings that follow the include, with that menu and cursor. -/
theorem C16_failed_include_contributes_nothing (env : Env)
    (rec : TokenNode → Menu → Option Nat → State → MenuResult)
    (tp : TokenData) (sub next : TokenNode) (M : Menu) (last : Option Nat) (st : State)
    (value : String)
    (hty : tp.type = .TOK_INCLUDE) (hv : tp.value = some value)
    (hfail : includedMenu env tp = none) :
    ∃ str args,
      ParseMenuInclude env rec tp M last st =
        .ok (last, M, st.emit (.WarningVA (ParseErrorMsg (some tp)) str args)) ∧
      (st.emit (.WarningVA (ParseErrorMsg (some tp)) str args)).log =
        st.log ++ [.WarningVA (ParseErrorMsg (some tp)) str args] ∧
      ParseMenuItem env (ParseMenuInclude env rec) (.node tp sub next) M last st =
        ParseMenuItem env (ParseMenuInclude env rec) next M last
          (st.emit (.WarningVA (ParseErrorMsg (some tp)) str args)) ∧
      ((str = "could not execute included program: %s" ∧
          args = [.str (some (env.ExpandPath (strOffset value 5)))]) ∨
        (str = "could not open include: %s" ∧ args = [.str (some (env.ExpandPath value))]) ∨
        (str = "invalid included menu: %s" ∧ args = [.str (some value)])) := by
  have key : ∃ str args,
      ParseMenuInclude env rec tp M last st =
        .ok (last, M, st.emit (.WarningVA (ParseErrorMsg (some tp)) str args)) ∧
      ((str = "could not execute included program: %s" ∧
          args = [.str (some (env.ExpandPath (strOffset value 5)))]) ∨
        (str = "could not open include: %s" ∧ args = [.str (some (env.ExpandPath value))]) ∨
        (str = "invalid included menu: %s" ∧ args = [.str (some value)])) := by
    unfold includedMenu at hfail
    unfold ParseMenuInclude
    rw [hv] at hfail
    rw [hv]
    simp only at hfail ⊢
    by_cases hx : strncmpEq value "exec:" 5 = true
    · simp only [hx, if_true] at hfail ⊢
      cases hb : env.popen (env.ExpandPath (strOffset value 5)) with
      | none => exact ⟨_, _, rfl, Or.inl ⟨rfl, rfl⟩⟩
      | some b =>
        rw [hb] at hfail
        simp only at hfail ⊢
        cases ht : env.Tokenize b (env.ExpandPath (strOffset value 5)) with
        | null => exact ⟨_, _, rfl, Or.inr (Or.inr ⟨rfl, rfl⟩)⟩
        | node d s n =>
          rw [ht] at hfail
          simp only at hfail ⊢
          by_cases hd : d.type ≠ .TOK_MENU
          · rw [if_pos hd]
            exact ⟨_, _, rfl, Or.inr (Or.inr ⟨rfl, rfl⟩)⟩
          · rw [if_neg hd] at hfail
            simp at hfail
    · have hx2 : strncmpEq value "exec:" 5 = false := by simpa using hx
      simp only [hx2, Bool.false_eq_true, if_false] at hfail ⊢
      cases hb : env.fopen (env.ExpandPath value) with
      | none => exact ⟨_, _, rfl, Or.inr (Or.inl ⟨rfl, rfl⟩)⟩
      | some b =>
        rw [hb] at hfail
        simp only at hfail ⊢
        cases ht : env.Tokenize b (env.ExpandPath value) with
        | null => exact ⟨_, _, rfl, Or.inr (Or.inr ⟨rfl, rfl⟩)⟩
        | node d s n =>
          rw [ht] at hfail
          simp only at hfail ⊢
          by_cases hd : d.type ≠ .TOK_MENU
          · rw [if_pos hd]
            exact ⟨_, _, rfl, Or.inr (Or.inr ⟨rfl, rfl⟩)⟩
          · rw [if_neg hd] at hfail
            simp at hfail
  obtain ⟨str, args, h1, h2⟩ := key
  refine ⟨str, args, h1, rfl, ?_, h2⟩
  simp only [ParseMenuItem, hty]
  rw [h1]

/-- C16 without any file: the include of `menu.xml` into an empty menu leaves
the menu empty and the cursor NULL, and the separator that follows it is
processed. -/
theorem C16_failed_include_contributes_nothing_witness :
    ∃ str args,
      ParseMenuInclude emptyEnv (ParseMenuItemFuel emptyEnv 0)
        (tag .TOK_INCLUDE (some "menu.xml") "jwmrc" 3) emptyMenu none initState =
        .ok (none, emptyMenu, initState.emit
          (.WarningVA (ParseErrorMsg (some (tag .TOK_INCLUDE (some "menu.xml") "jwmrc" 3)))
            str args)) ∧
      ParseMenuItem emptyEnv (ParseMenuInclude emptyEnv (ParseMenuItemFuel emptyEnv 0))
        (.node (tag .TOK_INCLUDE (some "menu.xml") "jwmrc" 3) .null
          (.node (tag .TOK_SEPARATOR none "jwmrc" 4) .null .null)) emptyMenu none initState =
        ParseMenuItem emptyEnv (ParseMenuInclude emptyEnv (ParseMenuItemFuel emptyEnv 0))
          (.node (tag .TOK_SEPARATOR none "jwmrc" 4) .null .null) emptyMenu none
          (initState.emit
            (.WarningVA (ParseErrorMsg (some (tag .TOK_INCLUDE (some "menu.xml") "jwmrc" 3)))
              str args)) := by
  obtain ⟨str, args, h1, _, h3, _⟩ := C16_failed_include_contributes_nothing emptyEnv
    (ParseMenuItemFuel emptyEnv 0) (tag .TOK_INCLUDE (some "menu.xml") "jwmrc" 3) .null
    (.node (tag .TOK_SEPARATOR none "jwmrc" 4) .null .null) emptyMenu none initState
    "menu.xml" rfl rfl rfl
  exact ⟨str, args, h1, h3⟩
/-- C15: with a positive include-depth limit, `ParseConfig` opens the primary
path `fileName` first. When it opens, the tree of that file is parsed and the
fallback `SYSTEM_CONFIG` is not tried; when it does not open, the fallback is
tried, and its tree is parsed when it opens; when neither opens, nothing is
parsed and the only calls made are the diagnostic that names both paths and
the two validation passes that end every load. -/
theorem C15_config_fallback (env : Env) (mfuel fuel : Nat) (fileName : String) (st : State)
    (hmax : 1 ≤ env.MAX_INCLUDE_DEPTH) :
    (∀ buffer, env.fopen fileName = some buffer →
      ParseConfig env mfuel (fuel + 1) fileName st =
        match Parse env (ParseMenuItemFuel env mfuel) (ParseFileFuel env mfuel fuel)
            (env.Tokenize buffer fileName) 1 st with
        | .error e => .error e
        | .ok s => .ok ((s.emit .ValidateTrayButtons).emit .ValidateKeys)) ∧
    (env.fopen fileName = none → ∀ buffer, env.fopen env.SYSTEM_CONFIG = some buffer →
      ParseConfig env mfuel (fuel + 1) fileName st =
        match Parse env (ParseMenuItemFuel env mfuel) (ParseFileFuel env mfuel fuel)
            (env.Tokenize buffer env.SYSTEM_CONFIG) 1 st with
        | .error e => .error e
        | .ok s => .ok ((s.emit .ValidateTrayButtons).emit .ValidateKeys)) ∧
    (env.fopen fileName = none → env.fopen env.SYSTEM_CONFIG = none →
      ParseConfig env mfuel (fuel + 1) fileName st =
        .ok { st with log := st.log ++
          [.WarningVA "configuration error" "could not open %s or %s"
            [.str (some fileName), .str (some env.SYSTEM_CONFIG)],
           .ValidateTrayButtons, .ValidateKeys] }) := by
  have hd : ¬ ((1 : Int) > env.MAX_INCLUDE_DEPTH) := by omega
  refine ⟨?_, ?_, ?_⟩
  · intro buffer hb
    simp only [ParseConfig, ParseFileFuel_succ, ParseFile, zero_add, hd, if_false, hb, zero_add]
    cases Parse env (ParseMenuItemFuel env mfuel) (ParseFileFuel env mfuel fuel)
      (env.Tokenize buffer fileName) 1 st <;> rfl
  · intro hp buffer hb
    simp only [ParseConfig, ParseFileFuel_succ, ParseFile, zero_add, hd, if_false, hp, hb, zero_add]
    cases Parse env (ParseMenuItemFuel env mfuel) (ParseFileFuel env mfuel fuel)
      (env.Tokenize buffer env.SYSTEM_CONFIG) 1 st <;> rfl
  · intro hp hs
    simp only [ParseConfig, ParseFileFuel_succ, ParseFile, zero_add, hd, if_false, hp, hs, zero_add]
    simp [ParseError, ParseErrorMsg, State.emit]

/-- C15 without any file: the load of `jwmrc` makes three calls, the
diagnostic and the two validation passes, and parses nothing. -/
theorem C15_config_fallback_witness :
    ParseConfig emptyEnv 1 (0 + 1) "jwmrc" initState =
      .ok { initState with log :=
        [.WarningVA "configuration error" "could not open %s or %s"
          [.str (some "jwmrc"), .str (some "/etc/system.jwmrc")],
         .ValidateTrayButtons, .ValidateKeys] } :=
  (C15_config_fallback emptyEnv 1 0 "jwmrc" initState (by decide)).2.2 rfl rfl
/-- The function `ParseRootMenu` builds the items into `rootMenu`. -/
theorem ParseRootMenu_eq (env : Env)
    (mb : TokenNode → Menu → Option Nat → State → MenuResult)
    (start : TokenData) (sub : TokenNode) (st : State) :
    ParseRootMenu env mb start sub st =
      match mb sub (rootMenu env start) none st with
      | .error e => .error e
      | .ok r =>
        .ok (r.2.2.emit (.SetRootMenu
          (match FindAttribute start.attributes ONROOT_ATTRIBUTE with
           | some v => v
           | none => "123") r.2.1)) := rfl

theorem matchesItems_content (t : TokenNode) (l : List MenuItem) :
    matchesItems t (l.map content) = matchesItems t l := by
  induction t generalizing l with
  | null => cases l <;> rfl
  | node d sub next _ ihn =>
    cases l with
    | nil => rfl
    | cons i rest =>
      simp only [List.map_cons, matchesItems, ihn]
      rfl

theorem matchesItems_length (t : TokenNode) (l : List MenuItem)
    (h : matchesItems t l = true) : l.length = childCount t := by
  induction t generalizing l with
  | null =>
    cases l with
    | nil => rfl
    | cons i rest => exact absurd h (by simp [matchesItems])
  | node d sub next _ ihn =>
    cases l with
    | nil => exact absurd h (by simp [matchesItems])
    | cons i rest =>
      simp only [matchesItems, Bool.and_eq_true] at h
      simp only [List.length_cons, childCount, ihn rest h.2]

/-- The `separator` case of `ParseMenuItem`, spelled out. -/
theorem ParseMenuItem_separator (env : Env)
    (inc : TokenData → Menu → Option Nat → State → MenuResult)
    (d : TokenData) (sub next : TokenNode) (M : Menu) (l : Option Nat) (st : State)
    (hty : d.type = .TOK_SEPARATOR) :
    ParseMenuItem env inc (.node d sub next) M l st =
      ParseMenuItem env inc next
        (addItem (fun c : MenuItem => { c with type := .MENU_ITEM_SEPARATOR }) l M).2
        (some (addItem (fun c : MenuItem => { c with type := .MENU_ITEM_SEPARATOR }) l M).1)
        st := by
  simp only [ParseMenuItem, hty]

/-- On a tree of separators, programs and nested menus the builder returns a
well-formed list, and the items it appends correspond to the children. -/
theorem ParseMenuItem_simple (env : Env)
    (inc : TokenData → Menu → Option Nat → State → MenuResult)
    (start : TokenNode) (M : Menu) (last : Option Nat) (st : State)
    (hs : simpleMenu start = true) (hM : Linear M last) :
    ∃ r L, ParseMenuItem env inc start M last st = .ok r ∧ Linear r.2.1 r.1 ∧
      r.2.1.cells.map content = M.cells.map content ++ L ∧
      matchesItems start L = true := by
  induction start generalizing M last st with
  | null => exact ⟨_, [], rfl, hM, by simp, rfl⟩
  | node d sub next ihs ihn =>
    simp only [simpleMenu, Bool.and_eq_true] at hs
    obtain ⟨h1, h3⟩ := hs
    cases hd : d.type
    case TOK_MENU =>
      rw [hd] at h1
      have hsub : simpleMenu sub = true := h1
      obtain ⟨c, Ls, hc, hcl, hcc, hcm⟩ := ihs
        (newSubmenu env d (CopyString (FindAttribute d.attributes LABEL_ATTRIBUTE))
          M.itemHeight) none st hsub (Linear_empty _ _)
      obtain ⟨a2, a3, _⟩ := addItem_modify_linear (submenuFill d)
        (fun i : MenuItem => { i with submenu := some c.2.1 }) last M hM rfl
      have a1 := (addItem_spec (submenuFill d) last M (Linear_valid M last hM)).1
      rw [← a1] at a2
      obtain ⟨r, L, hr, hlin, hcells, hmatch⟩ := ihn _ _ c.2.2 h3 a2
      refine ⟨r, content ({ submenuFill d newMenuItem with submenu := some c.2.1 }) :: L,
        ?_, hlin, ?_, ?_⟩
      · rw [ParseMenuItem_menu _ _ _ _ _ _ _ _ hd, hc]
        exact hr
      · rw [hcells, a3]
        simp
      · have hsm : matchesItems sub c.2.1.itemList = true := by
          rw [itemList_linear _ _ hcl, ← matchesItems_content, hcc]
          simpa [newSubmenu, Menu.cells] using hcm
        simp only [matchesItems, hd, hmatch, Bool.and_true]
        simp [content, submenuFill, hsm]
    case TOK_PROGRAM =>
      obtain ⟨a1, a2, a3, _⟩ := addItem_linear (programFill d) last M hM rfl
      rw [← a1] at a2
      obtain ⟨r, L, hr, hlin, hcells, hmatch⟩ := ihn _ _ st h3 a2
      refine ⟨r, content (programFill d newMenuItem) :: L, ?_, hlin, ?_, ?_⟩
      · rw [ParseMenuItem_program _ _ _ _ _ _ _ _ hd]
        exact hr
      · rw [hcells, a3]
        simp
      · simp only [matchesItems, hd, hmatch, Bool.and_true]
        simp [content, programFill, newMenuItem]
    case TOK_SEPARATOR =>
      obtain ⟨a1, a2, a3, _⟩ := addItem_linear
        (fun c : MenuItem => { c with type := .MENU_ITEM_SEPARATOR }) last M hM rfl
      rw [← a1] at a2
      obtain ⟨r, L, hr, hlin, hcells, hmatch⟩ := ihn _ _ st h3 a2
      refine ⟨r, content ({ newMenuItem with type := .MENU_ITEM_SEPARATOR }) :: L,
        ?_, hlin, ?_, ?_⟩
      · rw [ParseMenuItem_separator _ _ _ _ _ _ _ _ hd]
        exact hr
      · rw [hcells, a3]
        simp
      · simp only [matchesItems, hd, hmatch, Bool.and_true]
        simp [content]
    all_goals
      rw [hd] at h1
      exact absurd h1 Bool.false_ne_true
/-- C14: for a chain of children that holds `separator`, `program` and `menu`
nodes only, at every depth, the builder returns, and the list of the menu it
filled (an empty menu to begin with) corresponds to the children one to one
and in order: a Separator item for a `separator`, a Normal item with an
Execute action for a `program`, and for a `menu` a Submenu item whose submenu
has a list that corresponds to the children of that node in the same way. The
list has as many items as the chain has nodes, as has every list that
corresponds to a chain; the same holds for the menu `ParseRootMenu` hands to
`SetRootMenu`. -/
theorem C14_items_match_children (env : Env) (fuel : Nat) (start : TokenNode)
    (label : Option String) (itemHeight : Int) (st : State)
    (hs : simpleMenu start = true) :
    (∃ r, ParseMenuItemFuel env (fuel + 1) start (.mk label itemHeight none []) none st =
        .ok r ∧
      matchesItems start r.2.1.itemList = true ∧
      r.2.1.itemList.length = childCount start) ∧
    (∀ t L, matchesItems t L = true → L.length = childCount t) ∧
    (∀ d : TokenData, ∃ (st1 : State) (value : String) (m : Menu),
      ParseRootMenu env (ParseMenuItemFuel env (fuel + 1)) d start st =
        .ok (st1.emit (.SetRootMenu value m)) ∧
      matchesItems start m.itemList = true) := by
  have key : ∀ M : Menu, M.cells = [] → Linear M none →
      ∃ r, ParseMenuItemFuel env (fuel + 1) start M none st = .ok r ∧
        matchesItems start r.2.1.itemList = true := by
    intro M hM hlin
    obtain ⟨r, L, hr, hl, hc, hm⟩ := ParseMenuItem_simple env
      (ParseMenuInclude env (ParseMenuItemFuel env fuel)) start M none st hs hlin
    refine ⟨r, hr, ?_⟩
    rw [itemList_linear _ _ hl, ← matchesItems_content, hc, hM]
    simpa using hm
  refine ⟨?_, matchesItems_length, ?_⟩
  · obtain ⟨r, hr, hm⟩ := key (.mk label itemHeight none []) rfl (Linear_empty _ _)
    exact ⟨r, hr, hm, matchesItems_length _ _ hm⟩
  · intro d
    obtain ⟨r, hr, hm⟩ := key (rootMenu env d) rfl (Linear_empty _ _)
    refine ⟨r.2.2,
      (match FindAttribute d.attributes ONROOT_ATTRIBUTE with
       | some v => v
       | none => "123"), r.2.1, ?_, hm⟩
    rw [ParseRootMenu_eq, hr]

/-- C14 on `roundTripMenu`: three items, a Separator, a Normal item that
executes and a Submenu item whose submenu holds one item. -/
theorem C14_items_match_children_witness :
    simpleMenu roundTripMenu = true ∧
    ∃ r, ParseMenuItemFuel emptyEnv (0 + 1) roundTripMenu emptyMenu none initState = .ok r ∧
      matchesItems roundTripMenu r.2.1.itemList = true ∧
      r.2.1.itemList.length = 3 ∧
      r.2.1.itemList.map
        (fun i => (i.type, i.action.type, i.submenu.map (fun m => m.itemList.length))) =
        [(.MENU_ITEM_SEPARATOR, .MA_NONE, none), (.MENU_ITEM_NORMAL, .MA_EXECUTE, none),
          (.MENU_ITEM_SUBMENU, .MA_NONE, some 1)] := by
  obtain ⟨r, hr, hm, hlen⟩ :=
    (C14_items_match_children emptyEnv 0 roundTripMenu none 0 initState rfl).1
  have hk : (ParseMenuItemFuel emptyEnv (0 + 1) roundTripMenu emptyMenu none
      initState).toOption.map (fun r => r.2.1.itemList.map
        (fun i => (i.type, i.action.type, i.submenu.map (fun m => m.itemList.length)))) =
      some [(.MENU_ITEM_SEPARATOR, .MA_NONE, none), (.MENU_ITEM_NORMAL, .MA_EXECUTE, none),
        (.MENU_ITEM_SUBMENU, .MA_NONE, some 1)] := rfl
  refine ⟨rfl, r, hr, hm, hlen, ?_⟩
  have hr2 : ParseMenuItemFuel emptyEnv (0 + 1) roundTripMenu emptyMenu none initState =
      .ok r := hr
  rw [hr2] at hk
  simpa [Except.toOption] using hk

@[simp] theorem calls_emit (st : State) (e : Effect) :
    (st.emit e).log.filterMap exitCall = st.log.filterMap exitCall ++ (exitCall e).toList := by
  simp only [emit_log, List.filterMap_append]
  cases h : exitCall e <;> simp [List.filterMap, h]

/-- An include that does not resolve to a menu, and returns, has made one
call, of `WarningVA`. -/
theorem ParseMenuInclude_unresolved_log (env : Env)
    (rec : TokenNode → Menu → Option Nat → State → MenuResult)
    (tp : TokenData) (M : Menu) (l : Option Nat) (st : State)
    (r : Option Nat × Menu × State)
    (h : includedMenu env tp = none)
    (hr : ParseMenuInclude env rec tp M l st = .ok r) :
    ∃ msg str args, r = (l, M, st.emit (.WarningVA msg str args)) := by
  unfold includedMenu at h
  unfold ParseMenuInclude at hr
  cases hv : tp.value with
  | none =>
    rw [hv] at hr
    exact absurd hr (by simp)
  | some value =>
    rw [hv] at h hr
    simp only at h hr
    generalize (if strncmpEq value "exec:" 5 = true then env.ExpandPath (strOffset value 5)
      else env.ExpandPath value) = path at h hr
    generalize (if strncmpEq value "exec:" 5 = true then env.popen path
      else env.fopen path) = buffer at h hr
    cases buffer with
    | none =>
      simp only at hr
      injection hr with hr
      subst hr
      by_cases hx : strncmpEq value "exec:" 5 = true
      · exact ⟨_, _, _, by rw [if_pos hx]; rfl⟩
      · exact ⟨_, _, _, by rw [if_neg hx]; rfl⟩
    | some b =>
      simp only at h hr
      cases ht : env.Tokenize b path with
      | null =>
        rw [ht] at hr
        simp only at hr
        injection hr with hr
        subst hr
        exact ⟨_, _, _, rfl⟩
      | node d s n =>
        rw [ht] at h hr
        simp only at h hr
        by_cases hty : d.type ≠ .TOK_MENU
        · rw [if_pos hty] at hr
          injection hr with hr
          subst hr
          exact ⟨_, _, _, rfl⟩
        · rw [if_neg hty] at h
          simp at h

/-- The calls of `SetShowExitConfirmation` the builder makes are those of the
`exit` nodes in document order, when those of the includes are. -/
theorem ParseMenuItem_exits (env : Env)
    (inc : TokenData → Menu → Option Nat → State → MenuResult)
    (below : TokenNode → List TokenData)
    (hinc : ∀ tp M l st r, inc tp M l st = .ok r →
      r.2.2.log.filterMap exitCall = st.log.filterMap exitCall ++
        ((match includedMenu env tp with
          | some mp => below mp
          | none => []).map exitConfirm))
    (start : TokenNode) (M : Menu) (l : Option Nat) (st : State)
    (r : Option Nat × Menu × State)
    (hr : ParseMenuItem env inc start M l st = .ok r) :
    r.2.2.log.filterMap exitCall =
      st.log.filterMap exitCall ++ (exitTagsAux env below start).map exitConfirm := by
  induction start generalizing M l st r with
  | null =>
    simp only [ParseMenuItem] at hr
    injection hr with hr
    subst hr
    simp [exitTagsAux]
  | node d sub next ihs ihn =>
    cases hd : d.type
    case TOK_INCLUDE =>
      simp only [ParseMenuItem, hd] at hr
      split at hr
      · exact absurd hr (by simp)
      · rename_i r1 heq
        rw [ihn _ _ _ _ hr, hinc _ _ _ _ _ heq]
        simp only [exitTagsAux, hd, List.map_append, List.append_assoc]
    case TOK_MENU =>
      simp only [ParseMenuItem, hd] at hr
      split at hr
      · exact absurd hr (by simp)
      · rename_i c heq
        rw [ihn _ _ _ _ hr, ihs _ _ _ _ heq]
        simp only [exitTagsAux, hd, List.map_append, List.append_assoc]
    case TOK_EXIT =>
      cases hc : FindAttribute d.attributes CONFIRM_ATTRIBUTE with
      | none =>
        simp only [ParseMenuItem, hd, hc] at hr
        rw [ihn _ _ _ _ hr]
        simp [exitTagsAux, hd, exitConfirm, hc, exitCall]
      | some v =>
        by_cases hv : strcmpEq v FALSE_VALUE = true
        · simp only [ParseMenuItem, hd, hc, hv, if_true] at hr
          rw [ihn _ _ _ _ hr]
          simp [exitTagsAux, hd, exitConfirm, hc, hv, exitCall]
        · simp only [ParseMenuItem, hd, hc, hv, if_false] at hr
          rw [ihn _ _ _ _ hr]
          simp [exitTagsAux, hd, exitConfirm, hc, hv, exitCall]
    all_goals
      simp only [ParseMenuItem, hd] at hr
      rw [ihn _ _ _ _ hr]
      simp [exitTagsAux, hd, InvalidTag, ParseError, exitCall]

theorem ParseMenuInclude_exits (env : Env)
    (rec : TokenNode → Menu → Option Nat → State → MenuResult)
    (below : TokenNode → List TokenData)
    (hrec : ∀ t M l st r, rec t M l st = .ok r →
      r.2.2.log.filterMap exitCall =
        st.log.filterMap exitCall ++ (below t).map exitConfirm)
    (tp : TokenData) (M : Menu) (l : Option Nat) (st : State)
    (r : Option Nat × Menu × State)
    (hr : ParseMenuInclude env rec tp M l st = .ok r) :
    r.2.2.log.filterMap exitCall = st.log.filterMap exitCall ++
      ((match includedMenu env tp with
        | some mp => below mp
        | none => []).map exitConfirm) := by
  cases hm : includedMenu env tp with
  | some mp =>
    rw [ParseMenuInclude_resolved env rec tp mp M l st hm] at hr
    exact hrec _ _ _ _ _ hr
  | none =>
    obtain ⟨msg, str, args, e⟩ := ParseMenuInclude_unresolved_log env rec tp M l st r hm hr
    subst e
    simp [exitCall]

/-- The calls of `SetShowExitConfirmation` the builder makes, with its includes
resolved, are those of the `exit` nodes it meets, in document order. -/
theorem ParseMenuItemFuel_exits (env : Env) (fuel : Nat) (start : TokenNode) (M : Menu)
    (l : Option Nat) (st : State) (r : Option Nat × Menu × State)
    (hr : ParseMenuItemFuel env fuel start M l st = .ok r) :
    r.2.2.log.filterMap exitCall =
      st.log.filterMap exitCall ++ (exitTags env fuel start).map exitConfirm := by
  induction fuel generalizing start M l st r with
  | zero => exact absurd hr (by simp [ParseMenuItemFuel])
  | succ n ih =>
    simp only [ParseMenuItemFuel] at hr
    exact ParseMenuItem_exits env _ (exitTags env n)
      (fun tp M1 l1 st1 r1 h1 =>
        ParseMenuInclude_exits env _ _ (fun t M2 l2 st2 r2 h2 => ih t M2 l2 st2 r2 h2)
          tp M1 l1 st1 r1 h1)
      start M l st r hr

/-- C11: when the builder, with its includes resolved, returns from a chain of
children, the calls of `SetShowExitConfirmation` it has made are those of the
`exit` nodes it met, one for each, in document order (depth first: the nodes
inside a nested menu, or inside an included menu, in the place of that
child), with the argument 0 for a node whose lookup of `confirm` finds
`"false"` and 1 for any other. So the flag is afterwards what the last of
these nodes sets, and what it was before when there is no such node. -/
theorem C11_last_exit_tag_wins (env : Env) (fuel : Nat) (start : TokenNode) (M : Menu)
    (last : Option Nat) (st : State) (r : Option Nat × Menu × State)
    (hr : ParseMenuItemFuel env fuel start M last st = .ok r) :
    r.2.2.log.filterMap exitCall =
      st.log.filterMap exitCall ++ (exitTags env fuel start).map exitConfirm ∧
    (∀ initial, showExitConfirmation initial r.2.2.log =
      match (exitTags env fuel start).getLast? with
      | some d =>
        if FindAttribute d.attributes CONFIRM_ATTRIBUTE = some "false" then 0 else 1
      | none => showExitConfirmation initial st.log) := by
  have h := ParseMenuItemFuel_exits env fuel start M last st r hr
  refine ⟨h, ?_⟩
  intro initial
  unfold showExitConfirmation
  rw [h]
  rcases List.eq_nil_or_concat (exitTags env fuel start) with e | ⟨L, d, e⟩
  · rw [e]
    simp
  · rw [e]
    have h1 : (L.concat d).getLast? = some d := by simp
    have h2 : (st.log.filterMap exitCall ++ (L.concat d).map exitConfirm).getLast? =
        some (exitConfirm d) := by
      simp [← List.append_assoc]
    rw [h1, h2]
    simp only [Option.getD_some, exitConfirm]
    cases hc : FindAttribute d.attributes CONFIRM_ATTRIBUTE with
    | none => simp
    | some v => simp [strcmpEq, FALSE_VALUE]

/-- C11 on `exitMenu`: the `exit` inside the submenu is the last one, so the
flag is 0 afterwards, whatever it was. -/
theorem C11_last_exit_tag_wins_witness :
    ∃ r, ParseMenuItemFuel emptyEnv 1 exitMenu emptyMenu none initState = .ok r ∧
      r.2.2.log.filterMap exitCall = [1, 0] ∧
      ∀ initial, showExitConfirmation initial r.2.2.log = 0 := by
  cases h : ParseMenuItemFuel emptyEnv 1 exitMenu emptyMenu none initState with
  | error e =>
    have hk : (ParseMenuItemFuel emptyEnv 1 exitMenu emptyMenu none initState).toBool =
      true := rfl
    rw [h] at hk
    exact absurd hk (by simp [Except.toBool])
  | ok r =>
    obtain ⟨h1, h2⟩ := C11_last_exit_tag_wins emptyEnv 1 exitMenu emptyMenu none initState r h
    exact ⟨r, rfl, h1, h2⟩

/-! ### No handler reads the log

Every handler appends to the log and decides nothing by it: run on a state
with more calls before its log, it makes the same calls and leaves the same
state, with those calls before. -/

@[simp] theorem prepend_emit (pre : List Effect) (st : State) (e : Effect) :
    (st.prepend pre).emit e = (st.emit e).prepend pre := by
  simp [State.prepend, State.emit]

@[simp] theorem prepend_desktopCount (pre : List Effect) (st : State) :
    (st.prepend pre).desktopCount = st.desktopCount := rfl

@[simp] theorem prepend_trays (pre : List Effect) (st : State) :
    (st.prepend pre).trays = st.trays := rfl

@[simp] theorem prepend_components (pre : List Effect) (st : State) :
    (st.prepend pre).components = st.components := rfl

@[simp] theorem prepend_groups (pre : List Effect) (st : State) :
    (st.prepend pre).groups = st.groups := rfl

@[simp] theorem prepend_log (pre : List Effect) (st : State) :
    (st.prepend pre).log = pre ++ st.log := rfl

@[simp] theorem ParseError_prepend (pre : List Effect) (tp : Option TokenData) (str : String)
    (args : List Arg) (st : State) :
    ParseError tp str args (st.prepend pre) = (ParseError tp str args st).prepend pre := by
  simp [ParseError]

@[simp] theorem InvalidTag_prepend (pre : List Effect) (env : Env) (tp : TokenData)
    (parent : TokenType) (st : State) :
    InvalidTag env tp parent (st.prepend pre) = (InvalidTag env tp parent st).prepend pre := by
  simp [InvalidTag]

theorem ParseKey_prepend (pre : List Effect) (tp : TokenData) (st : State) :
    ParseKey tp (st.prepend pre) = (ParseKey tp st).prepend pre := by
  simp only [ParseKey]
  repeat' split
  all_goals first | rfl | simp only [prepend_emit, ParseError_prepend]

theorem ParseFocusModel_prepend (pre : List Effect) (tp : TokenData) (st : State) :
    ParseFocusModel tp (st.prepend pre) = (ParseFocusModel tp st).prepend pre := by
  simp only [ParseFocusModel]
  repeat' split
  all_goals first | rfl | simp only [prepend_emit, ParseError_prepend]

theorem ParseSnapMode_prepend (pre : List Effect) (tp : TokenData) (st : State) :
    ParseSnapMode tp (st.prepend pre) = (ParseSnapMode tp st).prepend pre := by
  simp only [ParseSnapMode]
  repeat' split
  all_goals first | rfl | simp only [prepend_emit, ParseError_prepend]

theorem ParseMoveMode_prepend (pre : List Effect) (tp : TokenData) (st : State) :
    ParseMoveMode tp (st.prepend pre) = (ParseMoveMode tp st).prepend pre := by
  simp only [ParseMoveMode]
  repeat' split
  all_goals first | rfl | simp only [prepend_emit, ParseError_prepend]

theorem ParseResizeMode_prepend (pre : List Effect) (tp : TokenData) (st : State) :
    ParseResizeMode tp (st.prepend pre) = (ParseResizeMode tp st).prepend pre := by
  simp only [ParseResizeMode]
  repeat' split
  all_goals first | rfl | simp only [prepend_emit, ParseError_prepend]

theorem ParseBorderStyleLoop_prepend (pre : List Effect) (env : Env) (np : TokenNode)
    (st : State) :
    ParseBorderStyleLoop env np (st.prepend pre) =
      (ParseBorderStyleLoop env np st).prepend pre := by
  induction np generalizing st with
  | null => rfl
  | node d sub next _ ih =>
    unfold ParseBorderStyleLoop
    rw [← ih]
    congr 1
    split <;> first | rfl | simp only [prepend_emit, InvalidTag_prepend]

theorem ParseTaskListStyleLoop_prepend (pre : List Effect) (env : Env) (np : TokenNode)
    (st : State) :
    ParseTaskListStyleLoop env np (st.prepend pre) =
      (ParseTaskListStyleLoop env np st).prepend pre := by
  induction np generalizing st with
  | null => rfl
  | node d sub next _ ih =>
    unfold ParseTaskListStyleLoop
    rw [← ih]
    congr 1
    split <;> first | rfl | simp only [prepend_emit, InvalidTag_prepend]

theorem ParseTrayStyleLoop_prepend (pre : List Effect) (env : Env) (np : TokenNode)
    (st : State) :
    ParseTrayStyleLoop env np (st.prepend pre) =
      (ParseTrayStyleLoop env np st).prepend pre := by
  induction np generalizing st with
  | null => rfl
  | node d sub next _ ih =>
    unfold ParseTrayStyleLoop
    rw [← ih]
    congr 1
    split <;> first | rfl | simp only [prepend_emit, InvalidTag_prepend]

theorem ParsePagerStyleLoop_prepend (pre : List Effect) (env : Env) (np : TokenNode)
    (st : State) :
    ParsePagerStyleLoop env np (st.prepend pre) =
      (ParsePagerStyleLoop env np st).prepend pre := by
  induction np generalizing st with
  | null => rfl
  | node d sub next _ ih =>
    unfold ParsePagerStyleLoop
    rw [← ih]
    congr 1
    split <;> first | rfl | simp only [prepend_emit, InvalidTag_prepend]

theorem ParsePopupStyleLoop_prepend (pre : List Effect) (env : Env) (np : TokenNode)
    (st : State) :
    ParsePopupStyleLoop env np (st.prepend pre) =
      (ParsePopupStyleLoop env np st).prepend pre := by
  induction np generalizing st with
  | null => rfl
  | node d sub next _ ih =>
    unfold ParsePopupStyleLoop
    rw [← ih]
    congr 1
    split <;> first | rfl | simp only [prepend_emit, InvalidTag_prepend]

theorem ParseMenuStyleLoop_prepend (pre : List Effect) (env : Env) (np : TokenNode)
    (st : State) :
    ParseMenuStyleLoop env np (st.prepend pre) =
      (ParseMenuStyleLoop env np st).prepend pre := by
  induction np generalizing st with
  | null => rfl
  | node d sub next _ ih =>
    unfold ParseMenuStyleLoop
    rw [← ih]
    congr 1
    split <;> first | rfl | simp only [prepend_emit, InvalidTag_prepend]

theorem ParseClockStyleLoop_prepend (pre : List Effect) (env : Env) (np : TokenNode)
    (st : State) :
    ParseClockStyleLoop env np (st.prepend pre) =
      (ParseClockStyleLoop env np st).prepend pre := by
  induction np generalizing st with
  | null => rfl
  | node d sub next _ ih =>
    unfold ParseClockStyleLoop
    rw [← ih]
    congr 1
    split <;> first | rfl | simp only [prepend_emit, InvalidTag_prepend]

theorem ParseTrayButtonStyleLoop_prepend (pre : List Effect) (env : Env) (np : TokenNode)
    (st : State) :
    ParseTrayButtonStyleLoop env np (st.prepend pre) =
      (ParseTrayButtonStyleLoop env np st).prepend pre := by
  induction np generalizing st with
  | null => rfl
  | node d sub next _ ih =>
    unfold ParseTrayButtonStyleLoop
    rw [← ih]
    congr 1
    split <;> first | rfl | simp only [prepend_emit, InvalidTag_prepend]

theorem ParseTaskListStyle_prepend (pre : List Effect) (env : Env) (tp : TokenData)
    (sub : TokenNode) (st : State) :
    ParseTaskListStyle env tp sub (st.prepend pre) =
      (ParseTaskListStyle env tp sub st).prepend pre := by
  unfold ParseTaskListStyle
  simp only [← ParseTaskListStyleLoop_prepend]
  congr 1
  split <;> first | rfl | simp only [prepend_emit]

theorem ParsePopupStyle_prepend (pre : List Effect) (env : Env) (tp : TokenData)
    (sub : TokenNode) (st : State) :
    ParsePopupStyle env tp sub (st.prepend pre) =
      (ParsePopupStyle env tp sub st).prepend pre := by
  unfold ParsePopupStyle
  simp only [← ParsePopupStyleLoop_prepend]
  congr 1
  repeat' split
  all_goals first | rfl | simp only [prepend_emit, ParseError_prepend]

theorem ParseDesktopsLoop_prepend (pre : List Effect) (env : Env) (np : TokenNode) (x : Nat)
    (st : State) :
    ParseDesktopsLoop env np x (st.prepend pre) =
      (ParseDesktopsLoop env np x st).prepend pre := by
  induction np generalizing st x with
  | null => rfl
  | node d sub next _ ih =>
    unfold ParseDesktopsLoop
    simp only [prepend_desktopCount]
    split
    · rfl
    · rw [← ih]
      congr 1
      split <;> first | rfl | simp only [prepend_emit, InvalidTag_prepend]

theorem ParseDesktops_prepend (pre : List Effect) (env : Env) (tp : TokenData)
    (sub : TokenNode) (st : State) :
    ParseDesktops env tp sub (st.prepend pre) =
      (ParseDesktops env tp sub st).prepend pre := by
  unfold ParseDesktops
  simp only [← ParseDesktopsLoop_prepend]
  congr 1
  split
  · simp only [prepend_emit, prepend_desktopCount]
    rfl
  · rfl

@[simp] theorem addComponent_prepend (pre : List Effect) (tray : Nat) (st : State) :
    addComponent tray (st.prepend pre) = (addComponent tray st).prepend pre := by
  simp only [addComponent, prepend_emit, prepend_components]
  rfl

@[simp] theorem whenSome_prepend (pre : List Effect) (attr : Option String)
    (f : String → Effect) (st : State) :
    whenSome attr f (st.prepend pre) = (whenSome attr f st).prepend pre := by
  unfold whenSome
  split <;> first | rfl | simp only [prepend_emit]

theorem ParsePager_prepend (pre : List Effect) (tp : TokenData) (tray : Nat) (st : State) :
    ParsePager tp tray (st.prepend pre) = (ParsePager tp tray st).prepend pre := by
  simp only [ParsePager, prepend_emit, addComponent_prepend]

theorem ParseTaskList_prepend (pre : List Effect) (tp : TokenData) (tray : Nat)
    (st : State) :
    ParseTaskList tp tray (st.prepend pre) = (ParseTaskList tp tray st).prepend pre := by
  simp only [ParseTaskList, prepend_emit, addComponent_prepend, prepend_components]
  split <;> rfl

theorem ParseSwallow_prepend (pre : List Effect) (env : Env) (tp : TokenData) (tray : Nat)
    (st : State) :
    ParseSwallow env tp tray (st.prepend pre) = (ParseSwallow env tp tray st).prepend pre := by
  simp only [ParseSwallow, prepend_emit, addComponent_prepend]
  repeat' split
  all_goals rfl

theorem ParseTrayButton_prepend (pre : List Effect) (env : Env) (tp : TokenData) (tray : Nat)
    (st : State) :
    ParseTrayButton env tp tray (st.prepend pre) =
      (ParseTrayButton env tp tray st).prepend pre := by
  simp only [ParseTrayButton, prepend_emit, addComponent_prepend]
  repeat' split
  all_goals rfl

theorem ParseClock_prepend (pre : List Effect) (env : Env) (tp : TokenData) (tray : Nat)
    (st : State) :
    ParseClock env tp tray (st.prepend pre) = (ParseClock env tp tray st).prepend pre := by
  simp only [ParseClock, prepend_emit, addComponent_prepend]
  repeat' split
  all_goals rfl

theorem ParseDock_prepend (pre : List Effect) (env : Env) (tp : TokenData) (tray : Nat)
    (st : State) :
    ParseDock env tp tray (st.prepend pre) = (ParseDock env tp tray st).prepend pre := by
  simp only [ParseDock, prepend_emit, addComponent_prepend]
  repeat' split
  all_goals rfl

theorem ParseTrayLoop_prepend (pre : List Effect) (env : Env) (tray : Nat) (np : TokenNode)
    (st : State) :
    ParseTrayLoop env tray np (st.prepend pre) =
      (ParseTrayLoop env tray np st).prepend pre := by
  induction np generalizing st with
  | null => rfl
  | node d sub next _ ih =>
    unfold ParseTrayLoop
    rw [← ih]
    congr 1
    split <;> first
      | rfl
      | simp only [ParsePager_prepend, ParseTaskList_prepend, ParseSwallow_prepend,
          ParseTrayButton_prepend, ParseClock_prepend, ParseDock_prepend, InvalidTag_prepend]

theorem trays_prepend (pre : List Effect) (s : State) (t : Nat) :
    ({ log := (s.prepend pre).log, focusModel := (s.prepend pre).focusModel,
       desktopCount := (s.prepend pre).desktopCount, trays := t,
       components := (s.prepend pre).components, groups := (s.prepend pre).groups,
       parseDepths := (s.prepend pre).parseDepths } : State) =
      ({ log := s.log, focusModel := s.focusModel, desktopCount := s.desktopCount,
         trays := t, components := s.components, groups := s.groups,
         parseDepths := s.parseDepths } : State).prepend pre := rfl

theorem groups_prepend (pre : List Effect) (s : State) (g : Nat) :
    ({ log := (s.prepend pre).log, focusModel := (s.prepend pre).focusModel,
       desktopCount := (s.prepend pre).desktopCount, trays := (s.prepend pre).trays,
       components := (s.prepend pre).components, groups := g,
       parseDepths := (s.prepend pre).parseDepths } : State) =
      ({ log := s.log, focusModel := s.focusModel, desktopCount := s.desktopCount,
         trays := s.trays, components := s.components, groups := g,
         parseDepths := s.parseDepths } : State).prepend pre := rfl

theorem ParseTray_prepend (pre : List Effect) (env : Env) (tp : TokenData)
    (sub : TokenNode) (st : State) :
    ParseTray env tp sub (st.prepend pre) = (ParseTray env tp sub st).prepend pre := by
  unfold ParseTray
  simp only [prepend_emit, prepend_trays, trays_prepend]
  repeat' split
  all_goals simp only [prepend_emit, whenSome_prepend, ParseTrayLoop_prepend]

theorem ParseGroupOptionBody_prepend (pre : List Effect) (tp : TokenData) (group : Nat)
    (o : String) (st : State) :
    ParseGroupOptionBody tp group o (st.prepend pre) =
      (ParseGroupOptionBody tp group o st).prepend pre := by
  unfold ParseGroupOptionBody
  simp only [prepend_emit, ParseError_prepend, apply_ite (State.prepend pre)]

theorem ParseGroupLoop_prepend (pre : List Effect) (env : Env) (group : Nat)
    (np : TokenNode) (st : State) :
    ParseGroupLoop env group np (st.prepend pre) =
      (ParseGroupLoop env group np st).map (State.prepend pre) := by
  induction np generalizing st with
  | null => rfl
  | node d sub next _ ih =>
    unfold ParseGroupLoop
    cases hd : d.type
    case TOK_OPTION =>
      cases hv : d.value with
      | none => rfl
      | some o =>
        simp only [ParseGroupOption, ParseGroupOptionBody_prepend, ih]
    all_goals simp only [prepend_emit, InvalidTag_prepend, ih]

theorem ParseGroup_prepend (pre : List Effect) (env : Env) (tp : TokenData)
    (sub : TokenNode) (st : State) :
    ParseGroup env tp sub (st.prepend pre) =
      (ParseGroup env tp sub st).map (State.prepend pre) := by
  unfold ParseGroup
  simp only [prepend_emit, prepend_groups, groups_prepend, ParseGroupLoop_prepend]

theorem ParseMenuItem_prepend (pre : List Effect) (env : Env)
    (inc : TokenData → Menu → Option Nat → State → MenuResult)
    (hinc : ∀ tp M l st, inc tp M l (st.prepend pre) =
      (inc tp M l st).map (prependMenu pre))
    (start : TokenNode) (M : Menu) (l : Option Nat) (st : State) :
    ParseMenuItem env inc start M l (st.prepend pre) =
      (ParseMenuItem env inc start M l st).map (prependMenu pre) := by
  induction start generalizing M l st with
  | null => rfl
  | node d sub next ihs ihn =>
    cases hd : d.type
    case TOK_INCLUDE =>
      simp only [ParseMenuItem, hd, hinc]
      cases inc d M l st with
      | error e => rfl
      | ok r1 => exact ihn _ _ _
    case TOK_MENU =>
      simp only [ParseMenuItem, hd, ihs]
      cases ParseMenuItem env inc sub
          (newSubmenu env d (CopyString (FindAttribute d.attributes LABEL_ATTRIBUTE))
            M.itemHeight) none st with
      | error e => rfl
      | ok c => exact ihn _ _ _
    case TOK_EXIT =>
      simp only [ParseMenuItem, hd]
      rw [← ihn]
      congr 1
      repeat' split
      all_goals simp only [prepend_emit]
    all_goals simp only [ParseMenuItem, hd, InvalidTag_prepend, ihn]

theorem ParseMenuInclude_prepend (pre : List Effect) (env : Env)
    (rec : TokenNode → Menu → Option Nat → State → MenuResult)
    (hrec : ∀ t M l st, rec t M l (st.prepend pre) =
      (rec t M l st).map (prependMenu pre))
    (tp : TokenData) (M : Menu) (l : Option Nat) (st : State) :
    ParseMenuInclude env rec tp M l (st.prepend pre) =
      (ParseMenuInclude env rec tp M l st).map (prependMenu pre) := by
  unfold ParseMenuInclude
  cases hv : tp.value with
  | none => rfl
  | some value =>
    simp only
    generalize (if strncmpEq value "exec:" 5 = true then env.ExpandPath (strOffset value 5)
      else env.ExpandPath value) = path
    generalize (if strncmpEq value "exec:" 5 = true then env.popen path
      else env.fopen path) = buffer
    cases buffer with
    | none =>
      simp only [ParseError_prepend, Except.map, prependMenu]
      split <;> rfl
    | some b =>
      simp only
      cases ht : env.Tokenize b path with
      | null => simp only [ParseError_prepend, Except.map, prependMenu]
      | node d s n =>
        simp only
        by_cases hty : d.type ≠ .TOK_MENU
        · simp only [if_pos hty, ParseError_prepend, Except.map, prependMenu]
        · simp only [if_neg hty]
          exact hrec _ _ _ _

theorem ParseMenuItemFuel_prepend (pre : List Effect) (env : Env) (fuel : Nat)
    (start : TokenNode) (M : Menu) (l : Option Nat) (st : State) :
    ParseMenuItemFuel env fuel start M l (st.prepend pre) =
      (ParseMenuItemFuel env fuel start M l st).map (prependMenu pre) := by
  induction fuel generalizing start M l st with
  | zero => rfl
  | succ n ih =>
    exact ParseMenuItem_prepend pre env _
      (fun tp M1 l1 st1 => ParseMenuInclude_prepend pre env _
        (fun t M2 l2 st2 => ih t M2 l2 st2) tp M1 l1 st1)
      start M l st

theorem ParseRootMenu_prepend (pre : List Effect) (env : Env)
    (mb : TokenNode → Menu → Option Nat → State → MenuResult)
    (hmb : ∀ t M l st, mb t M l (st.prepend pre) = (mb t M l st).map (prependMenu pre))
    (start : TokenData) (sub : TokenNode) (st : State) :
    ParseRootMenu env mb start sub (st.prepend pre) =
      (ParseRootMenu env mb start sub st).map (State.prepend pre) := by
  rw [ParseRootMenu_eq, ParseRootMenu_eq, hmb]
  cases mb sub (rootMenu env start) none st with
  | error e => rfl
  | ok r => simp only [Except.map, prependMenu, prepend_emit]

theorem ParseInclude_prepend (pre : List Effect) (env : Env)
    (pf : Option String → Int → State → Except Err (Bool × State))
    (hpf : ∀ f d st, pf f d (st.prepend pre) = (pf f d st).map (prependFile pre))
    (tp : TokenData) (depth : Int) (st : State) :
    ParseInclude env pf tp depth (st.prepend pre) =
      (ParseInclude env pf tp depth st).map (State.prepend pre) := by
  unfold ParseInclude
  simp only [hpf]
  cases pf ((CopyString tp.value).map env.ExpandPath) depth st with
  | error e => rfl
  | ok r =>
    simp only [Except.map, prependFile]
    split <;> simp only [Except.map, ParseError_prepend]

theorem ParseLoop_prepend (pre : List Effect) (env : Env)
    (mb : TokenNode → Menu → Option Nat → State → MenuResult)
    (pf : Option String → Int → State → Except Err (Bool × State))
    (hmb : ∀ t M l st, mb t M l (st.prepend pre) = (mb t M l st).map (prependMenu pre))
    (hpf : ∀ f d st, pf f d (st.prepend pre) = (pf f d st).map (prependFile pre))
    (np : TokenNode) (depth : Int) (st : State) :
    ParseLoop env mb pf np depth (st.prepend pre) =
      (ParseLoop env mb pf np depth st).map (State.prepend pre) := by
  induction np generalizing st with
  | null => rfl
  | node d sub next _ ih =>
    cases hd : d.type
    case TOK_GROUP =>
      simp only [ParseLoop, hd, ParseGroup_prepend]
      cases ParseGroup env d sub st with
      | error e => rfl
      | ok s => exact ih _
    case TOK_INCLUDE =>
      simp only [ParseLoop, hd, ParseInclude_prepend pre env pf hpf]
      cases ParseInclude env pf d depth st with
      | error e => rfl
      | ok s => exact ih _
    case TOK_ROOTMENU =>
      simp only [ParseLoop, hd, ParseRootMenu_prepend pre env mb hmb]
      cases ParseRootMenu env mb d sub st with
      | error e => rfl
      | ok s => exact ih _
    all_goals
      simp only [ParseLoop, hd, prepend_emit, InvalidTag_prepend, ParseBorderStyle,
        ParseBorderStyleLoop_prepend, ParseDesktops_prepend, ParseFocusModel_prepend,
        ParseKey_prepend, ParseMenuStyle, ParseMenuStyleLoop_prepend, ParseMouse,
        ParseMoveMode_prepend, ParsePagerStyle, ParsePagerStyleLoop_prepend,
        ParsePopupStyle_prepend, ParseResizeMode_prepend, ParseSnapMode_prepend,
        ParseTaskListStyle_prepend, ParseTray_prepend, ParseTrayStyle,
        ParseTrayStyleLoop_prepend, ParseTrayButtonStyle, ParseTrayButtonStyleLoop_prepend,
        ParseClockStyle, ParseClockStyleLoop_prepend, ih]

theorem Parse_prepend (pre : List Effect) (env : Env)
    (mb : TokenNode → Menu → Option Nat → State → MenuResult)
    (pf : Option String → Int → State → Except Err (Bool × State))
    (hmb : ∀ t M l st, mb t M l (st.prepend pre) = (mb t M l st).map (prependMenu pre))
    (hpf : ∀ f d st, pf f d (st.prepend pre) = (pf f d st).map (prependFile pre))
    (start : TokenNode) (depth : Int) (st : State) :
    Parse env mb pf start depth (st.prepend pre) =
      (Parse env mb pf start depth st).map (State.prepend pre) := by
  have h0 : ({ st.prepend pre with parseDepths := (st.prepend pre).parseDepths ++ [depth] } :
      State) = ({ st with parseDepths := st.parseDepths ++ [depth] } : State).prepend pre := rfl
  unfold Parse
  cases start with
  | null => rfl
  | node d sub next =>
    simp only
    split
    · rw [h0]
      exact ParseLoop_prepend pre env mb pf hmb hpf _ _ _
    · rw [h0]
      simp only [ParseError_prepend, Except.map]

theorem ParseFile_prepend (pre : List Effect) (env : Env)
    (parse : TokenNode → Int → State → Except Err State)
    (hparse : ∀ t d st, parse t d (st.prepend pre) = (parse t d st).map (State.prepend pre))
    (fileName : Option String) (depth : Int) (st : State) :
    ParseFile env parse fileName depth (st.prepend pre) =
      (ParseFile env parse fileName depth st).map (prependFile pre) := by
  unfold ParseFile
  simp only
  split
  · simp only [ParseError_prepend, Except.map, prependFile]
  · cases fileName with
    | none => rfl
    | some f =>
      simp only
      cases env.fopen f with
      | none => rfl
      | some b =>
        simp only [hparse]
        cases parse (env.Tokenize b f) (depth + 1) st <;> rfl

theorem ParseFileFuel_prepend (pre : List Effect) (env : Env) (mfuel fuel : Nat)
    (fileName : Option String) (depth : Int) (st : State) :
    ParseFileFuel env mfuel fuel fileName depth (st.prepend pre) =
      (ParseFileFuel env mfuel fuel fileName depth st).map (prependFile pre) := by
  induction fuel generalizing fileName depth st with
  | zero => rfl
  | succ n ih =>
    exact ParseFile_prepend pre env _
      (fun t d s => Parse_prepend pre env _ _
        (fun t2 M l s2 => ParseMenuItemFuel_prepend pre env mfuel t2 M l s2)
        (fun f d2 s2 => ih f d2 s2) t d s)
      fileName depth st

/-- The loop of `Parse` over a chain of children is the loop over its first
part and then, from the state that leaves, over the rest. -/
theorem ParseLoop_append (env : Env)
    (mb : TokenNode → Menu → Option Nat → State → MenuResult)
    (pf : Option String → Int → State → Except Err (Bool × State))
    (a b : TokenNode) (depth : Int) (st : State) :
    ParseLoop env mb pf (a.append b) depth st =
      match ParseLoop env mb pf a depth st with
      | .error e => .error e
      | .ok s => ParseLoop env mb pf b depth s := by
  induction a generalizing st with
  | null => rfl
  | node d sub next _ ih =>
    simp only [TokenNode.append, ParseLoop]
    split
    · rfl
    · exact ih _

/-- A child of the `JWM` node whose tag has no case in `Parse` gets the
diagnostic of `InvalidTag`, and the loop goes on. -/
theorem ParseLoop_invalid (env : Env)
    (mb : TokenNode → Menu → Option Nat → State → MenuResult)
    (pf : Option String → Int → State → Except Err (Bool × State))
    (d : TokenData) (sub next : TokenNode) (depth : Int) (st : State)
    (hd : isTopLevelTag d.type = false) :
    ParseLoop env mb pf (.node d sub next) depth st =
      ParseLoop env mb pf next depth (InvalidTag env d .TOK_JWM st) := by
  cases ht : d.type <;> rw [ht] at hd <;> first
    | exact absurd hd (by decide)
    | simp only [ParseLoop, ht]

theorem Parse_root (env : Env)
    (mb : TokenNode → Menu → Option Nat → State → MenuResult)
    (pf : Option String → Int → State → Except Err (Bool × State))
    (root : TokenData) (children next : TokenNode) (depth : Int) (st : State)
    (hroot : root.type = .TOK_JWM) :
    Parse env mb pf (.node root children next) depth st =
      ParseLoop env mb pf children depth
        { st with parseDepths := st.parseDepths ++ [depth] } := by
  simp only [Parse, hroot, if_true]

/-- C12: let the root be a `JWM` node and `d` a child of it whose tag has no
case in `Parse`, with the children `before` in front of it and the children
`after` behind it, and let `Parse` return from the children `before` with the
log `s1.log`. Then `Parse` on the root with `d` does what `Parse` does on the
root without `d`, and makes one more call: the diagnostic of `InvalidTag` for
`d`, which names the tag of `d` and the `JWM` context, right after the calls
for the children `before`. If the run without `d` returns, the run with `d`
returns the same state but for that one call in the log, all other calls
being the same and in the same order; if the run without `d` fails, so does
the run with `d`. -/
theorem C12_invalid_top_level_tag (env : Env) (mfuel fuel : Nat) (root d : TokenData)
    (before after sub rootNext : TokenNode) (depth : Int) (st s1 : State)
    (hroot : root.type = .TOK_JWM) (hd : isTopLevelTag d.type = false)
    (hbefore : Parse env (ParseMenuItemFuel env mfuel) (ParseFileFuel env mfuel fuel)
      (.node root before rootNext) depth st = .ok s1) :
    (∀ s2, Parse env (ParseMenuItemFuel env mfuel) (ParseFileFuel env mfuel fuel)
        (.node root (before.append after) rootNext) depth st = .ok s2 →
      ∃ E, s2.log = s1.log ++ E ∧
        Parse env (ParseMenuItemFuel env mfuel) (ParseFileFuel env mfuel fuel)
          (.node root (before.append (.node d sub after)) rootNext) depth st =
          .ok { s2 with log := s1.log ++
            [.WarningVA (ParseErrorMsg (some d)) "invalid tag in %s: %s"
              [.str (some (env.GetTokenTypeName .TOK_JWM)),
               .str (some (env.GetTokenName d))]] ++ E }) ∧
    (∀ e, Parse env (ParseMenuItemFuel env mfuel) (ParseFileFuel env mfuel fuel)
        (.node root (before.append after) rootNext) depth st = .error e →
      Parse env (ParseMenuItemFuel env mfuel) (ParseFileFuel env mfuel fuel)
        (.node root (before.append (.node d sub after)) rootNext) depth st = .error e) := by
  rw [Parse_root _ _ _ _ _ _ _ _ hroot] at hbefore
  have hpre : ∀ pre : List Effect,
      ParseLoop env (ParseMenuItemFuel env mfuel) (ParseFileFuel env mfuel fuel) after depth
        (State.prepend pre { s1 with log := [] }) =
      (ParseLoop env (ParseMenuItemFuel env mfuel) (ParseFileFuel env mfuel fuel) after depth
        { s1 with log := [] }).map (State.prepend pre) := fun pre =>
    ParseLoop_prepend pre env _ _
      (fun t M l s => ParseMenuItemFuel_prepend pre env mfuel t M l s)
      (fun f d2 s => ParseFileFuel_prepend pre env mfuel fuel f d2 s) after depth _
  have h1 : s1 = State.prepend s1.log { s1 with log := [] } := by
    simp [State.prepend]
  have h2 : InvalidTag env d .TOK_JWM s1 =
      State.prepend (s1.log ++
        [.WarningVA (ParseErrorMsg (some d)) "invalid tag in %s: %s"
          [.str (some (env.GetTokenTypeName .TOK_JWM)),
           .str (some (env.GetTokenName d))]]) { s1 with log := [] } := by
    simp [InvalidTag, ParseError, State.emit, State.prepend]
  have hwithout : Parse env (ParseMenuItemFuel env mfuel) (ParseFileFuel env mfuel fuel)
      (.node root (before.append after) rootNext) depth st =
      (ParseLoop env (ParseMenuItemFuel env mfuel) (ParseFileFuel env mfuel fuel) after depth
        { s1 with log := [] }).map (State.prepend s1.log) := by
    rw [Parse_root _ _ _ _ _ _ _ _ hroot, ParseLoop_append, hbefore, ← hpre, ← h1]
  have hwith : Parse env (ParseMenuItemFuel env mfuel) (ParseFileFuel env mfuel fuel)
      (.node root (before.append (.node d sub after)) rootNext) depth st =
      (ParseLoop env (ParseMenuItemFuel env mfuel) (ParseFileFuel env mfuel fuel) after depth
        { s1 with log := [] }).map (State.prepend (s1.log ++
          [.WarningVA (ParseErrorMsg (some d)) "invalid tag in %s: %s"
            [.str (some (env.GetTokenTypeName .TOK_JWM)),
             .str (some (env.GetTokenName d))]])) := by
    rw [Parse_root _ _ _ _ _ _ _ _ hroot, ParseLoop_append, hbefore]
    simp only
    rw [ParseLoop_invalid _ _ _ _ _ _ _ _ hd, h2, hpre]
  rw [hwithout, hwith]
  cases ParseLoop env (ParseMenuItemFuel env mfuel) (ParseFileFuel env mfuel fuel) after depth
      { s1 with log := [] } with
  | error e0 =>
    refine ⟨?_, ?_⟩
    · intro s2 h
      exact absurd h (by simp [Except.map])
    · intro e h
      exact h
  | ok s =>
    refine ⟨?_, ?_⟩
    · intro s2 h
      simp only [Except.map, Except.ok.injEq] at h
      subst h
      exact ⟨s.log, rfl, by simp [Except.map, State.prepend]⟩
    · intro e h
      exact absurd h (by simp [Except.map])

/-- C12 on a root with three children, a theme, a stray `font` and a theme: the
run with the `font` makes the calls of the run without it and, between them,
the one diagnostic. -/
theorem C12_invalid_top_level_tag_witness :
    ∃ E,
      [Effect.SetTheme (some "a"), Effect.SetTheme (some "b")] =
        [Effect.SetTheme (some "a")] ++ E ∧
      Parse emptyEnv (ParseMenuItemFuel emptyEnv 1) (ParseFileFuel emptyEnv 1 1)
        (.node jwmRoot
          (.node (tag .TOK_THEME (some "a") "jwmrc" 2) .null
            (.node strayFont .null
              (.node (tag .TOK_THEME (some "b") "jwmrc" 4) .null .null))) .null)
        1 initState =
        .ok { initState with
          log := [Effect.SetTheme (some "a")] ++
            [.WarningVA (ParseErrorMsg (some strayFont)) "invalid tag in %s: %s"
              [.str (some (emptyEnv.GetTokenTypeName .TOK_JWM)),
               .str (some (emptyEnv.GetTokenName strayFont))]] ++ E,
          parseDepths := [1] } :=
  (C12_invalid_top_level_tag emptyEnv 1 1 jwmRoot strayFont
    (.node (tag .TOK_THEME (some "a") "jwmrc" 2) .null .null)
    (.node (tag .TOK_THEME (some "b") "jwmrc" 4) .null .null) .null .null 1 initState
    { initState with log := [Effect.SetTheme (some "a")], parseDepths := [1] }
    rfl rfl rfl).1
    { initState with log := [Effect.SetTheme (some "a"), Effect.SetTheme (some "b")],
                     parseDepths := [1] } rfl

/-- The cells that `InsertMenuItem` links keep their contents. -/
theorem linkLast_mem_content (cells : List MenuItem) (last : Option Nat) (item : Nat)
    (c : MenuItem) (hc : c ∈ linkLast cells last item) :
    ∃ c0 ∈ cells, content c0 = content c := by
  have h1 : content c ∈ (linkLast cells last item).map content := List.mem_map_of_mem _ hc
  rw [linkLast_content] at h1
  exact List.mem_map.1 h1

theorem itemWellFormed_content (c0 c : MenuItem) (h : content c0 = content c)
    (h0 : itemWellFormed c0) : itemWellFormed c := by
  have e1 : (content c0).submenu = (content c).submenu := congrArg MenuItemOf.submenu h
  have e2 : (content c0).type = (content c).type := congrArg MenuItemOf.type h
  have e3 : (content c0).action = (content c).action := congrArg MenuItemOf.action h
  change c0.submenu = c.submenu at e1
  change c0.type = c.type at e2
  change c0.action = c.action at e3
  unfold itemWellFormed at h0 ⊢
  rw [← e1, ← e2, ← e3]
  exact h0

/-- Appending one well-formed cell keeps every item well formed. -/
theorem WellFormedAll_snoc (M X : Menu) (last : Option Nat) (c : MenuItem)
    (hM : WellFormedAll M)
    (hc : X.cells = linkLast M.cells last M.cells.length ++ [c])
    (hwf : itemWellFormed c)
    (hsub : ∀ m, c.submenu = some m → WellFormedAll m) : WellFormedAll X := by
  cases hM with
  | mk _ items below =>
    refine .mk X ?_ ?_
    · intro c1 hc1
      rw [hc] at hc1
      rcases List.mem_append.1 hc1 with h1 | h1
      · obtain ⟨c0, h0, e⟩ := linkLast_mem_content _ _ _ _ h1
        exact itemWellFormed_content c0 c1 e (items c0 h0)
      · rw [List.mem_singleton.1 h1]
        exact hwf
    · intro c1 hc1 m hm
      rw [hc] at hc1
      rcases List.mem_append.1 hc1 with h1 | h1
      · obtain ⟨c0, h0, e⟩ := linkLast_mem_content _ _ _ _ h1
        have e1 : (content c0).submenu = (content c1).submenu :=
          congrArg MenuItemOf.submenu e
        change c0.submenu = c1.submenu at e1
        exact below c0 h0 m (e1.trans hm)
      · rw [List.mem_singleton.1 h1] at hm
        exact hsub m hm

/-- An item case of `ParseMenuItem` whose item is well formed and has no
submenu keeps every item well formed and leaves a cursor that points into the
menu. -/
theorem addItem_wellFormed (fill : MenuItem → MenuItem) (last : Option Nat) (M : Menu)
    (hwf : itemWellFormed (fill newMenuItem)) (hfill : (fill newMenuItem).submenu = none)
    (hM : WellFormedAll M) (hl : ∀ l, last = some l → l < M.cells.length) :
    WellFormedAll (addItem fill last M).2 ∧
    ∀ l, some (addItem fill last M).1 = some l → l < (addItem fill last M).2.cells.length := by
  obtain ⟨a1, a2, _, _, _⟩ := addItem_spec fill last M hl
  refine ⟨WellFormedAll_snoc M _ last _ hM a2 hwf ?_, ?_⟩
  · intro m hm
    rw [hfill] at hm
    cases hm
  · intro l hl2
    injection hl2 with hl2
    rw [← hl2, a1, a2]
    simp

/-- The builder keeps every item of the menu it fills, and of the submenus at
any depth, well formed, and returns a cursor that points into the menu, when
the includes do. -/
theorem ParseMenuItem_wellFormed (env : Env)
    (inc : TokenData → Menu → Option Nat → State → MenuResult)
    (hinc : ∀ tp M l st r, WellFormedAll M → (∀ p, l = some p → p < M.cells.length) →
      inc tp M l st = .ok r →
      WellFormedAll r.2.1 ∧ ∀ p, r.1 = some p → p < r.2.1.cells.length)
    (start : TokenNode) (M : Menu) (l : Option Nat) (st : State)
    (r : Option Nat × Menu × State)
    (hM : WellFormedAll M) (hl : ∀ p, l = some p → p < M.cells.length)
    (hr : ParseMenuItem env inc start M l st = .ok r) :
    WellFormedAll r.2.1 ∧ ∀ p, r.1 = some p → p < r.2.1.cells.length := by
  induction start generalizing M l st r with
  | null =>
    simp only [ParseMenuItem] at hr
    injection hr with hr
    subst hr
    exact ⟨hM, hl⟩
  | node d sub next ihs ihn =>
    cases hd : d.type
    case TOK_INCLUDE =>
      simp only [ParseMenuItem, hd] at hr
      split at hr
      · exact absurd hr (by simp)
      · rename_i r1 heq
        obtain ⟨w1, w2⟩ := hinc _ _ _ _ _ hM hl heq
        exact ihn _ _ _ _ w1 w2 hr
    case TOK_MENU =>
      rw [ParseMenuItem_menu _ _ _ _ _ _ _ _ hd] at hr
      split at hr
      · exact absurd hr (by simp)
      · rename_i c heq
        have hnew : WellFormedAll (newSubmenu env d
            (CopyString (FindAttribute d.attributes LABEL_ATTRIBUTE)) M.itemHeight) :=
          .mk _ (by intro c hc; simp [newSubmenu, Menu.cells] at hc)
            (by intro c hc; simp [newSubmenu, Menu.cells] at hc)
        obtain ⟨wc, _⟩ := ihs _ _ _ _ hnew (by intro p hp; cases hp) heq
        obtain ⟨a1, a2, _, _, _⟩ := addItem_spec (submenuFill d) l M hl
        have hcells : ((addItem (submenuFill d) l M).2.modify (addItem (submenuFill d) l M).1
            (fun i : MenuItem => { i with submenu := some c.2.1 })).cells =
            linkLast M.cells l M.cells.length ++
              [{ submenuFill d newMenuItem with submenu := some c.2.1 }] := by
          rw [Menu.cells_modify, a2, a1]
          conv => lhs; arg 2; rw [← linkLast_length M.cells l M.cells.length]
          rw [modify_append_length]
        refine ihn _ _ _ _ ?_ ?_ hr
        · refine WellFormedAll_snoc M _ l _ hM hcells ?_ ?_
          · simp [itemWellFormed, submenuFill, newMenuItem]
          · intro m hm
            injection hm with hm
            exact hm ▸ wc
        · intro p hp
          injection hp with hp
          rw [← hp, hcells, a1]
          simp
    case TOK_PROGRAM =>
      rw [ParseMenuItem_program _ _ _ _ _ _ _ _ hd] at hr
      have h := addItem_wellFormed (programFill d) l M
        (by simp [itemWellFormed, programFill, newMenuItem]) rfl hM hl
      exact ihn _ _ _ _ h.1 h.2 hr
    all_goals
      simp only [ParseMenuItem, hd] at hr
      first
        | exact ihn _ _ _ _ hM hl hr
        | (refine ihn _ _ _ _ ?_ ?_ hr
           · exact (addItem_wellFormed _ l M
               (by simp [itemWellFormed, newMenuItem, windowAction]) rfl hM hl).1
           · exact (addItem_wellFormed _ l M
               (by simp [itemWellFormed, newMenuItem, windowAction]) rfl hM hl).2)

theorem ParseMenuInclude_wellFormed (env : Env)
    (rec : TokenNode → Menu → Option Nat → State → MenuResult)
    (hrec : ∀ t M l st r, WellFormedAll M → (∀ p, l = some p → p < M.cells.length) →
      rec t M l st = .ok r →
      WellFormedAll r.2.1 ∧ ∀ p, r.1 = some p → p < r.2.1.cells.length)
    (tp : TokenData) (M : Menu) (l : Option Nat) (st : State)
    (r : Option Nat × Menu × State)
    (hM : WellFormedAll M) (hl : ∀ p, l = some p → p < M.cells.length)
    (hr : ParseMenuInclude env rec tp M l st = .ok r) :
    WellFormedAll r.2.1 ∧ ∀ p, r.1 = some p → p < r.2.1.cells.length := by
  cases hm : includedMenu env tp with
  | some mp =>
    rw [ParseMenuInclude_resolved env rec tp mp M l st hm] at hr
    exact hrec _ _ _ _ _ hM hl hr
  | none =>
    obtain ⟨msg, str, args, e⟩ := ParseMenuInclude_unresolved_log env rec tp M l st r hm hr
    subst e
    exact ⟨hM, hl⟩

/-- The builder, with its includes resolved, keeps every item well formed. -/
theorem ParseMenuItemFuel_wellFormed (env : Env) (fuel : Nat) (start : TokenNode) (M : Menu)
    (l : Option Nat) (st : State) (r : Option Nat × Menu × State)
    (hM : WellFormedAll M) (hl : ∀ p, l = some p → p < M.cells.length)
    (hr : ParseMenuItemFuel env fuel start M l st = .ok r) :
    WellFormedAll r.2.1 ∧ ∀ p, r.1 = some p → p < r.2.1.cells.length := by
  induction fuel generalizing start M l st r with
  | zero => exact absurd hr (by simp [ParseMenuItemFuel])
  | succ n ih =>
    simp only [ParseMenuItemFuel] at hr
    exact ParseMenuItem_wellFormed env _
      (fun tp M1 l1 st1 r1 h1 h2 h3 =>
        ParseMenuInclude_wellFormed env _
          (fun t M2 l2 st2 r2 g1 g2 g3 => ih t M2 l2 st2 r2 g1 g2 g3) tp M1 l1 st1 r1 h1 h2 h3)
      start M l st r hM hl hr

/-- C21: whatever the tree and the files it includes, when the builder returns
from a menu whose items were well formed (an empty menu, in particular), with
a cursor that points into it, every item of the menu it leaves, and of the
submenus at any depth, is well formed: it owns a submenu exactly when its type
is Submenu, and its action is `MA_NONE` exactly when its type is Submenu or
Separator, so that every Normal item has an action other than `MA_NONE`. The
same holds for the menu `ParseRootMenu` hands to `SetRootMenu`. -/
theorem C21_items_well_formed (env : Env) (fuel : Nat) (start : TokenNode) (M : Menu)
    (last : Option Nat) (st : State) (r : Option Nat × Menu × State)
    (hM : WellFormedAll M) (hl : ∀ p, last = some p → p < M.cells.length)
    (hr : ParseMenuItemFuel env fuel start M last st = .ok r) :
    WellFormedAll r.2.1 ∧
    (∀ c ∈ r.2.1.cells, c.type = .MENU_ITEM_NORMAL →
      c.action.type ≠ .MA_NONE ∧ c.submenu = none) ∧
    (∀ (d : TokenData) (s1 : State),
      ParseRootMenu env (ParseMenuItemFuel env fuel) d start st = .ok s1 →
      ∃ (s0 : State) (value : String) (m : Menu),
        s1 = s0.emit (.SetRootMenu value m) ∧ WellFormedAll m) := by
  obtain ⟨w, _⟩ := ParseMenuItemFuel_wellFormed env fuel start M last st r hM hl hr
  refine ⟨w, ?_, ?_⟩
  · intro c hc hty
    cases w with
    | mk _ items _ =>
      obtain ⟨i1, i2⟩ := items c hc
      rw [hty] at i1 i2
      constructor
      · intro h
        have := i2.1 h
        simp at this
      · cases hs : c.submenu with
        | none => rfl
        | some m =>
          rw [hs] at i1
          have := i1.1 rfl
          simp at this
  · intro d s1 h1
    rw [ParseRootMenu_eq] at h1
    split at h1
    · exact absurd h1 (by simp)
    · rename_i r0 heq
      injection h1 with h1
      obtain ⟨w0, _⟩ := ParseMenuItemFuel_wellFormed env fuel start (rootMenu env d) none st r0
        (.mk _ (by intro c hc; simp [rootMenu, Menu.cells] at hc)
          (by intro c hc; simp [rootMenu, Menu.cells] at hc))
        (by intro p hp; cases hp) heq
      exact ⟨_, _, _, h1.symm, w0⟩

/-- C21 on `variedMenu` in `sepEnv`: the include, the `exit` and the nested
menu with its `restart` give well-formed items at both levels. -/
theorem C21_items_well_formed_witness :
    ∃ r, ParseMenuItemFuel sepEnv 2 variedMenu emptyMenu none initState = .ok r ∧
      WellFormedAll r.2.1 ∧
      r.2.1.cells.map (fun c => (c.type, c.action.type, c.submenu.isSome)) =
        [(.MENU_ITEM_SUBMENU, .MA_NONE, true), (.MENU_ITEM_NORMAL, .MA_EXIT, false),
          (.MENU_ITEM_SUBMENU, .MA_NONE, true)] := by
  cases h : ParseMenuItemFuel sepEnv 2 variedMenu emptyMenu none initState with
  | error e =>
    have hk : (ParseMenuItemFuel sepEnv 2 variedMenu emptyMenu none initState).toBool =
      true := rfl
    rw [h] at hk
    exact absurd hk (by simp [Except.toBool])
  | ok r =>
    have hk : (ParseMenuItemFuel sepEnv 2 variedMenu emptyMenu none
        initState).toOption.map (fun r => r.2.1.cells.map
          (fun c => (c.type, c.action.type, c.submenu.isSome))) =
        some [(.MENU_ITEM_SUBMENU, .MA_NONE, true), (.MENU_ITEM_NORMAL, .MA_EXIT, false),
          (.MENU_ITEM_SUBMENU, .MA_NONE, true)] := rfl
    rw [h] at hk
    obtain ⟨w, _⟩ := C21_items_well_formed sepEnv 2 variedMenu emptyMenu none initState r
      (.mk _ (by intro c hc; simp [emptyMenu, Menu.cells] at hc)
        (by intro c hc; simp [emptyMenu, Menu.cells] at hc))
      (by intro p hp; cases hp) h
    exact ⟨r, rfl, w, by simpa [Except.toOption] using hk⟩

/-- In a well-formed menu the walk from the head visits the addresses in the
order of allocation and ends at the cursor. -/
theorem chain_linear (M : Menu) (last : Option Nat) (h : Linear M last) :
    M.chain = List.range' 0 M.cells.length ∧ M.chain.getLast? = last := by
  obtain ⟨h1, h2, h3⟩ := h
  have hc : M.chain = List.range' 0 M.cells.length := by
    unfold Menu.chain
    by_cases h0 : M.cells.length = 0
    · rw [h1, if_pos h0, h0]
      rfl
    · rw [h1, if_neg h0]
      exact walk_linear M.cells h3 M.cells.length 0 (by omega) (by omega)
  refine ⟨hc, ?_⟩
  rw [hc, h2]
  by_cases h0 : M.cells.length = 0
  · rw [if_pos h0, h0]
    rfl
  · rw [if_neg h0]
    obtain ⟨n, hn⟩ : ∃ n, M.cells.length = n + 1 := ⟨M.cells.length - 1, by omega⟩
    rw [hn, List.range'_1_concat, List.getLast?_append]
    simp

/-- C28: when `ParseMenuItem` (with its includes resolved) is called with a
cursor that is the last item of the well-formed list of the menu (no cursor
for an empty menu) and returns, the list is well formed again and the value
returned is its last item: the last address the walk from the head of the
menu reaches, a cell of the menu's own store (not of the store of a
submenu), whose `next` is NULL. The list has not shrunk, and when no item
was inserted the value returned is the cursor that was passed. -/
theorem C28_returned_cursor_is_last (env : Env) (fuel : Nat) (start : TokenNode) (M : Menu)
    (last : Option Nat) (st : State) (r : Option Nat × Menu × State)
    (hM : Linear M last)
    (hr : ParseMenuItemFuel env fuel start M last st = .ok r) :
    Linear r.2.1 r.1 ∧
    r.2.1.chain.getLast? = r.1 ∧
    (r.1 = none ↔ r.2.1.itemList = []) ∧
    (∀ p, r.1 = some p → ∃ c, r.2.1.cells[p]? = some c ∧ c.next = none ∧
      r.2.1.itemList.getLast? = some c) ∧
    M.cells.length ≤ r.2.1.cells.length ∧
    (r.2.1.cells.length = M.cells.length → r.1 = last) := by
  have hsim := ParseMenuItemFuel_sim env fuel start M M last last st hM hM rfl
  rw [hr] at hsim
  obtain ⟨_, hlin, _, _, _, added, hadd, _⟩ := hsim
  have hlen : r.2.1.cells.length = M.cells.length + added.length := by
    have := congrArg List.length hadd
    simpa using this
  obtain ⟨g1, g2, g3⟩ := hlin
  refine ⟨⟨g1, g2, g3⟩, (chain_linear _ _ ⟨g1, g2, g3⟩).2, ?_, ?_, by omega, ?_⟩
  · rw [itemList_linear _ _ ⟨g1, g2, g3⟩, g2]
    by_cases h0 : r.2.1.cells.length = 0
    · simp [h0, List.length_eq_zero.mp h0]
    · have : r.2.1.cells ≠ [] := fun h => h0 (by rw [h]; rfl)
      simp [h0, this]
  · intro p hp
    rw [g2] at hp
    by_cases h0 : r.2.1.cells.length = 0
    · rw [if_pos h0] at hp
      cases hp
    · rw [if_neg h0] at hp
      injection hp with hp
      have hlt : p < r.2.1.cells.length := by omega
      refine ⟨r.2.1.cells[p], List.getElem?_eq_getElem hlt, ?_, ?_⟩
      · rw [g3 p _ (List.getElem?_eq_getElem hlt)]
        have : ¬ (p + 1 < r.2.1.cells.length) := by omega
        simp [this]
      · rw [itemList_linear _ _ ⟨g1, g2, g3⟩, List.getLast?_eq_getElem?, hp]
        exact List.getElem?_eq_getElem hlt
  · intro he
    obtain ⟨_, m2, _⟩ := hM
    rw [g2, m2, he]

/-- C28 on `variedMenu` in `sepEnv`: the cursor returned is the third cell, the
nested menu's item, not the `restart` item of its submenu. -/
theorem C28_returned_cursor_is_last_witness :
    ∃ r, ParseMenuItemFuel sepEnv 2 variedMenu emptyMenu none initState = .ok r ∧
      Linear r.2.1 r.1 ∧ r.2.1.chain.getLast? = r.1 ∧ r.1 = some 2 := by
  cases h : ParseMenuItemFuel sepEnv 2 variedMenu emptyMenu none initState with
  | error e =>
    have hk : (ParseMenuItemFuel sepEnv 2 variedMenu emptyMenu none initState).toBool =
      true := rfl
    rw [h] at hk
    exact absurd hk (by simp [Except.toBool])
  | ok r =>
    have hk : (ParseMenuItemFuel sepEnv 2 variedMenu emptyMenu none
        initState).toOption.map (fun r => r.1) = some (some 2) := rfl
    rw [h] at hk
    obtain ⟨w1, w2, _⟩ := C28_returned_cursor_is_last sepEnv 2 variedMenu emptyMenu none
      initState r (Linear_empty _ _) h
    exact ⟨r, rfl, w1, w2, by simpa [Except.toOption] using hk⟩

/-- The loop of `ParseDesktops` from position `x`: one call for each child at a
position below the desktop count, and nothing else changes. -/
theorem ParseDesktopsLoop_calls (env : Env) (np : TokenNode) (x : Nat) (st : State) :
    ParseDesktopsLoop env np x st =
      { st with log := st.log ++ desktopCalls env st.desktopCount x np } := by
  induction np generalizing x st with
  | null => simp [ParseDesktopsLoop, desktopCalls, siblings]
  | node d sub next _ ih =>
    unfold ParseDesktopsLoop
    by_cases hx : x ≥ st.desktopCount
    · rw [if_pos hx]
      have : st.desktopCount - x = 0 := by omega
      simp [desktopCalls, this]
    · rw [if_neg hx, ih]
      obtain ⟨k, hk⟩ : ∃ k, st.desktopCount - x = k + 1 := ⟨st.desktopCount - x - 1, by omega⟩
      have hk2 : st.desktopCount - (x + 1) = k := by omega
      cases hd : d.type <;>
        simp [desktopCalls, siblings, hk, hd, desktopCall, State.emit, hk2, List.enumFrom,
          InvalidTag, ParseError]

/-- The call of `desktopCalls` at position `i`. -/
theorem desktopCalls_getElem? (env : Env) (c : Nat) (np : TokenNode) (i : Nat) :
    (desktopCalls env c 0 np)[i]? =
      if i < c then ((siblings np)[i]?).map (desktopCall env i) else none := by
  unfold desktopCalls
  simp only [Nat.sub_zero, List.getElem?_map, List.getElem?_enumFrom, List.getElem?_take]
  by_cases h : i < c
  · simp only [h, if_true, Nat.zero_add, Option.map_map]
    rfl
  · simp [h]

/-- C22: `ParseDesktops` sets the desktop count `c` (what `SetDesktopCount`
makes of the `count` attribute, or the default count when the lookup finds
none) and then makes one call for each of the first `min c n` of the `n`
children, in order, and nothing else: for the child at position `i < c`,
positions counted from 0 over all children, the call `SetDesktopName i` with
the text of the child when it is a `name`, and the diagnostic of `InvalidTag`
for the `desktops` context otherwise. The children at the positions from `c`
on get no call; every index passed to the name setter is smaller than `c`. -/
theorem C22_desktops_bounded_by_count (env : Env) (tp : TokenData) (sub : TokenNode)
    (st : State) :
    (∀ attr, FindAttribute tp.attributes COUNT_ATTRIBUTE = some attr →
      ParseDesktops env tp sub st =
        { st with
          desktopCount := env.SetDesktopCount attr st.desktopCount,
          log := st.log ++ [.SetDesktopCount attr] ++
            desktopCalls env (env.SetDesktopCount attr st.desktopCount) 0 sub }) ∧
    (FindAttribute tp.attributes COUNT_ATTRIBUTE = none →
      ParseDesktops env tp sub st =
        { st with
          desktopCount := env.DEFAULT_DESKTOP_COUNT,
          log := st.log ++ desktopCalls env env.DEFAULT_DESKTOP_COUNT 0 sub }) ∧
    (∀ c, (desktopCalls env c 0 sub).length = min c (siblings sub).length) ∧
    (∀ c i d, i < c → (siblings sub)[i]? = some d →
      (d.type = .TOK_NAME →
        (desktopCalls env c 0 sub)[i]? = some (.SetDesktopName i d.value)) ∧
      (d.type ≠ .TOK_NAME →
        (desktopCalls env c 0 sub)[i]? =
          some (.WarningVA (ParseErrorMsg (some d)) "invalid tag in %s: %s"
            [.str (some (env.GetTokenTypeName .TOK_DESKTOPS)),
             .str (some (env.GetTokenName d))]))) ∧
    (∀ c i v, Effect.SetDesktopName i v ∈ desktopCalls env c 0 sub → i < c) := by
  refine ⟨?_, ?_, ?_, ?_, ?_⟩
  · intro attr ha
    unfold ParseDesktops
    simp only [ha, ParseDesktopsLoop_calls]
    simp [State.emit]
  · intro ha
    unfold ParseDesktops
    simp only [ha, ParseDesktopsLoop_calls]
  · intro c
    simp [desktopCalls]
  · intro c i d hi hd
    rw [desktopCalls_getElem?, if_pos hi, hd]
    constructor
    · intro ht
      simp [desktopCall, ht]
    · intro ht
      simp [desktopCall, ht]
  · intro c i v hmem
    obtain ⟨j, hj⟩ := List.getElem?_of_mem hmem
    rw [desktopCalls_getElem?] at hj
    by_cases hjc : j < c
    · rw [if_pos hjc] at hj
      cases hs : (siblings sub)[j]? with
      | none =>
        rw [hs] at hj
        cases hj
      | some d =>
        rw [hs] at hj
        simp only [Option.map_some', Option.some.injEq, desktopCall] at hj
        by_cases ht : d.type = .TOK_NAME
        · rw [if_pos ht] at hj
          injection hj with h1 _
          omega
        · rw [if_neg ht] at hj
          cases hj
    · rw [if_neg hjc] at hj
      cases hj

/-- C22 on `desktopNames` with the count 2 (the `count` attribute is absent and
the default count is 2): the first two children get their calls, the third
gets none. -/
theorem C22_desktops_bounded_by_count_witness :
    (ParseDesktops { emptyEnv with DEFAULT_DESKTOP_COUNT := 2 }
      (tag .TOK_DESKTOPS none "jwmrc" 2) desktopNames initState).log =
      [.SetDesktopName 0 (some "one"),
       .WarningVA (ParseErrorMsg (some (tag .TOK_FONT none "jwmrc" 4)))
         "invalid tag in %s: %s" [.str (some "tag"), .str (some "tag")]] := by
  rw [(C22_desktops_bounded_by_count { emptyEnv with DEFAULT_DESKTOP_COUNT := 2 }
    (tag .TOK_DESKTOPS none "jwmrc" 2) desktopNames initState).2.1 rfl]
  rfl

/-- A string that begins with one of the three prefixes is none of the ten
flag literals. -/
theorem prefix_not_flag (pre rest lit : String) (opt1 opt2 : OptionType)
    (hp : (pre, opt1) ∈ groupPrefixes) (hl : (lit, opt2) ∈ groupFlags) :
    strcmpEq (pre ++ rest) lit = false := by
  have hne : pre ++ rest ≠ lit := by
    intro h
    have hd := congrArg String.data h
    rw [String.data_append] at hd
    simp only [groupPrefixes, groupFlags, List.mem_cons, Prod.mk.injEq, List.mem_singleton,
      List.not_mem_nil, or_false] at hp hl
    rcases hp with ⟨rfl, _⟩ | ⟨rfl, _⟩ | ⟨rfl, _⟩ <;>
      rcases hl with ⟨rfl, _⟩ | ⟨rfl, _⟩ | ⟨rfl, _⟩ | ⟨rfl, _⟩ | ⟨rfl, _⟩ | ⟨rfl, _⟩ |
        ⟨rfl, _⟩ | ⟨rfl, _⟩ | ⟨rfl, _⟩ | ⟨rfl, _⟩ <;>
      simp at hd
  simpa [strcmpEq] using hne

/-- C23: for an option string `o` that is not NULL, `ParseGroupOption` returns
with exactly one more call. When `o` is one of the ten flag literals the call
adds that flag to the group; when `o` is one of the prefixes `layer:`,
`desktop:`, `icon:` followed by `rest`, the call adds the corresponding
option with the value `rest`; for every other `o` the call is the diagnostic
`invalid Group Option`, and nothing is added to the group. -/
theorem C23_group_option_one_effect (tp : TokenData) (group : Nat) (o : String)
    (st : State) :
    (∀ lit opt, (lit, opt) ∈ groupFlags → o = lit →
      ParseGroupOption tp group (some o) st =
        .ok (st.emit (.AddGroupOption group opt))) ∧
    (∀ pre opt rest, (pre, opt) ∈ groupPrefixes → o = pre ++ rest →
      ParseGroupOption tp group (some o) st =
        .ok (st.emit (.AddGroupOptionValue group opt rest))) ∧
    ((∀ lit opt, (lit, opt) ∈ groupFlags → o ≠ lit) →
      (∀ pre opt rest, (pre, opt) ∈ groupPrefixes → o ≠ pre ++ rest) →
      ParseGroupOption tp group (some o) st =
        .ok (st.emit (.WarningVA (ParseErrorMsg (some tp)) "invalid Group Option: %s"
          [.str (some o)]))) := by
  refine ⟨?_, ?_, ?_⟩
  · intro lit opt hmem ho
    subst ho
    simp only [groupFlags, List.mem_cons, Prod.mk.injEq, List.mem_singleton,
      List.not_mem_nil, or_false] at hmem
    rcases hmem with h | h | h | h | h | h | h | h | h | h <;>
      (obtain ⟨hlit, hopt⟩ := h; subst hlit hopt; rfl)
  · intro pre opt rest hmem ho
    subst ho
    have hf : ∀ lit opt2, (lit, opt2) ∈ groupFlags → strcmpEq (pre ++ rest) lit = false :=
      fun lit opt2 h => prefix_not_flag pre rest lit opt opt2 hmem h
    have f1 := hf "sticky" .OPTION_STICKY (by simp [groupFlags])
    have f2 := hf "nolist" .OPTION_NOLIST (by simp [groupFlags])
    have f3 := hf "border" .OPTION_BORDER (by simp [groupFlags])
    have f4 := hf "noborder" .OPTION_NOBORDER (by simp [groupFlags])
    have f5 := hf "title" .OPTION_TITLE (by simp [groupFlags])
    have f6 := hf "notitle" .OPTION_NOTITLE (by simp [groupFlags])
    have f7 := hf "pignore" .OPTION_PIGNORE (by simp [groupFlags])
    have f8 := hf "maximized" .OPTION_MAXIMIZED (by simp [groupFlags])
    have f9 := hf "minimized" .OPTION_MINIMIZED (by simp [groupFlags])
    have f10 := hf "shaded" .OPTION_SHADED (by simp [groupFlags])
    simp only [ParseGroupOption, ParseGroupOptionBody, f1, f2, f3, f4, f5, f6, f7, f8, f9,
      f10, Bool.false_eq_true, if_false]
    simp only [groupPrefixes, List.mem_cons, Prod.mk.injEq, List.mem_singleton,
      List.not_mem_nil, or_false] at hmem
    rcases hmem with ⟨rfl, rfl⟩ | ⟨rfl, rfl⟩ | ⟨rfl, rfl⟩
    · have h1 : strncmpEq ("layer:" ++ rest) "layer:" 6 = true :=
        strncmpEq_append "layer:" rest
      have h2 : strOffset ("layer:" ++ rest) 6 = rest := strOffset_append "layer:" rest
      simp only [h1, h2, if_true]
    · have h0 : strncmpEq ("desktop:" ++ rest) "layer:" 6 = false := by
        simp [strncmpEq, String.data_append]
      have h1 : strncmpEq ("desktop:" ++ rest) "desktop:" 8 = true :=
        strncmpEq_append "desktop:" rest
      have h2 : strOffset ("desktop:" ++ rest) 8 = rest := strOffset_append "desktop:" rest
      simp only [h0, h1, h2, if_true, Bool.false_eq_true, if_false]
    · have h0 : strncmpEq ("icon:" ++ rest) "layer:" 6 = false := by
        simp [strncmpEq, String.data_append]
      have h00 : strncmpEq ("icon:" ++ rest) "desktop:" 8 = false := by
        simp [strncmpEq, String.data_append]
      have h1 : strncmpEq ("icon:" ++ rest) "icon:" 5 = true :=
        strncmpEq_append "icon:" rest
      have h2 : strOffset ("icon:" ++ rest) 5 = rest := strOffset_append "icon:" rest
      simp only [h0, h00, h1, h2, if_true, Bool.false_eq_true, if_false]
  · intro hflag hpre
    have hf : ∀ lit opt2, (lit, opt2) ∈ groupFlags → strcmpEq o lit = false := by
      intro lit opt2 h
      simpa [strcmpEq] using hflag lit opt2 h
    have hp : ∀ pre opt2, (pre, opt2) ∈ groupPrefixes →
        strncmpEq o pre pre.length = false := by
      intro pre opt2 h
      cases hs : strncmpEq o pre pre.length with
      | false => rfl
      | true => exact absurd (strncmpEq_split o pre hs) (hpre pre opt2 _ h)
    have f1 := hf "sticky" .OPTION_STICKY (by simp [groupFlags])
    have f2 := hf "nolist" .OPTION_NOLIST (by simp [groupFlags])
    have f3 := hf "border" .OPTION_BORDER (by simp [groupFlags])
    have f4 := hf "noborder" .OPTION_NOBORDER (by simp [groupFlags])
    have f5 := hf "title" .OPTION_TITLE (by simp [groupFlags])
    have f6 := hf "notitle" .OPTION_NOTITLE (by simp [groupFlags])
    have f7 := hf "pignore" .OPTION_PIGNORE (by simp [groupFlags])
    have f8 := hf "maximized" .OPTION_MAXIMIZED (by simp [groupFlags])
    have f9 := hf "minimized" .OPTION_MINIMIZED (by simp [groupFlags])
    have f10 := hf "shaded" .OPTION_SHADED (by simp [groupFlags])
    have p1 : strncmpEq o "layer:" 6 = false := hp "layer:" .OPTION_LAYER (by simp [groupPrefixes])
    have p2 : strncmpEq o "desktop:" 8 = false :=
      hp "desktop:" .OPTION_DESKTOP (by simp [groupPrefixes])
    have p3 : strncmpEq o "icon:" 5 = false := hp "icon:" .OPTION_ICON (by simp [groupPrefixes])
    simp only [ParseGroupOption, ParseGroupOptionBody, f1, f2, f3, f4, f5, f6, f7, f8, f9,
      f10, p1, p2, p3, Bool.false_eq_true, if_false, ParseError]

theorem ParseBorderStyleLoop_calls (env : Env) (np : TokenNode) (st : State) :
    ParseBorderStyleLoop env np st =
      { st with log := st.log ++ (siblings np).map (styleCall env .TOK_BORDERSTYLE) } := by
  induction np generalizing st with
  | null => simp [ParseBorderStyleLoop, siblings]
  | node d sub next _ ih =>
    unfold ParseBorderStyleLoop
    rw [ih]
    cases hd : d.type <;>
      simp only [styleCall, hd, siblings, List.map_cons, State.emit, InvalidTag, ParseError,
        List.append_assoc, List.singleton_append] <;> rfl

theorem ParseTaskListStyleLoop_calls (env : Env) (np : TokenNode) (st : State) :
    ParseTaskListStyleLoop env np st =
      { st with log := st.log ++ (siblings np).map (styleCall env .TOK_TASKLISTSTYLE) } := by
  induction np generalizing st with
  | null => simp [ParseTaskListStyleLoop, siblings]
  | node d sub next _ ih =>
    unfold ParseTaskListStyleLoop
    rw [ih]
    cases hd : d.type <;>
      simp only [styleCall, hd, siblings, List.map_cons, State.emit, InvalidTag, ParseError,
        List.append_assoc, List.singleton_append] <;> rfl

theorem ParseTrayStyleLoop_calls (env : Env) (np : TokenNode) (st : State) :
    ParseTrayStyleLoop env np st =
      { st with log := st.log ++ (siblings np).map (styleCall env .TOK_TRAYSTYLE) } := by
  induction np generalizing st with
  | null => simp [ParseTrayStyleLoop, siblings]
  | node d sub next _ ih =>
    unfold ParseTrayStyleLoop
    rw [ih]
    cases hd : d.type <;>
      simp only [styleCall, hd, siblings, List.map_cons, State.emit, InvalidTag, ParseError,
        List.append_assoc, List.singleton_append] <;> rfl

theorem ParsePagerStyleLoop_calls (env : Env) (np : TokenNode) (st : State) :
    ParsePagerStyleLoop env np st =
      { st with log := st.log ++ (siblings np).map (styleCall env .TOK_PAGERSTYLE) } := by
  induction np generalizing st with
  | null => simp [ParsePagerStyleLoop, siblings]
  | node d sub next _ ih =>
    unfold ParsePagerStyleLoop
    rw [ih]
    cases hd : d.type <;>
      simp only [styleCall, hd, siblings, List.map_cons, State.emit, InvalidTag, ParseError,
        List.append_assoc, List.singleton_append] <;> rfl

theorem ParsePopupStyleLoop_calls (env : Env) (np : TokenNode) (st : State) :
    ParsePopupStyleLoop env np st =
      { st with log := st.log ++ (siblings np).map (styleCall env .TOK_POPUPSTYLE) } := by
  induction np generalizing st with
  | null => simp [ParsePopupStyleLoop, siblings]
  | node d sub next _ ih =>
    unfold ParsePopupStyleLoop
    rw [ih]
    cases hd : d.type <;>
      simp only [styleCall, hd, siblings, List.map_cons, State.emit, InvalidTag, ParseError,
        List.append_assoc, List.singleton_append] <;> rfl

theorem ParseMenuStyleLoop_calls (env : Env) (np : TokenNode) (st : State) :
    ParseMenuStyleLoop env np st =
      { st with log := st.log ++ (siblings np).map (styleCall env .TOK_MENUSTYLE) } := by
  induction np generalizing st with
  | null => simp [ParseMenuStyleLoop, siblings]
  | node d sub next _ ih =>
    unfold ParseMenuStyleLoop
    rw [ih]
    cases hd : d.type <;>
      simp only [styleCall, hd, siblings, List.map_cons, State.emit, InvalidTag, ParseError,
        List.append_assoc, List.singleton_append] <;> rfl

theorem ParseClockStyleLoop_calls (env : Env) (np : TokenNode) (st : State) :
    ParseClockStyleLoop env np st =
      { st with log := st.log ++ (siblings np).map (styleCall env .TOK_CLOCKSTYLE) } := by
  induction np generalizing st with
  | null => simp [ParseClockStyleLoop, siblings]
  | node d sub next _ ih =>
    unfold ParseClockStyleLoop
    rw [ih]
    cases hd : d.type <;>
      simp only [styleCall, hd, siblings, List.map_cons, State.emit, InvalidTag, ParseError,
        List.append_assoc, List.singleton_append] <;> rfl

theorem ParseTrayButtonStyleLoop_calls (env : Env) (np : TokenNode) (st : State) :
    ParseTrayButtonStyleLoop env np st =
      { st with log := st.log ++ (siblings np).map (styleCall env .TOK_TRAYBUTTONSTYLE) } := by
  induction np generalizing st with
  | null => simp [ParseTrayButtonStyleLoop, siblings]
  | node d sub next _ ih =>
    unfold ParseTrayButtonStyleLoop
    rw [ih]
    cases hd : d.type <;>
      simp only [styleCall, hd, siblings, List.map_cons, State.emit, InvalidTag, ParseError,
        List.append_assoc, List.singleton_append] <;> rfl

/-- C24: the child walk of each of the eight style builders makes exactly one
call for each child, in the order of the children, and changes nothing else;
it never stops before the last child. The call for a child is the call of
`styleCall`: when the tag of the child is in the valid set of the section
(`styleSetters`), the font, colour or size setter of that tag for the role of
the section, with the text of the child; otherwise the diagnostic of
`InvalidTag` that names the section. -/
theorem C24_style_walk_one_call_per_child (env : Env) (np : TokenNode) (st : State) :
    ParseBorderStyleLoop env np st =
      { st with log := st.log ++ (siblings np).map (styleCall env .TOK_BORDERSTYLE) } ∧
    ParseTaskListStyleLoop env np st =
      { st with log := st.log ++ (siblings np).map (styleCall env .TOK_TASKLISTSTYLE) } ∧
    ParseTrayStyleLoop env np st =
      { st with log := st.log ++ (siblings np).map (styleCall env .TOK_TRAYSTYLE) } ∧
    ParsePagerStyleLoop env np st =
      { st with log := st.log ++ (siblings np).map (styleCall env .TOK_PAGERSTYLE) } ∧
    ParseMenuStyleLoop env np st =
      { st with log := st.log ++ (siblings np).map (styleCall env .TOK_MENUSTYLE) } ∧
    ParsePopupStyleLoop env np st =
      { st with log := st.log ++ (siblings np).map (styleCall env .TOK_POPUPSTYLE) } ∧
    ParseClockStyleLoop env np st =
      { st with log := st.log ++ (siblings np).map (styleCall env .TOK_CLOCKSTYLE) } ∧
    ParseTrayButtonStyleLoop env np st =
      { st with log := st.log ++
        (siblings np).map (styleCall env .TOK_TRAYBUTTONSTYLE) } ∧
    (∀ parent (d : TokenData) setter,
      (styleSetters parent).lookup d.type = some setter →
      styleCall env parent d = setter d.value) ∧
    (∀ parent (d : TokenData), (styleSetters parent).lookup d.type = none →
      styleCall env parent d =
        .WarningVA (ParseErrorMsg (some d)) "invalid tag in %s: %s"
          [.str (some (env.GetTokenTypeName parent)), .str (some (env.GetTokenName d))]) ∧
    (∀ parent, ((siblings np).map (styleCall env parent)).length = (siblings np).length) := by
  refine ⟨ParseBorderStyleLoop_calls env np st, ParseTaskListStyleLoop_calls env np st,
    ParseTrayStyleLoop_calls env np st, ParsePagerStyleLoop_calls env np st,
    ParseMenuStyleLoop_calls env np st, ParsePopupStyleLoop_calls env np st,
    ParseClockStyleLoop_calls env np st, ParseTrayButtonStyleLoop_calls env np st,
    ?_, ?_, ?_⟩
  · intro parent d setter h
    simp only [styleCall, h]
  · intro parent d h
    simp only [styleCall, h]
  · intro parent
    simp

/-- C24 on `styleChildren` as the children of a tray style: the font setter,
the diagnostic for the stray `name`, and the background setter, in this
order. -/
theorem C24_style_walk_one_call_per_child_witness :
    (ParseTrayStyleLoop emptyEnv styleChildren initState).log =
      [.SetFont .FONT_TRAY (some "fixed"),
       .WarningVA (ParseErrorMsg (some (tag .TOK_NAME (some "x") "jwmrc" 4)))
         "invalid tag in %s: %s" [.str (some "tag"), .str (some "tag")],
       .SetColor .COLOR_TRAY_BG (some "gray")] := by
  rw [(C24_style_walk_one_call_per_child emptyEnv styleChildren initState).2.2.1]
  rfl

/-- Claim C26, as stated, fails: a snap-mode node without text has the snap
distance set to its default, and a move-mode node with the text `bogus` has
the move status type set, before the diagnostic. -/
theorem C26_setter_before_check_counterexample :
    (ParseSnapMode (tag .TOK_SNAPMODE none "jwmrc" 2) initState).log =
      [.SetDefaultSnapDistance,
       .WarningVA (ParseErrorMsg (some (tag .TOK_SNAPMODE none "jwmrc" 2)))
         "snap mode not specified" []] ∧
    (ParseMoveMode (tag .TOK_MOVEMODE (some "bogus") "jwmrc" 3) initState).log =
      [.SetMoveStatusType none,
       .WarningVA (ParseErrorMsg (some (tag .TOK_MOVEMODE (some "bogus") "jwmrc" 3)))
         "invalid move mode: %s" [.str (some "bogus")]] :=
  ⟨rfl, rfl⟩

/-- C26, amended: for a focus-model, snap-mode, move-mode or resize-mode node
whose text is missing or is none of the literals of its section, the mode is
not set and exactly one diagnostic is emitted, and `Parse` goes on with the
following siblings. A focus-model node has no other effect. A snap-mode node
has first called the snap-distance setter (`SetSnapDistance` with the
`distance` attribute, or `SetDefaultSnapDistance`), and a move-mode or
resize-mode node has first called `SetMoveStatusType` or
`SetResizeStatusType` with the `coordinates` attribute. -/
theorem C26_invalid_mode_text (env : Env)
    (mb : TokenNode → Menu → Option Nat → State → MenuResult)
    (pf : Option String → Int → State → Except Err (Bool × State))
    (tp : TokenData) (sub next : TokenNode) (depth : Int) (st : State) :
    ((∀ v, tp.value = some v → v ∉ ["sloppy", "click"]) →
      ∃ str args, ParseFocusModel tp st =
        st.emit (.WarningVA (ParseErrorMsg (some tp)) str args)) ∧
    ((∀ v, tp.value = some v → v ∉ ["none", "screen", "border"]) →
      ∃ str args,
        (∀ d, FindAttribute tp.attributes DISTANCE_ATTRIBUTE = some d →
          ParseSnapMode tp st = (st.emit (.SetSnapDistance d)).emit
            (.WarningVA (ParseErrorMsg (some tp)) str args)) ∧
        (FindAttribute tp.attributes DISTANCE_ATTRIBUTE = none →
          ParseSnapMode tp st = (st.emit .SetDefaultSnapDistance).emit
            (.WarningVA (ParseErrorMsg (some tp)) str args))) ∧
    ((∀ v, tp.value = some v → v ∉ ["outline", "opaque"]) →
      (∃ str args, ParseMoveMode tp st =
        (st.emit (.SetMoveStatusType
          (FindAttribute tp.attributes COORDINATES_ATTRIBUTE))).emit
          (.WarningVA (ParseErrorMsg (some tp)) str args)) ∧
      (∃ str args, ParseResizeMode tp st =
        (st.emit (.SetResizeStatusType
          (FindAttribute tp.attributes COORDINATES_ATTRIBUTE))).emit
          (.WarningVA (ParseErrorMsg (some tp)) str args))) ∧
    (tp.type = .TOK_FOCUSMODEL →
      ParseLoop env mb pf (.node tp sub next) depth st =
        ParseLoop env mb pf next depth (ParseFocusModel tp st)) ∧
    (tp.type = .TOK_SNAPMODE →
      ParseLoop env mb pf (.node tp sub next) depth st =
        ParseLoop env mb pf next depth (ParseSnapMode tp st)) ∧
    (tp.type = .TOK_MOVEMODE →
      ParseLoop env mb pf (.node tp sub next) depth st =
        ParseLoop env mb pf next depth (ParseMoveMode tp st)) ∧
    (tp.type = .TOK_RESIZEMODE →
      ParseLoop env mb pf (.node tp sub next) depth st =
        ParseLoop env mb pf next depth (ParseResizeMode tp st)) := by
  refine ⟨?_, ?_, ?_, ?_, ?_, ?_, ?_⟩
  · intro h
    unfold ParseFocusModel
    cases hv : tp.value with
    | none => exact ⟨_, _, rfl⟩
    | some v =>
      have hn := h v hv
      simp only [List.mem_cons, List.mem_singleton, List.not_mem_nil, or_false,
        not_or] at hn
      simp only [strcmpEq, beq_iff_eq, hn.1, hn.2, if_false]
      exact ⟨_, _, rfl⟩
  · intro h
    unfold ParseSnapMode
    cases hv : tp.value with
    | none =>
      refine ⟨"snap mode not specified", [], ?_, ?_⟩
      · intro d hd
        simp only [hd]
        rfl
      · intro hd
        simp only [hd]
        rfl
    | some v =>
      have hn := h v hv
      simp only [List.mem_cons, List.mem_singleton, List.not_mem_nil, or_false,
        not_or] at hn
      simp only [strcmpEq, beq_iff_eq, hn.1, hn.2.1, hn.2.2, if_false]
      refine ⟨"invalid snap mode: %s", [.str (some v)], ?_, ?_⟩
      · intro d hd
        simp only [hd]
        rfl
      · intro hd
        simp only [hd]
        rfl
  · intro h
    constructor
    · unfold ParseMoveMode
      cases hv : tp.value with
      | none => exact ⟨_, _, rfl⟩
      | some v =>
        have hn := h v hv
        simp only [List.mem_cons, List.mem_singleton, List.not_mem_nil, or_false,
          not_or] at hn
        simp only [strcmpEq, beq_iff_eq, hn.1, hn.2, if_false]
        exact ⟨_, _, rfl⟩
    · unfold ParseResizeMode
      cases hv : tp.value with
      | none => exact ⟨_, _, rfl⟩
      | some v =>
        have hn := h v hv
        simp only [List.mem_cons, List.mem_singleton, List.not_mem_nil, or_false,
          not_or] at hn
        simp only [strcmpEq, beq_iff_eq, hn.1, hn.2, if_false]
        exact ⟨_, _, rfl⟩
  all_goals
    intro hty
    simp only [ParseLoop, hty]

/-- Claim C27 fails on the file `jwmrc` of `emptyOptionEnv`: the `option` child
without text stops the load at `strcmp`, with no diagnostic for it and before
the theme that follows the group; and a menu-level `include` without text
stops the builder at `strncmp`, before the separator that follows it. -/
theorem C27_missing_text_counterexample :
    ParseConfig emptyOptionEnv 1 2 "jwmrc" initState = .error .fault ∧
    ParseMenuItemFuel emptyEnv 1
      (.node (tag .TOK_INCLUDE none "jwmrc" 3) .null
        (.node (tag .TOK_SEPARATOR none "jwmrc" 4) .null .null))
      emptyMenu none initState = .error .fault :=
  ⟨rfl, rfl⟩

/-- The behaviour of the code on the nodes of claim C27: a group `option`
child without text makes `ParseGroup` pass NULL to `ParseGroupOption`, which
passes it to `strcmp`, and a menu-level `include` without text makes
`ParseMenuInclude` pass NULL to `strncmp`. Neither emits a diagnostic or
reaches the following siblings: the run ends there, whatever follows. -/
theorem C27_missing_text_is_read (env : Env) :
    (∀ (tp : TokenData) (group : Nat) (st : State),
      ParseGroupOption tp group none st = .error .fault) ∧
    (∀ (d : TokenData) (sub next : TokenNode) (group : Nat) (st : State),
      d.type = .TOK_OPTION → d.value = none →
      ParseGroupLoop env group (.node d sub next) st = .error .fault) ∧
    (∀ (rec : TokenNode → Menu → Option Nat → State → MenuResult) (tp : TokenData)
        (M : Menu) (last : Option Nat) (st : State),
      tp.value = none → ParseMenuInclude env rec tp M last st = .error .fault) ∧
    (∀ (fuel : Nat) (d : TokenData) (sub next : TokenNode) (M : Menu) (last : Option Nat)
        (st : State),
      d.type = .TOK_INCLUDE → d.value = none →
      ParseMenuItemFuel env (fuel + 1) (.node d sub next) M last st = .error .fault) := by
  refine ⟨fun _ _ _ => rfl, ?_, ?_, ?_⟩
  · intro d sub next group st hty hv
    simp only [ParseGroupLoop, hty, hv, ParseGroupOption]
  · intro rec tp M last st hv
    simp only [ParseMenuInclude, hv]
  · intro fuel d sub next M last st hty hv
    simp only [ParseMenuItemFuel_succ, ParseMenuItem, hty, ParseMenuInclude, hv]

theorem toUnsigned_natCast (w : Nat) (h : w < 4294967296) : toUnsigned (w : Int) = w := by
  unfold toUnsigned
  rw [Int.emod_eq_of_lt (by omega) (by omega)]
  simp

/-- C29: for a task bar whose width is `w`, with `0 ≤ w` in the range of
`int`, `GetItemWidth` returns `w` for the item count 0 and otherwise
`max 1 (w / n)`, or the smaller of that and the maximum item width when a
maximum is configured (0 means none). So for `n ≥ 1` the result is at least 1
and at most a configured maximum. `SetMaxTaskBarItemWidth` with a value that
`atoi` reads as negative leaves the task bar, its maximum included, as it is
(and warns); with another value it stores that value. -/
theorem C29_item_width (bp : TaskBarType) (w n : Nat) (hw : bp.width = (w : Int))
    (hrange : w < 2147483648) :
    (n = 0 → GetItemWidth bp n = w) ∧
    (0 < n → bp.maxItemWidth = 0 → GetItemWidth bp n = max 1 (w / n)) ∧
    (0 < n → 0 < bp.maxItemWidth →
      GetItemWidth bp n = min (max 1 (w / n)) bp.maxItemWidth) ∧
    (0 < n → 1 ≤ GetItemWidth bp n) ∧
    (0 < n → 0 < bp.maxItemWidth → GetItemWidth bp n ≤ bp.maxItemWidth) ∧
    (∀ (env : TaskEnv) (value : String), env.atoi value < 0 →
      (SetMaxTaskBarItemWidth env bp value).1 = bp ∧
      (SetMaxTaskBarItemWidth env bp value).1.maxItemWidth = bp.maxItemWidth) ∧
    (∀ (env : TaskEnv) (value : String) (m : Nat), env.atoi value = (m : Int) →
      m < 2147483648 → (SetMaxTaskBarItemWidth env bp value).1.maxItemWidth = m) := by
  have hu : toUnsigned bp.width = w := by
    rw [hw]
    exact toUnsigned_natCast w (by omega)
  have key : ∀ k, 0 < k → GetItemWidth bp k =
      if bp.maxItemWidth > 0 ∧ max 1 (w / k) > bp.maxItemWidth then bp.maxItemWidth
      else max 1 (w / k) := by
    intro k hk
    unfold GetItemWidth
    simp only [hu, Nat.ne_of_gt hk, if_false]
    have hq : (if w / k = 0 then 1 else w / k) = max 1 (w / k) := by
      by_cases h0 : w / k = 0
      · simp [h0]
      · rw [if_neg h0]
        exact (Nat.max_eq_right (Nat.one_le_iff_ne_zero.mpr h0)).symm
    rw [hq]
  refine ⟨?_, ?_, ?_, ?_, ?_, ?_, ?_⟩
  · intro h0
    unfold GetItemWidth
    simp [h0, hu]
  · intro hn hm
    rw [key n hn]
    simp [hm]
  · intro hn hm
    rw [key n hn]
    generalize w / n = q
    by_cases hc : max 1 q > bp.maxItemWidth
    · rw [if_pos ⟨hm, hc⟩]
      omega
    · rw [if_neg (fun h => hc h.2)]
      omega
  · intro hn
    rw [key n hn]
    generalize w / n = q
    split <;> omega
  · intro hn hm
    rw [key n hn]
    generalize w / n = q
    split <;> omega
  · intro env value hneg
    unfold SetMaxTaskBarItemWidth
    simp [hneg]
  · intro env value m hm hmr
    unfold SetMaxTaskBarItemWidth
    have : ¬ ((m : Int) < 0) := by omega
    simp only [hm, this, if_false]
    exact toUnsigned_natCast m (by omega)

/-- C29 for a task bar of width 10 with the maximum 3 and four items: the item
width is 2. -/
theorem C29_item_width_witness :
    GetItemWidth { width := 10, itemHeight := 0, layout := .LAYOUT_HORIZONTAL,
                   maxItemWidth := 3 } 4 = min (max 1 (10 / 4)) 3 :=
  (C29_item_width { width := 10, itemHeight := 0, layout := .LAYOUT_HORIZONTAL,
                    maxItemWidth := 3 } 10 4 rfl (by decide)).2.2.1 (by decide) (by decide)

theorem modify_y_links (store : List Node) (q p : Nat) (y : Int) :
    ((store.modify (fun n => { n with y := y }) q)[p]?).map (fun n => (n.client, n.next))
      = (store[p]?).map (fun n => (n.client, n.next)) := by
  rw [List.getElem?_modify]
  cases store[p]? with
  | none => rfl
  | some n => by_cases h : q = p <;> simp [h]

theorem drawnButtons_nil : drawnButtons [] = [] := rfl

theorem drawnButtons_draw (b : ButtonNode) (rest : List TaskEffect) :
    drawnButtons (.DrawButton b :: rest) = b :: drawnButtons rest := rfl

theorem drawnButtons_append (a b : List TaskEffect) :
    drawnButtons (a ++ b) = drawnButtons a ++ drawnButtons b := by
  simp [drawnButtons, List.filterMap_append]

theorem drawnButtons_mark (bp : TaskBarType) (x : Int) :
    drawnButtons (minimizedMark bp x) = [] := by
  simp [drawnButtons, minimizedMark, List.filterMap_map]

theorem links_some (store store' : List Node) (p : Nat) (n : Node)
    (hs : (store'[p]?).map (fun n => (n.client, n.next))
      = (store[p]?).map (fun n => (n.client, n.next)))
    (h1 : store[p]? = some n) :
    ∃ n', store'[p]? = some n' ∧ n'.client = n.client ∧ n'.next = n.next := by
  rw [h1] at hs
  cases h : store'[p]? with
  | none => rw [h] at hs; simp at hs
  | some n' =>
    rw [h] at hs
    simp at hs
    exact ⟨n', rfl, hs.1, hs.2⟩

theorem links_none (store store' : List Node) (p : Nat)
    (hs : (store'[p]?).map (fun n => (n.client, n.next))
      = (store[p]?).map (fun n => (n.client, n.next)))
    (h1 : store[p]? = none) : store'[p]? = none := by
  rw [h1] at hs
  simpa using hs

theorem RenderLoop_hitH (env : TaskEnv) (bp : TaskBarType) (iw c : Int) (store : List Node)
    (hl : bp.layout = .LAYOUT_HORIZONTAL) :
    ∀ (fuel : Nat) (tp : Option Nat) (x y rem : Int) (store' : List Node),
      (∀ p : Nat, (store'[p]?).map (fun n : Node => (n.client, n.next))
        = (store[p]?).map (fun n : Node => (n.client, n.next))) →
      GetNodeLoopH env store iw c fuel tp x rem
        = (((focusNodes env store fuel tp).zip
            (drawnButtons (RenderLoop env bp iw fuel tp x y rem store').2)).find?
              (fun pb => hitIn bp.layout c pb.2)).map Prod.fst
      ∧ (drawnButtons (RenderLoop env bp iw fuel tp x y rem store').2).length
          = (focusNodes env store fuel tp).length := by
  intro fuel
  induction fuel with
  | zero =>
    intro tp x y rem store' _
    simp [GetNodeLoopH, focusNodes, RenderLoop, drawnButtons]
  | succ fuel ih =>
    intro tp x y rem store' hs
    cases tp with
    | none => simp [GetNodeLoopH, focusNodes, RenderLoop, drawnButtons]
    | some p =>
      cases h1 : store[p]? with
      | none =>
        have h2 := links_none store store' p (hs p) h1
        simp [GetNodeLoopH, focusNodes, RenderLoop, drawnButtons, h1, h2]
      | some n =>
        obtain ⟨n', h2, hc, hn⟩ := links_some store store' p n (hs p) h1
        by_cases hf : env.ShouldFocus n.client = true
        · have hs' : ∀ q : Nat, ((store'.modify (fun n : Node => { n with y := y }) p)[q]?).map
              (fun n : Node => (n.client, n.next))
                = (store[q]?).map (fun n : Node => (n.client, n.next)) :=
            fun q => (modify_y_links store' p q y).trans (hs q)
          obtain ⟨e1, e2⟩ := ih n.next
            (if rem ≠ 0 then x + iw + 1 else x + iw) y
            (if rem ≠ 0 then rem - 1 else rem) _ hs'
          simp only [GetNodeLoopH, focusNodes, RenderLoop, h1, h2, hf, hc, hn, hl, if_true,
            drawnButtons_draw, drawnButtons_append, List.zip_cons_cons, List.find?_cons,
            List.length_cons]
          have hm : drawnButtons (if (env.client n.client).minimized = true
              then minimizedMark bp x else []) = [] := by
            split
            · exact drawnButtons_mark bp x
            · rfl
          rw [hm, List.nil_append, e2]
          refine ⟨?_, rfl⟩
          rw [e1]
          by_cases hr : rem = 0
          · subst hr
            simp only [hitIn, hitLo, hitHi, ne_eq, not_true_eq_false, if_false, if_true, hl]
            by_cases hx : x ≤ c ∧ c < x + iw
            · have hx2 : x ≤ c ∧ c < x + (iw - 1) + 1 := by omega
              simp [hx, hx2]
            · have hx2 : ¬ (x ≤ c ∧ c < x + (iw - 1) + 1) := by omega
              simp [hx, hx2]
          · simp only [hitIn, hitLo, hitHi, ne_eq, hr, not_false_eq_true, if_true, hl]
            by_cases hx : x ≤ c ∧ c < x + iw + 1
            · simp [hx]
            · simp [hx]
        · have hf2 : env.ShouldFocus n.client = false := by simpa using hf
          obtain ⟨e1, e2⟩ := ih n.next x y rem store' hs
          simp only [GetNodeLoopH, focusNodes, RenderLoop, h1, h2, hf2, hc, hn,
            Bool.false_eq_true, if_false]
          exact ⟨e1, e2⟩

theorem RenderLoop_hitV (env : TaskEnv) (bp : TaskBarType) (iw c : Int) (store : List Node)
    (hl : bp.layout = .LAYOUT_VERTICAL) :
    ∀ (fuel : Nat) (tp : Option Nat) (x y : Int) (store' : List Node),
      (∀ p : Nat, (store'[p]?).map (fun n : Node => (n.client, n.next))
        = (store[p]?).map (fun n : Node => (n.client, n.next))) →
      GetNodeLoopV env store bp.itemHeight c fuel tp y
        = (((focusNodes env store fuel tp).zip
            (drawnButtons (RenderLoop env bp iw fuel tp x y 0 store').2)).find?
              (fun pb => hitIn bp.layout c pb.2)).map Prod.fst
      ∧ (drawnButtons (RenderLoop env bp iw fuel tp x y 0 store').2).length
          = (focusNodes env store fuel tp).length := by
  intro fuel
  induction fuel with
  | zero =>
    intro tp x y store' _
    simp [GetNodeLoopV, focusNodes, RenderLoop, drawnButtons]
  | succ fuel ih =>
    intro tp x y store' hs
    cases tp with
    | none => simp [GetNodeLoopV, focusNodes, RenderLoop, drawnButtons]
    | some p =>
      cases h1 : store[p]? with
      | none =>
        have h2 := links_none store store' p (hs p) h1
        simp [GetNodeLoopV, focusNodes, RenderLoop, drawnButtons, h1, h2]
      | some n =>
        obtain ⟨n', h2, hc, hn⟩ := links_some store store' p n (hs p) h1
        by_cases hf : env.ShouldFocus n.client = true
        · have hs' : ∀ q : Nat, ((store'.modify (fun n : Node => { n with y := y }) p)[q]?).map
              (fun n : Node => (n.client, n.next))
                = (store[q]?).map (fun n : Node => (n.client, n.next)) :=
            fun q => (modify_y_links store' p q y).trans (hs q)
          obtain ⟨e1, e2⟩ := ih n.next x (y + bp.itemHeight) _ hs'
          simp only [GetNodeLoopV, focusNodes, RenderLoop, h1, h2, hf, hc, hn, hl, if_true,
            drawnButtons_draw, drawnButtons_append, List.zip_cons_cons, List.find?_cons,
            List.length_cons, ne_eq, not_true_eq_false, if_false, reduceCtorEq]
          have hm : drawnButtons (if (env.client n.client).minimized = true
              then minimizedMark bp x else []) = [] := by
            split
            · exact drawnButtons_mark bp x
            · rfl
          rw [hm, List.nil_append, e2]
          refine ⟨?_, rfl⟩
          rw [e1]
          simp only [hitIn, hitLo, hitHi, hl, reduceCtorEq, if_false]
          by_cases hx : y ≤ c ∧ c < y + bp.itemHeight
          · simp [hx]
          · simp [hx]
        · have hf2 : env.ShouldFocus n.client = false := by simpa using hf
          obtain ⟨e1, e2⟩ := ih n.next x y store' hs
          simp only [GetNodeLoopV, focusNodes, RenderLoop, h1, h2, hf2, hc, hn,
            Bool.false_eq_true, if_false]
          exact ⟨e1, e2⟩

theorem chain_hi_le_lo (lo hi : ButtonNode → Int) :
    ∀ (B : List ButtonNode) (b0 : ButtonNode),
      List.Chain' (fun a b => lo b = hi a) (b0 :: B) → (∀ b ∈ B, lo b ≤ hi b) →
      ∀ b ∈ B, hi b0 ≤ lo b := by
  intro B
  induction B with
  | nil => intro b0 _ _ b hb; simp at hb
  | cons b1 B ih =>
    intro b0 hch hle b hb
    rw [List.chain'_cons] at hch
    rcases List.mem_cons.mp hb with rfl | hb
    · omega
    · have h1 := ih b1 hch.2 (fun b hb => hle b (List.mem_cons_of_mem _ hb)) b hb
      have h2 := hle b1 (List.mem_cons_self _ _)
      omega

theorem find_interval (lo hi : ButtonNode → Int) (c : Int) (hit : ButtonNode → Bool)
    (hhit : ∀ b, hit b = true ↔ (lo b ≤ c ∧ c < hi b)) :
    ∀ (F : List Nat) (B : List ButtonNode),
      F.Nodup → List.Chain' (fun a b => lo b = hi a) B → (∀ b ∈ B, lo b ≤ hi b) →
      ∀ (k : Nat) (p : Nat) (b : ButtonNode), F[k]? = some p → B[k]? = some b →
        (((F.zip B).find? (fun pb => hit pb.2)).map Prod.fst = some p ↔ hit b = true) := by
  intro F
  induction F with
  | nil => intro B _ _ _ k p b hF _; simp at hF
  | cons p0 F ih =>
    intro B hnd hch hle k p b hF hB
    cases B with
    | nil => simp at hB
    | cons b0 B =>
      rw [List.nodup_cons] at hnd
      rw [List.zip_cons_cons, List.find?_cons]
      cases k with
      | zero =>
        simp only [List.getElem?_cons_zero, Option.some.injEq] at hF hB
        subst hF hB
        cases h0 : hit b0 with
        | true => simp
        | false =>
          simp only [Bool.false_eq_true, iff_false]
          intro h
          cases hf : (F.zip B).find? (fun pb => hit pb.2) with
          | none => rw [hf] at h; simp at h
          | some pb =>
            rw [hf] at h
            simp only [Option.map_some', Option.some.injEq] at h
            have hm := List.mem_of_find?_eq_some hf
            have hm2 := (List.of_mem_zip hm).1
            rw [h] at hm2
            exact hnd.1 hm2
      | succ k =>
        simp only [List.getElem?_cons_succ] at hF hB
        have hpF : p ∈ F := List.getElem?_mem hF
        have hbB : b ∈ B := List.getElem?_mem hB
        have hne : p0 ≠ p := fun e => hnd.1 (e ▸ hpF)
        cases h0 : hit b0 with
        | true =>
          have hc := (hhit b0).mp h0
          have hmono := chain_hi_le_lo lo hi B b0 hch
            (fun b hb => hle b (List.mem_cons_of_mem _ hb)) b hbB
          have hb : ¬ hit b = true := by
            intro hb
            have := (hhit b).mp hb
            omega
          simp [hne, hb]
        | false =>
          simp only [Bool.false_eq_true]
          rw [List.chain'_cons'] at hch
          exact ih B hnd.2 hch.2 (fun b hb => hle b (List.mem_cons_of_mem _ hb)) k p b hF hB

theorem drawnButtons_ifMark (bp : TaskBarType) (x : Int) (m : Bool) :
    drawnButtons (if m = true then minimizedMark bp x else []) = [] := by
  split
  · exact drawnButtons_mark bp x
  · rfl

theorem RenderLoop_chainH (env : TaskEnv) (bp : TaskBarType) (iw : Int)
    (hl : bp.layout = .LAYOUT_HORIZONTAL) (hiw : 0 ≤ iw) :
    ∀ (fuel : Nat) (tp : Option Nat) (x y rem : Int) (store' : List Node),
      List.Chain' (fun a b : ButtonNode => b.x = a.x + a.width + 1)
          (drawnButtons (RenderLoop env bp iw fuel tp x y rem store').2)
      ∧ (∀ b ∈ (drawnButtons (RenderLoop env bp iw fuel tp x y rem store').2).head?, b.x = x)
      ∧ (∀ b ∈ drawnButtons (RenderLoop env bp iw fuel tp x y rem store').2,
          b.x ≤ b.x + b.width + 1 ∧ b.y = y ∧ b.height = bp.itemHeight) := by
  intro fuel
  induction fuel with
  | zero =>
    intro tp x y rem store'
    simp [RenderLoop, drawnButtons]
  | succ fuel ih =>
    intro tp x y rem store'
    cases tp with
    | none => simp [RenderLoop, drawnButtons]
    | some p =>
      cases h2 : store'[p]? with
      | none => simp [RenderLoop, drawnButtons, h2]
      | some n =>
        by_cases hf : env.ShouldFocus n.client = true
        · obtain ⟨e1, e2, e3⟩ := ih n.next
            (if rem ≠ 0 then x + iw + 1 else x + iw) y
            (if rem ≠ 0 then rem - 1 else rem) (store'.modify (fun n => { n with y := y }) p)
          simp only [RenderLoop, h2, hf, hl, if_true, drawnButtons_draw, drawnButtons_append,
            drawnButtons_ifMark, List.nil_append]
          refine ⟨?_, ?_, ?_⟩
          · rw [List.chain'_cons']
            refine ⟨?_, e1⟩
            intro b hb
            rw [e2 b hb]
            by_cases hr : rem = 0
            · simp only [hr, ne_eq, not_true_eq_false, if_false]; omega
            · simp only [hr, ne_eq, not_false_eq_true, if_true]
          · intro b hb
            simp only [List.head?_cons, Option.mem_def, Option.some.injEq] at hb
            rw [← hb]
          · intro b hb
            rcases List.mem_cons.mp hb with rfl | hb
            · refine ⟨?_, rfl, rfl⟩
              by_cases hr : rem = 0
              · simp only [hr, ne_eq, not_true_eq_false, if_false]; omega
              · simp only [hr, ne_eq, not_false_eq_true, if_true]; omega
            · exact e3 b hb
        · have hf2 : env.ShouldFocus n.client = false := by simpa using hf
          simp only [RenderLoop, h2, hf2, Bool.false_eq_true, if_false]
          exact ih n.next x y rem store'

theorem RenderLoop_chainV (env : TaskEnv) (bp : TaskBarType) (iw : Int)
    (hl : bp.layout = .LAYOUT_VERTICAL) :
    ∀ (fuel : Nat) (tp : Option Nat) (x y : Int) (store' : List Node),
      List.Chain' (fun a b : ButtonNode => b.y = a.y + a.height)
          (drawnButtons (RenderLoop env bp iw fuel tp x y 0 store').2)
      ∧ (∀ b ∈ (drawnButtons (RenderLoop env bp iw fuel tp x y 0 store').2).head?, b.y = y)
      ∧ (∀ b ∈ drawnButtons (RenderLoop env bp iw fuel tp x y 0 store').2,
          b.x = x ∧ b.height = bp.itemHeight ∧ b.width = iw - 1) := by
  intro fuel
  induction fuel with
  | zero =>
    intro tp x y store'
    simp [RenderLoop, drawnButtons]
  | succ fuel ih =>
    intro tp x y store'
    cases tp with
    | none => simp [RenderLoop, drawnButtons]
    | some p =>
      cases h2 : store'[p]? with
      | none => simp [RenderLoop, drawnButtons, h2]
      | some n =>
        by_cases hf : env.ShouldFocus n.client = true
        · obtain ⟨e1, e2, e3⟩ := ih n.next x (y + bp.itemHeight)
            (store'.modify (fun n => { n with y := y }) p)
          simp only [RenderLoop, h2, hf, hl, if_true, drawnButtons_draw, drawnButtons_append,
            drawnButtons_ifMark, List.nil_append, ne_eq, not_true_eq_false, if_false,
            reduceCtorEq]
          refine ⟨?_, ?_, ?_⟩
          · rw [List.chain'_cons']
            refine ⟨?_, e1⟩
            intro b hb
            rw [e2 b hb]
          · intro b hb
            simp only [List.head?_cons, Option.mem_def, Option.some.injEq] at hb
            rw [← hb]
          · intro b hb
            rcases List.mem_cons.mp hb with rfl | hb
            · exact ⟨rfl, rfl, rfl⟩
            · exact e3 b hb
        · have hf2 : env.ShouldFocus n.client = false := by simpa using hf
          simp only [RenderLoop, h2, hf2, Bool.false_eq_true, if_false]
          exact ih n.next x y store'

theorem GetItemCountLoop_focusNodes (env : TaskEnv) (store : List Node) :
    ∀ (fuel : Nat) (tp : Option Nat),
      GetItemCountLoop env store fuel tp = (focusNodes env store fuel tp).length := by
  intro fuel
  induction fuel with
  | zero => intro tp; rfl
  | succ fuel ih =>
    intro tp
    cases tp with
    | none => rfl
    | some p =>
      cases h1 : store[p]? with
      | none => simp [GetItemCountLoop, focusNodes, h1]
      | some n =>
        by_cases hf : env.ShouldFocus n.client = true
        · simp [GetItemCountLoop, focusNodes, h1, hf, ih]
        · have hf2 : env.ShouldFocus n.client = false := by simpa using hf
          simp [GetItemCountLoop, focusNodes, h1, hf2, ih]

theorem focusNodes_length_le (env : TaskEnv) (store : List Node) :
    ∀ (fuel : Nat) (tp : Option Nat), (focusNodes env store fuel tp).length ≤ fuel := by
  intro fuel
  induction fuel with
  | zero => intro tp; simp [focusNodes]
  | succ fuel ih =>
    intro tp
    cases tp with
    | none => simp [focusNodes]
    | some p =>
      cases h1 : store[p]? with
      | none => simp [focusNodes, h1]
      | some n =>
        have := ih n.next
        by_cases hf : env.ShouldFocus n.client = true
        · simp only [focusNodes, h1, hf, if_true, List.length_cons]; omega
        · have hf2 : env.ShouldFocus n.client = false := by simpa using hf
          simp only [focusNodes, h1, hf2, Bool.false_eq_true, if_false]; omega

theorem toInt_natCast (u : Nat) (h : u < 2147483648) : toInt u = (u : Int) := by
  unfold toInt
  have h1 : u % 4294967296 = u := Nat.mod_eq_of_lt (by omega)
  rw [h1, if_pos h]

theorem toInt_toUnsigned (z : Int) (h0 : -2147483648 ≤ z) (h1 : z < 2147483648) :
    toInt (toUnsigned z) = z := by
  unfold toInt toUnsigned
  have hm : ((z % 4294967296).toNat : Int) = z % 4294967296 :=
    Int.toNat_of_nonneg (Int.emod_nonneg z (by decide))
  have hlt : z % 4294967296 < 4294967296 := Int.emod_lt_of_pos z (by decide)
  have hmod : (z % 4294967296).toNat % 4294967296 = (z % 4294967296).toNat := by
    apply Nat.mod_eq_of_lt
    omega
  rw [hmod]
  split <;> omega

theorem GetItemWidth_bounds (bp : TaskBarType) (w n : Nat) (hw : bp.width = (w : Int))
    (hrange : w < 2147483648) :
    GetItemWidth bp n * n ≤ max w n ∧ GetItemWidth bp n ≤ max 1 w := by
  have hu : toUnsigned bp.width = w := by
    rw [hw]; exact toUnsigned_natCast w (by omega)
  unfold GetItemWidth
  simp only [hu]
  by_cases hn : n = 0
  · subst hn
    simp
  · simp only [hn, if_false]
    have hq : w / n * n ≤ w := Nat.div_mul_le_self w n
    have hq2 : w / n ≤ w := Nat.div_le_self w n
    generalize w / n = q at hq hq2
    by_cases h0 : q = 0
    · subst h0
      simp only [if_true]
      split
      · rename_i h; omega
      · refine ⟨?_, ?_⟩
        · rw [Nat.one_mul]; exact le_max_right w n
        · exact le_max_left 1 w
    · simp only [h0, if_false]
      split
      · rename_i h
        refine ⟨?_, ?_⟩
        · have := Nat.mul_le_mul_right n (Nat.le_of_lt h.2)
          have := le_max_left w n
          omega
        · have := le_max_right 1 w
          omega
      · refine ⟨?_, ?_⟩
        · have := le_max_left w n
          omega
        · have := le_max_right 1 w
          omega

theorem drawnButtons_render (env : TaskEnv) (s : TaskState) (bp : TaskBarType)
    (hexit : env.shouldExit = false) (hlen : s.store.length + 1 < 2147483648) :
    renderButtons env s bp
      = drawnButtons (RenderLoop env bp
          (if bp.layout = .LAYOUT_HORIZONTAL
            then toInt (GetItemWidth bp (GetItemCount env s)) else bp.width)
          (s.store.length + 1) s.taskBarNodes 0 0
          (if bp.layout = .LAYOUT_HORIZONTAL
            then bp.width - toInt (GetItemWidth bp (GetItemCount env s))
              * ((GetItemCount env s : Nat) : Int)
            else 0) s.store).2
      ∧ (renderButtons env s bp).length = (focusList env s).length := by
  have hn : GetItemCount env s = (focusList env s).length :=
    GetItemCountLoop_focusNodes env s.store _ _
  have hn2 : (focusList env s).length ≤ s.store.length + 1 :=
    focusNodes_length_le env s.store _ _
  have hc : toInt (GetItemCount env s) = ((GetItemCount env s : Nat) : Int) :=
    toInt_natCast _ (by omega)
  have hcu : toUnsigned (toInt (GetItemCount env s)) = GetItemCount env s := by
    rw [hc]; exact toUnsigned_natCast _ (by omega)
  have hlenEq : (drawnButtons (RenderLoop env bp
          (if bp.layout = .LAYOUT_HORIZONTAL
            then toInt (GetItemWidth bp (GetItemCount env s)) else bp.width)
          (s.store.length + 1) s.taskBarNodes 0 0
          (if bp.layout = .LAYOUT_HORIZONTAL
            then bp.width - toInt (GetItemWidth bp (GetItemCount env s))
              * ((GetItemCount env s : Nat) : Int)
            else 0) s.store).2).length = (focusList env s).length := by
    cases hl : bp.layout with
    | LAYOUT_HORIZONTAL =>
      exact (RenderLoop_hitH env bp _ 0 s.store hl _ _ 0 0 _ s.store (fun _ => rfl)).2
    | LAYOUT_VERTICAL =>
      simp only [reduceCtorEq, if_false]
      exact (RenderLoop_hitV env bp _ 0 s.store hl _ _ 0 0 s.store (fun _ => rfl)).2
  have hmain : renderButtons env s bp
      = drawnButtons (RenderLoop env bp
          (if bp.layout = .LAYOUT_HORIZONTAL
            then toInt (GetItemWidth bp (GetItemCount env s)) else bp.width)
          (s.store.length + 1) s.taskBarNodes 0 0
          (if bp.layout = .LAYOUT_HORIZONTAL
            then bp.width - toInt (GetItemWidth bp (GetItemCount env s))
              * ((GetItemCount env s : Nat) : Int)
            else 0) s.store).2 := by
    by_cases h0 : GetItemCount env s = 0
    · have hF : (focusList env s).length = 0 := by omega
      rw [hF] at hlenEq
      rw [List.length_eq_zero.mp hlenEq]
      have hc0 : toInt (GetItemCount env s) = 0 := by rw [hc, h0]; rfl
      simp only [renderButtons, Render, hexit, hc0, Bool.false_eq_true, if_false, if_true]
      rfl
    · have hc0 : ¬ toInt (GetItemCount env s) = 0 := by rw [hc]; omega
      simp only [renderButtons, Render, hexit, hc0, Bool.false_eq_true, if_false, hcu,
        sub_zero, drawnButtons_append]
      rw [hc]
      cases hl : bp.layout <;> simp [drawnButtons]
  exact ⟨hmain, hmain ▸ hlenEq⟩

theorem GetNode_horizontal (env : TaskEnv) (s : TaskState) (bp : TaskBarType) (c : Int)
    (hl : bp.layout = .LAYOUT_HORIZONTAL)
    (hw0 : 0 ≤ bp.width) (hw1 : bp.width < 2147483648)
    (hlen : s.store.length + 1 < 2147483648) :
    GetNode env s bp c
      = GetNodeLoopH env s.store (toInt (GetItemWidth bp (GetItemCount env s))) c
          (s.store.length + 1) s.taskBarNodes 0
          (bp.width - toInt (GetItemWidth bp (GetItemCount env s))
            * ((GetItemCount env s : Nat) : Int))
      ∧ 0 ≤ toInt (GetItemWidth bp (GetItemCount env s)) := by
  have hn : GetItemCount env s = (focusList env s).length :=
    GetItemCountLoop_focusNodes env s.store _ _
  have hn2 : (focusList env s).length ≤ s.store.length + 1 :=
    focusNodes_length_le env s.store _ _
  obtain ⟨w, hw⟩ := Int.eq_ofNat_of_zero_le hw0
  have hwr : w < 2147483648 := by omega
  obtain ⟨b1, b2⟩ := GetItemWidth_bounds bp w (GetItemCount env s) hw hwr
  have hg : toInt (GetItemWidth bp (GetItemCount env s))
      = ((GetItemWidth bp (GetItemCount env s) : Nat) : Int) :=
    toInt_natCast _ (by omega)
  have hprod : ((GetItemWidth bp (GetItemCount env s) : Nat) : Int)
      * ((GetItemCount env s : Nat) : Int)
        = ((GetItemWidth bp (GetItemCount env s) * GetItemCount env s : Nat) : Int) := by
    push_cast; rfl
  refine ⟨?_, by rw [hg]; omega⟩
  simp only [GetNode, hl, if_true, sub_zero]
  rw [toInt_toUnsigned]
  · rw [hg, hprod, hw]; omega
  · rw [hg, hprod, hw]; omega

theorem hitIn_iff (layout : LayoutType) (c : Int) (b : ButtonNode) :
    hitIn layout c b = true ↔ (hitLo layout b ≤ c ∧ c < hitHi layout b) := by
  simp [hitIn]

/-- Claim C30: for every task bar state and both layouts, the hit test of
`GetNode` agrees with the buttons drawn by `Render` on the same state (no exit
in progress, sizes in the range of `int`). `Render` draws one button per
focusable node, the first at `0` and each next one where the hit interval of
the previous one ends; `GetNode` returns the node of the first button whose
interval holds the coordinate; and with distinct nodes `GetNode` returns a
node exactly for the coordinates from the `x` of its button over
`width + 1` pixels (horizontal layout: the drawn width is one less than the
width of the hit interval) or from the `y` of its button over `height` pixels
(vertical layout). -/
theorem C30_hit_test_agrees_with_render (env : TaskEnv) (s : TaskState) (bp : TaskBarType)
    (c : Int) (hexit : env.shouldExit = false)
    (hw0 : 0 ≤ bp.width) (hw1 : bp.width < 2147483648)
    (hlen : s.store.length + 1 < 2147483648) :
    (renderButtons env s bp).length = (focusList env s).length
    ∧ GetNode env s bp c
        = (((focusList env s).zip (renderButtons env s bp)).find?
            (fun pb => hitIn bp.layout c pb.2)).map Prod.fst
    ∧ (∀ b ∈ (renderButtons env s bp).head?, hitLo bp.layout b = 0)
    ∧ List.Chain' (fun a b => hitLo bp.layout b = hitHi bp.layout a) (renderButtons env s bp)
    ∧ ((focusList env s).Nodup →
        ∀ (k p : Nat) (b : ButtonNode),
          (focusList env s)[k]? = some p → (renderButtons env s bp)[k]? = some b →
          (bp.layout = .LAYOUT_HORIZONTAL →
            (GetNode env s bp c = some p ↔ (b.x ≤ c ∧ c < b.x + b.width + 1)))
          ∧ (bp.layout = .LAYOUT_VERTICAL →
            (GetNode env s bp c = some p ↔ (b.y ≤ c ∧ c < b.y + b.height)))) := by
  obtain ⟨hB, hlenB⟩ := drawnButtons_render env s bp hexit hlen
  cases hl : bp.layout with
  | LAYOUT_HORIZONTAL =>
    obtain ⟨hG, hiw⟩ := GetNode_horizontal env s bp c hl hw0 hw1 hlen
    simp only [hl, if_true] at hB
    obtain ⟨e1, _⟩ := RenderLoop_hitH env bp _ c s.store hl (s.store.length + 1)
      s.taskBarNodes 0 0 (bp.width - toInt (GetItemWidth bp (GetItemCount env s))
            * ((GetItemCount env s : Nat) : Int)) s.store (fun _ => rfl)
    obtain ⟨c1, c2, c3⟩ := RenderLoop_chainH env bp _ hl hiw (s.store.length + 1)
      s.taskBarNodes 0 0 (bp.width - toInt (GetItemWidth bp (GetItemCount env s))
            * ((GetItemCount env s : Nat) : Int)) s.store
    rw [← hB] at e1 c1 c2 c3
    rw [hl] at e1
    have hfind : GetNode env s bp c
        = (((focusList env s).zip (renderButtons env s bp)).find?
            (fun pb => hitIn .LAYOUT_HORIZONTAL c pb.2)).map Prod.fst := by
      rw [hG]; exact e1
    have hch : List.Chain' (fun a b => hitLo .LAYOUT_HORIZONTAL b = hitHi .LAYOUT_HORIZONTAL a)
        (renderButtons env s bp) := by
      simpa [hitLo, hitHi] using c1
    refine ⟨hlenB, hfind, ?_, hch, ?_⟩
    · intro b hb
      simpa [hitLo] using c2 b hb
    · intro hnd k p b hF hBk
      refine ⟨fun _ => ?_, fun h => by cases h⟩
      rw [hfind]
      have := find_interval (hitLo .LAYOUT_HORIZONTAL) (hitHi .LAYOUT_HORIZONTAL) c
        (hitIn .LAYOUT_HORIZONTAL c) (hitIn_iff _ c) (focusList env s) (renderButtons env s bp)
        hnd hch (fun b hb => by simpa [hitLo, hitHi] using (c3 b hb).1) k p b hF hBk
      rw [this, hitIn_iff]
      simp [hitLo, hitHi]
  | LAYOUT_VERTICAL =>
    have hG : GetNode env s bp c
        = GetNodeLoopV env s.store bp.itemHeight c (s.store.length + 1) s.taskBarNodes 0 := by
      simp only [GetNode, hl, reduceCtorEq, if_false]
    simp only [hl, reduceCtorEq, if_false] at hB
    obtain ⟨e1, _⟩ := RenderLoop_hitV env bp bp.width c s.store hl (s.store.length + 1)
      s.taskBarNodes 0 0 s.store (fun _ => rfl)
    obtain ⟨c1, c2, c3⟩ := RenderLoop_chainV env bp bp.width hl (s.store.length + 1)
      s.taskBarNodes 0 0 s.store
    rw [← hB] at e1 c1 c2 c3
    rw [hl] at e1
    have hfind : GetNode env s bp c
        = (((focusList env s).zip (renderButtons env s bp)).find?
            (fun pb => hitIn .LAYOUT_VERTICAL c pb.2)).map Prod.fst := by
      rw [hG]; exact e1
    have hch : List.Chain' (fun a b => hitLo .LAYOUT_VERTICAL b = hitHi .LAYOUT_VERTICAL a)
        (renderButtons env s bp) := by
      simpa [hitLo, hitHi] using c1
    refine ⟨hlenB, hfind, ?_, hch, ?_⟩
    · intro b hb
      simpa [hitLo] using c2 b hb
    · intro hnd k p b hF hBk
      refine ⟨fun h => (by cases h), fun _ => ?_⟩
      rw [hfind]
      by_cases hh : 0 ≤ bp.itemHeight
      · have := find_interval (hitLo .LAYOUT_VERTICAL) (hitHi .LAYOUT_VERTICAL) c
          (hitIn .LAYOUT_VERTICAL c) (hitIn_iff _ c) (focusList env s) (renderButtons env s bp)
          hnd hch (fun b hb => by
            have := (c3 b hb).2.1
            simp only [hitLo, hitHi, reduceCtorEq, if_false]
            omega) k p b hF hBk
        rw [this, hitIn_iff]
        simp [hitLo, hitHi]
      · have hnone : ((focusList env s).zip (renderButtons env s bp)).find?
            (fun pb => hitIn .LAYOUT_VERTICAL c pb.2) = none := by
          rw [List.find?_eq_none]
          intro pb hpb
          have hb2 := (c3 pb.2 (List.of_mem_zip hpb).2).2.1
          simp only [hitIn, hitLo, hitHi, reduceCtorEq, if_false, decide_eq_true_eq]
          omega
        rw [hnone]
        have hb2 := (c3 b (List.getElem?_mem hBk)).2.1
        simp only [Option.map_none', reduceCtorEq, false_iff]
        omega

/-- C30 at the bar of `100` pixels with three shown clients: the buttons start
at `0`, `34` and `67`, and the coordinate `40` hits the second shown node. -/
theorem C30_hit_test_agrees_with_render_witness :
    barEnv.shouldExit = false ∧ (0 : Int) ≤ barH.width ∧ barH.width < 2147483648
    ∧ barState.store.length + 1 < 2147483648
    ∧ (renderButtons barEnv barState barH).map (fun b => (b.x, b.width)) = [(0, 33), (34, 32), (67, 32)]
    ∧ focusList barEnv barState = [0, 1, 3]
    ∧ GetNode barEnv barState barH 40 = some 1
    ∧ (renderButtons barEnv barState barH).length = (focusList barEnv barState).length :=
  ⟨rfl, by decide, by decide, by decide, by decide, by decide, by decide,
    (C30_hit_test_agrees_with_render barEnv barState barH 40 rfl (by decide) (by decide)
      (by decide)).1⟩

theorem toDigitsCore_length_ge : ∀ (e f n : Nat), 10 ^ e ≤ n → n < f →
    e + 1 ≤ (Nat.toDigitsCore 10 f n []).length := by
  intro e
  induction e with
  | zero =>
    intro f n _ hf
    cases f with
    | zero => omega
    | succ f =>
      simp only [Nat.toDigitsCore]
      split
      · simp
      · rw [Nat.toDigitsCore_lens_eq]; omega
  | succ e ih =>
    intro f n hn hf
    cases f with
    | zero => omega
    | succ f =>
      have hpos : 0 < 10 ^ e := Nat.pos_of_ne_zero (pow_ne_zero e (by decide))
      have h10 : 10 ^ e ≤ n / 10 := by
        rw [Nat.le_div_iff_mul_le (by decide)]
        rw [Nat.pow_succ] at hn
        exact hn
      have hne : ¬ n / 10 = 0 := by omega
      have hlt : n / 10 < f := by omega
      simp only [Nat.toDigitsCore, hne, if_false]
      rw [Nat.toDigitsCore_lens_eq]
      have := ih f (n / 10) h10 hlt
      omega

theorem digitChar_utf8Size (n : Nat) (h : n < 10) : (Nat.digitChar n).utf8Size = 1 := by
  interval_cases n <;> rfl

theorem toDigitsCore_utf8Len : ∀ (f n : Nat) (ds : List Char),
    String.utf8Len ds = ds.length →
    String.utf8Len (Nat.toDigitsCore 10 f n ds) = (Nat.toDigitsCore 10 f n ds).length := by
  intro f
  induction f with
  | zero => intro n ds h; simpa [Nat.toDigitsCore] using h
  | succ f ih =>
    intro n ds h
    have hd : (Nat.digitChar (n % 10)).utf8Size = 1 :=
      digitChar_utf8Size _ (Nat.mod_lt _ (by decide))
    have h2 : String.utf8Len (Nat.digitChar (n % 10) :: ds)
        = (Nat.digitChar (n % 10) :: ds).length := by
      simp [h, hd]
    simp only [Nat.toDigitsCore]
    split
    · exact h2
    · exact ih _ _ h2

theorem strlen_repr (n : Nat) : strlen (Nat.repr n) = (Nat.repr n).length := by
  simp only [strlen, Nat.repr, Nat.toDigits, List.asString, String.utf8ByteSize_mk,
    String.length]
  exact toDigitsCore_utf8Len _ _ [] rfl

theorem repr_length_le_four (n : Nat) : (Nat.repr n).length ≤ 4 ↔ n ≤ 9999 := by
  constructor
  · intro h
    by_contra hn
    have := toDigitsCore_length_ge 4 (n + 1) n (by omega) (by omega)
    simp only [Nat.repr, Nat.toDigits, List.asString, String.length] at h
    omega
  · intro h
    exact Nat.repr_length n 4 (by decide) (by omega)

/-- Claim C32: for a node in the file `f` on line `n ≥ 0`, the bytes that
`sprintf` writes for the prefix (`f`, `[`, the decimal digits of `n`, `]` and
the terminator) fit in the `strlen("%s[%d]") + strlen(f) + 1` bytes that
`ParseError` allocates exactly when `n ≤ 9999`: the format text accounts for
four digits only. -/
theorem C32_prefix_fits_iff (d : TokenData) (n : Nat) :
    ParseErrorWritten { d with line := (n : Int) }
        ≤ ParseErrorAllocated { d with line := (n : Int) } ↔ n ≤ 9999 := by
  have hmsg : ParseErrorMsg (some { d with line := (n : Int) })
      = d.fileName ++ "[" ++ Nat.repr n ++ "]" := rfl
  have hlen : strlen (d.fileName ++ "[" ++ Nat.repr n ++ "]")
      = strlen d.fileName + 1 + strlen (Nat.repr n) + 1 := by
    simp only [strlen, String.utf8ByteSize, String.append, String.utf8ByteSize.go_eq,
      String.utf8Len_append]
    rfl
  have h6 : strlen "%s[%d]" = 6 := by decide
  simp only [ParseErrorWritten, ParseErrorAllocated, hmsg, hlen, h6, strlen_repr]
  rw [← repr_length_le_four]
  omega

/-- The counterexample to C32: for a node on line 10000 of `jwmrc`,
`ParseError` allocates 12 bytes and `sprintf` writes 13. -/
theorem C32_prefix_overflow_counterexample :
    ParseErrorAllocated (tag .TOK_KEY none "jwmrc" 10000) = 12 ∧
    ParseErrorWritten (tag .TOK_KEY none "jwmrc" 10000) = 13 ∧
    ¬ (ParseErrorWritten (tag .TOK_KEY none "jwmrc" 10000)
        ≤ ParseErrorAllocated (tag .TOK_KEY none "jwmrc" 10000)) := by
  decide

/-- Claim C33: a file that opens within the depth limit makes `ParseFile`
report success whatever its content: `ParseFile` returns 1 with the state
`Parse` leaves, whenever `Parse` returns. So when the primary configuration
file opens and tokenizes to nothing, `ParseConfig` makes the two validation
calls only, and when its root tag is not `JWM`, `ParseConfig` makes exactly
the invalid-start-tag diagnostic and the two validation calls: no
configuration setter is called and the system configuration is not
loaded. -/
theorem C33_opened_file_is_success (env : Env) (mfuel fuel : Nat) (fileName : String)
    (st : State) (buffer : String) (hmax : 1 ≤ env.MAX_INCLUDE_DEPTH)
    (hopen : env.fopen fileName = some buffer) :
    (∀ depth : Int, depth + 1 ≤ env.MAX_INCLUDE_DEPTH →
      ParseFileFuel env mfuel (fuel + 1) (some fileName) depth st =
        match Parse env (ParseMenuItemFuel env mfuel) (ParseFileFuel env mfuel fuel)
            (env.Tokenize buffer fileName) (depth + 1) st with
        | .error e => .error e
        | .ok s => .ok (true, s)) ∧
    (∀ (depth : Int) (r : Bool × State), depth + 1 ≤ env.MAX_INCLUDE_DEPTH →
      ParseFileFuel env mfuel (fuel + 1) (some fileName) depth st = .ok r → r.1 = true) ∧
    (env.Tokenize buffer fileName = .null →
      ParseFileFuel env mfuel (fuel + 1) (some fileName) 0 st
        = .ok (true, { st with parseDepths := st.parseDepths ++ [1] }) ∧
      ParseConfig env mfuel (fuel + 1) fileName st =
        .ok { st with
          log := st.log ++ [.ValidateTrayButtons, .ValidateKeys],
          parseDepths := st.parseDepths ++ [1] }) ∧
    (∀ (d : TokenData) (subnodeHead next : TokenNode),
      env.Tokenize buffer fileName = .node d subnodeHead next → d.type ≠ .TOK_JWM →
      ParseFileFuel env mfuel (fuel + 1) (some fileName) 0 st
        = .ok (true, { st with
            log := st.log ++ [.WarningVA (ParseErrorMsg (some d)) "invalid start tag: %s"
              [.str (some (env.GetTokenName d))]],
            parseDepths := st.parseDepths ++ [1] }) ∧
      ParseConfig env mfuel (fuel + 1) fileName st =
        .ok { st with
          log := st.log ++
            [.WarningVA (ParseErrorMsg (some d)) "invalid start tag: %s"
              [.str (some (env.GetTokenName d))],
             .ValidateTrayButtons, .ValidateKeys],
          parseDepths := st.parseDepths ++ [1] }) := by
  have hd : ¬ ((1 : Int) > env.MAX_INCLUDE_DEPTH) := by omega
  have key : ∀ depth : Int, depth + 1 ≤ env.MAX_INCLUDE_DEPTH →
      ParseFileFuel env mfuel (fuel + 1) (some fileName) depth st =
        match Parse env (ParseMenuItemFuel env mfuel) (ParseFileFuel env mfuel fuel)
            (env.Tokenize buffer fileName) (depth + 1) st with
        | .error e => .error e
        | .ok s => .ok (true, s) := by
    intro depth hdep
    have hd2 : ¬ (depth + 1 > env.MAX_INCLUDE_DEPTH) := by omega
    cases hp : Parse env (ParseMenuItemFuel env mfuel) (ParseFileFuel env mfuel fuel)
      (env.Tokenize buffer fileName) (depth + 1) st with
    | error e => simp only [ParseFileFuel_succ, ParseFile, hd2, if_false, hopen, hp]
    | ok s1 => simp only [ParseFileFuel_succ, ParseFile, hd2, if_false, hopen, hp]
  refine ⟨key, ?_, ?_, ?_⟩
  · intro depth r hdep hr
    rw [key depth hdep] at hr
    cases hp : Parse env (ParseMenuItemFuel env mfuel) (ParseFileFuel env mfuel fuel)
      (env.Tokenize buffer fileName) (depth + 1) st with
    | error e => rw [hp] at hr; cases hr
    | ok s =>
      rw [hp] at hr
      simp only [Except.ok.injEq] at hr
      rw [← hr]
  · intro ht
    have h1 : ParseFileFuel env mfuel (fuel + 1) (some fileName) 0 st
        = .ok (true, { st with parseDepths := st.parseDepths ++ [1] }) := by
      rw [key 0 (by omega), ht]
      rfl
    refine ⟨h1, ?_⟩
    simp only [ParseConfig, h1, if_true]
    simp [State.emit]
  · intro d subnodeHead next ht hty
    have h1 : ParseFileFuel env mfuel (fuel + 1) (some fileName) 0 st
        = .ok (true, { st with
            log := st.log ++ [.WarningVA (ParseErrorMsg (some d)) "invalid start tag: %s"
              [.str (some (env.GetTokenName d))]],
            parseDepths := st.parseDepths ++ [1] }) := by
      rw [key 0 (by omega), ht]
      simp only [Parse, hty, if_false, zero_add]
      rfl
    refine ⟨h1, ?_⟩
    simp only [ParseConfig, h1, if_true]
    simp [State.emit]

/-- C33 where `jwmrc` opens with a `Font` root tag and the system configuration
would set a theme: the load makes the diagnostic and the two validation calls,
and no `SetTheme`. -/
theorem C33_opened_file_is_success_witness :
    (1 : Int) ≤ strayEnv.MAX_INCLUDE_DEPTH ∧ strayEnv.fopen "jwmrc" = some "" ∧
    ParseConfig strayEnv 1 (0 + 1) "jwmrc" initState =
      .ok { initState with
        log := [.WarningVA "jwmrc[3]" "invalid start tag: %s" [.str (some "tag")],
                .ValidateTrayButtons, .ValidateKeys],
        parseDepths := [1] } ∧
    (ParseConfig strayEnv 1 (0 + 1) "/etc/system.jwmrc" initState).toOption.map State.log =
      some [.SetTheme (some "a"), .ValidateTrayButtons, .ValidateKeys] :=
  ⟨by decide, rfl,
    ((C33_opened_file_is_success strayEnv 1 0 "jwmrc" initState "" (by decide) rfl).2.2.2
      strayFont .null .null rfl (by decide)).2,
    rfl⟩

theorem focusNodes_focusable (env : TaskEnv) (store : List Node) :
    ∀ (fuel : Nat) (tp : Option Nat) (p : Nat), p ∈ focusNodes env store fuel tp →
      ∃ node, store[p]? = some node ∧ env.ShouldFocus node.client = true := by
  intro fuel
  induction fuel with
  | zero => intro tp p hp; simp [focusNodes] at hp
  | succ fuel ih =>
    intro tp p hp
    cases tp with
    | none => simp [focusNodes] at hp
    | some q =>
      cases h1 : store[q]? with
      | none => simp [focusNodes, h1] at hp
      | some n =>
        by_cases hf : env.ShouldFocus n.client = true
        · simp only [focusNodes, h1, hf, if_true, List.mem_cons] at hp
          rcases hp with rfl | hp
          · exact ⟨n, h1, hf⟩
          · exact ih _ _ hp
        · have hf2 : env.ShouldFocus n.client = false := by simpa using hf
          simp only [focusNodes, h1, hf2, Bool.false_eq_true, if_false] at hp
          exact ih _ _ hp

theorem GetNodeLoopH_interval (env : TaskEnv) (store : List Node) (iw x : Int)
    (hiw : 0 ≤ iw) :
    ∀ (fuel : Nat) (tp : Option Nat) (index rem : Int) (j : Nat), 0 ≤ rem →
      j < (focusNodes env store fuel tp).length →
      index + (j : Int) * iw + min (j : Int) rem ≤ x →
      x < index + ((j : Int) + 1) * iw + min ((j : Int) + 1) rem →
      GetNodeLoopH env store iw x fuel tp index rem = (focusNodes env store fuel tp)[j]? := by
  intro fuel
  induction fuel with
  | zero => intro tp index rem j _ hj; simp [focusNodes] at hj
  | succ fuel ih =>
    intro tp index rem j hrem hj hlo hhi
    cases tp with
    | none => simp [focusNodes] at hj
    | some q =>
      cases h1 : store[q]? with
      | none => simp [focusNodes, h1] at hj
      | some n =>
        by_cases hf : env.ShouldFocus n.client = true
        · simp only [focusNodes, h1, hf, if_true, List.length_cons] at hj
          simp only [GetNodeLoopH, focusNodes, h1, hf, if_true]
          cases j with
          | zero =>
            simp only [Nat.cast_zero, zero_mul, add_zero, zero_add, one_mul] at hlo hhi
            have hin : x ≥ index ∧ x < (if rem ≠ 0 then index + iw + 1 else index + iw) := by
              split <;> omega
            rw [if_pos hin]
            simp
          | succ j =>
            have ha : 0 ≤ (j : Int) * iw := mul_nonneg (Int.ofNat_nonneg j) hiw
            have e3 : ((j : Int) + 1) * iw = (j : Int) * iw + iw := by ring
            have e5 : ((j : Int) + 1 + 1) * iw = (j : Int) * iw + iw + iw := by ring
            simp only [Nat.cast_add, Nat.cast_one] at hlo hhi
            rw [e3] at hlo
            rw [e5] at hhi
            have hout : ¬ (x ≥ index ∧ x < (if rem ≠ 0 then index + iw + 1 else index + iw)) := by
              split <;> omega
            rw [if_neg hout, List.getElem?_cons_succ]
            by_cases hr : rem = 0
            · subst hr
              simp only [ne_eq, not_true_eq_false, if_false]
              apply ih n.next _ _ j (le_refl 0) (by omega)
              · omega
              · rw [e3]; omega
            · simp only [ne_eq, hr, not_false_eq_true, if_true]
              apply ih n.next _ _ j (by omega) (by omega)
              · omega
              · rw [e3]; omega
        · have hf2 : env.ShouldFocus n.client = false := by simpa using hf
          simp only [focusNodes, h1, hf2, Bool.false_eq_true, if_false] at hj
          simp only [GetNodeLoopH, focusNodes, h1, hf2, Bool.false_eq_true, if_false]
          exact ih n.next index rem j hrem hj hlo hhi

theorem GetNodeLoopH_sound (env : TaskEnv) (store : List Node) (iw x : Int)
    (hiw : 0 ≤ iw) :
    ∀ (fuel : Nat) (tp : Option Nat) (index rem : Int) (p : Nat), 0 ≤ rem →
      GetNodeLoopH env store iw x fuel tp index rem = some p →
      p ∈ focusNodes env store fuel tp ∧ index ≤ x ∧
      x < index + ((focusNodes env store fuel tp).length : Int) * iw
          + min ((focusNodes env store fuel tp).length : Int) rem := by
  intro fuel
  induction fuel with
  | zero => intro tp index rem p _ h; simp [GetNodeLoopH] at h
  | succ fuel ih =>
    intro tp index rem p hrem h
    cases tp with
    | none => simp [GetNodeLoopH] at h
    | some q =>
      cases h1 : store[q]? with
      | none => simp [GetNodeLoopH, h1] at h
      | some n =>
        by_cases hf : env.ShouldFocus n.client = true
        · simp only [GetNodeLoopH, h1, hf, if_true] at h
          simp only [focusNodes, h1, hf, if_true, List.length_cons, List.mem_cons]
          have hlen : (0 : Int) ≤ ((focusNodes env store fuel n.next).length : Int) :=
            Int.ofNat_nonneg _
          have ha : 0 ≤ ((focusNodes env store fuel n.next).length : Int) * iw :=
            mul_nonneg hlen hiw
          have e1 : (((focusNodes env store fuel n.next).length + 1 : Nat) : Int) * iw
              = ((focusNodes env store fuel n.next).length : Int) * iw + iw := by
            push_cast; ring
          have e4 : (((focusNodes env store fuel n.next).length + 1 : Nat) : Int)
              = ((focusNodes env store fuel n.next).length : Int) + 1 := by push_cast; rfl
          rw [e1, e4]
          by_cases hin : x ≥ index ∧ x < (if rem ≠ 0 then index + iw + 1 else index + iw)
          · rw [if_pos hin] at h
            simp only [Option.some.injEq] at h
            refine ⟨Or.inl h.symm, hin.1, ?_⟩
            have h2 := hin.2
            generalize ((focusNodes env store fuel n.next).length : Int) * iw = a at ha
            generalize ((focusNodes env store fuel n.next).length : Int) = m at hlen
            split at h2 <;> omega
          · rw [if_neg hin] at h
            obtain ⟨m1, m2, m3⟩ := ih n.next _ _ p (by split <;> omega) h
            refine ⟨Or.inr m1, ?_, ?_⟩
            · split at m2 <;> omega
            · generalize ((focusNodes env store fuel n.next).length : Int) * iw = a at ha m3
              generalize ((focusNodes env store fuel n.next).length : Int) = m at hlen m3
              split at m3 <;> omega
        · have hf2 : env.ShouldFocus n.client = false := by simpa using hf
          simp only [GetNodeLoopH, h1, hf2, Bool.false_eq_true, if_false] at h
          simp only [focusNodes, h1, hf2, Bool.false_eq_true, if_false]
          exact ih n.next index rem p hrem h

theorem GetItemWidth_noMax (bp : TaskBarType) (w n : Nat) (hw : bp.width = (w : Int))
    (hrange : w < 2147483648) (hm : bp.maxItemWidth = 0) (hn : 1 ≤ n) (hwn : n ≤ w) :
    GetItemWidth bp n = w / n := by
  have hu : toUnsigned bp.width = w := by
    rw [hw]; exact toUnsigned_natCast w (by omega)
  have hq : 1 ≤ w / n := (Nat.le_div_iff_mul_le (by omega)).mpr (by omega)
  unfold GetItemWidth
  simp only [hu, hm]
  have h0 : ¬ n = 0 := by omega
  have h1 : ¬ w / n = 0 := by omega
  simp [h0, h1]

theorem specHitStart_succ (w n k : Nat) :
    specHitStart w n (k + 1)
      = specHitStart w n k + (if k < w % n then w / n + 1 else w / n) := by
  unfold specHitStart
  rw [Nat.add_mul, Nat.one_mul]
  split <;> omega

theorem specHitStart_mono (w n : Nat) : ∀ (k j : Nat), k ≤ j →
    specHitStart w n k ≤ specHitStart w n j := by
  intro k j hkj
  induction hkj with
  | refl => exact le_refl _
  | step _ ih =>
    rw [specHitStart_succ]
    omega

theorem specHitStart_cover (w n : Nat) : ∀ (m : Nat) (x : Int), 0 ≤ x →
    x < (specHitStart w n m : Int) →
    ∃ k, k < m ∧ (specHitStart w n k : Int) ≤ x ∧ x < (specHitStart w n (k + 1) : Int) := by
  intro m
  induction m with
  | zero =>
    intro x h0 h1
    simp [specHitStart] at h1
    omega
  | succ m ih =>
    intro x h0 h1
    by_cases hx : x < (specHitStart w n m : Int)
    · obtain ⟨k, hk, h2, h3⟩ := ih x h0 hx
      exact ⟨k, by omega, h2, h3⟩
    · exact ⟨m, by omega, by omega, h1⟩

/-- Claim C31: in the horizontal layout without a maximum item width, with
`n ≥ 1` focusable clients and a width `w ≥ n` (in the range of `int`), the hit
intervals of `GetNode` partition `[0, w)`. The intervals start at 0, end at
`w`, the first `w mod n` have the width `w / n + 1` and the others `w / n`;
for a coordinate in the `k`-th interval `GetNode` returns the `k`-th focusable
node in list order; every coordinate of `[0, w)` lies in one interval, and in
one only; for a coordinate below 0 or from `w` on `GetNode` returns no node;
and the client of a node that `GetNode` returns is focusable. -/
theorem C31_hit_intervals_partition (env : TaskEnv) (s : TaskState) (bp : TaskBarType)
    (w : Nat) (hl : bp.layout = .LAYOUT_HORIZONTAL) (hm : bp.maxItemWidth = 0)
    (hw : bp.width = (w : Int)) (hrange : w < 2147483648)
    (hlen : s.store.length + 1 < 2147483648)
    (hn : 1 ≤ GetItemCount env s) (hwn : GetItemCount env s ≤ w) :
    (focusList env s).length = GetItemCount env s
    ∧ specHitStart w (GetItemCount env s) 0 = 0
    ∧ specHitStart w (GetItemCount env s) (GetItemCount env s) = w
    ∧ (∀ k, k < GetItemCount env s →
        specHitStart w (GetItemCount env s) (k + 1)
          = specHitStart w (GetItemCount env s) k
            + (if k < w % GetItemCount env s then w / GetItemCount env s + 1
               else w / GetItemCount env s))
    ∧ (∀ (k : Nat) (x : Int), k < GetItemCount env s →
        (specHitStart w (GetItemCount env s) k : Int) ≤ x →
        x < (specHitStart w (GetItemCount env s) (k + 1) : Int) →
        GetNode env s bp x = (focusList env s)[k]?
        ∧ ∃ p, (focusList env s)[k]? = some p)
    ∧ (∀ x : Int, 0 ≤ x → x < (w : Int) →
        ∃ k, k < GetItemCount env s ∧ (specHitStart w (GetItemCount env s) k : Int) ≤ x
          ∧ x < (specHitStart w (GetItemCount env s) (k + 1) : Int))
    ∧ (∀ (k j : Nat) (x : Int),
        (specHitStart w (GetItemCount env s) k : Int) ≤ x →
        x < (specHitStart w (GetItemCount env s) (k + 1) : Int) →
        (specHitStart w (GetItemCount env s) j : Int) ≤ x →
        x < (specHitStart w (GetItemCount env s) (j + 1) : Int) → k = j)
    ∧ (∀ x : Int, x < 0 ∨ (w : Int) ≤ x → GetNode env s bp x = none)
    ∧ (∀ (x : Int) (p : Nat), GetNode env s bp x = some p →
        ∃ node, s.store[p]? = some node ∧ env.ShouldFocus node.client = true) := by
  have hF : GetItemCount env s = (focusList env s).length :=
    GetItemCountLoop_focusNodes env s.store _ _
  generalize hnn : GetItemCount env s = n at *
  have hn0 : 0 < n := by omega
  have hgw : GetItemWidth bp n = w / n := GetItemWidth_noMax bp w n hw hrange hm hn hwn
  have hq : 1 ≤ w / n := (Nat.le_div_iff_mul_le hn0).mpr (by omega)
  have hqw : w / n ≤ w := Nat.div_le_self w n
  have hdm : n * (w / n) + w % n = w := Nat.div_add_mod w n
  have hmod : w % n < n := Nat.mod_lt w hn0
  have hiw : toInt (GetItemWidth bp n) = ((w / n : Nat) : Int) := by
    rw [hgw]; exact toInt_natCast _ (by omega)
  have hrem : bp.width - toInt (GetItemWidth bp n) * ((n : Nat) : Int)
      = ((w % n : Nat) : Int) := by
    rw [hiw, hw]
    have : ((n * (w / n) + w % n : Nat) : Int) = (w : Int) := by rw [hdm]
    push_cast at this
    rw [mul_comm]
    omega
  have hG : ∀ x : Int, GetNode env s bp x
      = GetNodeLoopH env s.store ((w / n : Nat) : Int) x (s.store.length + 1) s.taskBarNodes 0
          ((w % n : Nat) : Int) := by
    intro x
    have h := (GetNode_horizontal env s bp x hl (by omega) (by omega) hlen).1
    rw [hnn, hrem, hiw] at h
    exact h
  have hend : specHitStart w n n = w := by
    unfold specHitStart
    rw [Nat.min_eq_right (by omega)]
    exact hdm
  have hcast : ∀ k : Nat, ((specHitStart w n k : Nat) : Int)
      = (0 : Int) + (k : Int) * ((w / n : Nat) : Int) + min (k : Int) ((w % n : Nat) : Int) := by
    intro k
    unfold specHitStart
    push_cast
    omega
  have hcast1 : ∀ k : Nat, ((specHitStart w n (k + 1) : Nat) : Int)
      = (0 : Int) + ((k : Int) + 1) * ((w / n : Nat) : Int)
          + min ((k : Int) + 1) ((w % n : Nat) : Int) := by
    intro k
    rw [hcast (k + 1)]
    push_cast
    rfl
  have hdisj : ∀ (k j : Nat) (x : Int), k < j →
      x < (specHitStart w n (k + 1) : Int) → (specHitStart w n j : Int) ≤ x → False := by
    intro k j x hkj h1 h2
    have := specHitStart_mono w n (k + 1) j hkj
    omega
  refine ⟨hF.symm, by simp [specHitStart], hend, fun k _ => specHitStart_succ w n k,
    ?_, ?_, ?_, ?_, ?_⟩
  · intro k x hk h1 h2
    have hk2 : k < (focusList env s).length := by omega
    refine ⟨?_, ⟨(focusList env s)[k], List.getElem?_eq_getElem hk2⟩⟩
    rw [hG x]
    rw [hcast k] at h1
    rw [hcast1 k] at h2
    exact GetNodeLoopH_interval env s.store _ x (Int.ofNat_nonneg _) _ _ 0 _ k
      (Int.ofNat_nonneg _) hk2 h1 h2
  · intro x h0 h1
    exact specHitStart_cover w n n x h0 (by rw [hend]; exact h1)
  · intro k j x a1 a2 b1 b2
    rcases Nat.lt_trichotomy k j with h | h | h
    · exact (hdisj k j x h a2 b1).elim
    · exact h
    · exact (hdisj j k x h b2 a1).elim
  · intro x hx
    cases hg : GetNode env s bp x with
    | none => rfl
    | some p =>
      rw [hG x] at hg
      obtain ⟨_, m2, m3⟩ := GetNodeLoopH_sound env s.store _ x (Int.ofNat_nonneg _) _ _ 0 _ p
        (Int.ofNat_nonneg _) hg
      have hfl : (focusNodes env s.store (s.store.length + 1) s.taskBarNodes).length = n :=
        hF.symm
      rw [hfl, ← hcast n, hend] at m3
      omega
  · intro x p hg
    rw [hG x] at hg
    obtain ⟨m1, _, _⟩ := GetNodeLoopH_sound env s.store _ x (Int.ofNat_nonneg _) _ _ 0 _ p
      (Int.ofNat_nonneg _) hg
    exact focusNodes_focusable env s.store _ _ p m1

/-- C31 at the bar of `100` pixels with three shown clients: the intervals are
`[0, 34)`, `[34, 67)` and `[67, 100)`, and the coordinate `66` hits the second
shown node. -/
theorem C31_hit_intervals_partition_witness :
    barH.layout = .LAYOUT_HORIZONTAL ∧ barH.maxItemWidth = 0 ∧ barH.width = ((100 : Nat) : Int)
    ∧ GetItemCount barEnv barState = 3
    ∧ (List.range 4).map (specHitStart 100 3) = [0, 34, 67, 100]
    ∧ GetNode barEnv barState barH 66 = (focusList barEnv barState)[1]?
    ∧ GetNode barEnv barState barH 66 = some 1 :=
  ⟨rfl, rfl, rfl, by decide, by decide,
    ((C31_hit_intervals_partition barEnv barState barH 100 rfl rfl rfl (by decide) (by decide)
      (by decide) (by decide)).2.2.2.2.1 1 66 (by decide) (by decide) (by decide)).1,
    by decide⟩

theorem listSeg_nil (store : List Node) (first before last after : Option Nat) :
    listSeg store first before [] last after ↔ (first = after ∧ last = before) := by
  simp [listSeg]

theorem listSeg_cons (store : List Node) (first before last after : Option Nat) (p : Nat)
    (rest : List Nat) :
    listSeg store first before (p :: rest) last after ↔
      (first = some p ∧ ∃ node, store[p]? = some node ∧ node.prev = before ∧
        listSeg store node.next (some p) rest last after) := by
  simp [listSeg]

/-- A segment depends on the clients and the links of its own nodes only. -/
theorem listSeg_congr (store store' : List Node) :
    ∀ (l : List Nat) (first before last after : Option Nat),
      (∀ p ∈ l, (store'[p]?).map (fun n : Node => (n.next, n.prev))
        = (store[p]?).map (fun n : Node => (n.next, n.prev))) →
      listSeg store first before l last after → listSeg store' first before l last after := by
  intro l
  induction l with
  | nil => intro first before last after _ h; simpa [listSeg] using h
  | cons p rest ih =>
    intro first before last after hs h
    rw [listSeg_cons] at h ⊢
    obtain ⟨h1, node, h2, h3, h4⟩ := h
    have hp := hs p (List.mem_cons_self _ _)
    rw [h2] at hp
    cases h5 : store'[p]? with
    | none => rw [h5] at hp; simp at hp
    | some node' =>
      rw [h5] at hp
      simp only [Option.map_some', Option.some.injEq, Prod.mk.injEq] at hp
      refine ⟨h1, node', rfl, by rw [hp.2, h3], ?_⟩
      rw [hp.1]
      exact ih _ _ _ _ (fun q hq => hs q (List.mem_cons_of_mem _ hq)) h4

theorem listSeg_frame (store store' : List Node) (l : List Nat)
    (first before last after : Option Nat)
    (hs : ∀ p ∈ l, store'[p]? = store[p]?)
    (h : listSeg store first before l last after) :
    listSeg store' first before l last after :=
  listSeg_congr store store' l first before last after (fun p hp => by rw [hs p hp]) h

theorem listSeg_append (store : List Node) :
    ∀ (l1 l2 : List Nat) (first before last after : Option Nat),
      listSeg store first before (l1 ++ l2) last after ↔
        ∃ mid midBefore, listSeg store first before l1 midBefore mid ∧
          listSeg store mid midBefore l2 last after := by
  intro l1
  induction l1 with
  | nil =>
    intro l2 first before last after
    simp only [List.nil_append, listSeg_nil]
    constructor
    · intro h; exact ⟨first, before, ⟨rfl, rfl⟩, h⟩
    · rintro ⟨mid, mb, ⟨rfl, rfl⟩, h⟩; exact h
  | cons p rest ih =>
    intro l2 first before last after
    simp only [List.cons_append, listSeg_cons]
    constructor
    · rintro ⟨h1, node, h2, h3, h4⟩
      obtain ⟨mid, mb, h5, h6⟩ := (ih _ _ _ _ _).mp h4
      exact ⟨mid, mb, ⟨h1, node, h2, h3, h5⟩, h6⟩
    · rintro ⟨mid, mb, ⟨h1, node, h2, h3, h5⟩, h6⟩
      exact ⟨h1, node, h2, h3, (ih _ _ _ _ _).mpr ⟨mid, mb, h5, h6⟩⟩

/-- The pointers at the two ends of a segment. -/
theorem listSeg_ends (store : List Node) :
    ∀ (l : List Nat) (first before last after : Option Nat),
      listSeg store first before l last after →
      first = (l.head?).or after ∧ last = (l.getLast?).or before := by
  intro l
  induction l with
  | nil => intro first before last after h; simpa [listSeg] using h
  | cons p rest ih =>
    intro first before last after h
    rw [listSeg_cons] at h
    obtain ⟨h1, node, _, _, h4⟩ := h
    have := (ih _ _ _ _ h4).2
    refine ⟨h1, ?_⟩
    rw [this]
    cases rest with
    | nil => rfl
    | cons q r =>
      rw [List.getLast?_cons_cons]
      cases hg : (q :: r).getLast? with
      | none => simp at hg
      | some t => rfl

theorem listSeg_lt (store : List Node) :
    ∀ (l : List Nat) (first before last after : Option Nat),
      listSeg store first before l last after → ∀ p ∈ l, p < store.length := by
  intro l
  induction l with
  | nil => intro _ _ _ _ _ p hp; simp at hp
  | cons q rest ih =>
    intro first before last after h p hp
    rw [listSeg_cons] at h
    obtain ⟨_, node, h2, _, h4⟩ := h
    rcases List.mem_cons.mp hp with rfl | hp
    · by_contra hc
      rw [List.getElem?_eq_none (by omega)] at h2
      cases h2
    · exact ih _ _ _ _ h4 p hp

theorem nodup_length_le (l : List Nat) (n : Nat) (hnd : l.Nodup) (hlt : ∀ p ∈ l, p < n) :
    l.length ≤ n := by
  have h1 : l.toFinset ⊆ Finset.range n := by
    intro p hp
    rw [List.mem_toFinset] at hp
    exact Finset.mem_range.mpr (hlt p hp)
  have h2 := Finset.card_le_card h1
  rw [List.toFinset_card_of_nodup hnd, Finset.card_range] at h2
  exact h2

theorem IsList_length_le (s : TaskState) (l : List Nat) (h : IsList s l) :
    l.length ≤ s.store.length :=
  nodup_length_le l _ h.1 (listSeg_lt s.store l _ _ _ _ h.2)

theorem nodeListFrom_seg (store : List Node) :
    ∀ (l : List Nat) (first before last : Option Nat) (fuel : Nat),
      listSeg store first before l last none → l.length < fuel →
      nodeListFrom store fuel first = l := by
  intro l
  induction l with
  | nil =>
    intro first before last fuel h hf
    rw [listSeg_nil] at h
    rw [h.1]
    cases fuel <;> rfl
  | cons p rest ih =>
    intro first before last fuel h hf
    rw [listSeg_cons] at h
    obtain ⟨h1, node, h2, _, h4⟩ := h
    cases fuel with
    | zero => simp at hf
    | succ fuel =>
      rw [h1]
      simp only [nodeListFrom, h2]
      rw [ih _ _ _ fuel h4 (by simpa using hf)]

theorem backListFrom_seg (store : List Node) :
    ∀ (l : List Nat) (first last after : Option Nat) (fuel : Nat),
      listSeg store first none l last after → l.length < fuel →
      backListFrom store fuel last = l.reverse := by
  intro l
  induction l using List.reverseRecOn with
  | nil =>
    intro first last after fuel h hf
    rw [listSeg_nil] at h
    rw [h.2]
    cases fuel <;> rfl
  | append_singleton init t ih =>
    intro first last after fuel h hf
    rw [listSeg_append] at h
    obtain ⟨mid, mb, h1, h2⟩ := h
    simp only [listSeg_cons, listSeg_nil] at h2
    obtain ⟨_, node, h3, h4, _, h5⟩ := h2
    cases fuel with
    | zero => simp at hf
    | succ fuel =>
      rw [h5]
      simp only [backListFrom, h3, List.reverse_append, List.reverse_cons, List.reverse_nil,
        List.nil_append, List.singleton_append, h4]
      rw [ih _ _ _ fuel h1 (by simp at hf; omega)]

theorem IsList_nodeList (s : TaskState) (l : List Nat) (h : IsList s l) : nodeList s = l :=
  nodeListFrom_seg s.store l _ _ _ _ h.2 (by have := IsList_length_le s l h; omega)

theorem IsList_backList (s : TaskState) (l : List Nat) (h : IsList s l) :
    backList s = l.reverse :=
  backListFrom_seg s.store l _ _ _ _ h.2 (by have := IsList_length_le s l h; omega)

theorem modify_getElem?_ne (store : List Node) (f : Node → Node) (q p : Nat) (h : q ≠ p) :
    (store.modify f q)[p]? = store[p]? := by
  rw [List.getElem?_modify]
  cases store[p]? with
  | none => rfl
  | some n => simp [h]

theorem modify_getElem?_eq (store : List Node) (f : Node → Node) (p : Nat) (n : Node)
    (h : store[p]? = some n) : (store.modify f p)[p]? = some (f n) := by
  rw [List.getElem?_modify, h]
  simp

theorem append_getElem?_lt (store : List Node) (n : Node) (p : Nat) (h : p < store.length) :
    (store ++ [n])[p]? = store[p]? :=
  List.getElem?_append_left h

theorem append_getElem?_length (store : List Node) (n : Node) :
    (store ++ [n])[store.length]? = some n := by
  simp

theorem listSeg_singleton (store : List Node) (first before last after : Option Nat)
    (p : Nat) :
    listSeg store first before [p] last after ↔
      (first = some p ∧ ∃ node, store[p]? = some node ∧ node.prev = before ∧
        node.next = after ∧ last = some p) := by
  rw [listSeg_cons]
  constructor
  · rintro ⟨h1, node, h2, h3, h4⟩
    rw [listSeg_nil] at h4
    exact ⟨h1, node, h2, h3, h4.1, h4.2⟩
  · rintro ⟨h1, node, h2, h3, h4, h5⟩
    exact ⟨h1, node, h2, h3, (listSeg_nil _ _ _ _ _).mpr ⟨h4, h5⟩⟩

/-- The `prev` of the first node of a segment changed. -/
theorem listSeg_setPrev (store : List Node) (h : Nat) (rest : List Nat)
    (first before before' last after : Option Nat) (hnd : (h :: rest).Nodup)
    (hseg : listSeg store first before (h :: rest) last after) :
    listSeg (store.modify (fun n => { n with prev := before' }) h) first before' (h :: rest)
      last after := by
  rw [listSeg_cons] at hseg ⊢
  obtain ⟨h1, node, h2, _, h4⟩ := hseg
  refine ⟨h1, _, modify_getElem?_eq store _ h node h2, rfl, ?_⟩
  refine listSeg_frame store _ rest _ _ _ _ (fun p hp => ?_) h4
  have hne : h ≠ p := fun e => (List.nodup_cons.mp hnd).1 (e ▸ hp)
  exact modify_getElem?_ne store _ h p hne

/-- The `next` of the last node of a segment changed. -/
theorem listSeg_setNext (store : List Node) (init : List Nat) (t : Nat)
    (first before last after after' : Option Nat) (hnd : (init ++ [t]).Nodup)
    (hseg : listSeg store first before (init ++ [t]) last after) :
    listSeg (store.modify (fun n => { n with next := after' }) t) first before (init ++ [t])
      last after' := by
  rw [listSeg_append] at hseg ⊢
  obtain ⟨mid, mb, h1, h2⟩ := hseg
  rw [listSeg_singleton] at h2
  obtain ⟨h3, node, h4, h5, _, h7⟩ := h2
  refine ⟨mid, mb, ?_, ?_⟩
  · refine listSeg_frame store _ init _ _ _ _ (fun p hp => ?_) h1
    have hne : t ≠ p := by
      intro e
      have := List.disjoint_of_nodup_append hnd hp
      exact this (by simp [e])
    exact modify_getElem?_ne store _ t p hne
  · rw [listSeg_singleton]
    exact ⟨h3, _, modify_getElem?_eq store _ t node h4, h5, rfl, h7⟩

theorem addNode_right_none (junk : Int) (np : Nat) (s : TaskState)
    (ht : s.taskBarNodesTail = none) :
    addNode .INSERT_RIGHT junk np s =
      { store := s.store ++ [{ client := np, y := junk, next := none, prev := none }],
        taskBarNodes := some s.store.length, taskBarNodesTail := some s.store.length } := by
  simp only [addNode, ht, if_true]

theorem addNode_right_some (junk : Int) (np : Nat) (s : TaskState) (t : Nat)
    (ht : s.taskBarNodesTail = some t) :
    addNode .INSERT_RIGHT junk np s =
      { store := (s.store ++ [({ client := np, y := junk, next := none, prev := some t } : Node)]).modify
          (fun n => { n with next := some s.store.length }) t,
        taskBarNodes := s.taskBarNodes, taskBarNodesTail := some s.store.length } := by
  simp only [addNode, ht, if_true]

theorem addNode_left_none (junk : Int) (np : Nat) (s : TaskState)
    (hh : s.taskBarNodes = none) (ht : s.taskBarNodesTail = none) :
    addNode .INSERT_LEFT junk np s =
      { store := s.store ++ [{ client := np, y := junk, next := none, prev := none }],
        taskBarNodes := some s.store.length, taskBarNodesTail := some s.store.length } := by
  simp only [addNode, hh, ht, reduceCtorEq, if_false]

theorem addNode_left_some (junk : Int) (np : Nat) (s : TaskState) (h t : Nat)
    (hh : s.taskBarNodes = some h) (ht : s.taskBarNodesTail = some t) :
    addNode .INSERT_LEFT junk np s =
      { store := (s.store ++ [({ client := np, y := junk, next := some h, prev := none } : Node)]).modify
          (fun n => { n with prev := some s.store.length }) h,
        taskBarNodes := some s.store.length, taskBarNodesTail := some t } := by
  simp only [addNode, hh, ht, reduceCtorEq, if_false]

theorem IsList_nil (s : TaskState) (h : IsList s []) :
    s.taskBarNodes = none ∧ s.taskBarNodesTail = none := by
  have := h.2
  rw [listSeg_nil] at this
  exact this

theorem IsList_cons_head (s : TaskState) (p : Nat) (rest : List Nat)
    (h : IsList s (p :: rest)) : s.taskBarNodes = some p :=
  (listSeg_ends s.store _ _ _ _ _ h.2).1

theorem IsList_concat_tail (s : TaskState) (init : List Nat) (t : Nat)
    (h : IsList s (init ++ [t])) : s.taskBarNodesTail = some t := by
  have := (listSeg_ends s.store _ _ _ _ _ h.2).2
  simpa using this

theorem IsList_not_mem_length (s : TaskState) (l : List Nat) (h : IsList s l) :
    s.store.length ∉ l := fun hm =>
  Nat.lt_irrefl _ (listSeg_lt s.store l _ _ _ _ h.2 _ hm)

/-- Appending a node at the tail (`INSERT_RIGHT`). -/
theorem addNode_right_isList (junk : Int) (np : Nat) (s : TaskState) (l : List Nat)
    (h : IsList s l) :
    IsList (addNode .INSERT_RIGHT junk np s) (l ++ [s.store.length]) := by
  have hfresh := IsList_not_mem_length s l h
  have hlt := listSeg_lt s.store l _ _ _ _ h.2
  have hnd : (l ++ [s.store.length]).Nodup := by
    rw [List.nodup_append]
    exact ⟨h.1, List.nodup_singleton _, by
      intro a ha hb
      simp only [List.mem_singleton] at hb
      exact hfresh (hb ▸ ha)⟩
  rcases List.eq_nil_or_concat l with rfl | ⟨init, t, rfl⟩
  · obtain ⟨hh, ht⟩ := IsList_nil s h
    rw [addNode_right_none junk np s ht]
    refine ⟨hnd, ?_⟩
    rw [List.nil_append, listSeg_singleton]
    exact ⟨rfl, _, append_getElem?_length _ _, rfl, rfl, rfl⟩
  · rw [List.concat_eq_append] at h hfresh hlt hnd ⊢
    have ht := IsList_concat_tail s init t h
    have htl : t < s.store.length := hlt t (by simp)
    rw [addNode_right_some junk np s t ht]
    refine ⟨hnd, ?_⟩
    rw [listSeg_append]
    refine ⟨some s.store.length, some t, ?_, ?_⟩
    · apply listSeg_setNext _ init t _ _ _ none _ h.1
      have hseg := h.2
      rw [ht] at hseg
      exact listSeg_frame s.store _ _ _ _ _ _
        (fun p hp => append_getElem?_lt s.store _ p (hlt p hp)) hseg
    · rw [listSeg_singleton]
      refine ⟨rfl, { client := np, y := junk, next := none, prev := some t }, ?_,
        rfl, rfl, rfl⟩
      rw [modify_getElem?_ne _ _ t _ (by omega)]
      exact append_getElem?_length _ _

/-- Putting a node before the head (any mode but `INSERT_RIGHT`). -/
theorem addNode_left_isList (junk : Int) (np : Nat) (s : TaskState) (l : List Nat)
    (h : IsList s l) :
    IsList (addNode .INSERT_LEFT junk np s) (s.store.length :: l) := by
  have hfresh := IsList_not_mem_length s l h
  have hlt := listSeg_lt s.store l _ _ _ _ h.2
  have hnd : (s.store.length :: l).Nodup := List.nodup_cons.mpr ⟨hfresh, h.1⟩
  cases l with
  | nil =>
    obtain ⟨hh, ht⟩ := IsList_nil s h
    rw [addNode_left_none junk np s hh ht]
    refine ⟨hnd, ?_⟩
    rw [listSeg_singleton]
    exact ⟨rfl, _, append_getElem?_length _ _, rfl, rfl, rfl⟩
  | cons p rest =>
    have hh := IsList_cons_head s p rest h
    have hpl : p < s.store.length := hlt p (by simp)
    have hends := (listSeg_ends s.store _ _ _ _ _ h.2).2
    obtain ⟨t, ht⟩ : ∃ t, s.taskBarNodesTail = some t := by
      rw [hends]
      cases hg : (p :: rest).getLast? with
      | none => simp at hg
      | some t => exact ⟨t, rfl⟩
    rw [addNode_left_some junk np s p t hh ht]
    refine ⟨hnd, ?_⟩
    rw [listSeg_cons]
    refine ⟨rfl, { client := np, y := junk, next := some p, prev := none }, ?_, rfl, ?_⟩
    · rw [modify_getElem?_ne _ _ p _ (by omega)]
      exact append_getElem?_length _ _
    · apply listSeg_setPrev _ p rest _ none _ _ _ h.1
      have hseg := h.2
      rw [hh, ht] at hseg
      exact listSeg_frame s.store _ _ _ _ _ _
        (fun q hq => append_getElem?_lt s.store _ q (hlt q hq)) hseg

theorem findClient_seg (store : List Node) (np : Nat) :
    ∀ (l : List Nat) (first before last : Option Nat) (fuel : Nat),
      listSeg store first before l last none → l.length < fuel →
      findClient store np fuel first
        = l.find? (fun p => decide ((store[p]?).map Node.client = some np)) := by
  intro l
  induction l with
  | nil =>
    intro first before last fuel h hf
    rw [listSeg_nil] at h
    rw [h.1]
    cases fuel <;> rfl
  | cons p rest ih =>
    intro first before last fuel h hf
    rw [listSeg_cons] at h
    obtain ⟨h1, node, h2, _, h4⟩ := h
    cases fuel with
    | zero => simp at hf
    | succ fuel =>
      rw [h1]
      simp only [findClient, h2, List.find?_cons, Option.map_some', Option.some.injEq]
      by_cases hc : node.client = np
      · simp [hc]
      · simp only [hc, if_false, decide_False]
        exact ih _ _ _ fuel h4 (by simpa using hf)

theorem unlinkPrev_seg (s : TaskState) (tp : Node) (pre : List Nat) (mid : Option Nat)
    (hnd : pre.Nodup)
    (hseg : listSeg s.store s.taskBarNodes none pre tp.prev mid) :
    listSeg (unlinkPrev s tp).store (unlinkPrev s tp).taskBarNodes none pre tp.prev tp.next
    ∧ (unlinkPrev s tp).taskBarNodesTail = s.taskBarNodesTail
    ∧ (∀ x : Nat, x ∉ pre → (unlinkPrev s tp).store[x]? = s.store[x]?)
    ∧ (∀ x : Nat, ((unlinkPrev s tp).store[x]?).map Node.client = (s.store[x]?).map Node.client)
    ∧ (unlinkPrev s tp).store.length = s.store.length := by
  rcases List.eq_nil_or_concat pre with rfl | ⟨init, q, rfl⟩
  · rw [listSeg_nil] at hseg
    have hp : tp.prev = none := hseg.2
    have he : unlinkPrev s tp = { s with taskBarNodes := tp.next } := by
      simp only [unlinkPrev, hp]
    rw [he]
    refine ⟨?_, rfl, fun _ _ => rfl, fun _ => rfl, rfl⟩
    rw [listSeg_nil]
    exact ⟨rfl, hp⟩
  · rw [List.concat_eq_append] at hnd hseg ⊢
    have hp : tp.prev = some q := by
      have := (listSeg_ends s.store _ _ _ _ _ hseg).2
      simpa using this
    have he : unlinkPrev s tp
        = { s with store := s.store.modify (fun n => { n with next := tp.next }) q } := by
      simp only [unlinkPrev, hp]
    rw [he]
    refine ⟨?_, rfl, ?_, ?_, ?_⟩
    · exact listSeg_setNext s.store init q _ _ _ _ tp.next hnd hseg
    · intro x hx
      exact modify_getElem?_ne _ _ q x (fun e => hx (by simp [← e]))
    · intro x
      simp only [List.getElem?_modify]
      cases s.store[x]? with
      | none => rfl
      | some n => by_cases hq : q = x <;> simp [hq]
    · simp

theorem unlinkNext_seg (s : TaskState) (tp : Node) (p : Nat) (post : List Nat)
    (hnd : post.Nodup)
    (hseg : listSeg s.store tp.next (some p) post s.taskBarNodesTail none) :
    listSeg (unlinkNext s tp).store tp.next tp.prev post (unlinkNext s tp).taskBarNodesTail none
    ∧ (unlinkNext s tp).taskBarNodes = s.taskBarNodes
    ∧ (∀ x : Nat, x ∉ post → (unlinkNext s tp).store[x]? = s.store[x]?)
    ∧ (∀ x : Nat, ((unlinkNext s tp).store[x]?).map Node.client = (s.store[x]?).map Node.client)
    ∧ (unlinkNext s tp).store.length = s.store.length := by
  cases post with
  | nil =>
    rw [listSeg_nil] at hseg
    have hn : tp.next = none := hseg.1
    have he : unlinkNext s tp = { s with taskBarNodesTail := tp.prev } := by
      simp only [unlinkNext, hn]
    rw [he]
    refine ⟨?_, rfl, fun _ _ => rfl, fun _ => rfl, rfl⟩
    rw [listSeg_nil]
    exact ⟨hn, rfl⟩
  | cons r post =>
    have hn : tp.next = some r := (listSeg_ends s.store _ _ _ _ _ hseg).1
    have he : unlinkNext s tp
        = { s with store := s.store.modify (fun n => { n with prev := tp.prev }) r } := by
      simp only [unlinkNext, hn]
    rw [he]
    refine ⟨?_, rfl, ?_, ?_, ?_⟩
    · exact listSeg_setPrev s.store r post _ _ tp.prev _ _ hnd hseg
    · intro x hx
      exact modify_getElem?_ne _ _ r x (fun e => hx (by simp [← e]))
    · intro x
      simp only [List.getElem?_modify]
      cases s.store[x]? with
      | none => rfl
      | some n => by_cases hq : r = x <;> simp [hq]
    · simp

/-- Unlinking the first node whose client is `np`. -/
theorem removeNode_isList (np : Nat) (s : TaskState) (pre : List Nat) (p : Nat)
    (post : List Nat) (h : IsList s (pre ++ p :: post)) (hp : clientAt s p = some np)
    (hpre : ∀ q ∈ pre, clientAt s q ≠ some np) :
    IsList (removeNode np s) (pre ++ post)
    ∧ (∀ x, clientAt (removeNode np s) x = clientAt s x)
    ∧ (removeNode np s).store.length = s.store.length := by
  obtain ⟨hnd, hseg⟩ := h
  have hlen : (pre ++ p :: post).length ≤ s.store.length := IsList_length_le s _ ⟨hnd, hseg⟩
  have hfind : findClient s.store np (s.store.length + 1) s.taskBarNodes = some p := by
    rw [findClient_seg s.store np _ _ _ _ _ hseg (by omega), List.find?_eq_some]
    refine ⟨by simpa [clientAt] using hp, pre, post, rfl, ?_⟩
    intro a ha
    have := hpre a ha
    simpa [clientAt] using this
  have hnd2 := hnd
  rw [List.nodup_append] at hnd2
  obtain ⟨ndpre, ndrest, hdisj⟩ := hnd2
  rw [List.nodup_cons] at ndrest
  obtain ⟨hppost, ndpost⟩ := ndrest
  rw [listSeg_append] at hseg
  obtain ⟨mid, mb, hsegpre, hsegrest⟩ := hseg
  rw [listSeg_cons] at hsegrest
  obtain ⟨hmid, tp, htp, hprev, hsegpost⟩ := hsegrest
  have he : removeNode np s = unlinkNext (unlinkPrev s tp) tp := by
    simp only [removeNode, hfind, htp, unlinkNode]
  rw [he]
  rw [← hprev] at hsegpre
  obtain ⟨a1, a2, a3, a4, a5⟩ := unlinkPrev_seg s tp pre mid ndpre hsegpre
  have hpost1 : listSeg (unlinkPrev s tp).store tp.next (some p) post
      (unlinkPrev s tp).taskBarNodesTail none := by
    rw [a2]
    refine listSeg_frame s.store _ post _ _ _ _ (fun x hx => a3 x ?_) hsegpost
    intro hxpre
    exact hdisj hxpre (List.mem_cons_of_mem _ hx)
  obtain ⟨b1, b2, b3, b4, b5⟩ := unlinkNext_seg (unlinkPrev s tp) tp p post ndpost hpost1
  refine ⟨⟨?_, ?_⟩, ?_, by rw [b5, a5]⟩
  · rw [List.nodup_append]
    exact ⟨ndpre, ndpost, fun x hx hy => hdisj hx (List.mem_cons_of_mem _ hy)⟩
  · rw [listSeg_append]
    refine ⟨tp.next, tp.prev, ?_, b1⟩
    rw [b2]
    refine listSeg_frame (unlinkPrev s tp).store _ pre _ _ _ _ (fun x hx => b3 x ?_) a1
    intro hxpost
    exact hdisj hx (List.mem_cons_of_mem _ hxpost)
  · intro x
    simp only [clientAt]
    rw [b4, a4]

theorem removeNode_absent (np : Nat) (s : TaskState) (l : List Nat) (h : IsList s l)
    (habs : ∀ q ∈ l, clientAt s q ≠ some np) : removeNode np s = s := by
  have hlen : l.length ≤ s.store.length := IsList_length_le s _ h
  have hfind : findClient s.store np (s.store.length + 1) s.taskBarNodes = none := by
    rw [findClient_seg s.store np _ _ _ _ _ h.2 (by omega), List.find?_eq_none]
    intro x hx
    have := habs x hx
    simpa [clientAt] using this
  simp only [removeNode, hfind]

theorem SameLinks_refl (s : TaskState) : SameLinks s s :=
  ⟨rfl, rfl, rfl, fun _ => rfl⟩

theorem SameLinks_trans (s s' s'' : TaskState) (h1 : SameLinks s s') (h2 : SameLinks s' s'') :
    SameLinks s s'' :=
  ⟨h2.1.trans h1.1, h2.2.1.trans h1.2.1, h2.2.2.1.trans h1.2.2.1,
    fun p => (h2.2.2.2 p).trans (h1.2.2.2 p)⟩

theorem SameLinks_links (s s' : TaskState) (h : SameLinks s s') (p : Nat) :
    (s'.store[p]?).map (fun n : Node => (n.next, n.prev))
      = (s.store[p]?).map (fun n : Node => (n.next, n.prev)) := by
  have := congrArg (Option.map (fun t : Nat × Option Nat × Option Nat => t.2)) (h.2.2.2 p)
  simpa [Option.map_map, Function.comp] using this

theorem SameLinks_clientAt (s s' : TaskState) (h : SameLinks s s') (p : Nat) :
    clientAt s' p = clientAt s p := by
  have := congrArg (Option.map (fun t : Nat × Option Nat × Option Nat => t.1)) (h.2.2.2 p)
  simpa [clientAt, Option.map_map, Function.comp] using this

theorem IsList_sameLinks (s s' : TaskState) (l : List Nat) (h : SameLinks s s')
    (hl : IsList s l) : IsList s' l := by
  refine ⟨hl.1, ?_⟩
  rw [h.1, h.2.1]
  exact listSeg_congr s.store s'.store l _ _ _ _ (fun p _ => SameLinks_links s s' h p) hl.2

theorem RenderLoop_store (env : TaskEnv) (bp : TaskBarType) (iw : Int) :
    ∀ (fuel : Nat) (tp : Option Nat) (x y rem : Int) (store : List Node),
      (RenderLoop env bp iw fuel tp x y rem store).1.length = store.length ∧
      ∀ p : Nat, ((RenderLoop env bp iw fuel tp x y rem store).1[p]?).map
          (fun n : Node => (n.client, n.next, n.prev))
        = (store[p]?).map (fun n : Node => (n.client, n.next, n.prev)) := by
  intro fuel
  induction fuel with
  | zero => intro tp x y rem store; exact ⟨rfl, fun _ => rfl⟩
  | succ fuel ih =>
    intro tp x y rem store
    cases tp with
    | none => exact ⟨rfl, fun _ => rfl⟩
    | some q =>
      cases h1 : store[q]? with
      | none =>
        simp [RenderLoop, h1]
      | some n =>
        have hm : ∀ p : Nat, ((store.modify (fun n : Node => { n with y := y }) q)[p]?).map
            (fun n : Node => (n.client, n.next, n.prev))
              = (store[p]?).map (fun n : Node => (n.client, n.next, n.prev)) := by
          intro p
          rw [List.getElem?_modify]
          cases store[p]? with
          | none => rfl
          | some m => by_cases hq : q = p <;> simp [hq]
        by_cases hf : env.ShouldFocus n.client = true
        · simp only [RenderLoop, h1, hf, if_true]
          split
          · rename_i hl
            obtain ⟨e1, e2⟩ := ih n.next
              (if rem ≠ 0 then x + iw + 1 else x + iw) y
              (if rem ≠ 0 then rem - 1 else rem)
              (store.modify (fun n : Node => { n with y := y }) q)
            exact ⟨by rw [e1]; simp, fun p => (e2 p).trans (hm p)⟩
          · rename_i hl
            obtain ⟨e1, e2⟩ := ih n.next x
              (if rem ≠ 0 then y + bp.itemHeight + 1 else y + bp.itemHeight)
              (if rem ≠ 0 then rem - 1 else rem)
              (store.modify (fun n : Node => { n with y := y }) q)
            exact ⟨by rw [e1]; simp, fun p => (e2 p).trans (hm p)⟩
        · have hf2 : env.ShouldFocus n.client = false := by simpa using hf
          simp only [RenderLoop, h1, hf2, Bool.false_eq_true, if_false]
          exact ih n.next x y rem store

theorem Render_sameLinks (env : TaskEnv) (s : TaskState) (bp : TaskBarType) :
    SameLinks s (Render env s bp).1 := by
  unfold Render
  split
  · exact SameLinks_refl s
  · simp only
    split
    · exact SameLinks_refl s
    · exact ⟨rfl, rfl, (RenderLoop_store env bp _ _ _ _ _ _ _).1,
        (RenderLoop_store env bp _ _ _ _ _ _ _).2⟩

theorem UpdateTaskBarLoop_sameLinks (env : TaskEnv) :
    ∀ (bars : List TaskBarType) (s : TaskState),
      SameLinks s (UpdateTaskBarLoop env bars s).1 := by
  intro bars
  induction bars with
  | nil => intro s; exact SameLinks_refl s
  | cons bp rest ih =>
    intro s
    simp only [UpdateTaskBarLoop]
    exact SameLinks_trans _ _ _ (Render_sameLinks env s bp) (ih _)

theorem UpdateTaskBar_sameLinks (env : TaskEnv) (bars : List TaskBarType) (s : TaskState) :
    SameLinks s (UpdateTaskBar env bars s).1 := by
  unfold UpdateTaskBar
  split
  · exact SameLinks_refl s
  · exact UpdateTaskBarLoop_sameLinks env bars s

theorem modify_clientAt (store : List Node) (f : Node → Node) (q p : Nat)
    (hf : ∀ n, (f n).client = n.client) :
    ((store.modify f q)[p]?).map Node.client = (store[p]?).map Node.client := by
  rw [List.getElem?_modify]
  cases store[p]? with
  | none => rfl
  | some n => by_cases hq : q = p <;> simp [hq, hf]

theorem addNode_clients (taskInsertMode : InsertModeType) (junk : Int) (np : Nat)
    (s : TaskState) (l : List Nat) (h : IsList s l) :
    clientAt (addNode taskInsertMode junk np s) s.store.length = some np ∧
    ∀ p, p < s.store.length → clientAt (addNode taskInsertMode junk np s) p = clientAt s p := by
  have hlt := listSeg_lt s.store l _ _ _ _ h.2
  cases taskInsertMode with
  | INSERT_RIGHT =>
    rcases List.eq_nil_or_concat l with rfl | ⟨init, t, rfl⟩
    · obtain ⟨_, ht⟩ := IsList_nil s h
      rw [addNode_right_none junk np s ht]
      refine ⟨by simp [clientAt], fun p hp => ?_⟩
      simp only [clientAt]
      rw [append_getElem?_lt _ _ p hp]
    · rw [List.concat_eq_append] at h hlt
      have ht := IsList_concat_tail s init t h
      rw [addNode_right_some junk np s t ht]
      simp only [clientAt]
      refine ⟨?_, fun p hp => ?_⟩
      · rw [modify_clientAt _ (fun n : Node => { n with next := some s.store.length }) _ _
          (fun _ => rfl)]
        simp
      · rw [modify_clientAt _ (fun n : Node => { n with next := some s.store.length }) _ _
          (fun _ => rfl), append_getElem?_lt _ _ p hp]
  | INSERT_LEFT =>
    cases l with
    | nil =>
      obtain ⟨hh, ht⟩ := IsList_nil s h
      rw [addNode_left_none junk np s hh ht]
      refine ⟨by simp [clientAt], fun p hp => ?_⟩
      simp only [clientAt]
      rw [append_getElem?_lt _ _ p hp]
    | cons q rest =>
      have hh := IsList_cons_head s q rest h
      have hends := (listSeg_ends s.store _ _ _ _ _ h.2).2
      obtain ⟨t, ht⟩ : ∃ t, s.taskBarNodesTail = some t := by
        rw [hends]
        cases hg : (q :: rest).getLast? with
        | none => simp at hg
        | some t => exact ⟨t, rfl⟩
      rw [addNode_left_some junk np s q t hh ht]
      simp only [clientAt]
      refine ⟨?_, fun p hp => ?_⟩
      · rw [modify_clientAt _ (fun n : Node => { n with prev := some s.store.length }) _ _
          (fun _ => rfl)]
        simp
      · rw [modify_clientAt _ (fun n : Node => { n with prev := some s.store.length }) _ _
          (fun _ => rfl), append_getElem?_lt _ _ p hp]

theorem IsList_clientList (s : TaskState) (l : List Nat) (h : IsList s l) :
    clientList s = l.filterMap (clientAt s) := by
  rw [clientList, IsList_nodeList s l h]

theorem IsList_clientAt (s : TaskState) (l : List Nat) (h : IsList s l) :
    ∀ p ∈ l, ∃ c, clientAt s p = some c := by
  intro p hp
  have hlt := listSeg_lt s.store l _ _ _ _ h.2 p hp
  exact ⟨(s.store[p]).client, by simp [clientAt, List.getElem?_eq_getElem hlt]⟩

theorem InitializeTaskBar_isList : IsList InitializeTaskBar [] :=
  ⟨List.nodup_nil, (listSeg_nil _ _ _ _ _).mpr ⟨rfl, rfl⟩⟩

theorem AddClientToTaskBar_isList (env : TaskEnv) (taskInsertMode : InsertModeType)
    (junk : Int) (bars : List TaskBarType) (np : Nat) (s : TaskState) (l : List Nat)
    (h : IsList s l) :
    IsList (AddClientToTaskBar env taskInsertMode junk bars np s).1
      (if taskInsertMode = .INSERT_RIGHT then l ++ [s.store.length] else s.store.length :: l)
    ∧ clientAt (AddClientToTaskBar env taskInsertMode junk bars np s).1 s.store.length
        = some np
    ∧ ∀ p ∈ l, clientAt (AddClientToTaskBar env taskInsertMode junk bars np s).1 p
        = clientAt s p := by
  have hsl := UpdateTaskBar_sameLinks env bars (addNode taskInsertMode junk np s)
  have hc := addNode_clients taskInsertMode junk np s l h
  have hlt := listSeg_lt s.store l _ _ _ _ h.2
  refine ⟨?_, ?_, ?_⟩
  · apply IsList_sameLinks _ _ _ hsl
    cases taskInsertMode with
    | INSERT_RIGHT => exact addNode_right_isList junk np s l h
    | INSERT_LEFT => exact addNode_left_isList junk np s l h
  · exact (SameLinks_clientAt _ _ hsl _).trans hc.1
  · intro p hp
    exact (SameLinks_clientAt _ _ hsl _).trans (hc.2 p (hlt p hp))

theorem RemoveClientFromTaskBar_isList (env : TaskEnv) (bars : List TaskBarType) (np : Nat)
    (s : TaskState) (l : List Nat) (h : IsList s l) :
    (∀ x, clientAt (RemoveClientFromTaskBar env bars np s).1 x = clientAt s x)
    ∧ ((∀ q ∈ l, clientAt s q ≠ some np) →
        IsList (RemoveClientFromTaskBar env bars np s).1 l
        ∧ (RemoveClientFromTaskBar env bars np s).1.taskBarNodes = s.taskBarNodes
        ∧ (RemoveClientFromTaskBar env bars np s).1.taskBarNodesTail = s.taskBarNodesTail)
    ∧ (∀ pre p post, l = pre ++ p :: post → clientAt s p = some np →
        (∀ q ∈ pre, clientAt s q ≠ some np) →
        IsList (RemoveClientFromTaskBar env bars np s).1 (pre ++ post)) := by
  have hsl := UpdateTaskBar_sameLinks env bars (removeNode np s)
  have hcl : ∀ x, clientAt (removeNode np s) x = clientAt s x := by
    intro x
    cases hf : l.find? (fun p => decide (clientAt s p = some np)) with
    | none =>
      rw [List.find?_eq_none] at hf
      rw [removeNode_absent np s l h (fun q hq => by simpa using hf q hq)]
    | some p =>
      rw [List.find?_eq_some] at hf
      obtain ⟨hp, pre, post, rfl, hpre⟩ := hf
      exact (removeNode_isList np s pre p post h (by simpa using hp)
        (fun q hq => by simpa using hpre q hq)).2.1 x
  refine ⟨fun x => (SameLinks_clientAt _ _ hsl x).trans (hcl x), ?_, ?_⟩
  · intro habs
    have he := removeNode_absent np s l h habs
    have hsl2 := hsl
    rw [he] at hsl2
    have hr : (RemoveClientFromTaskBar env bars np s).1 = (UpdateTaskBar env bars s).1 := by
      simp only [RemoveClientFromTaskBar, he]
    rw [hr]
    exact ⟨IsList_sameLinks _ _ _ hsl2 h, hsl2.1, hsl2.2.1⟩
  · intro pre p post hl hp hpre
    subst hl
    exact IsList_sameLinks _ _ _ hsl (removeNode_isList np s pre p post h hp hpre).1

theorem applyOp_isList (s : TaskState) (op : TaskOp) (l : List Nat) (h : IsList s l) :
    ∃ l', IsList (applyOp s op) l' := by
  cases op with
  | add env taskInsertMode junk bars np =>
    exact ⟨_, (AddClientToTaskBar_isList env taskInsertMode junk bars np s l h).1⟩
  | remove env bars np =>
    obtain ⟨_, h2, h3⟩ := RemoveClientFromTaskBar_isList env bars np s l h
    cases hf : l.find? (fun p => decide (clientAt s p = some np)) with
    | none =>
      rw [List.find?_eq_none] at hf
      exact ⟨l, (h2 (fun q hq => by simpa using hf q hq)).1⟩
    | some p =>
      rw [List.find?_eq_some] at hf
      obtain ⟨hp, pre, post, hl, hpre⟩ := hf
      exact ⟨_, h3 pre p post hl (by simpa using hp) (fun q hq => by simpa using hpre q hq)⟩

theorem runOps_isList (ops : List TaskOp) : ∃ l, IsList (runOps ops) l := by
  induction ops using List.reverseRecOn with
  | nil => exact ⟨[], InitializeTaskBar_isList⟩
  | append_singleton ops op ih =>
    obtain ⟨l, hl⟩ := ih
    have : runOps (ops ++ [op]) = applyOp (runOps ops) op := by
      simp [runOps, List.foldl_append]
    rw [this]
    exact applyOp_isList _ op l hl

theorem listSeg_next_prev (store : List Node) :
    ∀ (l : List Nat) (first before last : Option Nat),
      listSeg store first before l last none →
      ∀ p ∈ l, ∃ node, store[p]? = some node ∧
        ∀ q, node.next = some q → ∃ nq, store[q]? = some nq ∧ nq.prev = some p := by
  intro l
  induction l with
  | nil => intro _ _ _ _ p hp; simp at hp
  | cons a rest ih =>
    intro first before last h p hp
    rw [listSeg_cons] at h
    obtain ⟨_, node, h2, _, h4⟩ := h
    rcases List.mem_cons.mp hp with rfl | hp
    · refine ⟨node, h2, fun q hq => ?_⟩
      cases rest with
      | nil =>
        rw [listSeg_nil] at h4
        rw [h4.1] at hq
        cases hq
      | cons b r =>
        rw [listSeg_cons] at h4
        obtain ⟨h5, nb, h6, h7, _⟩ := h4
        rw [hq] at h5
        cases h5
        exact ⟨nb, h6, h7⟩
    · exact ih _ _ _ h4 p hp

/-- Claim C34: after every sequence of `AddClientToTaskBar` and
`RemoveClientFromTaskBar` from the empty list of `InitializeTaskBar`, the
task bar list is a well-formed doubly linked list: the head and the tail are
both NULL or both a node, the head has no `prev`, the tail has no `next`, the
`next` of each node of the list has that node as `prev`, and the walk from
the tail along `prev` visits the nodes of the walk from the head along `next`
in the reverse order (and no node twice). -/
theorem C34_list_stays_well_formed (ops : List TaskOp) :
    ((runOps ops).taskBarNodes = none ↔ (runOps ops).taskBarNodesTail = none)
    ∧ (∀ h, (runOps ops).taskBarNodes = some h →
        ∃ node, (runOps ops).store[h]? = some node ∧ node.prev = none)
    ∧ (∀ t, (runOps ops).taskBarNodesTail = some t →
        ∃ node, (runOps ops).store[t]? = some node ∧ node.next = none)
    ∧ (∀ p ∈ nodeList (runOps ops), ∃ node, (runOps ops).store[p]? = some node ∧
        ∀ q, node.next = some q →
          ∃ nq, (runOps ops).store[q]? = some nq ∧ nq.prev = some p)
    ∧ backList (runOps ops) = (nodeList (runOps ops)).reverse
    ∧ (nodeList (runOps ops)).Nodup
    ∧ IsList (runOps ops) (nodeList (runOps ops)) := by
  obtain ⟨l, hl⟩ := runOps_isList ops
  generalize runOps ops = s at hl
  have hnl := IsList_nodeList s l hl
  have hbl := IsList_backList s l hl
  rw [hnl, hbl]
  obtain ⟨e1, e2⟩ := listSeg_ends s.store _ _ _ _ _ hl.2
  refine ⟨?_, ?_, ?_, listSeg_next_prev s.store l _ _ _ hl.2, rfl, hl.1, hl⟩
  · rw [e1, e2]
    cases l with
    | nil => simp
    | cons a r =>
      cases hg : (a :: r).getLast? with
      | none => simp at hg
      | some t => simp
  · intro h hh
    cases l with
    | nil => rw [e1] at hh; cases hh
    | cons a r =>
      have hs := hl.2
      rw [listSeg_cons] at hs
      obtain ⟨h1, node, h2, h3, _⟩ := hs
      rw [hh] at h1
      cases h1
      exact ⟨node, h2, h3⟩
  · intro t ht
    rcases List.eq_nil_or_concat l with rfl | ⟨init, a, rfl⟩
    · rw [e2] at ht; cases ht
    · rw [List.concat_eq_append] at hl
      have hs := hl.2
      rw [listSeg_append] at hs
      obtain ⟨mid, mb, _, h2⟩ := hs
      rw [listSeg_singleton] at h2
      obtain ⟨_, node, h3, _, h5, h6⟩ := h2
      rw [ht] at h6
      cases h6
      exact ⟨node, h3, h5⟩

theorem barState_isList : IsList barState [0, 1, 2, 3] := by
  refine ⟨by decide, ?_⟩
  simp [listSeg, barState]

/-- Claim C35: for a well-formed task bar list and a client `np`,
`AddClientToTaskBar` makes one new node for `np` and leaves the list with the
old nodes in their order followed by the new node when the insert mode is
`INSERT_RIGHT`, and with the new node followed by the old nodes for any other
mode; the clients of the old nodes are unchanged, so the client sequence is
the old one with `np` after or before it, one longer. -/
theorem C35_add_appends_or_prepends (env : TaskEnv) (taskInsertMode : InsertModeType)
    (junk : Int) (bars : List TaskBarType) (np : Nat) (s : TaskState) (l : List Nat)
    (h : IsList s l) :
    (taskInsertMode = .INSERT_RIGHT →
      nodeList (AddClientToTaskBar env taskInsertMode junk bars np s).1
        = nodeList s ++ [s.store.length]
      ∧ clientList (AddClientToTaskBar env taskInsertMode junk bars np s).1
        = clientList s ++ [np])
    ∧ (taskInsertMode ≠ .INSERT_RIGHT →
      nodeList (AddClientToTaskBar env taskInsertMode junk bars np s).1
        = s.store.length :: nodeList s
      ∧ clientList (AddClientToTaskBar env taskInsertMode junk bars np s).1
        = np :: clientList s)
    ∧ (nodeList (AddClientToTaskBar env taskInsertMode junk bars np s).1).length
        = (nodeList s).length + 1
    ∧ (clientList (AddClientToTaskBar env taskInsertMode junk bars np s).1).length
        = (clientList s).length + 1
    ∧ (∀ p ∈ nodeList s,
        clientAt (AddClientToTaskBar env taskInsertMode junk bars np s).1 p = clientAt s p)
    ∧ s.store.length ∉ nodeList s
    ∧ IsList (AddClientToTaskBar env taskInsertMode junk bars np s).1
        (nodeList (AddClientToTaskBar env taskInsertMode junk bars np s).1) := by
  obtain ⟨a1, a2, a3⟩ := AddClientToTaskBar_isList env taskInsertMode junk bars np s l h
  have hnl := IsList_nodeList s l h
  have hcl := IsList_clientList s l h
  have hfresh := IsList_not_mem_length s l h
  have hnl' := IsList_nodeList _ _ a1
  have hcl' := IsList_clientList _ _ a1
  have hold : l.filterMap
      (clientAt (AddClientToTaskBar env taskInsertMode junk bars np s).1)
        = l.filterMap (clientAt s) := List.filterMap_congr a3
  rw [hnl, hcl]
  have hR : taskInsertMode = .INSERT_RIGHT →
      nodeList (AddClientToTaskBar env taskInsertMode junk bars np s).1
        = l ++ [s.store.length]
      ∧ clientList (AddClientToTaskBar env taskInsertMode junk bars np s).1
        = l.filterMap (clientAt s) ++ [np] := by
    intro hm
    rw [if_pos hm] at hnl' hcl'
    refine ⟨hnl', ?_⟩
    rw [hcl', List.filterMap_append, hold]
    simp [a2]
  have hL : taskInsertMode ≠ .INSERT_RIGHT →
      nodeList (AddClientToTaskBar env taskInsertMode junk bars np s).1
        = s.store.length :: l
      ∧ clientList (AddClientToTaskBar env taskInsertMode junk bars np s).1
        = np :: l.filterMap (clientAt s) := by
    intro hm
    rw [if_neg hm] at hnl' hcl'
    refine ⟨hnl', ?_⟩
    rw [hcl', List.filterMap_cons, a2, hold]
  refine ⟨hR, hL, ?_, ?_, a3, hfresh, ?_⟩
  · by_cases hm : taskInsertMode = .INSERT_RIGHT
    · rw [(hR hm).1]; simp
    · rw [(hL hm).1]; simp
  · by_cases hm : taskInsertMode = .INSERT_RIGHT
    · rw [(hR hm).2]; simp
    · rw [(hL hm).2]; simp
  · by_cases hm : taskInsertMode = .INSERT_RIGHT
    · rw [(hR hm).1]; rw [if_pos hm] at a1; exact a1
    · rw [(hL hm).1]; rw [if_neg hm] at a1; exact a1

/-- C35 on the list of the clients `0, 1, 2, 3`: adding client `7` with
`INSERT_RIGHT` gives `0, 1, 2, 3, 7`, and with `INSERT_LEFT` gives
`7, 0, 1, 2, 3`. -/
theorem C35_add_appends_or_prepends_witness :
    IsList barState [0, 1, 2, 3] ∧ clientList barState = [0, 1, 2, 3]
    ∧ clientList (AddClientToTaskBar barEnv .INSERT_RIGHT 0 [barH] 7 barState).1
        = clientList barState ++ [7]
    ∧ clientList (AddClientToTaskBar barEnv .INSERT_LEFT 0 [barH] 7 barState).1
        = [7, 0, 1, 2, 3] :=
  ⟨barState_isList, by decide,
    ((C35_add_appends_or_prepends barEnv .INSERT_RIGHT 0 [barH] 7 barState [0, 1, 2, 3]
      barState_isList).1 rfl).2,
    by decide⟩

theorem not_mem_filterMap_clientAt (s : TaskState) (l : List Nat) (np : Nat) :
    np ∉ l.filterMap (clientAt s) ↔ ∀ q ∈ l, clientAt s q ≠ some np := by
  simp [List.mem_filterMap]

/-- Claim C36: for a well-formed task bar list, `RemoveClientFromTaskBar`
takes out the first node, from the head on, whose client is `np` and keeps
the other nodes, with their clients, in their order: the client sequence
becomes the old one with the first `np` erased. When `np` does not occur, the
nodes, the clients and both list pointers stay as they are. So when `np`
does not occur, removing `np` after adding it, in either insert mode, gives
back the client sequence. -/
theorem C36_remove_first_occurrence (env : TaskEnv) (bars : List TaskBarType) (np : Nat)
    (s : TaskState) (l : List Nat) (h : IsList s l) :
    clientList (RemoveClientFromTaskBar env bars np s).1 = (clientList s).erase np
    ∧ (∀ pre p post, nodeList s = pre ++ p :: post → clientAt s p = some np →
        (∀ q ∈ pre, clientAt s q ≠ some np) →
        nodeList (RemoveClientFromTaskBar env bars np s).1 = pre ++ post)
    ∧ (np ∉ clientList s →
        nodeList (RemoveClientFromTaskBar env bars np s).1 = nodeList s
        ∧ clientList (RemoveClientFromTaskBar env bars np s).1 = clientList s
        ∧ (RemoveClientFromTaskBar env bars np s).1.taskBarNodes = s.taskBarNodes
        ∧ (RemoveClientFromTaskBar env bars np s).1.taskBarNodesTail = s.taskBarNodesTail)
    ∧ (∀ x, clientAt (RemoveClientFromTaskBar env bars np s).1 x = clientAt s x)
    ∧ (np ∉ clientList s →
        ∀ (env2 : TaskEnv) (taskInsertMode : InsertModeType) (junk : Int)
          (bars2 : List TaskBarType),
          clientList (RemoveClientFromTaskBar env bars np
            (AddClientToTaskBar env2 taskInsertMode junk bars2 np s).1).1 = clientList s)
    ∧ IsList (RemoveClientFromTaskBar env bars np s).1
        (nodeList (RemoveClientFromTaskBar env bars np s).1) := by
  obtain ⟨r1, r2, r3⟩ := RemoveClientFromTaskBar_isList env bars np s l h
  have hnl := IsList_nodeList s l h
  have hcl := IsList_clientList s l h
  have hfm : ∀ l' : List Nat,
      l'.filterMap (clientAt (RemoveClientFromTaskBar env bars np s).1)
        = l'.filterMap (clientAt s) :=
    fun l' => List.filterMap_congr (fun x _ => r1 x)
  have habs : np ∉ clientList s →
      IsList (RemoveClientFromTaskBar env bars np s).1 l
      ∧ (RemoveClientFromTaskBar env bars np s).1.taskBarNodes = s.taskBarNodes
      ∧ (RemoveClientFromTaskBar env bars np s).1.taskBarNodesTail = s.taskBarNodesTail := by
    intro hn
    rw [hcl, not_mem_filterMap_clientAt] at hn
    exact r2 hn
  have hkey : ∃ l', IsList (RemoveClientFromTaskBar env bars np s).1 l' ∧
      l'.filterMap (clientAt s) = (l.filterMap (clientAt s)).erase np := by
    cases hf : l.find? (fun p => decide (clientAt s p = some np)) with
    | none =>
      rw [List.find?_eq_none] at hf
      have hn : ∀ q ∈ l, clientAt s q ≠ some np := fun q hq => by simpa using hf q hq
      refine ⟨l, (r2 hn).1, ?_⟩
      rw [List.erase_of_not_mem ((not_mem_filterMap_clientAt s l np).mpr hn)]
    | some p =>
      rw [List.find?_eq_some] at hf
      obtain ⟨hp, pre, post, hl, hpre⟩ := hf
      have hp' : clientAt s p = some np := by simpa using hp
      have hpre' : ∀ q ∈ pre, clientAt s q ≠ some np := fun q hq => by simpa using hpre q hq
      refine ⟨pre ++ post, r3 pre p post hl hp' hpre', ?_⟩
      rw [hl, List.filterMap_append, List.filterMap_append, List.filterMap_cons, hp',
        List.erase_append_right _ ((not_mem_filterMap_clientAt s pre np).mpr hpre')]
      simp
  obtain ⟨l', hl', hcl'⟩ := hkey
  refine ⟨?_, ?_, ?_, r1, ?_, ?_⟩
  · rw [IsList_clientList _ _ hl', hfm, hcl', hcl]
  · intro pre p post hd hp hpre
    rw [hnl] at hd
    exact IsList_nodeList _ _ (r3 pre p post hd hp hpre)
  · intro hn
    obtain ⟨b1, b2, b3⟩ := habs hn
    refine ⟨?_, ?_, b2, b3⟩
    · rw [IsList_nodeList _ _ b1, hnl]
    · rw [IsList_clientList _ _ b1, hfm, hcl]
  · intro hn env2 taskInsertMode junk bars2
    rw [hcl, not_mem_filterMap_clientAt] at hn
    obtain ⟨a1, a2, a3⟩ := AddClientToTaskBar_isList env2 taskInsertMode junk bars2 np s l h
    have hfresh := IsList_not_mem_length s l h
    generalize (AddClientToTaskBar env2 taskInsertMode junk bars2 np s).1 = s1 at a1 a2 a3
    obtain ⟨q1, _, q3⟩ := RemoveClientFromTaskBar_isList env bars np s1 _ a1
    have hold : ∀ q ∈ l, clientAt s1 q ≠ some np := fun q hq => by
      rw [a3 q hq]; exact hn q hq
    have hres : IsList (RemoveClientFromTaskBar env bars np s1).1 l := by
      by_cases hm : taskInsertMode = .INSERT_RIGHT
      · have := q3 l s.store.length [] (by rw [if_pos hm]) a2 hold
        simpa using this
      · have := q3 [] s.store.length l (by rw [if_neg hm]; rfl) a2 (by simp)
        simpa using this
    rw [IsList_clientList _ _ hres, hcl]
    exact List.filterMap_congr (fun x hx => (q1 x).trans (a3 x hx))
  · rw [IsList_nodeList _ _ hl']
    exact hl'

/-- C36 on the list of the clients `0, 1, 2, 3`: removing client `1` leaves
`0, 2, 3`, and removing the absent client `7` right after adding it leaves
`0, 1, 2, 3`. -/
theorem C36_remove_first_occurrence_witness :
    IsList barState [0, 1, 2, 3]
    ∧ clientList (RemoveClientFromTaskBar barEnv [barH] 1 barState).1
        = (clientList barState).erase 1
    ∧ clientList (RemoveClientFromTaskBar barEnv [barH] 1 barState).1 = [0, 2, 3]
    ∧ clientList (RemoveClientFromTaskBar barEnv [barH] 7
        (AddClientToTaskBar barEnv .INSERT_LEFT 0 [barH] 7 barState).1).1 = [0, 1, 2, 3] :=
  ⟨barState_isList,
    (C36_remove_first_occurrence barEnv [barH] 1 barState [0, 1, 2, 3] barState_isList).1,
    by decide, by decide⟩

theorem span_all (p : Nat → Bool) : ∀ (xs : List Nat), (∀ x ∈ xs, p x = true) →
    xs.span p = (xs, []) := by
  intro xs h
  rw [List.span_eq_take_drop, List.takeWhile_eq_self_iff.mpr h,
    List.dropWhile_eq_nil_iff.mpr h]

theorem span_split (p : Nat → Bool) (xs : List Nat) (a : Nat) (ys : List Nat)
    (h : ∀ x ∈ xs, p x = true) (ha : p a = false) :
    (xs ++ a :: ys).span p = (xs, a :: ys) := by
  induction xs with
  | nil => simp [List.span, List.span.loop, ha]
  | cons x xs ih =>
    have hx := h x (List.mem_cons_self _ _)
    have := ih (fun y hy => h y (List.mem_cons_of_mem _ hy))
    rw [List.span_eq_take_drop] at this ⊢
    simp only [List.cons_append, List.takeWhile_cons, List.dropWhile_cons, hx, if_true]
    simp only [Prod.mk.injEq] at this ⊢
    exact ⟨by rw [this.1], this.2⟩

theorem skipLoop_seg (env : TaskEnv) (s : TaskState) :
    ∀ (l : List Nat) (first before last : Option Nat) (fuel : Nat),
      listSeg s.store first before l last none → l.length < fuel →
      (skipLoop env s.store fuel first).bind (clientAt s)
        = (l.filterMap (clientAt s)).find? env.ShouldFocus
      ∧ (skipLoop env s.store fuel first = none →
          (l.filterMap (clientAt s)).find? env.ShouldFocus = none) := by
  intro l
  induction l with
  | nil =>
    intro first before last fuel h hf
    rw [listSeg_nil] at h
    rw [h.1]
    cases fuel <;> simp [skipLoop]
  | cons p rest ih =>
    intro first before last fuel h hf
    rw [listSeg_cons] at h
    obtain ⟨h1, node, h2, _, h4⟩ := h
    cases fuel with
    | zero => simp at hf
    | succ fuel =>
      have hc : clientAt s p = some node.client := by simp [clientAt, h2]
      rw [h1]
      by_cases hsf : env.ShouldFocus node.client = true
      · simp [skipLoop, h2, hsf, hc, List.filterMap_cons, List.find?_cons]
      · have hsf2 : env.ShouldFocus node.client = false := by simpa using hsf
        simp only [skipLoop, h2, hsf2, Bool.false_eq_true, if_false, List.filterMap_cons, hc,
          List.find?_cons]
        exact ih _ _ _ fuel h4 (by simpa using hf)

theorem FocusNextLoop_seg (env : TaskEnv) (s : TaskState) :
    ∀ (l : List Nat) (first before last : Option Nat) (fuel : Nat),
      listSeg s.store first before l last none → l.length < fuel →
      ((∀ c ∈ l.filterMap (clientAt s),
          (!(env.ShouldFocus c && (env.client c).active)) = true)
        ∧ FocusNextLoop env s.store fuel first = none)
      ∨ ∃ pre a post na,
          l = pre ++ a :: post
          ∧ (∀ c ∈ pre.filterMap (clientAt s),
              (!(env.ShouldFocus c && (env.client c).active)) = true)
          ∧ s.store[a]? = some na
          ∧ (!(env.ShouldFocus na.client && (env.client na.client).active)) = false
          ∧ FocusNextLoop env s.store fuel first = na.next
          ∧ listSeg s.store na.next (some a) post last none := by
  intro l
  induction l with
  | nil =>
    intro first before last fuel h hf
    rw [listSeg_nil] at h
    left
    rw [h.1]
    cases fuel <;> simp [FocusNextLoop]
  | cons p rest ih =>
    intro first before last fuel h hf
    rw [listSeg_cons] at h
    obtain ⟨h1, node, h2, _, h4⟩ := h
    cases fuel with
    | zero => simp at hf
    | succ fuel =>
      have hc : clientAt s p = some node.client := by simp [clientAt, h2]
      rw [h1]
      by_cases hfa : (env.ShouldFocus node.client && (env.client node.client).active) = true
      · right
        refine ⟨[], p, rest, node, rfl, by simp, h2, by simp [hfa], ?_, h4⟩
        rw [Bool.and_eq_true] at hfa
        simp [FocusNextLoop, h2, hfa.1, hfa.2]
      · have hloop : FocusNextLoop env s.store (fuel + 1) (some p)
            = FocusNextLoop env s.store fuel node.next := by
          simp only [FocusNextLoop, h2]
          by_cases hsf : env.ShouldFocus node.client = true
          · have hact : (env.client node.client).active = false := by
              simpa [hsf] using hfa
            simp [hsf, hact]
          · have hsf2 : env.ShouldFocus node.client = false := by simpa using hsf
            simp [hsf2]
        have hnot : (!(env.ShouldFocus node.client && (env.client node.client).active))
            = true := by
          cases hx : (env.ShouldFocus node.client && (env.client node.client).active) with
          | false => rfl
          | true => exact absurd hx hfa
        rcases ih _ _ _ fuel h4 (by simpa using hf) with ⟨i1, i2⟩ | ⟨pre, a, post, na, e1, e2, e3, e4, e5, e6⟩
        · left
          refine ⟨?_, by rw [hloop]; exact i2⟩
          intro c hcm
          rw [List.filterMap_cons, hc, List.mem_cons] at hcm
          rcases hcm with rfl | hcm
          · exact hnot
          · exact i1 c hcm
        · right
          refine ⟨p :: pre, a, post, na, by rw [e1]; rfl, ?_, e3, e4, by rw [hloop]; exact e5, e6⟩
          intro c hcm
          rw [List.filterMap_cons, hc, List.mem_cons] at hcm
          rcases hcm with rfl | hcm
          · exact hnot
          · exact e2 c hcm

theorem skipLoop_some (env : TaskEnv) (store : List Node) :
    ∀ (fuel : Nat) (tp : Option Nat) (p : Nat), skipLoop env store fuel tp = some p →
      ∃ node, store[p]? = some node ∧ env.ShouldFocus node.client = true := by
  intro fuel
  induction fuel with
  | zero => intro tp p h; simp [skipLoop] at h
  | succ fuel ih =>
    intro tp p h
    cases tp with
    | none => simp [skipLoop] at h
    | some q =>
      cases h1 : store[q]? with
      | none => simp [skipLoop, h1] at h
      | some n =>
        by_cases hsf : env.ShouldFocus n.client = true
        · simp only [skipLoop, h1, hsf, if_true, Option.some.injEq] at h
          subst h
          exact ⟨n, h1, hsf⟩
        · have hsf2 : env.ShouldFocus n.client = false := by simpa using hsf
          simp only [skipLoop, h1, hsf2, Bool.false_eq_true, if_false] at h
          exact ih _ _ h

theorem specFocusNext_all (env : TaskEnv) (cs : List Nat)
    (h : ∀ c ∈ cs, (!(env.ShouldFocus c && (env.client c).active)) = true) :
    specFocusNext env cs = cs.find? env.ShouldFocus := by
  simp only [specFocusNext, span_all _ cs h]

theorem specFocusNext_split (env : TaskEnv) (pre : List Nat) (a : Nat) (post : List Nat)
    (h : ∀ c ∈ pre, (!(env.ShouldFocus c && (env.client c).active)) = true)
    (ha : (!(env.ShouldFocus a && (env.client a).active)) = false) :
    specFocusNext env (pre ++ a :: post) = (post ++ pre ++ [a]).find? env.ShouldFocus := by
  simp only [specFocusNext, span_split _ pre a post h ha]

theorem specFocusNext_sound (env : TaskEnv) (cs : List Nat) (c : Nat)
    (h : specFocusNext env cs = some c) : env.ShouldFocus c = true ∧ c ∈ cs := by
  have hsplit : cs.takeWhile (fun c => !(env.ShouldFocus c && (env.client c).active))
      ++ cs.dropWhile (fun c => !(env.ShouldFocus c && (env.client c).active)) = cs :=
    List.takeWhile_append_dropWhile _ _
  simp only [specFocusNext, List.span_eq_take_drop] at h
  cases hdw : cs.dropWhile (fun c => !(env.ShouldFocus c && (env.client c).active)) with
  | nil =>
    simp only [hdw] at h
    exact ⟨List.find?_some h, List.mem_of_find?_eq_some h⟩
  | cons a post =>
    simp only [hdw] at h
    refine ⟨List.find?_some h, ?_⟩
    have hm := List.mem_of_find?_eq_some h
    rw [← hsplit, hdw]
    simp only [List.mem_append, List.mem_cons, List.mem_singleton, List.not_mem_nil,
      or_false] at hm ⊢
    tauto

theorem specFocusNext_complete (env : TaskEnv) (cs : List Nat) (c : Nat) (hc : c ∈ cs)
    (hsf : env.ShouldFocus c = true) : ∃ c', specFocusNext env cs = some c' := by
  have hsplit : cs.takeWhile (fun c => !(env.ShouldFocus c && (env.client c).active))
      ++ cs.dropWhile (fun c => !(env.ShouldFocus c && (env.client c).active)) = cs :=
    List.takeWhile_append_dropWhile _ _
  have key : ∀ l : List Nat, c ∈ l → ∃ c', l.find? env.ShouldFocus = some c' := by
    intro l hl
    cases hf : l.find? env.ShouldFocus with
    | none =>
      rw [List.find?_eq_none] at hf
      exact absurd hsf (hf c hl)
    | some c' => exact ⟨c', rfl⟩
  simp only [specFocusNext, List.span_eq_take_drop]
  cases hdw : cs.dropWhile (fun c => !(env.ShouldFocus c && (env.client c).active)) with
  | nil => exact key cs hc
  | cons a post =>
    apply key
    rw [← hsplit, hdw] at hc
    simp only [List.mem_append, List.mem_cons, List.mem_singleton, List.not_mem_nil,
      or_false] at hc ⊢
    tauto

theorem FocusNextNode_spec (env : TaskEnv) (s : TaskState) (l : List Nat) (h : IsList s l) :
    (FocusNextNode env s).bind (clientAt s) = specFocusNext env (l.filterMap (clientAt s)) := by
  have hlen : l.length ≤ s.store.length := IsList_length_le s l h
  obtain ⟨k1, k2⟩ := skipLoop_seg env s l _ _ _ (s.store.length + 1) h.2 (by omega)
  have hhead : ∀ tp : Option Nat,
      skipLoop env s.store (s.store.length + 1) s.taskBarNodes = tp →
      (match tp with
        | none => skipLoop env s.store (s.store.length + 1) s.taskBarNodes
        | some p => some p) = tp := by
    intro tp e
    cases tp with
    | none => exact e
    | some p => rfl
  rcases FocusNextLoop_seg env s l _ _ _ (s.store.length + 1) h.2 (by omega) with
    ⟨i1, i2⟩ | ⟨pre, a, post, na, e1, e2, e3, e4, e5, e6⟩
  · rw [specFocusNext_all env _ i1, ← k1]
    simp only [FocusNextNode, i2, Option.none_or]
    rw [hhead _ rfl]
  · have hca : clientAt s a = some na.client := by simp [clientAt, e3]
    have hsf : env.ShouldFocus na.client = true := by
      cases hx : env.ShouldFocus na.client with
      | true => rfl
      | false => rw [hx] at e4; simp at e4
    have hcs : l.filterMap (clientAt s)
        = pre.filterMap (clientAt s) ++ na.client :: post.filterMap (clientAt s) := by
      rw [e1, List.filterMap_append, List.filterMap_cons, hca]
    rw [hcs, specFocusNext_split env _ _ _ e2 e4]
    rw [hcs] at k1 k2
    have hwhole : (pre.filterMap (clientAt s) ++ na.client :: post.filterMap (clientAt s)).find?
          env.ShouldFocus
        = (pre.filterMap (clientAt s) ++ [na.client]).find? env.ShouldFocus := by
      simp [List.find?_append, List.find?_cons, hsf]
    cases post with
    | nil =>
      rw [listSeg_nil] at e6
      simp only [FocusNextNode, e5, e6.1, Option.none_or]
      rw [hhead _ rfl, k1, hwhole]
      simp
    | cons r post =>
      have hnext : na.next = some r := (listSeg_ends s.store _ _ _ _ _ e6).1
      have hpl : (r :: post).length < s.store.length + 1 := by
        rw [e1] at hlen
        simp only [List.length_append, List.length_cons] at hlen ⊢
        omega
      obtain ⟨p1, p2⟩ := skipLoop_seg env s (r :: post) _ _ _ (s.store.length + 1) e6 hpl
      simp only [FocusNextNode, e5, hnext, Option.or_some]
      rw [hnext] at p1 p2
      cases hsk : skipLoop env s.store (s.store.length + 1) (some r) with
      | none =>
        have hnone := p2 hsk
        have hr : ((r :: post).filterMap (clientAt s) ++ pre.filterMap (clientAt s)
              ++ [na.client]).find? env.ShouldFocus
            = (pre.filterMap (clientAt s) ++ [na.client]).find? env.ShouldFocus := by
          rw [List.append_assoc, List.find?_append, hnone, Option.none_or]
        simp only
        rw [k1, hwhole, hr]
      | some p =>
        obtain ⟨node, hn1, hn2⟩ := skipLoop_some env s.store _ _ p hsk
        have hcp : clientAt s p = some node.client := by simp [clientAt, hn1]
        rw [hsk, Option.some_bind, hcp] at p1
        have hr : ((r :: post).filterMap (clientAt s) ++ pre.filterMap (clientAt s)
              ++ [na.client]).find? env.ShouldFocus = some node.client := by
          rw [List.append_assoc, List.find?_append, ← p1, Option.or_some]
        simp only [Option.some_bind]
        rw [hcp, hr]

theorem focusCalls_ne_nil (o : Option Nat) : focusCalls o ≠ [] ↔ ∃ c, o = some c := by
  cases o with
  | none => simp [focusCalls]
  | some c => simp [focusCalls]

/-- Claim C37: for a well-formed task bar list, `FocusNext` calls
`RestoreClient` and `FocusClient` for the client the claim names, and makes no
call when there is none: the first focusable client after the first client
that is focusable and active, with wrap-around to the head, or the first
focusable client when no client is focusable and active. It makes the calls
exactly when some client of the list is focusable, and the client it
restores and focuses is a focusable client of the list. -/
theorem C37_focus_next (env : TaskEnv) (s : TaskState) (l : List Nat) (h : IsList s l) :
    FocusNext env s = focusCalls (specFocusNext env (clientList s))
    ∧ (FocusNext env s ≠ [] ↔ ∃ c ∈ clientList s, env.ShouldFocus c = true)
    ∧ (∀ c, specFocusNext env (clientList s) = some c →
        FocusNext env s = [.RestoreClient c 1, .FocusClient c]
        ∧ env.ShouldFocus c = true ∧ c ∈ clientList s)
    ∧ (specFocusNext env (clientList s) = none → FocusNext env s = []) := by
  have hcl := IsList_clientList s l h
  have hkey : FocusNext env s = focusCalls (specFocusNext env (clientList s)) := by
    rw [FocusNext, FocusNextNode_spec env s l h, hcl]
  refine ⟨hkey, ?_, ?_, ?_⟩
  · rw [hkey, focusCalls_ne_nil]
    constructor
    · rintro ⟨c, hc⟩
      have := specFocusNext_sound env _ c hc
      exact ⟨c, this.2, this.1⟩
    · rintro ⟨c, hc, hsf⟩
      exact specFocusNext_complete env _ c hc hsf
  · intro c hc
    have := specFocusNext_sound env _ c hc
    refine ⟨?_, this.1, this.2⟩
    rw [hkey, hc]
    rfl
  · intro hn
    rw [hkey, hn]
    rfl

/-- C37 on the list of the clients `0, 1, 2, 3`, of which `0` is active and `2`
is not focusable: `FocusNext` restores and focuses client `1`. -/
theorem C37_focus_next_witness :
    IsList barState [0, 1, 2, 3] ∧ specFocusNext barEnv (clientList barState) = some 1
    ∧ FocusNext barEnv barState = [.RestoreClient 1 1, .FocusClient 1] :=
  ⟨barState_isList, by decide,
    ((C37_focus_next barEnv barState [0, 1, 2, 3] barState_isList).2.2.1 1 (by decide)).1⟩

theorem ParseErrorWritten_natLine (d : TokenData) (n : Nat) (hline : d.line = (n : Int)) :
    ParseErrorWritten d ≤ ParseErrorAllocated d ↔ n ≤ 9999 := by
  have hmsg : ParseErrorMsg (some d) = d.fileName ++ "[" ++ Nat.repr n ++ "]" := by
    simp only [ParseErrorMsg, hline]
    rfl
  have hlen : strlen (d.fileName ++ "[" ++ Nat.repr n ++ "]")
      = strlen d.fileName + 1 + strlen (Nat.repr n) + 1 := by
    simp only [strlen, String.utf8ByteSize, String.append, String.utf8ByteSize.go_eq,
      String.utf8Len_append]
    rfl
  have h6 : strlen "%s[%d]" = 6 := by decide
  simp only [ParseErrorWritten, ParseErrorAllocated, hmsg, hlen, h6, strlen_repr]
  rw [← repr_length_le_four]
  omega

/-- Claim C25: for every node whose formatted prefix fits the buffer that
`ParseError` allocates for it, `ParseError` hands the warning sink the prefix
made of the file name of the node followed by its line number between square
brackets, with the message and its arguments unchanged; the line number is in
decimal, and the prefix fits for every line from 0 to 9999. Without a node the
prefix is `configuration error`, the message again unchanged. For a line of
10000 or more the write overruns the buffer. -/
theorem C25_diagnostic_provenance (str : String) (args : List Arg) (st : State)
    (d : TokenData) (hfit : ParseErrorWritten d ≤ ParseErrorAllocated d) :
    ParseErrorSized (some d) str args st =
      .ok (st.emit (.WarningVA (d.fileName ++ "[" ++ toString d.line ++ "]") str args)) ∧
    ParseError (some d) str args st =
      st.emit (.WarningVA (d.fileName ++ "[" ++ toString d.line ++ "]") str args) ∧
    (∀ n : Nat, d.line = (n : Int) →
      n ≤ 9999 ∧ toString d.line = String.mk (Nat.toDigits 10 n)) ∧
    ParseErrorSized none str args st =
      .ok (st.emit (.WarningVA "configuration error" str args)) ∧
    ParseError none str args st = st.emit (.WarningVA "configuration error" str args) ∧
    (ParseError (some d) str args st).log =
      st.log ++ [.WarningVA (d.fileName ++ "[" ++ toString d.line ++ "]") str args] ∧
    (ParseError none str args st).log =
      st.log ++ [.WarningVA "configuration error" str args] ∧
    (∀ (d2 : TokenData) (n : Nat), d2.line = (n : Int) → n ≤ 9999 →
      ParseErrorSized (some d2) str args st = .ok (ParseError (some d2) str args st)) ∧
    (∀ (d2 : TokenData) (n : Nat), d2.line = (n : Int) → 10000 ≤ n →
      ParseErrorSized (some d2) str args st = .error .fault) := by
  refine ⟨?_, rfl, ?_, rfl, rfl, rfl, rfl, ?_, ?_⟩
  · simp only [ParseErrorSized, hfit, if_true]
    rfl
  · intro n hn
    refine ⟨(ParseErrorWritten_natLine d n hn).mp hfit, ?_⟩
    rw [hn]
    rfl
  · intro d2 n hn h
    have := (ParseErrorWritten_natLine d2 n hn).mpr h
    simp only [ParseErrorSized, this, if_true]
    rfl
  · intro d2 n hn h
    have : ¬ (ParseErrorWritten d2 ≤ ParseErrorAllocated d2) := by
      rw [ParseErrorWritten_natLine d2 n hn]
      omega
    simp only [ParseErrorSized, this, if_false]

/-- C25 for a `Key` node on line 12 of `jwmrc`: the 10 bytes of the prefix fit the
12 allocated, and the sink gets `jwmrc[12]`. -/
theorem C25_diagnostic_provenance_witness :
    ParseErrorWritten (tag .TOK_KEY none "jwmrc" 12) = 10 ∧
    ParseErrorAllocated (tag .TOK_KEY none "jwmrc" 12) = 12 ∧
    ParseErrorSized (some (tag .TOK_KEY none "jwmrc" 12)) "invalid start tag: %s"
        [.str (some "Font")] initState =
      .ok { initState with
        log := [.WarningVA "jwmrc[12]" "invalid start tag: %s" [.str (some "Font")]] } :=
  ⟨by decide, by decide,
    (C25_diagnostic_provenance "invalid start tag: %s" [.str (some "Font")] initState
      (tag .TOK_KEY none "jwmrc" 12) (by decide)).1⟩

end Jwm
